import Mathlib

/-!
# js-tiny-interpreter: a shallow embedding of the lexer, parser and evaluator

The Go packages `logger`, `helper`, `lexer`, `ast_parser` and `ast_interpreter`
are embedded as Lean functions.

* A Go `string` is a Lean `String` (valid UTF-8 text); offsets and lengths are
  byte offsets, the width of a character being `Char.utf8Size`.
* A Go `float64` is the type `F64` of IEEE 754 binary64 values with exact
  round-to-nearest-even arithmetic.
* A Go `interface{}` payload is the type `Any`, one constructor per dynamic
  type that the program stores in `JsValue.Value`.
* Pointers (`*JsValue`, `*Scope`, `*JsFunction`, `*JsObject`, `*JsArray`) are
  addresses into the lists of the `InterpreterStat` heap; `nil` is `none`.
* `panic` / `recover` / `defer` are explicit: every effectful function returns
  a `Res`, which is a value, a panic value, or `timeout` when the fuel of a
  loop or of the recursion ran out (the Go code would still be running).
* Standard output is the `String` of all bytes written so far.
-/

set_option maxRecDepth 100000
set_option maxHeartbeats 4000000

namespace JsInterp

/-! ## Go `float64` -/

/-- Model of a Go `float64` (IEEE 754 binary64).  A finite value is
`(-1)^neg * m * 2^e` in canonical form: `m < 2^53`, `-1074 ≤ e ≤ 971`, and
`m < 2^52` only for `e = -1074` (zero and the subnormal numbers). -/
inductive F64 where
  | nan
  | inf (neg : Bool)
  | fin (neg : Bool) (m : Nat) (e : Int)
deriving DecidableEq, Repr

namespace F64

/-- The float `+0`. -/
def zero : F64 := .fin false 0 (-1074)

/-- The loop of `log2`, by recursion on a bound of the number of steps. -/
def log2Loop : Nat → Nat → Nat
  | 0, _ => 0
  | k + 1, n => if n ≥ 2 then log2Loop k (n / 2) + 1 else 0

/-- The position of the highest set bit: `2^(log2 n) ≤ n < 2^(log2 n + 1)` for
a positive `n`. -/
def log2 (n : Nat) : Nat := log2Loop n n

/-- The exact non-negative rational `num / den * 2^sh`, divided by `2^e`, as a
fraction of natural numbers. -/
def scaled (num den : Nat) (sh e : Int) : Nat × Nat :=
  let d : Int := sh - e
  if 0 ≤ d then (num * 2 ^ d.toNat, den) else (num, den * 2 ^ (-d).toNat)

/-- Round the exact rational `(-1)^neg * num / den * 2^sh` to the nearest
binary64 value, ties to even; a magnitude beyond the largest finite value
gives an infinity. -/
def round (neg : Bool) (num den : Nat) (sh : Int) : F64 :=
  if num = 0 ∨ den = 0 then .fin neg 0 (-1074) else
  let L : Int := (log2 num : Int) - (log2 den : Int) + sh
  let e1 : Int := L - 53
  let s1 := scaled num den sh e1
  let e2 : Int := if s1.1 / s1.2 ≥ 2 ^ 53 then e1 + 1 else e1
  let e3 : Int := if e2 < -1074 then -1074 else e2
  let s := scaled num den sh e3
  let q := s.1 / s.2
  let r := s.1 % s.2
  let q1 := if 2 * r > s.2 ∨ (2 * r = s.2 ∧ q % 2 = 1) then q + 1 else q
  let q2 : Nat := if q1 = 2 ^ 53 then 2 ^ 52 else q1
  let e4 : Int := if q1 = 2 ^ 53 then e3 + 1 else e3
  if e4 > 971 then .inf neg else .fin neg q2 e4

/-- Go `float64(n)` for a natural number. -/
def ofNat (n : Nat) : F64 := round false n 1 0

/-- Go `float64(i)` for an integer. -/
def ofInt (i : Int) : F64 := round (decide (i < 0)) i.natAbs 1 0

/-- Go unary minus on floats. -/
def neg : F64 → F64
  | .nan => .nan
  | .inf s => .inf (!s)
  | .fin s m e => .fin (!s) m e

/-- Go `a + b` on `float64`. -/
def add : F64 → F64 → F64
  | .nan, _ => .nan
  | _, .nan => .nan
  | .inf s, .inf t => if s = t then .inf s else .nan
  | .inf s, .fin _ _ _ => .inf s
  | .fin _ _ _, .inf t => .inf t
  | .fin s m e, .fin t n f =>
    let emin : Int := if e ≤ f then e else f
    let a : Int := (if s then -1 else 1) * ((m * 2 ^ (e - emin).toNat : Nat) : Int)
    let b : Int := (if t then -1 else 1) * ((n * 2 ^ (f - emin).toNat : Nat) : Int)
    let c : Int := a + b
    if c = 0 then .fin (s && t) 0 (-1074) else round (decide (c < 0)) c.natAbs 1 emin

/-- Go `a - b` on `float64`. -/
def sub (a b : F64) : F64 := add a (neg b)

/-- Go `a * b` on `float64`. -/
def mul : F64 → F64 → F64
  | .nan, _ => .nan
  | _, .nan => .nan
  | .inf s, .inf t => .inf (xor s t)
  | .inf s, .fin t n _ => if n = 0 then .nan else .inf (xor s t)
  | .fin s m _, .inf t => if m = 0 then .nan else .inf (xor s t)
  | .fin s m e, .fin t n f => round (xor s t) (m * n) 1 (e + f)

/-- Go `a / b` on `float64`. -/
def div : F64 → F64 → F64
  | .nan, _ => .nan
  | _, .nan => .nan
  | .inf _, .inf _ => .nan
  | .inf s, .fin t _ _ => .inf (xor s t)
  | .fin s _ _, .inf t => .fin (xor s t) 0 (-1074)
  | .fin s m e, .fin t n f =>
    if n = 0 then (if m = 0 then .nan else .inf (xor s t))
    else round (xor s t) m n (e - f)

/-- The exact value of a finite float as a signed multiple of `2^emin`. -/
def cmpKey (s : Bool) (m : Nat) (e : Int) (emin : Int) : Int :=
  (if s then -1 else 1) * ((m * 2 ^ (e - emin).toNat : Nat) : Int)

/-- Go `a < b` on `float64`. -/
def lt : F64 → F64 → Bool
  | .nan, _ => false
  | _, .nan => false
  | .inf s, .inf t => s && !t
  | .inf s, .fin _ _ _ => s
  | .fin _ _ _, .inf t => !t
  | .fin s m e, .fin t n f =>
    let emin : Int := if e ≤ f then e else f
    decide (cmpKey s m e emin < cmpKey t n f emin)

/-- Go `a == b` on `float64`: NaN differs from everything, `-0 == +0`. -/
def eq : F64 → F64 → Bool
  | .nan, _ => false
  | _, .nan => false
  | .inf s, .inf t => s == t
  | .inf _, .fin _ _ _ => false
  | .fin _ _ _, .inf _ => false
  | .fin s m e, .fin t n f => (m == 0 && n == 0) || (s == t && m == n && e == f)

/-- Go `a <= b` on `float64`. -/
def le (a b : F64) : Bool := lt a b || eq a b

/-- Go `a > b` on `float64`. -/
def gt (a b : F64) : Bool := lt b a

/-- Go `a >= b` on `float64`. -/
def ge (a b : F64) : Bool := le b a

/-- Truncation toward zero of a finite value, as an unbounded integer. -/
def truncInt (s : Bool) (m : Nat) (e : Int) : Int :=
  let a : Nat := if 0 ≤ e then m * 2 ^ e.toNat else m / 2 ^ (-e).toNat
  if s then -(a : Int) else (a : Int)

/-- Go `int(f)` on a 64-bit platform (amd64 instruction semantics): truncation
toward zero; NaN, infinities and values outside the int64 range give `-2^63`. -/
def toInt : F64 → Int
  | .fin s m e =>
    let t := truncInt s m e
    if -(2 ^ 63 : Int) ≤ t ∧ t < 2 ^ 63 then t else -(2 ^ 63 : Int)
  | _ => -(2 ^ 63 : Int)

/-- Go `uint(f)` as compiled for amd64: below `2^63` the signed conversion
reinterpreted modulo `2^64`, otherwise the signed conversion of `f - 2^63`
with the top bit set. -/
def toUint (f : F64) : Nat :=
  let cutoff : F64 := round false 1 1 63
  if lt f cutoff then (toInt f % (2 ^ 64 : Int)).toNat
  else ((toInt (sub f cutoff) % (2 ^ 64 : Int)).toNat) ||| 2 ^ 63

/-- A number below `100000` as five decimal digits. -/
def pad5 (n : Nat) : String :=
  let s := toString n
  String.mk (List.replicate (5 - s.length) '0') ++ s

/-- Go `strconv.FormatFloat(f, 'f', 5, 64)`: five fraction digits, the exact
binary value rounded half-to-even. -/
def format5 : F64 → String
  | .nan => "NaN"
  | .inf false => "+Inf"
  | .inf true => "-Inf"
  | .fin s m e =>
    let N : Nat := if 0 ≤ e then m * 2 ^ e.toNat * 100000 else m * 100000
    let D : Nat := if 0 ≤ e then 1 else 2 ^ (-e).toNat
    let q := N / D
    let r := N % D
    let q1 := if 2 * r > D ∨ (2 * r = D ∧ q % 2 = 1) then q + 1 else q
    (if s then "-" else "") ++ toString (q1 / 100000) ++ "." ++ pad5 (q1 % 100000)

/-- Go `lower(c) = c | ('x' - 'X')` on a byte; a non-ASCII character never
matches an ASCII letter. -/
def lowerByte (c : Char) : Nat := if c.toNat < 128 then c.toNat ||| 32 else c.toNat

/-- The decimal digits `'0'` to `'9'`. -/
def isDigit (c : Char) : Bool := decide ('0'.toNat ≤ c.toNat ∧ c.toNat ≤ '9'.toNat)

/-- The hexadecimal letters `a` to `f` in either case. -/
def isHexLetter (c : Char) : Bool := decide ('a'.toNat ≤ lowerByte c ∧ lowerByte c ≤ 'f'.toNat)

/-- Go `commonPrefixLenIgnoreCase(s, pre)`, with `pre` in lower case. -/
def commonPrefixLenIgnoreCase : List Char → List Char → Nat
  | c :: s, p :: pre =>
    let c1 : Nat := if 'A'.toNat ≤ c.toNat ∧ c.toNat ≤ 'Z'.toNat then c.toNat + 32 else c.toNat
    if c1 = p.toNat then 1 + commonPrefixLenIgnoreCase s pre else 0
  | _, _ => 0

/-- The infinity case of Go `strconv.special`. -/
def specialInf (sign : Bool) (nsign : Nat) (t : List Char) : Option (F64 × Nat) :=
  let n := commonPrefixLenIgnoreCase t "infinity".data
  let n1 := if 3 < n ∧ n < 8 then 3 else n
  if n1 = 3 ∨ n1 = 8 then some (.inf sign, nsign + n1) else none

/-- Go `strconv.special`: the value and the number of bytes consumed. -/
def special (s : List Char) : Option (F64 × Nat) :=
  match s with
  | [] => none
  | '+' :: t => specialInf false 1 t
  | '-' :: t => specialInf true 1 t
  | 'i' :: _ => specialInf false 0 s
  | 'I' :: _ => specialInf false 0 s
  | 'n' :: _ => if commonPrefixLenIgnoreCase s "nan".data = 3 then some (.nan, 3) else none
  | 'N' :: _ => if commonPrefixLenIgnoreCase s "nan".data = 3 then some (.nan, 3) else none
  | _ => none

/-- The loop of Go `strconv.underscoreOK`: `saw` is `0` after a digit or the
base marker, `1` after an underscore, `2` after anything else and `3` at the
beginning. -/
def underscoreOKLoop (hex : Bool) : Nat → List Char → Bool
  | saw, [] => saw != 1
  | saw, c :: s =>
    if isDigit c || (hex && isHexLetter c) then underscoreOKLoop hex 0 s
    else if c = '_' then (if saw != 0 then false else underscoreOKLoop hex 1 s)
    else if saw = 1 then false
    else underscoreOKLoop hex 2 s

/-- Go `strconv.underscoreOK`. -/
def underscoreOK (s : List Char) : Bool :=
  let s1 := match s with
    | '-' :: t => t
    | '+' :: t => t
    | _ => s
  match s1 with
  | '0' :: c :: t =>
    if lowerByte c = 'b'.toNat ∨ lowerByte c = 'o'.toNat ∨ lowerByte c = 'x'.toNat then
      underscoreOKLoop (lowerByte c = 'x'.toNat) 0 t
    else underscoreOKLoop false 3 s1
  | _ => underscoreOKLoop false 3 s1

/-- The state of the mantissa loop of Go `strconv.readFloat`: the digits read
as one integer `mant`, the number `frac` of them after the point, the flags
and the number of bytes consumed. -/
structure Mant where
  mant : Nat := 0
  frac : Nat := 0
  sawdot : Bool := false
  sawdigits : Bool := false
  underscores : Bool := false
  used : Nat := 0

/-- The mantissa loop of Go `strconv.readFloat`. -/
def readMant (base : Nat) : Mant → List Char → Mant × List Char
  | st, [] => (st, [])
  | st, c :: s =>
    if c = '_' then readMant base { st with underscores := true, used := st.used + 1 } s
    else if c = '.' then
      if st.sawdot then (st, c :: s)
      else readMant base { st with sawdot := true, used := st.used + 1 } s
    else if isDigit c then
      readMant base { st with sawdigits := true, mant := st.mant * base + (c.toNat - '0'.toNat),
                              frac := if st.sawdot then st.frac + 1 else st.frac,
                              used := st.used + 1 } s
    else if base = 16 ∧ isHexLetter c then
      readMant base { st with sawdigits := true,
                              mant := st.mant * base + (lowerByte c - 'a'.toNat + 10),
                              frac := if st.sawdot then st.frac + 1 else st.frac,
                              used := st.used + 1 } s
    else (st, c :: s)

/-- The exponent digits of Go `strconv.readFloat`: the value (no longer
accumulated once it has reached 10000), whether an underscore occurred, the
bytes consumed and the rest. -/
def readExp : Nat → Bool → Nat → List Char → Nat × Bool × Nat × List Char
  | e, u, n, [] => (e, u, n, [])
  | e, u, n, c :: s =>
    if c = '_' then readExp e true (n + 1) s
    else if isDigit c then
      readExp (if e < 10000 then e * 10 + (c.toNat - '0'.toNat) else e) u (n + 1) s
    else (e, u, n, c :: s)

/-- The optional exponent of Go `strconv.readFloat`: `none` is a syntax error,
otherwise the signed exponent, the underscore flag, the bytes consumed and
the rest of the text. -/
def readExponent (hex : Bool) (s3 : List Char) : Option (Int × Bool × Nat × List Char) :=
  let expChar : Nat := if hex then 'p'.toNat else 'e'.toNat
  match s3 with
  | c :: s4 =>
    if lowerByte c = expChar then
      match s4 with
      | [] => none
      | d :: s5 =>
        let esign : Int := if d = '-' then -1 else 1
        let ns : Nat := if d = '+' ∨ d = '-' then 1 else 0
        let s6 := if ns = 1 then s5 else s4
        match s6 with
        | [] => none
        | d1 :: _ =>
          if !isDigit d1 then none else
          let r := readExp 0 false 0 s6
          some (esign * (r.1 : Int), r.2.1, 1 + ns + r.2.2.1, r.2.2.2)
    else if hex then none else some (0, false, 0, s3)
  | [] => if hex then none else some (0, false, 0, [])

/-- Go `strconv.ParseFloat(s, 64)`: the value and whether the error is
non-nil.  A malformed text gives `(0, true)`, a magnitude too large
`(±Inf, true)`; the value is the decimal (or hexadecimal) number rounded to
the nearest float, ties to even. -/
def parse (str : String) : F64 × Bool :=
  let s := str.data
  match special s with
  | some (v, n) => if n = s.length then (v, false) else (zero, true)
  | none =>
    match s with
    | [] => (zero, true)
    | c0 :: t0 =>
      let neg : Bool := c0 = '-'
      let nsign : Nat := if c0 = '+' ∨ c0 = '-' then 1 else 0
      let s1 : List Char := if nsign = 1 then t0 else s
      let hex : Bool := match s1 with
        | '0' :: x :: _ :: _ => lowerByte x = 'x'.toNat
        | _ => false
      let s2 : List Char := if hex then s1.drop 2 else s1
      let base : Nat := if hex then 16 else 10
      let mr := readMant base {} s2
      let m := mr.1
      if !m.sawdigits then (zero, true) else
      let pre : Nat := nsign + (if hex then 2 else 0) + m.used
      match readExponent hex mr.2 with
      | none => (zero, true)
      | some (e, u, nexp, rest) =>
        let n := pre + nexp
        if (m.underscores || u) && !underscoreOK (s.take n) then (zero, true)
        else if rest ≠ [] then (zero, true)
        else
          let v : F64 :=
            if hex then round neg m.mant 1 (e - 4 * (m.frac : Int))
            else
              let d : Int := e - (m.frac : Int)
              if 0 ≤ d then round neg (m.mant * 10 ^ d.toNat) 1 0
              else round neg m.mant (10 ^ (-d).toNat) 0
          match v with
          | .inf _ => (v, true)
          | _ => (v, false)

end F64

/-! ## Go strings -/

/-- Go `len(s)`: the number of bytes of the UTF-8 text. -/
def goLen (s : String) : Nat := s.utf8ByteSize

/-- The characters of a text whose byte offset lies in `[lo, hi)`; `pos` is
the byte offset of the first character of the list. -/
def sliceChars : List Char → Nat → Nat → Nat → List Char
  | [], _, _, _ => []
  | c :: cs, pos, lo, hi =>
    if lo ≤ pos ∧ pos < hi then c :: sliceChars cs (pos + c.utf8Size) lo hi
    else sliceChars cs (pos + c.utf8Size) lo hi

/-- Go `s[lo:hi]` on byte offsets that fall on character boundaries; `none`
when Go panics with "slice bounds out of range". -/
def goSlice (s : String) (lo hi : Int) : Option String :=
  if 0 ≤ lo ∧ lo ≤ hi ∧ hi ≤ (goLen s : Int) then
    some (String.mk (sliceChars s.data 0 lo.toNat hi.toNat))
  else none

/-- Whether the byte at offset `i` of a text is a tab; `pos` is the byte
offset of the first character of the list. -/
def tabAt : List Char → Nat → Nat → Bool
  | [], _, _ => false
  | c :: cs, pos, i => if pos = i then c = '\t' else tabAt cs (pos + c.utf8Size) i

/-- The text of a Go `ast_parser.EIdentifier`. -/
structure EIdentifier where
  Value : String
deriving DecidableEq, Repr

/-! ## package logger -/

/-- Go `logger.Loc`: byte offset, byte length and line of a span. -/
structure Loc where
  Offset : Int
  Len : Int
  Line : Int
deriving DecidableEq, Repr

/-- The first loop of `Logger.Print`: skip to the start of line `target`.
Returns the rest of the content, the line reached and its start offset. -/
def skipLines : List Char → Int → Nat → Int → List Char × Int × Nat
  | [], line, start, _ => ([], line, start)
  | c :: content, line, start, target =>
    if line = target then (c :: content, line, start)
    else skipLines content (if c = '\n' then line + 1 else line) (start + c.utf8Size) target

/-- Go `fmt.Sprintf("%6d", n)`. -/
def fmt6d (n : Int) : String :=
  let s := toString n
  String.mk (List.replicate (6 - s.length) ' ') ++ s

/-- Go `Logger.Print(kind, loc, errMsg)` on the content `content`: the text
written to standard output, and whether the call ended in the run-time panic
"index out of range" of `rawCode[i]` (the text is then what had been written
before the panic). -/
def Print (content : String) (loc : Loc) (errMsg : String) : String × Bool :=
  let r := skipLines content.data 1 0 loc.Line
  let line := r.2.1
  let start := r.2.2
  let rawCode : List Char := r.1.takeWhile (fun c => c ≠ '\n')
  let rawLen : Nat := goLen (String.mk rawCode)
  let head : String := fmt6d line ++ "| " ++ String.mk rawCode ++ "\n" ++ "        "
  let n : Nat := (loc.Offset - (start : Int)).toNat
  let k : Nat := min n rawLen
  let indent : String :=
    String.mk ((List.range k).map (fun i => if tabAt rawCode 0 i then '\t' else ' '))
  if n > rawLen then (head ++ indent, true)
  else
    (head ++ indent ++ String.mk (List.replicate loc.Len.toNat '^') ++ "\n " ++ errMsg ++ "\n",
      false)

/-! ## package helper -/

/-- All the remainders of a text after a match of `[0-9]*`. -/
def afterDigits : List Char → List (List Char)
  | [] => [[]]
  | c :: s => (c :: s) :: (if F64.isDigit c then afterDigits s else [])

/-- Whether `(.[0-9])?$` matches the whole of a text; `.` is any character
other than a newline. -/
def optGroupEnd : List Char → Bool
  | [] => true
  | [a, d] => a ≠ '\n' && F64.isDigit d
  | _ => false

/-- Go `helper.IsValidNumber`: a match of the regular expression
`^[0-9]*(.[0-9])?$`. -/
def IsValidNumber (s : String) : Bool := (afterDigits s.data).any optGroupEnd

/-! ## package lexer -/

/-- Go `lexer.T`: the token kinds, in the order of the `iota` block. -/
inductive T where
  | TEndOfFile | TLet | TSyntaxError | TSingleLineComment | TMultiLineComment | THashbang
  | TNoSubstitutionTemplateLiteral | TNumericLiteral | TStringLiteral | TBigIntegerLiteral
  | TTemplateHead | TTemplateMiddle | TTemplateTail
  | TAmpersand | TAmpersandAmpersand | TAsterisk | TAsteriskAsterisk | TAt | TBar | TBarBar
  | TCaret | TCloseBrace | TCloseBracket | TCloseParen | TColon | TComma | TDot | TDotDotDot
  | TEqualsEquals | TEqualsEqualsEquals | TEqualsGreaterThan | TExclamation
  | TExclamationEquals | TExclamationEqualsEquals | TGreaterThan | TGreaterThanEquals
  | TGreaterThanGreaterThan | TGreaterThanGreaterThanGreaterThan | TLessThan
  | TLessThanEquals | TLessThanLessThan | TMinus | TMinusMinus | TOpenBrace | TOpenBracket
  | TOpenParen | TPercent | TPlus | TPlusPlus | TQuestion | TQuestionDot | TQuestionQuestion
  | TSemicolon | TSlash | TTilde
  | TAmpersandAmpersandEquals | TAmpersandEquals | TAsteriskAsteriskEquals | TAsteriskEquals
  | TBarBarEquals | TBarEquals | TCaretEquals | TEquals | TGreaterThanGreaterThanEquals
  | TGreaterThanGreaterThanGreaterThanEquals | TLessThanLessThanEquals | TMinusEquals
  | TPercentEquals | TPlusEquals | TQuestionQuestionEquals | TSlashEquals
  | TPrivateIdentifier
  | TIdentifier | TEscapedKeyword
  | TBreak | TCase | TCatch | TClass | TConst | TContinue | TDebugger | TDefault | TDelete
  | TDo | TElse | TEnum | TExport | TExtends | TFalse | TFinally | TFor | TFunction | TIf
  | TImport | TIn | TInstanceof | TNew | TNull | TReturn | TSuper | TSwitch | TThis | TThrow
  | TTrue | TTry | TTypeof | TVar | TVoid | TWhile | TWith
deriving DecidableEq, Repr

open T

/-- Go `lexer.Keywords`: the reserved words and their token kinds. -/
def Keywords (name : String) : Option T :=
  if name = "let" then some TLet
  else if name = "break" then some TBreak
  else if name = "case" then some TCase
  else if name = "catch" then some TCatch
  else if name = "class" then some TClass
  else if name = "const" then some TConst
  else if name = "continue" then some TContinue
  else if name = "debugger" then some TDebugger
  else if name = "default" then some TDefault
  else if name = "delete" then some TDelete
  else if name = "do" then some TDo
  else if name = "else" then some TElse
  else if name = "enum" then some TEnum
  else if name = "export" then some TExport
  else if name = "extends" then some TExtends
  else if name = "finally" then some TFinally
  else if name = "for" then some TFor
  else if name = "function" then some TFunction
  else if name = "if" then some TIf
  else if name = "import" then some TImport
  else if name = "in" then some TIn
  else if name = "instanceof" then some TInstanceof
  else if name = "new" then some TNew
  else if name = "null" then some TNull
  else if name = "return" then some TReturn
  else if name = "super" then some TSuper
  else if name = "switch" then some TSwitch
  else if name = "this" then some TThis
  else if name = "throw" then some TThrow
  else if name = "try" then some TTry
  else if name = "typeof" then some TTypeof
  else if name = "var" then some TVar
  else if name = "void" then some TVoid
  else if name = "while" then some TWhile
  else if name = "with" then some TWith
  else none

/-- Go `lexer.Token2StringMap[t]`; a kind that is not a key gives the empty
string. -/
def Token2StringMap : T → String
  | THashbang => "#!"
  | TAmpersand => "&" | TAmpersandAmpersand => "&&" | TAsterisk => "*"
  | TAsteriskAsterisk => "**" | TAt => "@" | TBar => "|" | TBarBar => "||" | TCaret => "^"
  | TCloseBrace => "\x7d" | TCloseBracket => "]" | TCloseParen => ")" | TColon => ":"
  | TComma => "," | TDot => "." | TDotDotDot => "..." | TEqualsEquals => "=="
  | TEqualsEqualsEquals => "===" | TEqualsGreaterThan => ">=" | TExclamation => "!"
  | TExclamationEquals => "!=" | TExclamationEqualsEquals => "!==" | TGreaterThan => ">"
  | TGreaterThanEquals => ">=" | TGreaterThanGreaterThan => ">>"
  | TGreaterThanGreaterThanGreaterThan => ">>>" | TLessThan => "<" | TLessThanEquals => "<="
  | TLessThanLessThan => "<<" | TMinus => "-" | TMinusMinus => "--" | TOpenBrace => "\x7b"
  | TOpenBracket => "[" | TOpenParen => "(" | TPercent => "%" | TPlus => "+"
  | TPlusPlus => "++" | TQuestion => "?" | TQuestionDot => "?." | TQuestionQuestion => "??"
  | TSemicolon => ";" | TSlash => "/" | TTilde => "~"
  | TAmpersandAmpersandEquals => "&&=" | TAmpersandEquals => "&="
  | TAsteriskAsteriskEquals => "**=" | TAsteriskEquals => "*=" | TBarBarEquals => "||="
  | TBarEquals => "|=" | TCaretEquals => "^=" | TEquals => "="
  | TGreaterThanGreaterThanEquals => ">>=" | TGreaterThanGreaterThanGreaterThanEquals => ">>>="
  | TLessThanLessThanEquals => "<<=" | TMinusEquals => "-=" | TPercentEquals => "%="
  | TPlusEquals => "+=" | TQuestionQuestionEquals => "??=" | TSlashEquals => "/="
  | TPrivateIdentifier => "#"
  | TLet => "let" | TBreak => "break" | TCase => "case" | TCatch => "catch"
  | TClass => "class" | TConst => "const" | TContinue => "continue"
  | TDebugger => "debugger" | TDefault => "default" | TDelete => "delete" | TDo => "do"
  | TElse => "else" | TEnum => "enum" | TExport => "export" | TExtends => "extends"
  | TFalse => "false" | TFinally => "finally" | TFor => "for" | TFunction => "function"
  | TIf => "if" | TImport => "import" | TIn => "in" | TInstanceof => "instanceof"
  | TNew => "new" | TNull => "null" | TReturn => "return" | TSuper => "super"
  | TSwitch => "switch" | TThis => "this" | TThrow => "throw" | TTrue => "true"
  | TTry => "try" | TTypeof => "typeof" | TVar => "var" | TVoid => "void"
  | TWhile => "while" | TWith => "with"
  | _ => ""

/-- Go `lexer.Token`. -/
structure Token where
  T : T
  Loc : Loc
deriving DecidableEq, Repr

/-- The zero value of `lexer.Token`, what `var token Token` holds. -/
def Token.zero : Token := { T := TEndOfFile, Loc := { Offset := 0, Len := 0, Line := 0 } }

/-- Go `utf8.RuneError`, what `utf8.DecodeRuneInString("")` returns (with
width 0). -/
def RuneError : Char := Char.ofNat 0xFFFD

/-- Go `lexer.Lexer`.  `Source` is the text not yet decoded; `stdout` is what
the logger of the lexer wrote.  The field `Identifier` is never used. -/
structure Lexer where
  Current : Nat
  End : Nat
  Line : Nat
  Source : List Char
  RawSource : String
  CurChar : Char
  CurCharWidth : Nat
  HasError : Bool
  stdout : String
deriving Repr

namespace Lexer

/-- Go `Lexer.IsEnd`. -/
def IsEnd (lexer : Lexer) : Bool := decide (lexer.Current ≥ goLen lexer.RawSource)

/-- Go `Lexer.Step`. -/
def Step (lexer : Lexer) : Lexer :=
  if lexer.IsEnd then lexer
  else
    match lexer.Source with
    | [] => { lexer with CurChar := RuneError, CurCharWidth := 0, Current := lexer.End }
    | char :: rest =>
      { lexer with CurChar := char, CurCharWidth := char.utf8Size, Current := lexer.End,
                   End := lexer.End + char.utf8Size, Source := rest }

/-- Go `Lexer.Error`: sets `HasError` and prints; the flag tells whether
`Logger.Print` panicked. -/
def Error (lexer : Lexer) (loc : Loc) (msg : String) : Lexer × Bool :=
  let r := Print lexer.RawSource loc msg
  ({ lexer with HasError := true, stdout := lexer.stdout ++ r.1 }, r.2)

/-- Go `Lexer.Raw`. -/
def Raw (lexer : Lexer) (loc : Loc) : Option String :=
  goSlice lexer.RawSource loc.Offset (loc.Len + loc.Offset)

end Lexer

/-- Go `lexer.Raw(loc, content)`. -/
def Raw (loc : Loc) (content : String) : Option String :=
  goSlice content loc.Offset (loc.Offset + loc.Len)

/-- Go `lexer.NewLexer`. -/
def NewLexer (rawSource : String) : Lexer :=
  Lexer.Step
    { Current := 0, End := 0, Line := 1, Source := rawSource.data, RawSource := rawSource,
      CurChar := Char.ofNat 0, CurCharWidth := 0, HasError := false, stdout := "" }

/-- The characters of the first `case` list of identifiers: `_`, `$` and the
ASCII letters. -/
def isIdentStart (c : Char) : Bool :=
  c = '_' || c = '$' || decide ('a'.toNat ≤ c.toNat ∧ c.toNat ≤ 'z'.toNat)
    || decide ('A'.toNat ≤ c.toNat ∧ c.toNat ≤ 'Z'.toNat)

/-- The characters that continue an identifier: those of `isIdentStart` and
the digits. -/
def isIdentPart (c : Char) : Bool := isIdentStart c || F64.isDigit c

/-- Add the width of the current character to the length of a span. -/
def Loc.grow (loc : Loc) (lexer : Lexer) : Loc :=
  { loc with Len := loc.Len + (lexer.CurCharWidth : Int) }

/-- The loop `DotNumeric` of `Tokenizer`. -/
def dotNumericLoop : Nat → Lexer → Loc → Option (Lexer × Loc)
  | 0, _, _ => none
  | fuel + 1, lexer, loc =>
    if F64.isDigit lexer.CurChar then dotNumericLoop fuel lexer.Step (loc.grow lexer)
    else some (lexer, loc)

/-- The loop `for lexer.CurChar != '\n'` of a `//` comment. -/
def lineCommentLoop : Nat → Lexer → Loc → Option (Lexer × Loc)
  | 0, _, _ => none
  | fuel + 1, lexer, loc =>
    if lexer.CurChar ≠ '\n' then lineCommentLoop fuel lexer.Step (loc.grow lexer)
    else some (lexer, loc)

/-- The loop `for lexer.CurChar != '/'` of a `/*` comment. -/
def blockCommentLoop : Nat → Lexer → Loc → Option (Lexer × Loc)
  | 0, _, _ => none
  | fuel + 1, lexer, loc =>
    if lexer.CurChar ≠ '/' then
      if lexer.CurChar = '\\' then
        let lexer1 := lexer.Step
        blockCommentLoop fuel lexer1.Step ((loc.grow lexer).grow lexer1)
      else blockCommentLoop fuel lexer.Step (loc.grow lexer)
    else some (lexer, loc)

/-- The loop `Identifier` of `Tokenizer`. -/
def identifierLoop : Nat → Lexer → Loc → Option (Lexer × Loc)
  | 0, _, _ => none
  | fuel + 1, lexer, loc =>
    if !lexer.IsEnd then
      if isIdentPart lexer.CurChar then identifierLoop fuel lexer.Step (loc.grow lexer)
      else some (lexer, loc)
    else some (lexer, loc)

/-- The loop `Numeric` of `Tokenizer`; `num` is the text read so far. -/
def numericLoop : Nat → Lexer → Loc → String → Option (Lexer × Loc × String)
  | 0, _, _, _ => none
  | fuel + 1, lexer, loc, num =>
    if !lexer.IsEnd then
      if F64.isDigit lexer.CurChar || lexer.CurChar = '.' then
        numericLoop fuel lexer.Step (loc.grow lexer) (num ++ String.singleton lexer.CurChar)
      else some (lexer, loc, num)
    else some (lexer, loc, num)

/-- The loop of a string literal: up to the closing quote `t`. -/
def stringLoop : Nat → Lexer → Loc → Char → Option (Lexer × Loc)
  | 0, _, _, _ => none
  | fuel + 1, lexer, loc, t =>
    if !lexer.IsEnd && lexer.CurChar ≠ t then stringLoop fuel lexer.Step (loc.grow lexer) t
    else some (lexer, loc)

/-- The outcome of one iteration of the loop of `Tokenizer`. -/
inductive LexStep where
  | skip (lexer : Lexer)
  | token (t : Token) (lexer : Lexer)
  | panicked (lexer : Lexer)
  | timeout
deriving Repr

/-- The `switch curChar` of `Tokenizer`, after `loc` was taken and the lexer
stepped; `token t` is the token that the iteration appends. -/
def lexSwitch (fuel : Nat) (lexer : Lexer) (curChar : Char) (loc : Loc) : LexStep :=
  let step1 (t : T) : LexStep := .token ⟨t, loc.grow lexer⟩ lexer.Step
  if curChar = ' ' ∨ curChar = '\t' then .skip lexer
  else if curChar = '\n' ∨ curChar = '\r' then .skip { lexer with Line := lexer.Line + 1 }
  else if curChar = ':' then .token ⟨TColon, loc⟩ lexer
  else if curChar = ';' then .token ⟨TSemicolon, loc⟩ lexer
  else if curChar = ',' then .token ⟨TComma, loc⟩ lexer
  else if curChar = '.' then
    if IsValidNumber (String.singleton lexer.CurChar) then
      match dotNumericLoop fuel lexer loc with
      | none => .timeout
      | some (lexer1, loc1) => .token ⟨TNumericLiteral, loc1⟩ lexer1
    else .token ⟨TDot, loc⟩ lexer
  else if curChar = '(' then .token ⟨TOpenParen, loc⟩ lexer
  else if curChar = ')' then .token ⟨TCloseParen, loc⟩ lexer
  else if curChar = '\x7b' then .token ⟨TOpenBrace, loc⟩ lexer
  else if curChar = '\x7d' then .token ⟨TCloseBrace, loc⟩ lexer
  else if curChar = '[' then .token ⟨TOpenBracket, loc⟩ lexer
  else if curChar = ']' then .token ⟨TCloseBracket, loc⟩ lexer
  else if curChar = '<' then
    if lexer.CurChar = '=' then .token ⟨TLessThanEquals, loc⟩ lexer
    else .token ⟨TLessThan, loc⟩ lexer
  else if curChar = '>' then
    if lexer.CurChar = '=' then .token ⟨TGreaterThanEquals, loc⟩ lexer
    else .token ⟨TGreaterThan, loc⟩ lexer
  else if curChar = '!' then
    if lexer.CurChar = '=' then
      let loc1 := loc.grow lexer
      let lexer1 := lexer.Step
      if lexer1.CurChar = '=' then .token ⟨TExclamationEqualsEquals, loc1.grow lexer1⟩ lexer1.Step
      else .token ⟨TExclamationEquals, loc1⟩ lexer1
    else .token ⟨TExclamation, loc⟩ lexer
  else if curChar = '=' then
    if lexer.CurChar = '=' then
      let loc1 := loc.grow lexer
      let lexer1 := lexer.Step
      if lexer1.CurChar = '=' then
        -- `token = Token{TEqualsEqualsEquals, loc}` is overwritten right after the `if`
        .token ⟨TEqualsEquals, { loc1 with Len := (lexer1.CurCharWidth : Int) }⟩ lexer1.Step
      else .token ⟨TEqualsEquals, loc1⟩ lexer1
    else if lexer.CurChar = '>' then step1 TEqualsGreaterThan
    else .token ⟨TEquals, loc⟩ lexer
  else if curChar = '+' then
    if lexer.CurChar = '=' then step1 TPlusEquals
    else if lexer.CurChar = '+' then step1 TPlusPlus
    else .token ⟨TPlus, loc⟩ lexer
  else if curChar = '-' then
    if lexer.CurChar = '=' then step1 TMinusEquals
    else if lexer.CurChar = '-' then step1 TMinusMinus
    else if lexer.CurChar = '>' then .token ⟨TEqualsGreaterThan, loc⟩ lexer
    else .token ⟨TMinus, loc⟩ lexer
  else if curChar = '*' then
    if lexer.CurChar = '*' then
      let loc1 := loc.grow lexer
      let lexer1 := lexer.Step
      if lexer1.CurChar = '=' then .token ⟨TAsteriskAsteriskEquals, loc1.grow lexer1⟩ lexer1.Step
      else .token ⟨TAsteriskAsterisk, loc1⟩ lexer1
    else if lexer.CurChar = '=' then step1 TAsteriskEquals
    else .token ⟨TAsterisk, loc⟩ lexer
  else if curChar = '/' then
    if lexer.CurChar = '=' then step1 TSlashEquals
    else if lexer.CurChar = '/' then
      match lineCommentLoop fuel lexer.Step (loc.grow lexer) with
      | none => .timeout
      | some (lexer1, loc1) => .token ⟨TSingleLineComment, loc1⟩ lexer1
    else if lexer.CurChar = '*' then
      match blockCommentLoop fuel lexer.Step (loc.grow lexer) with
      | none => .timeout
      | some (lexer1, _) => .token Token.zero lexer1
    else .token ⟨TSlash, loc⟩ lexer
  else if curChar = '%' then .token ⟨TPercent, loc⟩ lexer
  else if isIdentStart curChar then
    match identifierLoop fuel lexer loc with
    | none => .timeout
    | some (lexer1, loc1) =>
      match lexer1.Raw loc1 with
      | none => .panicked lexer1
      | some name =>
        if name = "true" then .token ⟨TTrue, loc1⟩ lexer1
        else if name = "false" then .token ⟨TFalse, loc1⟩ lexer1
        else
          match Keywords name with
          | some t => .token ⟨t, loc1⟩ lexer1
          | none => .token ⟨TIdentifier, loc1⟩ lexer1
  else if F64.isDigit curChar then
    match numericLoop fuel lexer loc (String.singleton curChar) with
    | none => .timeout
    | some (lexer1, loc1, num) =>
      if !IsValidNumber num then
        let r := lexer1.Error loc1 "unknown numeric literal"
        if r.2 then .panicked r.1 else .token ⟨TNumericLiteral, loc1⟩ r.1
      else .token ⟨TNumericLiteral, loc1⟩ lexer1
  else if curChar = '"' ∨ curChar = '\'' then
    match stringLoop fuel lexer loc curChar with
    | none => .timeout
    | some (lexer1, loc1) =>
      let loc2 := loc1.grow lexer1
      .token ⟨TStringLiteral, loc2⟩ (if !lexer1.IsEnd then lexer1.Step else lexer1)
  else
    let r := lexer.Error loc "unexpected word"
    if r.2 then .panicked r.1 else .token Token.zero r.1

/-- The outcome of the loop of `Tokenizer`. -/
inductive LexLoop where
  | done (tokens : List Token) (lexer : Lexer)
  | panicked (lexer : Lexer)
  | timeout
deriving Repr

/-- The loop `for !lexer.IsEnd()` of `Tokenizer`. -/
def tokenizerLoop : Nat → Lexer → List Token → LexLoop
  | 0, _, _ => .timeout
  | fuel + 1, lexer, tokens =>
    if !lexer.IsEnd then
      let loc : Loc :=
        { Offset := lexer.Current, Len := lexer.CurCharWidth, Line := lexer.Line }
      match lexSwitch fuel lexer.Step lexer.CurChar loc with
      | .skip lexer1 => tokenizerLoop fuel lexer1 tokens
      | .token t lexer1 => tokenizerLoop fuel lexer1 (tokens ++ [t])
      | .panicked lexer1 => .panicked lexer1
      | .timeout => .timeout
    else .done tokens lexer

/-- Go `Lexer.Tokenizer`: the token list and the lexer afterwards, `none` when
the fuel ran out.  When the loop panics, the deferred function sets
`HasError`, runs `Tokenizer` again on the lexer as it is (dropping its result)
and the call returns the nil slice. -/
def Tokenizer : Nat → Lexer → Option (List Token × Lexer)
  | 0, _ => none
  | fuel + 1, lexer =>
    match tokenizerLoop fuel lexer [] with
    | .done tokens lexer1 => some (tokens, lexer1)
    | .panicked lexer1 =>
      match Tokenizer fuel { lexer1 with HasError := true } with
      | none => none
      | some (_, lexer2) => some ([], lexer2)
    | .timeout => none

/-! ## Panics and results -/

/-- The run-time panics of Go that the program can raise. -/
inductive GoRuntimeError where
  | indexOutOfRange
  | sliceBoundsOutOfRange
  | nilPointerDereference
  | interfaceConversion
  | integerDivideByZero
  | uncomparableType
deriving DecidableEq, Repr

/-- The values that the program passes to `panic`: the parser's `AstError`,
the evaluator's `RuntimeError`, the `*JsValue` of a `return` statement (an
address of the value heap, or nil), the markers `SBreak{}` and `SContinue{}`,
and the run-time panics of Go itself. -/
inductive Panic where
  | AstError (Loc : Loc) (Msg : String)
  | RuntimeError (Loc : Loc) (msg : String)
  | JsValuePtr (p : Option Nat)
  | SBreak
  | SContinue
  | runtime (e : GoRuntimeError)
deriving DecidableEq, Repr

/-- The outcome of running a Go function on a state `σ`: a normal return with
the state afterwards, a panic that is unwinding with the state at that point,
or `timeout` when the fuel ran out. -/
inductive Res (σ : Type) (α : Type) where
  | ok (a : α) (s : σ)
  | panic (e : Panic) (s : σ)
  | timeout

/-- A Go function that reads and writes a state `σ`. -/
def Go (σ : Type) (α : Type) : Type := σ → Res σ α

namespace Go

/-- A normal return. -/
def ret {σ α : Type} (a : α) : Go σ α := fun s => .ok a s

/-- Sequencing: a panic or a timeout of the first part ends the whole. -/
def andThen {σ α β : Type} (m : Go σ α) (f : α → Go σ β) : Go σ β := fun s =>
  match m s with
  | .ok a s1 => f a s1
  | .panic e s1 => .panic e s1
  | .timeout => .timeout

/-- Go `panic(e)`. -/
def throw {σ α : Type} (e : Panic) : Go σ α := fun s => .panic e s

/-- The fuel ran out. -/
def stuck {σ α : Type} : Go σ α := fun _ => .timeout

/-- Read the state. -/
def get {σ : Type} : Go σ σ := fun s => .ok s s

/-- Replace the state. -/
def set {σ : Type} (s : σ) : Go σ Unit := fun _ => .ok () s

/-- Change the state. -/
def modify {σ : Type} (f : σ → σ) : Go σ Unit := fun s => .ok () (f s)

end Go

instance (σ : Type) : Monad (Go σ) where
  pure := Go.ret
  bind := Go.andThen

/-! ## package ast_parser: the syntax tree -/

/-- Go `ast_parser.Association`. -/
inductive Association where
  | AssociationLeft
  | AssociationRight
deriving DecidableEq, Repr

/-- Go `ast_parser.VarKind`. -/
inductive VarKind where
  | VLet
  | VConst
  | VVar
deriving DecidableEq, Repr

mutual
/-- Go `ast_parser.Expr`; `Data` is `none` for the nil interface. -/
inductive Expr where
  | mk (Loc : Loc) (Data : Option E)
/-- The implementations of the Go interface `ast_parser.E` that the parser
builds.  A field of pointer type `*Expr`, `*SBody`, `*EIdentifier` is an
`Option`; the elements of a slice `[]*Expr` are never nil.  The operator of
`EBinary` and `EUnary` is an `EOp`, a renamed `lexer.T`. -/
inductive E where
  | EAssign (Target : Option Expr) (Assignment : Option Expr)
  | EBinary (Op : T) (Left : Expr) (Right : Expr)
  | EUnary (Op : T) (Value : Expr) (Association : Association)
  | EIndex (Target : Expr) (Idx : Expr)
  | EMemberExpr (Obj : Expr) (Property : EIdentifier)
  | EParen (Data : Expr)
  | EStringLiteral (Value : String)
  | ENumericLiteral (Value : String)
  | EIdentifier (Value : String)
  | EFunctionExpr (Id : Option EIdentifier) (Params : List EIdentifier) (Body : Option SBody)
  | EBoolLiteral (Value : Bool)
  | ECallExpr (Callee : Expr) (Args : List Expr)
  | EArrayLiteral (Arr : List Expr) (Length : Nat)
  | EObjectLiteral (Proto : Option EIdentifier) (Constructor : Option EIdentifier)
      (Properties : List Expr)
/-- Go `ast_parser.Stmt`; `Data` is `none` for the nil interface. -/
inductive Stmt where
  | mk (Loc : Loc) (Data : Option S)
/-- The implementations of the Go interface `ast_parser.S` that the parser
builds.  The `Body` of an `SClass` is always nil and is left out. -/
inductive S where
  | SVarDecl (Id : EIdentifier) (kind : VarKind) (Init : Option Expr)
  | SExpr (Expr : Expr)
  | SClass (SuperClass : Option Expr) (Id : EIdentifier)
  | SFunctionDecl (Id : Option EIdentifier) (Params : List EIdentifier) (Body : Option SBody)
  | SBlock (Data : List Stmt)
  | SProgram (Body : List Stmt)
  | SFor (Initializer : Option Stmt) (Condition : Option Expr) (Reset : Option Stmt)
      (Body : Option SBody)
  | SCondition (Branches : List Branch)
  | SReturn (Expr : Expr)
  | SBreak
  | SContinue
/-- Go `ast_parser.SBody`; `Data` is the `*SBlock`, a block being its
statement list. -/
inductive SBody where
  | mk (Loc : Loc) (Data : Option (List Stmt))
/-- Go `ast_parser.Branch`; a nil `Condition` is the `else` branch. -/
inductive Branch where
  | mk (Condition : Option Expr) (Body : Option SBody)
end

/-- The field `Loc` of an expression. -/
def Expr.Loc : Expr → Loc
  | .mk loc _ => loc

/-- The field `Data` of an expression. -/
def Expr.Data : Expr → Option E
  | .mk _ data => data

/-- The field `Loc` of a statement. -/
def Stmt.Loc : Stmt → Loc
  | .mk loc _ => loc

/-- The field `Data` of a statement. -/
def Stmt.Data : Stmt → Option S
  | .mk _ data => data

/-- The field `Data` of a body. -/
def SBody.Data : SBody → Option (List Stmt)
  | .mk _ data => data

/-- The zero value `logger.Loc{}`. -/
def Loc.zero : Loc := { Offset := 0, Len := 0, Line := 0 }

/-! ## package ast_parser: the parser -/

/-- Go `ast_parser.AstParser`; `stdout` is what the loggers of the lexer and
of the parser wrote. -/
structure AstParser where
  RawSource : String
  Tokens : List Token
  Curr : Nat
  HasError : Bool
  stdout : String
deriving Repr

/-- Go `ast_parser.NewParser`; `none` when the lexer does not terminate
within the fuel. -/
def NewParser (fuel : Nat) (source : String) : Option AstParser :=
  match Tokenizer fuel (NewLexer source) with
  | none => none
  | some (tokens, l) =>
    some { RawSource := source, Tokens := tokens, Curr := 0, HasError := l.HasError,
           stdout := l.stdout }

namespace AstParser

/-- Go `AstParser.IsEnd`. -/
def IsEnd : Go AstParser Bool := fun p => .ok (decide (p.Curr ≥ p.Tokens.length)) p

/-- Go `AstParser.Prev`: `p.Tokens[p.Curr-1]`, a run-time panic when the index
is `-1` or beyond the list. -/
def Prev : Go AstParser Token := fun p =>
  match p.Curr with
  | 0 => .panic (.runtime .indexOutOfRange) p
  | c + 1 =>
    match p.Tokens.get? c with
    | some t => .ok t p
    | none => .panic (.runtime .indexOutOfRange) p

/-- Go `AstParser.CurToken`. -/
def CurToken : Go AstParser Token := fun p =>
  if p.Curr ≥ p.Tokens.length then
    match Prev p with
    | .ok t p1 => .ok { T := TEndOfFile, Loc := t.Loc } p1
    | .panic e p1 => .panic e p1
    | .timeout => .timeout
  else
    match p.Tokens.get? p.Curr with
    | some t => .ok t p
    | none => .panic (.runtime .indexOutOfRange) p

/-- Go `AstParser.Step`: both branches read `p.Tokens[p.Curr]` and then
increment `p.Curr`. -/
def Step : Go AstParser Token := fun p =>
  match p.Tokens.get? p.Curr with
  | some t => .ok t { p with Curr := p.Curr + 1 }
  | none => .panic (.runtime .indexOutOfRange) p

/-- Go `lexer.Raw(loc, p.RawSource)` inside the parser. -/
def rawAt (loc : Loc) : Go AstParser String := fun p =>
  match JsInterp.Raw loc p.RawSource with
  | some s => .ok s p
  | none => .panic (.runtime .sliceBoundsOutOfRange) p

/-- Go `AstParser.Consume`. -/
def Consume (t : T) : Go AstParser Token := do
  let token ← CurToken
  if token.T = t then Step
  else
    let raw ← rawAt token.Loc
    Go.throw (.AstError token.Loc ("expect " ++ Token2StringMap t ++ ", but found " ++ raw))

/-- Go `AstParser.Error`. -/
def Error {α : Type} (loc : Loc) (msg : String) : Go AstParser α := fun p =>
  .panic (.AstError loc msg) { p with HasError := true }

/-- Go `AstParser.Check`. -/
def Check (ts : List T) : Go AstParser Bool := do
  if (← IsEnd) then return false
  let currToken ← CurToken
  return ts.any (fun t => currToken.T = t)

/-- Go `AstParser.calcLocFromPrevToken`. -/
def calcLocFromPrevToken (loc : Loc) : Go AstParser Loc := do
  let prev ← Prev
  return { loc with Len := prev.Loc.Offset + prev.Loc.Len - loc.Offset }

end AstParser

open AstParser

/-- The quote stripping of a string literal in `primary`: `none` when the text
is not wrapped in a pair of `"` or of `'`. -/
def stripQuotes (name : String) : Option String :=
  let cs := name.data
  let wrapped (q : Char) : Bool := cs.head? = some q && cs.getLast? = some q
  if wrapped '"' || wrapped '\'' then
    -- TrimPrefix, then TrimSuffix on what is left
    let t := cs.drop 1
    let q := cs.head?
    some (String.mk (if t.getLast? = q ∧ t ≠ [] then t.dropLast else t))
  else none

mutual

/-- Go `AstParser.stmt`. -/
def stmt : Nat → Go AstParser Stmt
  | 0 => Go.stuck
  | fuel + 1 => do
    let token ← CurToken
    let st : Stmt ←
      (if token.T = TOpenBrace then sBlock fuel
      else if token.T = TClass then sClass fuel
      else if token.T = TLet ∨ token.T = TConst ∨ token.T = TVar then sVarDecl fuel
      else if token.T = TSemicolon then do
        let _ ← Step
        pure (Stmt.mk token.Loc none)
      else if token.T = TFor then sFor fuel
      else if token.T = TIf then sCondition fuel
      else if token.T = TBreak ∨ token.T = TContinue then do
        let _ ← Step
        if token.T = TBreak then pure (Stmt.mk token.Loc (some S.SBreak))
        else pure (Stmt.mk token.Loc (some S.SContinue))
      else if token.T = TReturn then sReturn fuel
      else do
        let e ← expr fuel
        pure (Stmt.mk e.Loc (some (S.SExpr e))))
    if (← Check [TSemicolon]) then
      let _ ← Step
    return st

/-- Go `AstParser.sVarDecl`. -/
def sVarDecl : Nat → Go AstParser Stmt
  | 0 => Go.stuck
  | fuel + 1 => do
    let token ← Step
    let name ← Consume TIdentifier
    let kind : VarKind :=
      if token.T = TLet then .VLet else if token.T = TConst then .VConst else .VVar
    let id ← rawAt name.Loc
    let d ← varDecl fuel ⟨id⟩ kind
    let loc ← calcLocFromPrevToken token.Loc
    return Stmt.mk loc (some d)

/-- Go `AstParser.varDecl`.  The composite literal `SVarDecl{Id: id, Init: init}`
leaves the field `kind` at its zero value `VLet`, whatever `kind` is. -/
def varDecl : Nat → EIdentifier → VarKind → Go AstParser S
  | 0, _, _ => Go.stuck
  | fuel + 1, id, _ => do
    if (← Check [TEquals]) then
      let _ ← Step
      let initExpr ← expr fuel
      return S.SVarDecl id .VLet (some initExpr)
    else return S.SVarDecl id .VLet none

/-- Go `AstParser.sReturn`. -/
def sReturn : Nat → Go AstParser Stmt
  | 0 => Go.stuck
  | fuel + 1 => do
    let loc := (← CurToken).Loc
    let _ ← Consume TReturn
    let e ← expr fuel
    let loc ← calcLocFromPrevToken loc
    return Stmt.mk loc (some (S.SReturn e))

/-- The loop `Params` of `funcDecl`. -/
def paramsLoop : Nat → List EIdentifier → Go AstParser (List EIdentifier)
  | 0, _ => Go.stuck
  | fuel + 1, params => do
    if !(← IsEnd) then
      let param ← CurToken
      if param.T = TCloseParen then return params
      else if param.T = TComma then
        let _ ← Step
        Error param.Loc "Syntax Error: can't allow comma ahead of parameter"
      else if param.T = TIdentifier then
        let paramId ← rawAt param.Loc
        let _ ← Step
        if (← CurToken).T = TComma then
          let _ ← Step
        paramsLoop fuel (params ++ [⟨paramId⟩])
      else paramsLoop fuel params
    else return params

/-- Go `AstParser.funcDecl`: the parameters and the body (the caller supplies
the name). -/
def funcDecl : Nat → Go AstParser (List EIdentifier × SBody)
  | 0 => Go.stuck
  | fuel + 1 => do
    let loc := (← Consume TOpenParen).Loc
    let params ← paramsLoop fuel []
    if (← IsEnd) then
      let t ← CurToken
      Error t.Loc "missing close parentheses"
    let _ ← Consume TCloseParen
    let b ← body fuel
    let _ ← calcLocFromPrevToken loc
    return (params, b)

/-- The loop `ClassFields` of `class`. -/
def classFieldsLoop : Nat → Go AstParser Unit
  | 0 => Go.stuck
  | fuel + 1 => do
    if !(← IsEnd) then
      let token ← CurToken
      if token.T = TCloseBrace then return ()
      else if token.T = TIdentifier then
        let id ← rawAt (← Step).Loc
        let parenOrEquals ← CurToken
        if parenOrEquals.T = TOpenParen then
          let _ ← funcDecl fuel
          let _ ← Prev
          let _ ← Prev
          classFieldsLoop fuel
        else if parenOrEquals.T = TEquals then
          let _ ← varDecl fuel ⟨id⟩ .VLet
          let _ ← Prev
          let _ ← Prev
          classFieldsLoop fuel
        else classFieldsLoop fuel
      else Error token.Loc "Syntax Error: unexpected error"
    else return ()

/-- Go `AstParser.class` (`class` is a keyword of Lean). -/
def sClass : Nat → Go AstParser Stmt
  | 0 => Go.stuck
  | fuel + 1 => do
    let loc := (← CurToken).Loc
    let _ ← Consume TClass
    let id ← Consume TIdentifier
    let className ← rawAt id.Loc
    let maybeExtends ← CurToken
    let superClass : Option Expr ←
      (if maybeExtends.T = TExtends then do
        let _ ← Step
        let e ← expr fuel
        pure (some e)
      else pure none)
    let _ ← Consume TOpenBrace
    classFieldsLoop fuel
    if (← IsEnd) then
      Error loc "missing closing brace"
    let _ ← Consume TCloseBrace
    return Stmt.mk loc (some (S.SClass superClass ⟨className⟩))

/-- Go `AstParser.sBlock`. -/
def sBlock : Nat → Go AstParser Stmt
  | 0 => Go.stuck
  | fuel + 1 => do
    let loc := (← CurToken).Loc
    let b ← block fuel
    let loc ← calcLocFromPrevToken loc
    return Stmt.mk loc (some (S.SBlock b))

/-- Go `AstParser.body`. -/
def body : Nat → Go AstParser SBody
  | 0 => Go.stuck
  | fuel + 1 => do
    let loc := (← CurToken).Loc
    let b ← block fuel
    let loc ← calcLocFromPrevToken loc
    return SBody.mk loc (some b)

/-- The loop of `block`. -/
def blockLoop : Nat → List Stmt → Go AstParser (List Stmt)
  | 0, _ => Go.stuck
  | fuel + 1, stmts => do
    if (← CurToken).T ≠ TCloseBrace then
      if !(← IsEnd) then
        let s ← stmt fuel
        blockLoop fuel (stmts ++ [s])
      else return stmts
    else return stmts

/-- Go `AstParser.block`. -/
def block : Nat → Go AstParser (List Stmt)
  | 0 => Go.stuck
  | fuel + 1 => do
    let _ ← Consume TOpenBrace
    let stmts ← blockLoop fuel []
    if (← IsEnd) then
      let t ← CurToken
      Error t.Loc "missing close brace"
    let _ ← Consume TCloseBrace
    return stmts

/-- Go `AstParser.sFor`. -/
def sFor : Nat → Go AstParser Stmt
  | 0 => Go.stuck
  | fuel + 1 => do
    let forKeyWord ← Consume TFor
    let _ ← Consume TOpenParen
    let loc := forKeyWord.Loc
    let initializer ← stmt fuel
    let condition ← expr fuel
    let _ ← Consume TSemicolon
    let reset ← stmt fuel
    let _ ← Consume TCloseParen
    let b ← body fuel
    let loc ← calcLocFromPrevToken loc
    return Stmt.mk loc (some (S.SFor (some initializer) (some condition) (some reset) (some b)))

/-- The loop `Branch` of `sCondition`. -/
def branchLoop : Nat → List Branch → Go AstParser (List Branch)
  | 0, _ => Go.stuck
  | fuel + 1, branches => do
    if (← Check [TElse]) then
      let _ ← Step
      if (← CurToken).T = TIf then
        let _ ← Step
        let _ ← Consume TOpenParen
        let c ← expr fuel
        let _ ← Consume TCloseParen
        let b ← body fuel
        branchLoop fuel (branches ++ [Branch.mk (some c) (some b)])
      else
        let b ← body fuel
        return branches ++ [Branch.mk none (some b)]
    else return branches

/-- Go `AstParser.sCondition`. -/
def sCondition : Nat → Go AstParser Stmt
  | 0 => Go.stuck
  | fuel + 1 => do
    let ifToken ← Consume TIf
    let loc := ifToken.Loc
    let _ ← Consume TOpenParen
    let condition ← expr fuel
    let _ ← Consume TCloseParen
    let b ← body fuel
    let branches ← branchLoop fuel [Branch.mk (some condition) (some b)]
    let loc ← calcLocFromPrevToken loc
    return Stmt.mk loc (some (S.SCondition branches))

/-- Go `AstParser.expr`. -/
def expr : Nat → Go AstParser Expr
  | 0 => Go.stuck
  | fuel + 1 => assignment fuel

/-- Go `AstParser.assignment`. -/
def assignment : Nat → Go AstParser Expr
  | 0 => Go.stuck
  | fuel + 1 => do
    if (← IsEnd) then return Expr.mk Loc.zero none
    let loc := (← CurToken).Loc
    let e ← equals fuel
    if (← Check [TEquals]) then
      let _ ← Step
      let a ← assignment fuel
      let loc ← calcLocFromPrevToken loc
      return Expr.mk loc (some (E.EAssign (some e) (some a)))
    else return e

/-- The loop `Equals` of `equals`. -/
def equalsLoop : Nat → Expr → Go AstParser Expr
  | 0, _ => Go.stuck
  | fuel + 1, e => do
    let token ← CurToken
    if token.T = TEqualsEquals ∨ token.T = TEqualsEqualsEquals then
      let _ ← Step
      let equalTarget ← equals fuel
      equalsLoop fuel
        (Expr.mk { Offset := e.Loc.Offset,
                   Len := e.Loc.Len + token.Loc.Len + equalTarget.Loc.Len,
                   Line := e.Loc.Line }
          (some (E.EBinary token.T e equalTarget)))
    else return e

/-- Go `AstParser.equals`. -/
def equals : Nat → Go AstParser Expr
  | 0 => Go.stuck
  | fuel + 1 => do
    let e ← or fuel
    equalsLoop fuel e

/-- The loop `Bar` of `or`. -/
def orLoop : Nat → Expr → Go AstParser Expr
  | 0, _ => Go.stuck
  | fuel + 1, e => do
    let token ← CurToken
    if token.T = TBarBar then
      let _ ← Step
      let andTarget ← or fuel
      let loc ← calcLocFromPrevToken token.Loc
      orLoop fuel (Expr.mk loc (some (E.EBinary TBarBar e andTarget)))
    else return e

/-- Go `AstParser.or`. -/
def or : Nat → Go AstParser Expr
  | 0 => Go.stuck
  | fuel + 1 => do
    let e ← and fuel
    orLoop fuel e

/-- The loop `Ampersand` of `and`. -/
def andLoop : Nat → Expr → Go AstParser Expr
  | 0, _ => Go.stuck
  | fuel + 1, e => do
    let token ← CurToken
    if token.T = TAmpersandAmpersand then
      let _ ← Step
      let andTarget ← and fuel
      let loc ← calcLocFromPrevToken token.Loc
      andLoop fuel (Expr.mk loc (some (E.EBinary TAmpersandAmpersand e andTarget)))
    else return e

/-- Go `AstParser.and`. -/
def and : Nat → Go AstParser Expr
  | 0 => Go.stuck
  | fuel + 1 => do
    let e ← compare fuel
    andLoop fuel e

/-- The loop `Compare` of `compare`; `loc` is the variable `Loc`, which keeps
growing over the iterations. -/
def compareLoop : Nat → Expr → Loc → Go AstParser Expr
  | 0, _, _ => Go.stuck
  | fuel + 1, e, loc => do
    let token ← CurToken
    if token.T = TLessThan ∨ token.T = TLessThanEquals ∨ token.T = TGreaterThan
        ∨ token.T = TGreaterThanEquals then
      let _ ← Step
      let target ← compare fuel
      let loc1 : Loc := { loc with Len := loc.Len + (token.Loc.Len + target.Loc.Len) }
      compareLoop fuel (Expr.mk loc1 (some (E.EBinary token.T e target))) loc1
    else return e

/-- Go `AstParser.compare`. -/
def compare : Nat → Go AstParser Expr
  | 0 => Go.stuck
  | fuel + 1 => do
    let e ← plusAndMinus fuel
    compareLoop fuel e e.Loc

/-- The loop `Plus` of `plusAndMinus`; `loc` starts at the first token. -/
def plusLoop : Nat → Expr → Loc → Go AstParser Expr
  | 0, _, _ => Go.stuck
  | fuel + 1, e, loc => do
    let nextToken ← CurToken
    if nextToken.T = TPlus ∨ nextToken.T = TMinus then
      let _ ← Step
      let right ← plusAndMinus fuel
      let loc1 ← calcLocFromPrevToken loc
      plusLoop fuel (Expr.mk loc1 (some (E.EBinary nextToken.T e right))) loc1
    else return e

/-- Go `AstParser.plusAndMinus`. -/
def plusAndMinus : Nat → Go AstParser Expr
  | 0 => Go.stuck
  | fuel + 1 => do
    let token ← CurToken
    let e ← multiplyAndDivision fuel
    plusLoop fuel e token.Loc

/-- The loop `Mul` of `multiplyAndDivision`. -/
def mulLoop : Nat → Expr → Loc → Go AstParser Expr
  | 0, _, _ => Go.stuck
  | fuel + 1, e, loc => do
    let nextToken ← CurToken
    if nextToken.T = TAsterisk ∨ nextToken.T = TSlash ∨ nextToken.T = TPercent then
      let _ ← Step
      let right ← multiplyAndDivision fuel
      let loc1 ← calcLocFromPrevToken loc
      mulLoop fuel (Expr.mk loc1 (some (E.EBinary nextToken.T e right))) loc1
    else return e

/-- Go `AstParser.multiplyAndDivision`. -/
def multiplyAndDivision : Nat → Go AstParser Expr
  | 0 => Go.stuck
  | fuel + 1 => do
    let token ← CurToken
    let e ← unary fuel
    mulLoop fuel e token.Loc

/-- Go `AstParser.unary`. -/
def unary : Nat → Go AstParser Expr
  | 0 => Go.stuck
  | fuel + 1 => do
    let token ← CurToken
    let e : Expr ←
      (if token.T = TExclamation ∨ token.T = TMinus ∨ token.T = TPlusPlus
          ∨ token.T = TMinusMinus then do
        let _ ← Step
        let v ← unary fuel
        pure (Expr.mk token.Loc (some (E.EUnary token.T v .AssociationLeft)))
      else callExpr fuel)
    if (← Check [TPlusPlus, TMinusMinus]) then
      let op := (← Step).T
      let loc ← calcLocFromPrevToken token.Loc
      return Expr.mk loc (some (E.EUnary op e .AssociationRight))
    else return e

/-- The argument loop of `callExpr`. -/
def argsLoop : Nat → List Expr → Go AstParser (List Expr)
  | 0, _ => Go.stuck
  | fuel + 1, args => do
    if !(← IsEnd) then
      if (← CurToken).T ≠ TCloseParen then
        let arg ← expr fuel
        if (← Check [TComma]) then
          let _ ← Step
        argsLoop fuel (args ++ [arg])
      else return args
    else return args

/-- Go `AstParser.callExpr`. -/
def callExpr : Nat → Go AstParser Expr
  | 0 => Go.stuck
  | fuel + 1 => do
    let e ← memberExpr fuel
    let token ← CurToken
    if token.T = TOpenParen then
      let _ ← Step
      let args ← argsLoop fuel []
      let _ ← Consume TCloseParen
      let loc ← calcLocFromPrevToken e.Loc
      return Expr.mk loc (some (E.ECallExpr e args))
    else return e

/-- The loop of `memberExpr` for the second and later `.`: the property must
be an `*EStringLiteral`. -/
def memberLoop : Nat → Expr → Loc → Go AstParser Expr
  | 0, _, _ => Go.stuck
  | fuel + 1, e, loc => do
    if !(← IsEnd) then
      if (← CurToken).T = TDot then
        let _ ← Step
        let newProperty ← paren fuel
        let oldLoc := loc
        let loc1 ← calcLocFromPrevToken loc
        match newProperty.Data with
        | some (E.EStringLiteral v) =>
          memberLoop fuel (Expr.mk loc1 (some (E.EMemberExpr (Expr.mk oldLoc e.Data) ⟨v⟩))) loc1
        | _ => Go.throw (.runtime .interfaceConversion)
      else return e
    else return e

/-- Go `AstParser.memberExpr`. -/
def memberExpr : Nat → Go AstParser Expr
  | 0 => Go.stuck
  | fuel + 1 => do
    let e ← paren fuel
    let token ← CurToken
    if token.T = TDot then
      let _ ← Step
      let property ← paren fuel
      let loc ← calcLocFromPrevToken e.Loc
      match property.Data with
      | some (E.EIdentifier v) =>
        memberLoop fuel (Expr.mk loc (some (E.EMemberExpr e ⟨v⟩))) loc
      | _ => Go.throw (.runtime .interfaceConversion)
    else return e

/-- Go `AstParser.paren`. -/
def paren : Nat → Go AstParser Expr
  | 0 => Go.stuck
  | fuel + 1 => do
    let token ← CurToken
    if token.T = TOpenParen then
      let _ ← Step
      let value ← assignment fuel
      let _ ← Consume TCloseParen
      let loc ← calcLocFromPrevToken token.Loc
      return Expr.mk loc (some (E.EParen value))
    else primary fuel

/-- The loop `ObjectLiteral` of `primary`. -/
def objectLoop : Nat → List Expr → Go AstParser (List Expr)
  | 0, _ => Go.stuck
  | fuel + 1, properties => do
    if !(← IsEnd) then
      let token ← CurToken
      if token.T = TOpenBracket then
        let _ ← Step
        let key ← expr fuel
        let _ ← Consume TCloseBracket
        let _ ← Consume TColon
        let val ← expr fuel
        if (← CurToken).T = TComma then
          let _ ← Consume TComma
          objectLoop fuel (properties ++ [key, val])
        else return properties
      else if token.T = TCloseBrace then return properties
      else if token.T = TIdentifier ∨ token.T = TStringLiteral ∨ token.T = TNumericLiteral then
        let key : Expr ←
          (if token.T = TStringLiteral then primary fuel
          else do
            let raw ← rawAt token.Loc
            let _ ← Step
            pure (Expr.mk token.Loc (some (E.EStringLiteral raw))))
        let _ ← Consume TColon
        let val ← expr fuel
        if (← CurToken).T = TComma then
          let _ ← Consume TComma
          objectLoop fuel (properties ++ [key, val])
        else return properties ++ [key, val]
      else objectLoop fuel properties
    else return properties

/-- The loop `Array` of `primary`. -/
def arrayLoop : Nat → List Expr → Nat → Go AstParser (List Expr × Nat)
  | 0, _, _ => Go.stuck
  | fuel + 1, arr, length => do
    if !(← IsEnd) then
      let curToken ← CurToken
      if curToken.T = TComma then
        let _ ← Step
        arrayLoop fuel arr length
      else if curToken.T = TCloseBracket then return (arr, length)
      else
        let e ← expr fuel
        arrayLoop fuel (arr ++ [e]) (length + 1)
    else return (arr, length)

/-- Go `AstParser.primary`. -/
def primary : Nat → Go AstParser Expr
  | 0 => Go.stuck
  | fuel + 1 => do
    let token ← CurToken
    let loc := token.Loc
    if token.T = TFunction then
      let _ ← Step
      let id : Option EIdentifier ←
        (if (← CurToken).T = TIdentifier then do
          let raw ← rawAt (← CurToken).Loc
          let _ ← Consume TIdentifier
          pure (some ⟨raw⟩)
        else pure none)
      let f ← funcDecl fuel
      let loc ← calcLocFromPrevToken loc
      return Expr.mk loc (some (E.EFunctionExpr id f.1 (some f.2)))
    else if token.T = TOpenBrace then
      let _ ← Step
      let properties ← objectLoop fuel []
      let _ ← Consume TCloseBrace
      let loc ← calcLocFromPrevToken token.Loc
      return Expr.mk loc (some (E.EObjectLiteral none none properties))
    else if token.T = TOpenBracket then
      let _ ← Step
      let r ← arrayLoop fuel [] 0
      let _ ← Consume TCloseBracket
      let loc ← calcLocFromPrevToken token.Loc
      return Expr.mk loc (some (E.EArrayLiteral r.1 r.2))
    else
      let e : Expr ←
        (if token.T = TNumericLiteral then do
          let name ← rawAt token.Loc
          pure (Expr.mk loc (some (E.ENumericLiteral name)))
        else if token.T = TTrue then pure (Expr.mk loc (some (E.EBoolLiteral true)))
        else if token.T = TFalse then pure (Expr.mk loc (some (E.EBoolLiteral false)))
        else if token.T = TStringLiteral then do
          let name ← rawAt token.Loc
          match stripQuotes name with
          | some name1 =>
            let loc1 ← calcLocFromPrevToken loc
            pure (Expr.mk loc1 (some (E.EStringLiteral name1)))
          | none => Error token.Loc "string literal should wrapped in ' or \" "
        else if token.T = TIdentifier then do
          let name ← rawAt token.Loc
          let loc1 ← calcLocFromPrevToken loc
          pure (Expr.mk loc1 (some (E.EIdentifier name)))
        else if token.T = TEqualsGreaterThan then pure (Expr.mk Loc.zero none)
        else do
          let _ ← Step
          Error token.Loc "unexpected token")
      let _ ← Step
      let curToken ← CurToken
      if curToken.T = TOpenBracket then
        let _ ← Step
        let idx ← expr fuel
        let _ ← Consume TCloseBracket
        let loc2 ← calcLocFromPrevToken loc
        return Expr.mk loc2 (some (E.EIndex e idx))
      else return e

end

/-- The loop of `Parse`. -/
def parseLoop : Nat → List Stmt → Go AstParser (List Stmt)
  | 0, _ => Go.stuck
  | fuel + 1, stmts => do
    if !(← IsEnd) then
      let s ← stmt fuel
      parseLoop fuel (stmts ++ [s])
    else return stmts

/-- The body of `Parse`, before the deferred function. -/
def parseBody (fuel : Nat) : Go AstParser Stmt := do
  let loc : Loc := { Offset := 0, Len := 0, Line := 1 }
  let stmts ← parseLoop fuel []
  let loc ← calcLocFromPrevToken loc
  return Stmt.mk loc (some (S.SProgram stmts))

/-- Go `AstParser.Parse`.  The deferred function recovers a panic: it sets
`HasError`; an `AstError` is printed (a panic of `Logger.Print` goes on
unwinding) and `Parse` returns the zero `Stmt`.  For any other panic value the
assertion `err, isErr := err.(AstError)` fails, and the `err` that
`panic(err)` raises in the `else` branch is the variable of the `if`
statement, the zero `AstError`, not the value recovered. -/
def Parse (fuel : Nat) : Go AstParser Stmt := fun p =>
  match parseBody fuel p with
  | .ok s p1 => .ok s p1
  | .timeout => .timeout
  | .panic err p1 =>
    let p2 := { p1 with HasError := true }
    match err with
    | .AstError loc msg =>
      let r := Print p2.RawSource loc msg
      let p3 := { p2 with stdout := p2.stdout ++ r.1 }
      if r.2 then .panic (.runtime .indexOutOfRange) p3
      else .ok (Stmt.mk Loc.zero none) p3
    | _ => .panic (.AstError Loc.zero "") p2

/-! ## package ast_interpreter: values -/

/-- Go `ast_interpreter.JsType`. -/
inductive JsType where
  | Undefined | Null | Number | String | Boolean | Array | Function | Object
  | BuiltInFunction | BuiltInObject
deriving DecidableEq, Repr

/-- The native Go functions that are stored in a `JsValue`: the `log` closure
of `InitInterpreterStat`, `ArrayPush`, `ArraySplice`, the two closures of
`Wrap` (all of type `func(JsValue, ...JsValue) JsValue`), and `ToString`
(of type `func(*JsValue) JsValue`, stored by `ObjectPrototype`). -/
inductive GoFunc where
  | consoleLog
  | ArrayPush
  | ArraySplice
  | wrapToString
  | wrapToNumber
  | ToString
deriving DecidableEq, Repr

/-- A Go slice `[]*JsValue` that starts at the beginning of its backing array:
`backing` is the whole backing array (its length is the capacity), `len` the
length of the slice. -/
structure GoSlice where
  backing : List (Option Nat)
  len : Nat
deriving DecidableEq, Repr

/-- The dynamic values of the Go interface `JsValue.Value`, one constructor
per dynamic type that the program stores: `nil`, `float64`, `int`, `uint`,
`string`, `bool`, the pointers `*JsFunction`, `*JsObject`, `*JsArray` and
`*JsValue` (addresses; `none` is nil), a `JsArray` struct, a
`map[string]*JsValue` and a native function. -/
inductive Any where
  | nil
  | float64 (f : F64)
  | int (i : Int)
  | uint (n : Nat)
  | string (s : String)
  | bool (b : Bool)
  | ptrJsFunction (a : Nat)
  | ptrJsObject (a : Nat)
  | ptrJsArray (a : Nat)
  | ptrJsValue (p : Option Nat)
  | jsArray (Arr : GoSlice) (Length : Nat)
  | map (m : List (String × Option Nat))
  | func (f : GoFunc)
deriving DecidableEq, Repr

/-- Go `ast_interpreter.JsValue`; `Typ` is the field `Type`. -/
structure JsValue where
  Value : Any
  Typ : JsType
deriving DecidableEq, Repr

/-- Go `a == b` on two interface values: `true` when the dynamic types are
identical and the values equal, `false` when the dynamic types differ, and a
run-time panic (`none`) when both hold the same uncomparable type (a struct
with a slice, a map, a function). -/
def Any.goEq : Any → Any → Option Bool
  | .nil, .nil => some true
  | .float64 a, .float64 b => some (F64.eq a b)
  | .int a, .int b => some (a == b)
  | .uint a, .uint b => some (a == b)
  | .string a, .string b => some (a == b)
  | .bool a, .bool b => some (a == b)
  | .ptrJsFunction a, .ptrJsFunction b => some (a == b)
  | .ptrJsObject a, .ptrJsObject b => some (a == b)
  | .ptrJsArray a, .ptrJsArray b => some (a == b)
  | .ptrJsValue a, .ptrJsValue b => some (a == b)
  | .jsArray _ _, .jsArray _ _ => none
  | .map _, .map _ => none
  | .func _, .func _ => none
  | _, _ => some false

/-- Go `v == true` for an interface value `v`: the constant has type `bool`. -/
def Any.eqTrue (v : Any) : Bool := v = .bool true

/-- Go `v == 0` for an interface value `v`: the untyped constant `0` takes its
default type `int`, so the comparison holds only for the dynamic value
`int(0)`; a `float64` never equals it. -/
def Any.eqZero (v : Any) : Bool := v = .int 0

/-- Go `v == ""` for an interface value `v`. -/
def Any.eqEmptyString (v : Any) : Bool := v = .string ""

/-- Go `ast_interpreter.JsTypeToString`. -/
def JsTypeToString : JsType → Option String
  | .Array => some "Array"
  | .Function => some "Function"
  | .Object => some "Object"
  | _ => none

/-- Go `ast_interpreter.ToString` on the value that the pointer refers to.
The type assertion `v.Value.(float64)` of the `Number` case panics for any
other dynamic type. -/
def ToString (v : JsValue) : Except Panic JsValue :=
  match v.Typ with
  | .String => .ok ⟨v.Value, .String⟩
  | .Number =>
    match v.Value with
    | .float64 f => .ok ⟨.string (F64.format5 f), .String⟩
    | _ => .error (.runtime .interfaceConversion)
  | .Boolean =>
    if v.Value.eqTrue then .ok ⟨.string "true", .String⟩ else .ok ⟨.string "false", .String⟩
  | .Undefined => .ok ⟨.string "undefined", .String⟩
  | .Null => .ok ⟨.string "null", .Null⟩
  | t =>
    match JsTypeToString t with
    | some name => .ok ⟨.string ("[object " ++ name ++ "]"), .String⟩
    | none => .ok ⟨.string "[object Internal]", .String⟩

/-- Go `ast_interpreter.ToNumber` on the value that the pointer refers to.
The type assertion `v.Value.(string)` of the `String` case panics for any
other dynamic type. -/
def ToNumber (v : JsValue) : Except Panic JsValue :=
  match v.Typ with
  | .Number => .ok ⟨v.Value, .Number⟩
  | .String =>
    match v.Value with
    | .string s =>
      let r := F64.parse s
      if r.2 then .ok ⟨.float64 F64.zero, .Number⟩ else .ok ⟨.float64 r.1, .Number⟩
    | _ => .error (.runtime .interfaceConversion)
  | .Boolean =>
    if v.Value.eqTrue then .ok ⟨.float64 (F64.ofNat 1), .Number⟩
    else .ok ⟨.float64 F64.zero, .Number⟩
  | _ => .ok ⟨.float64 F64.zero, .Number⟩

/-- Go `ast_interpreter.ToBoolean` on the value that the pointer refers to. -/
def ToBoolean (v : JsValue) : JsValue :=
  match v.Typ with
  | .Boolean => ⟨v.Value, .Boolean⟩
  | .Number => if v.Value.eqZero then ⟨.bool false, .Boolean⟩ else ⟨.bool true, .Boolean⟩
  | .String => if v.Value.eqEmptyString then ⟨.bool false, .Boolean⟩ else ⟨.bool true, .Boolean⟩
  | _ => ⟨.bool true, .Boolean⟩

/-- Go `ast_interpreter.IsTruthy` on the value that the pointer refers to. -/
def IsTruthy (v : JsValue) : Bool :=
  match v.Typ with
  | .Boolean => v.Value.eqTrue
  | .Number => !v.Value.eqZero
  | .String => !v.Value.eqEmptyString
  | .Undefined => false
  | .Null => false
  | _ => true

/-! ## package ast_interpreter: the heap and the scopes -/

/-- Go `ast_interpreter.JsObject`; the map `Properties` lists its keys in the
order of insertion. -/
structure JsObject where
  Constructor : Option Nat
  Proto : Option Nat
  Properties : List (String × Option Nat)
deriving Repr

/-- Go `ast_interpreter.JsArray`. -/
structure JsArray where
  Arr : GoSlice
  Length : Nat
deriving Repr

/-- Go `ast_interpreter.JsFunction`; `Closure` is a `*Scope`. -/
structure JsFunction where
  Closure : Option Nat
  Params : List EIdentifier
  Body : Option SBody

/-- Go `ast_interpreter.Scope`; `Parent` is a `*Scope`. -/
structure Scope where
  Parent : Option Nat
  Env : List (String × Option Nat)
deriving DecidableEq, Repr

/-- Go `ast_interpreter.InterpreterStat` together with the heap that its
pointers refer to: `Scope` is the current `*Scope`; `values`, `scopes`,
`functions`, `objects` and `arrays` hold what was allocated, a pointer being
an index; `stdout` is the text written so far.  `loopVarPerIteration` is the
Go language version that the program is built with: `true` from Go 1.22 on,
where each iteration of a `for ... range` statement has its own variable, and
`false` before, where the loop has one variable.  The fields `Program` and
`Visitor` are never read. -/
structure InterpreterStat where
  Scope : Option Nat
  values : List JsValue
  scopes : List JsInterp.Scope
  functions : List JsFunction
  objects : List JsObject
  arrays : List JsArray
  stdout : String
  loopVarPerIteration : Bool

/-- Go `m[k]` on a `map[string]*JsValue`, with the flag of the two-valued
form. -/
def mapGet (m : List (String × Option Nat)) (k : String) : Option (Option Nat) :=
  match m with
  | [] => none
  | (k1, v) :: rest => if k1 = k then some v else mapGet rest k

/-- Go `m[k] = v` on a `map[string]*JsValue`. -/
def mapSet (m : List (String × Option Nat)) (k : String) (v : Option Nat) :
    List (String × Option Nat) :=
  match m with
  | [] => [(k, v)]
  | (k1, v1) :: rest => if k1 = k then (k, v) :: rest else (k1, v1) :: mapSet rest k v

namespace InterpreterStat

/-- Allocate a `JsValue` (Go `&JsValue{...}`). -/
def alloc (v : JsValue) : Go InterpreterStat (Option Nat) := fun s =>
  .ok (some s.values.length) { s with values := s.values ++ [v] }

/-- Read through a `*JsValue`; nil is a run-time panic. -/
def deref (p : Option Nat) : Go InterpreterStat JsValue := fun s =>
  match p with
  | none => .panic (.runtime .nilPointerDereference) s
  | some a =>
    match s.values.get? a with
    | some v => .ok v s
    | none => .panic (.runtime .nilPointerDereference) s

/-- Write through a `*JsValue`; nil is a run-time panic. -/
def store (p : Option Nat) (v : JsValue) : Go InterpreterStat Unit := fun s =>
  match p with
  | none => .panic (.runtime .nilPointerDereference) s
  | some a =>
    if a < s.values.length then .ok () { s with values := s.values.set a v }
    else .panic (.runtime .nilPointerDereference) s

/-- Read through a `*Scope`; nil is a run-time panic. -/
def scopeAt (p : Option Nat) : Go InterpreterStat JsInterp.Scope := fun s =>
  match p with
  | none => .panic (.runtime .nilPointerDereference) s
  | some a =>
    match s.scopes.get? a with
    | some sc => .ok sc s
    | none => .panic (.runtime .nilPointerDereference) s

/-- Lift a function that can only panic. -/
def lift {α : Type} (r : Except Panic α) : Go InterpreterStat α := fun s =>
  match r with
  | .ok a => .ok a s
  | .error e => .panic e s

/-- Write to standard output. -/
def write (text : String) : Go InterpreterStat Unit := fun s =>
  .ok () { s with stdout := s.stdout ++ text }

/-- Go `ast_interpreter.NewScope`, the address of the new scope. -/
def NewScope (parent : Option Nat) : Go InterpreterStat (Option Nat) := fun s =>
  .ok (some s.scopes.length) { s with scopes := s.scopes ++ [⟨parent, []⟩] }

/-- Go `InterpreterStat.EnterScope`. -/
def EnterScope : Go InterpreterStat Unit := fun s =>
  match NewScope s.Scope s with
  | .ok sc s1 => .ok () { s1 with Scope := sc }
  | .panic e s1 => .panic e s1
  | .timeout => .timeout

/-- Go `InterpreterStat.PopScope`. -/
def PopScope : Go InterpreterStat Unit := fun s =>
  match scopeAt s.Scope s with
  | .ok sc s1 => .ok () { s1 with Scope := sc.Parent }
  | .panic e s1 => .panic e s1
  | .timeout => .timeout

/-- Go `Scope.Set` on the scope at `p`. -/
def ScopeSet (p : Option Nat) (k : String) (v : Option Nat) : Go InterpreterStat Unit :=
  fun s =>
  match p with
  | none => .panic (.runtime .nilPointerDereference) s
  | some a =>
    match s.scopes.get? a with
    | some sc => .ok () { s with scopes := s.scopes.set a { sc with Env := mapSet sc.Env k v } }
    | none => .panic (.runtime .nilPointerDereference) s

/-- Go `Scope.Get` on the scope at `p`: the recursion follows the parents. -/
def ScopeGet : Nat → Option Nat → String → Go InterpreterStat (Option Nat)
  | 0, _, _ => Go.stuck
  | fuel + 1, p, k => do
    let sc ← scopeAt p
    match mapGet sc.Env k with
    | some v => return v
    | none =>
      if sc.Parent ≠ none then ScopeGet fuel sc.Parent k
      else alloc ⟨.nil, .Undefined⟩

/-- Go `Scope.Update` on the scope at `p`. -/
def ScopeUpdate : Nat → Option Nat → String → Option Nat → Go InterpreterStat (Option Nat)
  | 0, _, _, _ => Go.stuck
  | fuel + 1, p, k, v => do
    let sc ← scopeAt p
    match mapGet sc.Env k with
    | some _ =>
      ScopeSet p k v
      return v
    | none =>
      if sc.Parent ≠ none then ScopeUpdate fuel sc.Parent k v
      else
        let u ← alloc ⟨.nil, .Undefined⟩
        ScopeSet p k u
        alloc ⟨.nil, .Undefined⟩

end InterpreterStat

open InterpreterStat

/-! ## Go slices of `*JsValue` -/

/-- The size classes of the Go allocator up to 32768 bytes. -/
def sizeClasses : List Nat :=
  [8, 16, 24, 32, 48, 64, 80, 96, 112, 128, 144, 160, 176, 192, 208, 224, 240, 256, 288, 320,
   352, 384, 416, 448, 480, 512, 576, 640, 704, 768, 896, 1024, 1152, 1280, 1408, 1536, 1792,
   2048, 2304, 2688, 3072, 3200, 3456, 4096, 4864, 5120, 5376, 6144, 6528, 6784, 6912, 8192,
   9472, 9728, 10240, 10880, 12288, 13568, 14336, 16384, 18432, 19072, 20480, 21760, 24576,
   27264, 28672, 32768]

/-- Go `runtime.roundupsize`: the size of the block that the allocator returns
for a request of `size` bytes. -/
def roundupsize (size : Nat) : Nat :=
  match sizeClasses.find? (fun c => size ≤ c) with
  | some c => c
  | none => (size + 8191) / 8192 * 8192

/-- The loop of `runtime.growslice` for a capacity of at least 256. -/
def growLoop : Nat → Nat → Nat → Nat
  | 0, newcap, _ => newcap
  | fuel + 1, newcap, newLen =>
    if 0 < newcap ∧ newcap < newLen then growLoop fuel (newcap + (newcap + 3 * 256) / 4) newLen
    else newcap

/-- Go `runtime.growslice` (Go 1.18 and later) for elements of 8 bytes: the
capacity of the new backing array when a slice of capacity `oldCap` must hold
`newLen` elements. -/
def growslice (oldCap newLen : Nat) : Nat :=
  let doublecap := oldCap + oldCap
  let newcap :=
    if newLen > doublecap then newLen
    else if oldCap < 256 then doublecap
    else growLoop newLen oldCap newLen
  roundupsize (newcap * 8) / 8

namespace GoSlice

/-- The empty slice `[]*JsValue{}`. -/
def empty : GoSlice := ⟨[], 0⟩

/-- The elements of the slice. -/
def elems (s : GoSlice) : List (Option Nat) := s.backing.take s.len

/-- The capacity of the slice. -/
def cap (s : GoSlice) : Nat := s.backing.length

/-- Overwrite the elements of a list from position `i` on. -/
def overwrite : List (Option Nat) → Nat → List (Option Nat) → List (Option Nat)
  | b, _, [] => b
  | b, i, x :: xs => overwrite (b.set i x) (i + 1) xs

/-- Go `append(s[:n], items...)` for `n ≤ len(s)`: in place when the capacity
suffices, otherwise into a new backing array. -/
def appendAt (s : GoSlice) (n : Nat) (items : List (Option Nat)) : GoSlice :=
  let newLen := n + items.length
  if newLen ≤ s.cap then ⟨overwrite s.backing n items, newLen⟩
  else
    let c := growslice s.cap newLen
    ⟨s.backing.take n ++ items ++ List.replicate (c - newLen) none, newLen⟩

/-- Go `append(s, items...)`. -/
def append (s : GoSlice) (items : List (Option Nat)) : GoSlice := appendAt s s.len items

end GoSlice

/-! ## package ast_interpreter: the built-in functions -/

/-- The value `JsValue{nil, Undefined}`. -/
def undefined : JsValue := ⟨.nil, .Undefined⟩

/-- Read through a `*JsArray`. -/
def arrayAt (a : Nat) : Go InterpreterStat JsArray := fun s =>
  match s.arrays.get? a with
  | some arr => .ok arr s
  | none => .panic (.runtime .nilPointerDereference) s

/-- Write through a `*JsArray`. -/
def arraySet (a : Nat) (arr : JsArray) : Go InterpreterStat Unit := fun s =>
  .ok () { s with arrays := s.arrays.set a arr }

/-- Allocate one `JsValue` for each element of a list, in order (the
addresses `&args[i]` of the elements of an argument slice). -/
def allocAll : List JsValue → Go InterpreterStat (List (Option Nat))
  | [] => pure []
  | v :: vs => do
    let p ← alloc v
    let ps ← allocAll vs
    return p :: ps

/-- The type assertion `.Value.(float64)` on the result of `ToNumber`. -/
def toNumberFloat (v : JsValue) : Go InterpreterStat F64 := do
  let n ← lift (ToNumber v)
  match n.Value with
  | .float64 f => return f
  | _ => Go.throw (.runtime .interfaceConversion)

/-- The text that `fmt.Println` writes for the payload of a `ToString`
result.  The payload is a `string` in every state that `Run` reaches; for any
other dynamic type Go writes its default format, which is abbreviated here to
a marker. -/
def fmtPrintln : Any → String
  | .string s => s ++ "\n"
  | _ => "<value>\n"

/-- The loop of the `log` closure of `InitInterpreterStat`. -/
def consoleLogLoop : List JsValue → Go InterpreterStat Unit
  | [] => pure ()
  | arg :: args => do
    let t ← lift (ToString arg)
    write (fmtPrintln t.Value)
    consoleLogLoop args

/-- Go `ast_interpreter.ArrayPush`. -/
def ArrayPush (this : JsValue) (args : List JsValue) : Go InterpreterStat JsValue := do
  match this.Value with
  | .ptrJsArray a =>
    let arr ← arrayAt a
    let items ← allocAll args
    let arr1 : JsArray := { Arr := arr.Arr.append items, Length := arr.Length + args.length }
    arraySet a arr1
    return ⟨.uint arr1.Length, .Number⟩
  | _ => Go.throw (.runtime .interfaceConversion)

/-- The deletion loop of `ArraySplice`: `deleteNum` times, append
`arr.Arr[index]` to `deleted` and close the gap in place.  Returns the array
and the deleted elements as the loop leaves them, and whether it ended in the
panic "index out of range" of `arr.Arr[index]`. -/
def spliceDelete : Nat → GoSlice → Nat → GoSlice → GoSlice × GoSlice × Bool
  | 0, arr, _, deleted => (arr, deleted, false)
  | n + 1, arr, index, deleted =>
    if index < arr.len then
      let x := (arr.backing.get? index).getD none
      let moved := (arr.backing.take arr.len).drop (index + 1)
      spliceDelete n (arr.appendAt index moved) index (deleted.append [x])
    else (arr, deleted, true)

/-- Go `ast_interpreter.ArraySplice`.  The array is changed through the
pointer as the function goes, so a panic leaves it partly changed, and the
field `Length` is never written.  The slice `restArr` shares the backing
array of `arr.Arr`: when the items are appended in place, `restArr` is read
after they were written. -/
def ArraySplice (this : JsValue) (args : List JsValue) : Go InterpreterStat JsValue := do
  match args with
  | a0 :: a1 :: rest =>
    let index0 := F64.toUint (← toNumberFloat a0)
    let deleteNum := F64.toInt (← toNumberFloat a1)
    let addItems ← allocAll rest
    match this.Value with
    | .ptrJsArray a =>
      let arr ← arrayAt a
      let index := if index0 > arr.Length then arr.Length else index0
      let d := spliceDelete deleteNum.toNat arr.Arr index GoSlice.empty
      let arr1 := d.1
      let deleted := d.2.1
      arraySet a { arr with Arr := arr1 }
      if d.2.2 then Go.throw (.runtime .indexOutOfRange)
      else if index > arr1.len then Go.throw (.runtime .sliceBoundsOutOfRange)
      else
        let n := arr1.len - index
        let arr2 := arr1.appendAt index addItems
        let inPlace : Bool := decide (index + addItems.length ≤ arr1.cap)
        let restArr : List (Option Nat) :=
          ((if inPlace then arr2.backing else arr1.backing).drop index).take n
        let arr3 := arr2.append restArr
        arraySet a { arr with Arr := arr3 }
        return ⟨.jsArray deleted deleted.len, .Array⟩
    | _ => Go.throw (.runtime .interfaceConversion)
  | _ =>
    Go.throw (.RuntimeError Loc.zero
      "the number of the arguments of splice should be at least 2")

/-- A call `f(this, args...)` of a native function of type
`func(JsValue, ...JsValue) JsValue`. -/
def callBuiltIn (f : GoFunc) (this : JsValue) (args : List JsValue) :
    Go InterpreterStat JsValue :=
  match f with
  | .consoleLog => do
    consoleLogLoop args
    return undefined
  | .ArrayPush => ArrayPush this args
  | .ArraySplice => ArraySplice this args
  | .wrapToString => lift (ToString this)
  | .wrapToNumber => lift (ToNumber this)
  | .ToString => Go.throw (.runtime .interfaceConversion)

/-- Go `ast_interpreter.Wrap`; the argument `primary` is not used. -/
def Wrap : Go InterpreterStat JsValue := do
  let ts ← alloc ⟨.func .wrapToString, .BuiltInFunction⟩
  let tn ← alloc ⟨.func .wrapToNumber, .BuiltInFunction⟩
  let inner ← alloc ⟨.map [("toString", ts), ("toNumber", tn)], .BuiltInObject⟩
  return ⟨.ptrJsValue inner, .BuiltInObject⟩

/-- The address of the global `ObjectPrototype` in the initial heap. -/
def ObjectPrototype : Option Nat := some 1

/-- The address of the global `ArrayPrototype` in the initial heap. -/
def ArrayPrototype : Option Nat := some 4

/-- The package-level variables `ObjectPrototype` and `ArrayPrototype` with
the values that their maps point to. -/
def globals : List JsValue :=
  [⟨.func .ToString, .BuiltInFunction⟩,
   ⟨.map [("toString", some 0)], .BuiltInObject⟩,
   ⟨.func .ArraySplice, .BuiltInFunction⟩,
   ⟨.func .ArrayPush, .BuiltInFunction⟩,
   ⟨.map [("splice", some 2), ("push", some 3)], .BuiltInObject⟩]

/-- Go `ast_interpreter.InitInterpreterStat`, given what standard output
holds already: the root scope binds `console` to an object whose property
`log` is the built-in.  The sources fix no language version (there is no
`go.mod`), so the program is built with the version of the toolchain, in which
each iteration of a loop has its own variable. -/
def InitInterpreterStat (stdout : String) : InterpreterStat :=
  { Scope := some 0,
    values := globals ++ [⟨.ptrJsObject 0, .Object⟩, ⟨.func .consoleLog, .BuiltInFunction⟩],
    scopes := [⟨none, [("console", some 5)]⟩],
    functions := [],
    objects := [⟨none, none, [("log", some 6)]⟩],
    arrays := [],
    stdout := stdout,
    loopVarPerIteration := true }

/-! ## package ast_interpreter: the evaluator -/

/-- Go `Scope.Get` with the recursion bounded by the number of scopes, which
is enough whenever the chain of parents has no cycle. -/
def Get (p : Option Nat) (k : String) : Go InterpreterStat (Option Nat) := fun s =>
  ScopeGet (s.scopes.length + 1) p k s

/-- Go `Scope.Update` with the recursion bounded by the number of scopes. -/
def Update (p : Option Nat) (k : String) (v : Option Nat) : Go InterpreterStat (Option Nat) :=
  fun s => ScopeUpdate (s.scopes.length + 1) p k v s

/-- The current scope `stat.Scope`. -/
def curScope : Go InterpreterStat (Option Nat) := fun s => .ok s.Scope s

/-- The string branch of `+` in `VisitBinaryExpr`:
`ToString(lValue).Value.(string) + ToString(rValue).Value.(string)`. -/
def stringPlus (lValue rValue : Option Nat) : Go InterpreterStat (Option Nat) := do
  let l ← lift (ToString (← deref lValue))
  match l.Value with
  | .string ls =>
    let r ← lift (ToString (← deref rValue))
    match r.Value with
    | .string rs => alloc ⟨.string (ls ++ rs), .String⟩
    | _ => Go.throw (.runtime .interfaceConversion)
  | _ => Go.throw (.runtime .interfaceConversion)

/-- The numeric branch of `+` in `VisitBinaryExpr`:
`ToNumber(lValue).Value.(float64) + ToNumber(rValue).Value.(float64)`. -/
def numberPlus (lValue rValue : Option Nat) : Go InterpreterStat (Option Nat) := do
  let lNum ← lift (ToNumber (← deref lValue))
  match lNum.Value with
  | .float64 a =>
    let b ← toNumberFloat (← deref rValue)
    alloc ⟨.float64 (F64.add a b), .Number⟩
  | _ => Go.throw (.runtime .interfaceConversion)

/-- The `switch op` of `VisitBinaryExpr`, once both operands are evaluated to
the pointers `lValue` and `rValue`; `loc` is `e.Loc`. -/
def applyBinary (loc : Loc) (op : T) (lValue rValue : Option Nat) :
    Go InterpreterStat (Option Nat) :=
  if op = TMinus ∨ op = TSlash ∨ op = TAsterisk ∨ op = TPercent then do
    let lNum ← toNumberFloat (← deref lValue)
    let rNum ← toNumberFloat (← deref rValue)
    if op = TMinus then alloc ⟨.float64 (F64.sub lNum rNum), .Number⟩
    else if op = TSlash then alloc ⟨.float64 (F64.div lNum rNum), .Number⟩
    else if op = TAsterisk then alloc ⟨.float64 (F64.mul lNum rNum), .Number⟩
    else if F64.toInt rNum = 0 then Go.throw (.runtime .integerDivideByZero)
    else alloc ⟨.int (Int.tmod (F64.toInt lNum) (F64.toInt rNum)), .Number⟩
  else if op = TPlus then do
    let l ← deref lValue
    if l.Typ = .String then stringPlus lValue rValue
    else
      let r ← deref rValue
      if r.Typ = .String then stringPlus lValue rValue
      else numberPlus lValue rValue
  else if op = TEqualsEquals then do
    let l ← deref lValue
    let r ← deref rValue
    if l.Typ = r.Typ then
      match l.Value.goEq r.Value with
      | some b => alloc ⟨.bool b, .Boolean⟩
      | none => Go.throw (.runtime .uncomparableType)
    else alloc ⟨.bool false, .Boolean⟩
  else if op = TLessThan ∨ op = TGreaterThan ∨ op = TLessThanEquals
      ∨ op = TGreaterThanEquals then do
    let l ← deref lValue
    let r ← deref rValue
    if l.Typ ≠ r.Typ then Go.throw (.RuntimeError loc "left type mismatch right type")
    else if l.Typ ≠ .Number then Go.throw (.RuntimeError loc "type must be number")
    else
      match l.Value, r.Value with
      | .float64 a, .float64 b =>
        if op = TLessThan then alloc ⟨.bool (F64.lt a b), .Boolean⟩
        else if op = TGreaterThan then alloc ⟨.bool (F64.gt a b), .Boolean⟩
        else if op = TLessThanEquals then alloc ⟨.bool (F64.le a b), .Boolean⟩
        else alloc ⟨.bool (F64.ge a b), .Boolean⟩
      | _, _ => Go.throw (.runtime .interfaceConversion)
  else Go.throw (.RuntimeError loc "unknown operator")

/-- The part of `VisitUnaryExpr` after the operand is evaluated to the
pointer `val`; `operand` is `unary.Value.Data`. -/
def applyUnary (loc : Loc) (op : T) (operand : Option E) (assoc : Association)
    (val : Option Nat) : Go InterpreterStat (Option Nat) :=
  if op = TExclamation then do
    let b := ToBoolean (← deref val)
    match b.Value with
    | .bool x => alloc ⟨.bool (!x), .Boolean⟩
    | _ => Go.throw (.runtime .interfaceConversion)
  else if op = TPlusPlus ∨ op = TMinusMinus then do
    let v ← deref val
    if v.Typ ≠ .Number then Go.throw (.RuntimeError loc "this operator need number operand")
    else
      let target : F64 := if op = TMinusMinus then F64.ofInt (-1) else F64.ofInt 1
      match v.Value with
      | .float64 f =>
        let nextVal ← alloc ⟨.float64 (F64.add f target), .Number⟩
        match operand with
        | some (E.EIdentifier key) =>
          if assoc = .AssociationRight then
            -- `defer stat.Scope.Update(key, nextVal)` runs once `return val` is reached
            let _ ← Update (← curScope) key nextVal
            return val
          else Update (← curScope) key nextVal
        | some (E.EMemberExpr _ _) =>
          store val ⟨.float64 (F64.add f target), v.Typ⟩
          return nextVal
        | _ => Go.throw (.RuntimeError loc "unknown type")
      | _ => Go.throw (.runtime .interfaceConversion)
  else Go.throw (.RuntimeError loc "unknown unary operator")

/-- The lookup of `VisitMemberExpr` once the object is evaluated to the
pointer `obj`. -/
def applyMember (obj : Option Nat) (property : String) : Go InterpreterStat (Option Nat) := do
  let o ← deref obj
  if o.Typ = .Object then
    match o.Value with
    | .ptrJsObject a =>
      let s ← Go.get
      match s.objects.get? a with
      | some ob => return (mapGet ob.Properties property).getD none
      | none => Go.throw (.runtime .nilPointerDereference)
    | _ => Go.throw (.runtime .interfaceConversion)
  else if o.Typ = .BuiltInObject then
    match o.Value with
    | .map m => return (mapGet m property).getD none
    | _ => Go.throw (.runtime .interfaceConversion)
  else
    let valWrap ← Wrap
    match valWrap.Value with
    | .ptrJsValue inner =>
      let i ← deref inner
      match i.Value with
      | .map m => return (mapGet m property).getD none
      | _ => Go.throw (.runtime .interfaceConversion)
    | _ => Go.throw (.runtime .interfaceConversion)

/-- The part of `VisitIndexExpr` after the target and the index are evaluated
to the pointers `targetArr` and `idx`. -/
def applyIndex (loc : Loc) (targetArr idx : Option Nat) : Go InterpreterStat (Option Nat) := do
  let t ← deref targetArr
  if t.Typ = .Array then
    match t.Value with
    | .ptrJsArray a =>
      let arr ← arrayAt a
      let i := F64.toUint (← toNumberFloat (← deref idx))
      if i ≥ arr.Length then alloc undefined
      else if i < arr.Arr.len then return (arr.Arr.backing.get? i).getD none
      else Go.throw (.runtime .indexOutOfRange)
    | _ => Go.throw (.runtime .interfaceConversion)
  else Go.throw (.RuntimeError loc "index expression can only be used for array or object")

/-- The insertion of `VisitObjectExpr` for a key evaluated to `k` and a value
evaluated to `val`: the map afterwards. -/
def objectKey (loc : Loc) (properties : List (String × Option Nat)) (k val : Option Nat) :
    Go InterpreterStat (List (String × Option Nat)) := do
  let kv ← deref k
  if kv.Typ = .String then
    match kv.Value with
    | .string str => return mapSet properties str val
    | _ => Go.throw (.runtime .interfaceConversion)
  else if kv.Typ = .Number then
    match kv.Value with
    | .float64 f => return mapSet properties (F64.format5 f) val
    | _ => Go.throw (.runtime .interfaceConversion)
  else
    Go.throw (.RuntimeError loc ((JsTypeToString kv.Typ).getD "" ++ " is not allowed to be keys"))

/-- Go `VisitFuncExpr`: the closure captures the current scope. -/
def VisitFuncExpr (id : Option EIdentifier) (params : List EIdentifier)
    (body : Option SBody) : Go InterpreterStat (Option Nat) := fun s =>
  let a := s.functions.length
  let s1 := { s with functions := s.functions ++ [⟨s.Scope, params, body⟩] }
  (do
    let fn ← alloc ⟨.ptrJsFunction a, .Function⟩
    match id with
    | some i =>
      ScopeSet (← curScope) i.Value fn
      return fn
    | none => return fn) s1

/-- Go `VisitFuncStmt`: `NewJsValue` receives a `JsFunction` struct, not a
pointer, which falls in its `default` case. -/
def VisitFuncStmt (id : Option EIdentifier) : Go InterpreterStat Unit := do
  let fn ← alloc undefined
  match id with
  | some i => ScopeSet (← curScope) i.Value fn
  | none => return ()

/-- The parameter loop of `Call`,
`for i, arg := range args { if i >= len(f.Params) { break }; s.Scope.Set(f.Params[i].Value, &arg) }`,
where `cell` is the address of the variable `arg`: one variable for the whole
loop (`perIteration = false`, the language before Go 1.22) or a new one in
each iteration (`perIteration = true`, the language that the program is built
with). -/
def bindParams (perIteration : Bool) (cell : Option Nat) :
    List EIdentifier → List JsValue → Go InterpreterStat Unit
  | _, [] => pure ()
  | params, arg :: args => do
    let c ← (if perIteration then alloc arg else do
      store cell arg
      pure cell)
    match params with
    | [] => return ()
    | p :: ps =>
      ScopeSet (← curScope) p.Value c
      bindParams perIteration cell ps args

/-- The start of `InterpreterStat.Call`, up to the end of the parameter loop:
allocate `returnValue`, make `NewScope(f.Closure)` the current scope and bind
the parameters in it.  Returns `returnValue`. -/
def callEntry (f : JsFunction) (args : List JsValue) : Go InterpreterStat (Option Nat) := do
  let returnValue ← alloc undefined
  let sc ← NewScope f.Closure
  Go.modify (fun s => { s with Scope := sc })
  let perIteration := (← Go.get).loopVarPerIteration
  let cell ← (if perIteration ∨ args = [] then pure none else alloc undefined)
  bindParams perIteration cell f.Params args
  return returnValue

/-- The deferred function of `InterpreterStat.Call`, applied to the outcome
of the rest of the call: it restores the scope `oldScope` and recovers the
panic value `err`.  The assertion `err.(JsValue)` holds for no panic value
that the program raises (a `return` statement panics with a `*JsValue`, which
is not a `JsValue`), so every panic is raised again. -/
def callDefer (oldScope : Option Nat) (r : Res InterpreterStat (Option Nat)) :
    Res InterpreterStat (Option Nat) :=
  match r with
  | .timeout => .timeout
  | .ok returnValue s1 => .ok returnValue { s1 with Scope := oldScope }
  | .panic err s1 =>
    match err with
    | .JsValuePtr p => .panic (.JsValuePtr p) { s1 with Scope := oldScope }
    | e => .panic e { s1 with Scope := oldScope }

mutual

/-- Go `ast_interpreter.EvaluateExpr`. -/
def EvaluateExpr : Nat → Option Expr → Go InterpreterStat (Option Nat)
  | 0, _ => Go.stuck
  | _ + 1, none => Go.throw (.runtime .nilPointerDereference)
  | fuel + 1, some (Expr.mk loc data) =>
    match data with
    | some (E.EAssign target assignment) => VisitAssignExpr fuel target assignment
    | some (E.ENumericLiteral v) => alloc ⟨.float64 (F64.parse v).1, .Number⟩
    | some (E.EStringLiteral v) => alloc ⟨.string v, .String⟩
    | some (E.EBoolLiteral v) => alloc ⟨.bool v, .Boolean⟩
    | some (E.EBinary op l r) => VisitBinaryExpr fuel loc op l r
    | some (E.EUnary op v a) => VisitUnaryExpr fuel loc op v a
    | some (E.EMemberExpr obj property) => VisitMemberExpr fuel obj property
    | some (E.EObjectLiteral proto _ properties) => VisitObjectExpr fuel loc proto properties
    | some (E.EArrayLiteral arr length) => VisitArrayExpr fuel arr length
    | some (E.ECallExpr callee args) => VisitCallExpr fuel loc callee args
    | some (E.EIdentifier v) => do Get (← curScope) v
    | some (E.EParen d) => EvaluateExpr fuel (some d)
    | some (E.EFunctionExpr id params body) => VisitFuncExpr id params body
    | some (E.EIndex target idx) => VisitIndexExpr fuel loc target idx
    | none => alloc undefined

/-- Go `ast_interpreter.EvaluateStmt`.  The type switch has no case for
`*SBlock`, `*SBody`, `*SClass`, `*SBreak` and `*SContinue`. -/
def EvaluateStmt : Nat → Option Stmt → Go InterpreterStat Unit
  | 0, _ => Go.stuck
  | _ + 1, none => Go.throw (.runtime .nilPointerDereference)
  | fuel + 1, some (Stmt.mk _ data) =>
    match data with
    | none => pure ()
    | some (S.SProgram body) => VisitStmts fuel body
    | some (S.SFor initializer condition reset body) =>
      VisitForLoopStmt fuel initializer condition reset body
    | some (S.SCondition branches) => VisitConditionStmt fuel branches
    | some (S.SFunctionDecl id _ _) => VisitFuncStmt id
    | some (S.SExpr e) => do
      let _ ← EvaluateExpr fuel (some e)
    | some (S.SReturn e) => VisitReturnStmt fuel e
    | some (S.SVarDecl id _ init) => VisitVarDeclStmt fuel id init
    | some _ => pure ()

/-- Go `VisitStmts`, and the same loop in `VisitProgram`, `runLoop` and
`Call`: `for _, stmt := range stmts { EvaluateStmt(stmt, stat) }`. -/
def VisitStmts : Nat → List Stmt → Go InterpreterStat Unit
  | 0, _ => Go.stuck
  | _ + 1, [] => pure ()
  | fuel + 1, stmt :: stmts => do
    EvaluateStmt fuel (some stmt)
    VisitStmts fuel stmts

/-- Go `VisitReturnStmt`: `panic(EvaluateExpr(...))`, the panic value being
the `*JsValue`. -/
def VisitReturnStmt : Nat → Expr → Go InterpreterStat Unit
  | 0, _ => Go.stuck
  | fuel + 1, e => do
    let v ← EvaluateExpr fuel (some e)
    Go.throw (.JsValuePtr v)

/-- Go `VisitVarDeclStmt`. -/
def VisitVarDeclStmt : Nat → EIdentifier → Option Expr → Go InterpreterStat Unit
  | 0, _, _ => Go.stuck
  | fuel + 1, id, init =>
    match init with
    | some e => do
      let v ← EvaluateExpr fuel (some e)
      ScopeSet (← curScope) id.Value v
    | none => do
      let v ← alloc undefined
      ScopeSet (← curScope) id.Value v

/-- The loop of `runLoop`:
`for IsTruthy(EvaluateExpr(forLoop.Condition, stat)) { body; reset }`. -/
def runLoopFor : Nat → Option Expr → Option Stmt → Option SBody → Go InterpreterStat Unit
  | 0, _, _, _ => Go.stuck
  | fuel + 1, condition, reset, body => do
    let c ← EvaluateExpr fuel condition
    if IsTruthy (← deref c) then
      match body with
      | some (SBody.mk _ (some stmts)) =>
        VisitStmts fuel stmts
        EvaluateStmt fuel reset
        runLoopFor fuel condition reset body
      | _ => Go.throw (.runtime .nilPointerDereference)
    else pure ()

/-- Go `runLoop`: the deferred function recovers `SContinue` (run the reset
statement and `runLoop` again), `SBreak` and nil (nothing), and raises any
other panic value again. -/
def runLoop : Nat → Option Expr → Option Stmt → Option SBody → Go InterpreterStat Unit
  | 0, _, _, _ => Go.stuck
  | fuel + 1, condition, reset, body => fun s =>
    match runLoopFor fuel condition reset body s with
    | .ok () s1 => .ok () s1
    | .timeout => .timeout
    | .panic .SContinue s1 =>
      (do
        EvaluateStmt fuel reset
        runLoop fuel condition reset body) s1
    | .panic .SBreak s1 => .ok () s1
    | .panic e s1 => .panic e s1

/-- Go `VisitForLoopStmt`: the deferred function pops the scope, swallows a
panic `SBreak` or `SContinue` and raises any other panic value again. -/
def VisitForLoopStmt : Nat → Option Stmt → Option Expr → Option Stmt → Option SBody →
    Go InterpreterStat Unit
  | 0, _, _, _, _ => Go.stuck
  | fuel + 1, initializer, condition, reset, body => fun s =>
    match EnterScope s with
    | .timeout => .timeout
    | .panic e s1 => .panic e s1
    | .ok () s1 =>
      match (do
          EvaluateStmt fuel initializer
          runLoop fuel condition reset body) s1 with
      | .timeout => .timeout
      | .ok () s2 => PopScope s2
      | .panic e s2 =>
        match PopScope s2 with
        | .timeout => .timeout
        | .panic e3 s3 => .panic e3 s3
        | .ok () s3 =>
          match e with
          | .SBreak => .ok () s3
          | .SContinue => .ok () s3
          | e => .panic e s3

/-- The loop of `VisitConditionStmt` over the branches. -/
def branchesLoop : Nat → List Branch → Go InterpreterStat Unit
  | 0, _ => Go.stuck
  | _ + 1, [] => pure ()
  | fuel + 1, Branch.mk condition body :: branches => do
    let c ← EvaluateExpr fuel condition
    if IsTruthy (← deref c) then
      match body with
      | some (SBody.mk _ (some stmts)) => VisitStmts fuel stmts
      | _ => Go.throw (.runtime .nilPointerDereference)
    else branchesLoop fuel branches

/-- Go `VisitConditionStmt`: the deferred function pops the scope. -/
def VisitConditionStmt : Nat → List Branch → Go InterpreterStat Unit
  | 0, _ => Go.stuck
  | fuel + 1, branches => fun s =>
    match EnterScope s with
    | .timeout => .timeout
    | .panic e s1 => .panic e s1
    | .ok () s1 =>
      match branchesLoop fuel branches s1 with
      | .timeout => .timeout
      | .ok () s2 => PopScope s2
      | .panic e s2 =>
        match PopScope s2 with
        | .timeout => .timeout
        | .panic e3 s3 => .panic e3 s3
        | .ok () s3 => .panic e s3

/-- Go `VisitBinaryExpr`. -/
def VisitBinaryExpr : Nat → Loc → T → Expr → Expr → Go InterpreterStat (Option Nat)
  | 0, _, _, _, _ => Go.stuck
  | fuel + 1, loc, op, left, right => do
    let lValue ← EvaluateExpr fuel (some left)
    let rValue ← EvaluateExpr fuel (some right)
    applyBinary loc op lValue rValue

/-- Go `VisitUnaryExpr`. -/
def VisitUnaryExpr : Nat → Loc → T → Expr → Association → Go InterpreterStat (Option Nat)
  | 0, _, _, _, _ => Go.stuck
  | fuel + 1, loc, op, value, assoc => do
    let val ← EvaluateExpr fuel (some value)
    applyUnary loc op value.Data assoc val

/-- Go `VisitMemberExpr`. -/
def VisitMemberExpr : Nat → Expr → EIdentifier → Go InterpreterStat (Option Nat)
  | 0, _, _ => Go.stuck
  | fuel + 1, obj, property => do
    let o ← EvaluateExpr fuel (some obj)
    applyMember o property.Value

/-- Go `VisitAssignExpr`: `*assignTarge = *assignValue`. -/
def VisitAssignExpr : Nat → Option Expr → Option Expr → Go InterpreterStat (Option Nat)
  | 0, _, _ => Go.stuck
  | fuel + 1, target, assignment => do
    let assignTarge ← EvaluateExpr fuel target
    let assignValue ← EvaluateExpr fuel assignment
    let v ← deref assignValue
    store assignTarge v
    return assignTarge

/-- The loop of `VisitArrayExpr`. -/
def arrayExprLoop : Nat → List Expr → GoSlice → Go InterpreterStat GoSlice
  | 0, _, _ => Go.stuck
  | _ + 1, [], arr => pure arr
  | fuel + 1, e :: es, arr => do
    let v ← EvaluateExpr fuel (some e)
    arrayExprLoop fuel es (arr.append [v])

/-- Go `VisitArrayExpr`. -/
def VisitArrayExpr : Nat → List Expr → Nat → Go InterpreterStat (Option Nat)
  | 0, _, _ => Go.stuck
  | fuel + 1, exprs, length => do
    let arr ← arrayExprLoop fuel exprs GoSlice.empty
    let s ← Go.get
    Go.set { s with arrays := s.arrays ++ [⟨arr, length⟩] }
    alloc ⟨.ptrJsArray s.arrays.length, .Array⟩

/-- The loop of `VisitObjectExpr`: the keys and values two by two. -/
def objectExprLoop : Nat → Loc → List Expr → List (String × Option Nat) →
    Go InterpreterStat (List (String × Option Nat))
  | 0, _, _, _ => Go.stuck
  | _ + 1, _, [], properties => pure properties
  | _ + 1, _, [_], _ => Go.throw (.runtime .indexOutOfRange)
  | fuel + 1, loc, ke :: ve :: rest, properties => do
    let k ← EvaluateExpr fuel (some ke)
    let val ← EvaluateExpr fuel (some ve)
    let properties1 ← objectKey loc properties k val
    objectExprLoop fuel loc rest properties1

/-- Go `VisitObjectExpr`. -/
def VisitObjectExpr : Nat → Loc → Option EIdentifier → List Expr →
    Go InterpreterStat (Option Nat)
  | 0, _, _, _ => Go.stuck
  | fuel + 1, loc, proto, exprs => do
    let properties ← objectExprLoop fuel loc exprs []
    let protoPtr ←
      (match proto with
      | some id => do Get (← curScope) id.Value
      | none => pure ObjectPrototype)
    let s ← Go.get
    Go.set { s with objects := s.objects ++ [⟨none, protoPtr, properties⟩] }
    alloc ⟨.ptrJsObject s.objects.length, .Object⟩

/-- Go `VisitIndexExpr`. -/
def VisitIndexExpr : Nat → Loc → Expr → Expr → Go InterpreterStat (Option Nat)
  | 0, _, _, _ => Go.stuck
  | fuel + 1, loc, target, idx => do
    let targetArr ← EvaluateExpr fuel (some target)
    let i ← EvaluateExpr fuel (some idx)
    applyIndex loc targetArr i

/-- The argument loop of `VisitCallExpr`: `args = append(args, *_arg)`. -/
def callArgsLoop : Nat → List Expr → List JsValue → Go InterpreterStat (List JsValue)
  | 0, _, _ => Go.stuck
  | _ + 1, [], args => pure args
  | fuel + 1, e :: es, args => do
    let a ← EvaluateExpr fuel (some e)
    let v ← deref a
    callArgsLoop fuel es (args ++ [v])

/-- Go `VisitCallExpr`.  `calleeValue` is a pointer: its `Type` is read
through it before the arguments are evaluated, and its `Type` and `Value` are
read through it again after them. -/
def VisitCallExpr : Nat → Loc → Expr → List Expr → Go InterpreterStat (Option Nat)
  | 0, _, _, _ => Go.stuck
  | fuel + 1, loc, callee, argExprs => do
    let calleePtr ← EvaluateExpr fuel (some callee)
    let calleeBefore ← deref calleePtr
    if calleeBefore.Typ ≠ .Function ∧ calleeBefore.Typ ≠ .BuiltInFunction then
      Go.throw (.RuntimeError loc " is not a function")
    else
      let this : JsValue ←
        (match callee.Data with
        | some (E.EMemberExpr obj _) => do
          let o ← EvaluateExpr fuel (some obj)
          deref o
        | _ => pure undefined)
      let args ← callArgsLoop fuel argExprs []
      let calleeValue ← deref calleePtr
      if calleeValue.Typ = .BuiltInFunction then
        match calleeValue.Value with
        | .func .ToString => Go.throw (.runtime .interfaceConversion)
        | .func f =>
          let result ← callBuiltIn f this args
          alloc result
        | _ => Go.throw (.runtime .interfaceConversion)
      else
        match calleeValue.Value with
        | .ptrJsFunction a =>
          let s ← Go.get
          match s.functions.get? a with
          | some f => Call fuel f args
          | none => Go.throw (.runtime .nilPointerDereference)
        | _ => Go.throw (.runtime .interfaceConversion)

/-- Go `InterpreterStat.Call`: `callEntry`, then the statements of the body,
under the deferred function `callDefer`. -/
def Call : Nat → JsFunction → List JsValue → Go InterpreterStat (Option Nat)
  | 0, _, _ => Go.stuck
  | fuel + 1, f, args => fun s =>
    callDefer s.Scope
      ((do
        let returnValue ← callEntry f args
        match f.Body with
        | some (SBody.mk _ (some stmts)) =>
          VisitStmts fuel stmts
          return returnValue
        | _ => Go.throw (.runtime .nilPointerDereference)) s)

end

/-- The outcome of `Run`: the process goes on (`exit`) or dies from a panic
that nothing recovered (`crash`), with what was written to standard output;
or the fuel ran out. -/
inductive Outcome where
  | exit (stdout : String)
  | crash (e : Panic) (stdout : String)
  | timeout
deriving DecidableEq, Repr

/-- The deferred function of `Run`, for the panic value `e` that `recover`
returns, `stdout` being what was written so far: a `RuntimeError` is printed
(a panic of `Logger.Print` goes on unwinding).  For any other value the
assertion `err, isRuntimeErr := err.(RuntimeError)` fails, and the `err` that
`panic(err)` raises in the `else` branch is the variable of the `if`
statement, the zero `RuntimeError`, not the value recovered. -/
def runDefer (code : String) (e : Panic) (stdout : String) : Outcome :=
  match e with
  | .RuntimeError loc msg =>
    let r := Print code loc msg
    if r.2 then .crash (.runtime .indexOutOfRange) (stdout ++ r.1)
    else .exit (stdout ++ r.1)
  | _ => .crash (.RuntimeError Loc.zero "") stdout

/-- Go `ast_interpreter.Run`, under its deferred function `runDefer`. -/
def Run (fuel : Nat) (code : String) : Outcome :=
  match NewParser fuel code with
  | none => .timeout
  | some p =>
    if p.HasError then .exit (p.stdout ++ "program stops due to error\n")
    else
      match Parse fuel p with
      | .timeout => .timeout
      | .panic e p1 => runDefer code e p1.stdout
      | .ok ast p1 =>
        match EvaluateStmt fuel (some ast) (InitInterpreterStat p1.stdout) with
        | .timeout => .timeout
        | .ok () s => .exit s.stdout
        | .panic e s => runDefer code e s.stdout

/-! ## package ast_interpreter: the test of the array methods -/

/-- The loop of `checkEqual`: `array.Arr[i]` panics past the length of the
slice, and `.Value != item` compares the payload with a `float64`. -/
def checkEqualLoop (array : JsArray) :
    Nat → List F64 → List String → Go InterpreterStat (List String)
  | _, [], errors => pure errors
  | i, item :: rest, errors => do
    if i < array.Arr.len then
      let v ← deref ((array.Arr.backing.get? i).getD none)
      if v.Value.goEq (.float64 item) = some true then checkEqualLoop array (i + 1) rest errors
      else checkEqualLoop array (i + 1) rest (errors ++ ["数组中元素应该和原生一致，"])
    else Go.throw (.runtime .indexOutOfRange)

/-- Go `checkEqual` of `builtIn_test.go` for the array at `a`: the messages
of the calls of `t.Error`, in order. -/
def checkEqual (a : Nat) (arr : List F64) : Go InterpreterStat (List String) := do
  let array ← arrayAt a
  let errors : List String :=
    if array.Length ≠ arr.length then
      ["长度应该为" ++ toString arr.length ++ "，结果为" ++ toString array.Length]
    else []
  checkEqualLoop array 0 arr errors

/-- Go `TestArrayMethods` of `builtIn_test.go`, run on a state whose array 0
is the array of the test: the messages of the calls of `t.Error`. -/
def TestArrayMethods : Go InterpreterStat (List String) := do
  let jsArr : JsValue := ⟨.ptrJsArray 0, .Array⟩
  let arr : List F64 := [F64.ofNat 0, F64.ofNat 1, F64.ofNat 2]
  let _ ← ArrayPush jsArr [⟨.float64 (F64.ofNat 3), .Number⟩, ⟨.float64 (F64.ofNat 4), .Number⟩]
  let arr := arr ++ [F64.ofNat 3, F64.ofNat 4]
  let errors1 ← checkEqual 0 arr
  let _ ← ArraySplice jsArr [⟨.float64 (F64.ofNat 1), .Number⟩, ⟨.float64 (F64.ofNat 1), .Number⟩]
  let arr := arr.take 1 ++ arr.drop 2
  let errors2 ← checkEqual 0 arr
  return errors1 ++ errors2

/-! ## Observations -/

/-- How `Parse` ends on a source when it panics: the panic value and the flag
`HasError` at that point; `none` when `Parse` returns or the fuel runs out. -/
def parsePanic (fuel : Nat) (source : String) : Option (Panic × Bool) :=
  match NewParser fuel source with
  | none => none
  | some p =>
    match Parse fuel p with
    | .panic e p1 => some (e, p1.HasError)
    | _ => none

/-- The panic value that `recover` returns in the deferred function of `Run`,
before that function handles it: the panic in which `Parse` or the evaluation
of the program ends; `none` when the run ends without a panic or the fuel runs
out. -/
def recovered (fuel : Nat) (code : String) : Option Panic :=
  match NewParser fuel code with
  | none => none
  | some p =>
    if p.HasError then none
    else
      match Parse fuel p with
      | .timeout => none
      | .panic e _ => some e
      | .ok ast p1 =>
        match EvaluateStmt fuel (some ast) (InitInterpreterStat p1.stdout) with
        | .panic e _ => some e
        | _ => none

/-- The value that an expression evaluates to in the initial state of the
interpreter; `none` when the evaluation panics, returns nil or runs out of
fuel. -/
def valueOf (fuel : Nat) (e : Expr) : Option JsValue :=
  match EvaluateExpr fuel (some e) (InitInterpreterStat "") with
  | .ok (some a) s => s.values.get? a
  | _ => none

/-- A numeric literal as an expression node. -/
def numLit (text : String) : Expr := Expr.mk Loc.zero (some (E.ENumericLiteral text))

/-- A binary expression as an expression node. -/
def binExpr (op : T) (l r : Expr) : Expr := Expr.mk Loc.zero (some (E.EBinary op l r))

/-- The panic in which the evaluation of an expression ends in the initial
state of the interpreter; `none` when the evaluation returns or runs out of
fuel. -/
def exprPanic (fuel : Nat) (e : Expr) : Option Panic :=
  match EvaluateExpr fuel (some e) (InitInterpreterStat "") with
  | .panic p _ => some p
  | _ => none

/-- The payload of a value fits its type tag, as in the data model: a
`Number` holds a `float64`, a `String` a `string`, a `Boolean` a `bool`. -/
def JsValue.wellFormed (v : JsValue) : Bool :=
  match v.Typ, v.Value with
  | .Number, .float64 _ => true
  | .Number, _ => false
  | .String, .string _ => true
  | .String, _ => false
  | .Boolean, .bool _ => true
  | .Boolean, _ => false
  | _, _ => true

/-- A string literal as an expression node. -/
def strLit (text : String) : Expr := Expr.mk Loc.zero (some (E.EStringLiteral text))

/-- The initial state of the interpreter with more values on the heap. -/
def withValues (vs : List JsValue) : InterpreterStat :=
  { InitInterpreterStat "" with values := (InitInterpreterStat "").values ++ vs }

/-- A function value `function (x) \x7b \x7d` whose closure is the root scope. -/
def sampleFunction : JsFunction :=
  { Closure := some 0, Params := [⟨"x"⟩], Body := some (SBody.mk Loc.zero (some [])) }

/-- The primitive values of the data model: undefined and null without a
payload, a number with a `float64`, a string with a `string`, a boolean with a
`bool`. -/
def JsValue.primitive (v : JsValue) : Bool :=
  match v.Typ, v.Value with
  | .Undefined, .nil => true
  | .Null, .nil => true
  | .Number, .float64 _ => true
  | .String, .string _ => true
  | .Boolean, .bool _ => true
  | _, _ => false

/-- The nearest binding of `k` on the chain of scopes that starts at `p`, as
`Scope.Get` and `Scope.Update` walk it: the address of the first scope whose
`Env` has the key, with the pointer bound there; `some none` when the chain
ends without a binding; `none` when the walk leaves the heap or the fuel runs
out. -/
def nearestBinding : Nat → List Scope → Option Nat → String →
    Option (Option (Nat × Option Nat))
  | 0, _, _, _ => none
  | fuel + 1, scopes, p, k =>
    match p with
    | none => none
    | some a =>
      match scopes.get? a with
      | none => none
      | some sc =>
        match mapGet sc.Env k with
        | some v => some (some (a, v))
        | none => if sc.Parent ≠ none then nearestBinding fuel scopes sc.Parent k else some none

/-- An identifier as an expression node. -/
def ident (name : String) : Expr := Expr.mk Loc.zero (some (E.EIdentifier name))

/-- The state of the interpreter once `let x = 1;` ran from the initial
state. -/
def stateWithX : InterpreterStat :=
  { InitInterpreterStat "" with
    values := (InitInterpreterStat "").values ++ [⟨.float64 (F64.ofNat 1), .Number⟩],
    scopes := [⟨none, [("console", some 5), ("x", some 7)]⟩] }

/-- What the parameters are bound to when a call enters its body from the
initial state of the interpreter: the bindings of the scope that `callEntry`
makes current, each with the value that its pointer refers to.  The flag is
the field `loopVarPerIteration` of the state. -/
def entryBindings (perIteration : Bool) (f : JsFunction) (args : List JsValue) :
    Option (List (String × Option JsValue)) :=
  match callEntry f args { InitInterpreterStat "" with loopVarPerIteration := perIteration } with
  | .ok _ s0 =>
    match s0.Scope with
    | some a =>
      (s0.scopes.get? a).map
        (fun sc => sc.Env.map (fun kv => (kv.1, kv.2.bind (fun p => s0.values.get? p))))
    | none => none
  | _ => none

/-- A function value `function (a, b) \x7b \x7d` whose closure is the root scope. -/
def sampleFunction2 : JsFunction :=
  { Closure := some 0, Params := [⟨"a"⟩, ⟨"b"⟩], Body := some (SBody.mk Loc.zero (some [])) }

/-- A function value `function (a, a) \x7b \x7d` whose closure is the root scope. -/
def sampleFunction3 : JsFunction :=
  { Closure := some 0, Params := [⟨"a"⟩, ⟨"a"⟩], Body := some (SBody.mk Loc.zero (some [])) }

/-- The initial state of the interpreter with the array `[0, 1, 2]` of the
unit test `TestArrayMethods` on the heap, its `Length` being 3: the cells 7,
8 and 9 hold the elements. -/
def stateWithArray : InterpreterStat :=
  { InitInterpreterStat "" with
    values := (InitInterpreterStat "").values ++
      [⟨.float64 (F64.ofNat 0), .Number⟩, ⟨.float64 (F64.ofNat 1), .Number⟩,
       ⟨.float64 (F64.ofNat 2), .Number⟩],
    arrays := [⟨⟨[some 7, some 8, some 9], 3⟩, 3⟩] }

/-- The array literal `[1, 2, 3]` as an expression node. -/
def arrayLit : Expr :=
  Expr.mk Loc.zero (some (E.EArrayLiteral [numLit "1", numLit "2", numLit "3"] 3))

/-- The state of the interpreter once the literal `[1, 2, 3]` is evaluated in
the initial state: the cells 7, 8 and 9 hold the elements, the cell 10 the
array value, and the backing array of the slice grew to the capacity 4. -/
def stateWithLiteral : InterpreterStat :=
  { InitInterpreterStat "" with
    values := (InitInterpreterStat "").values ++
      [⟨.float64 (F64.ofNat 1), .Number⟩, ⟨.float64 (F64.ofNat 2), .Number⟩,
       ⟨.float64 (F64.ofNat 3), .Number⟩, ⟨.ptrJsArray 0, .Array⟩],
    arrays := [⟨⟨[some 7, some 8, some 9, none], 3⟩, 3⟩] }

/-- Every scope of `s` is still a scope of `s1`, at the same address and with
the same parent: the chains of parents of `s` are chains of `s1`. -/
def scopesKept (s s1 : InterpreterStat) : Prop :=
  ∀ a sc, s.scopes.get? a = some sc → ∃ sc1, s1.scopes.get? a = some sc1 ∧ sc1.Parent = sc.Parent

/-- The current scope of `s1` is the current scope of `s`, and the scopes of
`s` are kept. -/
def scopeKept (s s1 : InterpreterStat) : Prop :=
  s1.Scope = s.Scope ∧ scopesKept s s1

/-- An exit from `s`, normal or by a panic, satisfies `P`. -/
def onExit {α : Type} (P : InterpreterStat → InterpreterStat → Prop) (s : InterpreterStat)
    (r : Res InterpreterStat α) : Prop :=
  match r with
  | .ok _ s1 => P s s1
  | .panic _ s1 => P s s1
  | .timeout => True

/-- A Go function that keeps the current scope and the scopes on every exit,
from every state. -/
def keeps {α : Type} (m : Go InterpreterStat α) : Prop :=
  ∀ s, onExit scopeKept s (m s)

/-- Every function of the evaluator keeps the current scope and the scopes,
for one amount of fuel. -/
structure EvaluatorKeeps (fuel : Nat) : Prop where
  expr : ∀ e, keeps (EvaluateExpr fuel e)
  stmt : ∀ st, keeps (EvaluateStmt fuel st)
  stmts : ∀ l, keeps (VisitStmts fuel l)
  ret : ∀ e, keeps (VisitReturnStmt fuel e)
  varDecl : ∀ id init, keeps (VisitVarDeclStmt fuel id init)
  loopFor : ∀ c r b, keeps (runLoopFor fuel c r b)
  loop : ∀ c r b, keeps (runLoop fuel c r b)
  forStmt : ∀ i c r b, keeps (VisitForLoopStmt fuel i c r b)
  branches : ∀ l, keeps (branchesLoop fuel l)
  condition : ∀ l, keeps (VisitConditionStmt fuel l)
  binary : ∀ loc op l r, keeps (VisitBinaryExpr fuel loc op l r)
  unary : ∀ loc op v a, keeps (VisitUnaryExpr fuel loc op v a)
  member : ∀ obj p, keeps (VisitMemberExpr fuel obj p)
  assign : ∀ t a, keeps (VisitAssignExpr fuel t a)
  arrayLoop : ∀ es arr, keeps (arrayExprLoop fuel es arr)
  array : ∀ es n, keeps (VisitArrayExpr fuel es n)
  objectLoop : ∀ loc es ps, keeps (objectExprLoop fuel loc es ps)
  object : ∀ loc proto es, keeps (VisitObjectExpr fuel loc proto es)
  index : ∀ loc t i, keeps (VisitIndexExpr fuel loc t i)
  argsLoop : ∀ es args, keeps (callArgsLoop fuel es args)
  call : ∀ loc c es, keeps (VisitCallExpr fuel loc c es)
  callFn : ∀ f args, keeps (Call fuel f args)

/-- The state in which `TestArrayMethods` starts: the array 0 has the three
elements 0, 1 and 2 (the cells 7, 8 and 9) and the `Length` 1. -/
def testArrayState : InterpreterStat :=
  { stateWithArray with arrays := [⟨⟨[some 7, some 8, some 9], 3⟩, 1⟩] }

/-- The elements and the `Length` of the array 0 after a call of a built-in
on it, with the value returned; `none` when the call panics. -/
def arrayAfter (r : Res InterpreterStat JsValue) : Option (List (Option Nat) × Nat × JsValue) :=
  match r with
  | .ok v s => (s.arrays.get? 0).map (fun arr => (arr.Arr.elems, arr.Length, v))
  | _ => none

/-- The Number `n` as a value. -/
def numberValue (n : Nat) : JsValue := ⟨.float64 (F64.ofNat n), .Number⟩

/-- The messages of `t.Error` that a test ends with; `none` when it panics. -/
def testErrors (r : Res InterpreterStat (List String)) : Option (List String) :=
  match r with
  | .ok errors _ => some errors
  | _ => none

/-- The state in which `Run` leaves the interpreter when the program ends
normally; `none` when the lexer reported an error, or the parser or the
evaluation panicked, or the fuel ran out. -/
def finalState (fuel : Nat) (code : String) : Option InterpreterStat :=
  match NewParser fuel code with
  | none => none
  | some p =>
    if p.HasError then none
    else
      match Parse fuel p with
      | .ok ast p1 =>
        match EvaluateStmt fuel (some ast) (InitInterpreterStat p1.stdout) with
        | .ok () s => some s
        | _ => none
      | _ => none

/-- The keys of the property maps of all the objects on the heap once a
program ended, in the order of allocation; the first object is `console`. -/
def objectKeys (fuel : Nat) (code : String) : Option (List (List String)) :=
  (finalState fuel code).map (fun s => s.objects.map (fun o => o.Properties.map Prod.fst))

/-- The parser that `NewParser` makes of a source; the parser of no tokens
when the lexer runs out of fuel. -/
def parserOf (fuel : Nat) (source : String) : AstParser :=
  (NewParser fuel source).getD ⟨source, [], 0, false, ""⟩

/-- The panic value that the body of `Parse` ends with, if it panics. -/
def bodyPanic (fuel : Nat) (p : AstParser) : Option Panic :=
  match parseBody fuel p with
  | .panic e _ => some e
  | _ => none

/-- The parser at the point where the body of `Parse` panics; the parser
itself when it does not. -/
def parserAtPanic (fuel : Nat) (p : AstParser) : AstParser :=
  match parseBody fuel p with
  | .panic _ p1 => p1
  | _ => p

/-- What `Tokenizer` returns on a source: the tokens, the flag `HasError` and
what the lexer wrote; `none` when the fuel runs out. -/
def lexed (fuel : Nat) (source : String) : Option (List Token × Bool × String) :=
  (Tokenizer fuel (NewLexer source)).map (fun r => (r.1, r.2.HasError, r.2.stdout))

/-- The kind of the token of a word as the specification gives it: the kind of
the boolean literal for `true` and `false`, the kind of the keyword for a word
of the table `Keywords`, and `TIdentifier` for every other word. -/
def wordKind (w : String) : T :=
  if w = "true" then TTrue
  else if w = "false" then TFalse
  else
    match Keywords w with
    | some t => t
    | none => TIdentifier

/-- The regular expression `^[0-9]*(\.[0-9])?$` of the specification: decimal
digits, then nothing more or a literal `.` and exactly one decimal digit. -/
def matchesNumberSpec (s : String) : Bool :=
  match s.data.dropWhile F64.isDigit with
  | [] => true
  | [a, d] => a = '.' && F64.isDigit d
  | _ => false

/-- The parser of `10 - 2 - 3`, with the tokens that the lexer makes of it. -/
def plusChain : AstParser :=
  { RawSource := "10 - 2 - 3",
    Tokens := [⟨TNumericLiteral, ⟨0, 2, 1⟩⟩, ⟨TMinus, ⟨3, 1, 1⟩⟩, ⟨TNumericLiteral, ⟨5, 1, 1⟩⟩,
      ⟨TMinus, ⟨7, 1, 1⟩⟩, ⟨TNumericLiteral, ⟨9, 1, 1⟩⟩],
    Curr := 0, HasError := false, stdout := "" }

/-- The parser of `8 / 4 % 3`, with the tokens that the lexer makes of it. -/
def mulChain : AstParser :=
  { RawSource := "8 / 4 % 3",
    Tokens := [⟨TNumericLiteral, ⟨0, 1, 1⟩⟩, ⟨TSlash, ⟨2, 1, 1⟩⟩, ⟨TNumericLiteral, ⟨4, 1, 1⟩⟩,
      ⟨TPercent, ⟨6, 1, 1⟩⟩, ⟨TNumericLiteral, ⟨8, 1, 1⟩⟩],
    Curr := 0, HasError := false, stdout := "" }

/-- The parser of `1 < 2 > 3`, with the tokens that the lexer makes of it. -/
def compareChain : AstParser :=
  { RawSource := "1 < 2 > 3",
    Tokens := [⟨TNumericLiteral, ⟨0, 1, 1⟩⟩, ⟨TLessThan, ⟨2, 1, 1⟩⟩,
      ⟨TNumericLiteral, ⟨4, 1, 1⟩⟩, ⟨TGreaterThan, ⟨6, 1, 1⟩⟩, ⟨TNumericLiteral, ⟨8, 1, 1⟩⟩],
    Curr := 0, HasError := false, stdout := "" }

/-- The parser of `1 == 2 == 3`, with the tokens that the lexer makes of it. -/
def equalsChain : AstParser :=
  { RawSource := "1 == 2 == 3",
    Tokens := [⟨TNumericLiteral, ⟨0, 1, 1⟩⟩, ⟨TEqualsEquals, ⟨2, 2, 1⟩⟩,
      ⟨TNumericLiteral, ⟨5, 1, 1⟩⟩, ⟨TEqualsEquals, ⟨7, 2, 1⟩⟩, ⟨TNumericLiteral, ⟨10, 1, 1⟩⟩],
    Curr := 0, HasError := false, stdout := "" }

/-- An expression as text, for reading parse results: a literal or a name as
it is (a string between single quotes), a node as its operator followed by
its operands between parentheses, a postfix operator after its operand. -/
def showExpr : Nat → Expr → String
  | 0, _ => "..."
  | _ + 1, .mk _ none => "nil"
  | n + 1, .mk _ (some d) =>
    match d with
    | .EAssign t a =>
      "(= " ++ (t.map (showExpr n)).getD "nil" ++ " " ++ (a.map (showExpr n)).getD "nil" ++ ")"
    | .EBinary op l r =>
      "(" ++ Token2StringMap op ++ " " ++ showExpr n l ++ " " ++ showExpr n r ++ ")"
    | .EUnary op v .AssociationLeft => "(" ++ Token2StringMap op ++ " " ++ showExpr n v ++ ")"
    | .EUnary op v .AssociationRight => "(" ++ showExpr n v ++ " " ++ Token2StringMap op ++ ")"
    | .EIndex t i => "(index " ++ showExpr n t ++ " " ++ showExpr n i ++ ")"
    | .EMemberExpr o p => "(. " ++ showExpr n o ++ " " ++ p.Value ++ ")"
    | .EParen e => "(paren " ++ showExpr n e ++ ")"
    | .EStringLiteral v => "'" ++ v ++ "'"
    | .ENumericLiteral v => v
    | .EIdentifier v => v
    | .EFunctionExpr _ _ _ => "function"
    | .EBoolLiteral b => toString b
    | .ECallExpr c args =>
      "(call " ++ showExpr n c ++ (args.map (fun a => " " ++ showExpr n a)).foldl (· ++ ·) "" ++ ")"
    | .EArrayLiteral arr _ =>
      "(array" ++ (arr.map (fun a => " " ++ showExpr n a)).foldl (· ++ ·) "" ++ ")"
    | .EObjectLiteral _ _ properties =>
      "(object" ++ (properties.map (fun a => " " ++ showExpr n a)).foldl (· ++ ·) "" ++ ")"

/-- The initialiser of the declaration that a program starts with, as `Parse`
returns it; `none` when the program does not start with a declaration that
has one, or `Parse` does not return. -/
def firstInit (fuel : Nat) (source : String) : Option Expr :=
  match NewParser fuel source with
  | none => none
  | some p =>
    match Parse fuel p with
    | .ok (Stmt.mk _ (some (S.SProgram (Stmt.mk _ (some (S.SVarDecl _ _ (some e))) :: _)))) _ =>
      some e
    | _ => none

/-- Every parent of the scopes of a list, counted from the address `i`, lies
below its child: a scope is made by `NewScope` after its parent, so this holds
of every heap that the interpreter builds, and it rules out a cycle. -/
def parentsBelow : Nat → List Scope → Bool
  | _, [] => true
  | i, sc :: rest =>
    (match sc.Parent with
    | some b => decide (b < i)
    | none => true) && parentsBelow (i + 1) rest

/-- The root of the chain of scopes that starts at `p`: the address of the
first scope whose `Parent` is nil; `none` when the walk leaves the heap or the
fuel runs out. -/
def rootOf : Nat → List Scope → Option Nat → Option Nat
  | 0, _, _ => none
  | fuel + 1, scopes, p =>
    match p with
    | none => none
    | some a =>
      match scopes.get? a with
      | none => none
      | some sc => if sc.Parent ≠ none then rootOf fuel scopes sc.Parent else some a

/-- The state of the interpreter once `let x = 1;` ran, inside a block: the
scope 1 of the block, which binds `y`, is current, and its parent is the root
scope. -/
def stateWithChain : InterpreterStat :=
  { stateWithX with
    Scope := some 1,
    scopes := [⟨none, [("console", some 5), ("x", some 7)]⟩, ⟨some 0, [("y", some 7)]⟩] }

/-! ## Theorems -/

/-! ### Lemmas on the parameter loop of `Call` -/

theorem bind_ok {σ α β : Type} (m : Go σ α) (f : α → Go σ β) (s s1 : σ) (a : α)
    (h : m s = Res.ok a s1) : (m >>= f) s = f a s1 := by
  show Go.andThen m f s = f a s1
  unfold Go.andThen
  rw [h]

theorem mapGet_mapSet (env : List (String × Option Nat)) (k k1 : String) (v : Option Nat)
    (h : mapGet (mapSet env k v) k1 ≠ none) : k1 = k ∨ mapGet env k1 ≠ none := by
  induction env with
  | nil =>
    simp only [mapSet, mapGet] at h
    by_cases hk : k = k1
    · exact Or.inl hk.symm
    · simp [hk] at h
  | cons p rest ih =>
    obtain ⟨k2, v2⟩ := p
    simp only [mapSet] at h
    by_cases h2 : k2 = k
    · simp only [h2, if_true, mapGet] at h
      by_cases hk : k = k1
      · exact Or.inl hk.symm
      · right
        simp only [hk, if_false] at h
        simp only [mapGet, h2, hk, if_false]
        exact h
    · simp only [h2, if_false, mapGet] at h
      by_cases hk : k2 = k1
      · right
        simp [mapGet, hk]
      · simp only [hk, if_false] at h
        rcases ih h with h3 | h3
        · exact Or.inl h3
        · right
          simp only [mapGet, hk, if_false]
          exact h3

theorem scopeSet_last (base : List Scope) (parent : Option Nat)
    (env : List (String × Option Nat)) (k : String) (v : Option Nat) (s : InterpreterStat)
    (h : s.scopes = base ++ [⟨parent, env⟩]) :
    ScopeSet (some base.length) k v s
      = Res.ok () { s with scopes := base ++ [⟨parent, mapSet env k v⟩] } := by
  unfold ScopeSet
  simp [h]

theorem bindParams_spec (perIteration : Bool) (cell : Option Nat) (base : List Scope)
    (parent : Option Nat) (args : List JsValue) :
    ∀ (params : List EIdentifier) (env : List (String × Option Nat)) (s : InterpreterStat),
      s.Scope = some base.length → s.scopes = base ++ [⟨parent, env⟩] →
      (perIteration = false → args ≠ [] → ∃ a, cell = some a ∧ a < s.values.length) →
      ∃ s1 env1, bindParams perIteration cell params args s = Res.ok () s1
        ∧ s1.Scope = some base.length
        ∧ s1.scopes = base ++ [⟨parent, env1⟩]
        ∧ (∀ k, mapGet env1 k ≠ none →
            mapGet env k ≠ none ∨ k ∈ (params.take args.length).map EIdentifier.Value) := by
  induction args with
  | nil =>
    intro params env s hs hsc _
    refine ⟨s, env, ?_, hs, hsc, fun k hk => Or.inl hk⟩
    cases params <;> rfl
  | cons arg args ih =>
    intro params env s hs hsc hcell
    -- the state after the loop variable received `arg`
    have hstep : ∃ c s', (if perIteration = true then alloc arg else do
            store cell arg
            pure cell : Go InterpreterStat (Option Nat)) s = Res.ok c s'
          ∧ s'.Scope = some base.length ∧ s'.scopes = base ++ [⟨parent, env⟩]
          ∧ s.values.length ≤ s'.values.length := by
      cases perIteration with
      | true =>
        exact ⟨_, _, rfl, hs, hsc, by simp⟩
      | false =>
        obtain ⟨a, ha, hlt⟩ := hcell rfl (by simp)
        refine ⟨cell, { s with values := s.values.set a arg }, ?_, hs, hsc, by simp⟩
        simp only [Bool.false_eq_true, if_false]
        have h1 : store cell arg s = Res.ok () { s with values := s.values.set a arg } := by
          simp [store, ha, hlt]
        rw [bind_ok _ _ _ _ _ h1]
        rfl
    obtain ⟨c, s', h1, hs', hsc', hlen⟩ := hstep
    cases params with
    | nil =>
      refine ⟨s', env, ?_, hs', hsc', fun k hk => Or.inl hk⟩
      simp only [bindParams]
      rw [bind_ok _ _ _ _ _ h1]
      rfl
    | cons p ps =>
      have h2 : ScopeSet (some base.length) p.Value c s'
          = Res.ok () { s' with scopes := base ++ [⟨parent, mapSet env p.Value c⟩] } :=
        scopeSet_last base parent env p.Value c s' hsc'
      obtain ⟨s1, env1, h3, h4, h5, h6⟩ :=
        ih ps (mapSet env p.Value c) { s' with scopes := base ++ [⟨parent, mapSet env p.Value c⟩] }
          hs' rfl (by
            intro hp _
            obtain ⟨a, ha, hlt⟩ := hcell hp (by simp)
            exact ⟨a, ha, Nat.lt_of_lt_of_le hlt hlen⟩)
      refine ⟨s1, env1, ?_, h4, h5, ?_⟩
      · simp only [bindParams]
        rw [bind_ok _ _ _ _ _ h1]
        have hcur : curScope s' = Res.ok (some base.length) s' := by
          simp only [curScope, hs']
        rw [bind_ok _ _ _ _ _ hcur, bind_ok _ _ _ _ _ h2]
        exact h3
      · intro k hk
        rcases h6 k hk with h7 | h7
        · rcases mapGet_mapSet env p.Value k c h7 with h8 | h8
          · right
            simp [h8]
          · exact Or.inl h8
        · right
          simp only [List.take_succ_cons, List.map_cons, List.length_cons, List.mem_cons]
          exact Or.inr h7

theorem callEntry_caller (f : JsFunction) (args : List JsValue) (s : InterpreterStat)
    (c : Option Nat) : callEntry f args { s with Scope := c } = callEntry f args s := rfl

theorem callEntry_spec (f : JsFunction) (args : List JsValue) (s : InterpreterStat) :
    ∃ rv s0 env, callEntry f args s = Res.ok rv s0
      ∧ s0.Scope = some s.scopes.length
      ∧ s0.scopes = s.scopes ++ [⟨f.Closure, env⟩]
      ∧ (∀ k, mapGet env k ≠ none → k ∈ (f.Params.take args.length).map EIdentifier.Value) := by
  -- the state once the new scope is current
  let s3 : InterpreterStat :=
    { s with values := s.values ++ [undefined], scopes := s.scopes ++ [⟨f.Closure, []⟩],
             Scope := some s.scopes.length }
  -- the state once the loop variable is allocated
  have hcell : ∃ cell s4, (if s.loopVarPerIteration = true ∨ args = [] then pure none
        else alloc undefined : Go InterpreterStat (Option Nat)) s3 = Res.ok cell s4
      ∧ s4.Scope = some s.scopes.length ∧ s4.scopes = s.scopes ++ [⟨f.Closure, []⟩]
      ∧ s4.loopVarPerIteration = s.loopVarPerIteration
      ∧ (s.loopVarPerIteration = false → args ≠ [] → ∃ a, cell = some a ∧ a < s4.values.length) := by
    by_cases h : s.loopVarPerIteration = true ∨ args = []
    · refine ⟨none, s3, by rw [if_pos h]; rfl, rfl, rfl, rfl, ?_⟩
      intro h1 h2
      rcases h with h | h
      · rw [h1] at h
        exact absurd h (by simp)
      · exact absurd h h2
    · refine ⟨some s3.values.length, { s3 with values := s3.values ++ [undefined] },
        by rw [if_neg h]; rfl, rfl, rfl, rfl, ?_⟩
      intro _ _
      exact ⟨_, rfl, by simp⟩
  obtain ⟨cell, s4, h1, h2, h3, h4, h5⟩ := hcell
  obtain ⟨s5, env, h6, h7, h8, h9⟩ :=
    bindParams_spec s.loopVarPerIteration cell s.scopes f.Closure args f.Params [] s4 h2 h3 h5
  refine ⟨some s.values.length, s5, env, ?_, h7, h8, ?_⟩
  · have hstart : callEntry f args s
        = ((if s.loopVarPerIteration = true ∨ args = [] then pure none
              else alloc undefined : Go InterpreterStat (Option Nat)) >>= fun cell => do
            bindParams s.loopVarPerIteration cell f.Params args
            pure (some s.values.length)) s3 := rfl
    rw [hstart, bind_ok _ _ s3 s4 cell h1, bind_ok _ _ s4 s5 () h6]
    rfl
  · intro k hk
    rcases h9 k hk with h | h
    · exact absurd rfl h
    · exact h

/-! ### Lemmas on the state monad and the coercions -/

theorem deref_some (s : InterpreterStat) (a : Nat) (v : JsValue)
    (h : s.values.get? a = some v) : deref (some a) s = Res.ok v s := by
  unfold deref
  simp only [h]

theorem ToString_wellFormed (v : JsValue) (h : v.wellFormed = true) :
    ∃ t tag, ToString v = Except.ok ⟨Any.string t, tag⟩ := by
  obtain ⟨val, typ⟩ := v
  cases typ <;> cases val <;> simp_all [JsValue.wellFormed, ToString, JsTypeToString]
  all_goals first | exact ⟨_, _, rfl⟩ | (split <;> exact ⟨_, _, rfl⟩)

theorem ToNumber_wellFormed (v : JsValue) (h : v.wellFormed = true) :
    ∃ f, ToNumber v = Except.ok ⟨Any.float64 f, JsType.Number⟩ := by
  obtain ⟨val, typ⟩ := v
  cases typ <;> cases val <;> simp_all [JsValue.wellFormed, ToNumber]
  all_goals first | exact ⟨_, rfl⟩ | (split <;> exact ⟨_, rfl⟩)

theorem stringPlus_ok (lp rp : Nat) (l r : JsValue) (s : InterpreterStat) (ls rs : String)
    (tl tr : JsType)
    (hl : s.values.get? lp = some l) (hr : s.values.get? rp = some r)
    (h1 : ToString l = Except.ok ⟨Any.string ls, tl⟩)
    (h2 : ToString r = Except.ok ⟨Any.string rs, tr⟩) :
    stringPlus (some lp) (some rp) s
      = Res.ok (some s.values.length)
          { s with values := s.values ++ [⟨Any.string (ls ++ rs), JsType.String⟩] } := by
  unfold stringPlus
  rw [bind_ok _ _ s s l (deref_some s lp l hl)]
  rw [bind_ok _ _ s s ⟨Any.string ls, tl⟩ (by simp only [lift, h1])]
  simp only []
  rw [bind_ok _ _ s s r (deref_some s rp r hr)]
  rw [bind_ok _ _ s s ⟨Any.string rs, tr⟩ (by simp only [lift, h2])]
  rfl

theorem numberPlus_ok (lp rp : Nat) (l r : JsValue) (s : InterpreterStat) (a b : F64)
    (hl : s.values.get? lp = some l) (hr : s.values.get? rp = some r)
    (h1 : ToNumber l = Except.ok ⟨Any.float64 a, JsType.Number⟩)
    (h2 : ToNumber r = Except.ok ⟨Any.float64 b, JsType.Number⟩) :
    numberPlus (some lp) (some rp) s
      = Res.ok (some s.values.length)
          { s with values := s.values ++ [⟨Any.float64 (F64.add a b), JsType.Number⟩] } := by
  unfold numberPlus
  rw [bind_ok _ _ s s l (deref_some s lp l hl)]
  rw [bind_ok _ _ s s ⟨Any.float64 a, JsType.Number⟩ (by simp only [lift, h1])]
  simp only []
  rw [bind_ok _ _ s s r (deref_some s rp r hr)]
  have h3 : toNumberFloat r s = Res.ok b s := by
    unfold toNumberFloat
    rw [bind_ok _ _ s s ⟨Any.float64 b, JsType.Number⟩ (by simp only [lift, h2])]
    rfl
  rw [bind_ok _ _ s s b h3]
  rfl

theorem applyBinary_plus (loc : Loc) (lp rp : Nat) (l r : JsValue) (s : InterpreterStat)
    (hl : s.values.get? lp = some l) (hr : s.values.get? rp = some r) :
    applyBinary loc T.TPlus (some lp) (some rp) s
      = if l.Typ = JsType.String ∨ r.Typ = JsType.String then stringPlus (some lp) (some rp) s
        else numberPlus (some lp) (some rp) s := by
  unfold applyBinary
  simp only [reduceCtorEq, or_self, ↓reduceIte]
  rw [bind_ok _ _ s s l (deref_some s lp l hl)]
  by_cases h : l.Typ = JsType.String
  · simp only [h, ↓reduceIte, true_or]
  · simp only [h, ↓reduceIte, false_or]
    rw [bind_ok _ _ s s r (deref_some s rp r hr)]
    split <;> rfl

/-! ### The claims C1 to C10 -/


/-- C1 (the code as it is): a `return` statement panics with a `*JsValue`,
which the deferred function of `Call` does not take for a `JsValue`, so the
panic is raised again whatever the pointer and the state are.  In scenario S2
the panic of the first `return` (the cell 11 of the function value) reaches
the deferred function of `Run`, which does not take it for a `RuntimeError`
and raises the zero `RuntimeError` in its place: the run writes nothing and
dies, where the claim expects the line `15.00000`.  A body that completes
without `return` does make the call give undefined. -/
theorem C1_return_panic_is_raised_again :
    recovered 1000 ("function make(x)\x7b return function(y)\x7b return x + y; \x7d; \x7d " ++
        "let f = make(10); console.log(f(5));")
      = some (Panic.JsValuePtr (some 11))
    ∧ Run 1000 ("function make(x)\x7b return function(y)\x7b return x + y; \x7d; \x7d " ++
        "let f = make(10); console.log(f(5));")
      = Outcome.crash (Panic.RuntimeError Loc.zero "") ""
    ∧ Run 1000 "function f()\x7b \x7d let r = f(); console.log(r);" = Outcome.exit "undefined\n"
    ∧ (∀ (oldScope p : Option Nat) (s : InterpreterStat),
        callDefer oldScope (Res.panic (Panic.JsValuePtr p) s)
          = Res.panic (Panic.JsValuePtr p) { s with Scope := oldScope })
    ∧ ∀ (code : String) (p : Option Nat) (stdout : String),
        runDefer code (Panic.JsValuePtr p) stdout
          = Outcome.crash (Panic.RuntimeError Loc.zero "") stdout :=
  ⟨by decide!, by decide!, by decide!, fun _ _ _ => rfl, fun _ _ _ => rfl⟩

/-- C2: a function value records the scope that is current when it is
created (`VisitFuncExpr` stores `stat.Scope` as `Closure` before anything
else).  A call, from whatever scope is current in the caller, evaluates the
body in a state `s0` whose current scope is a new scope (its address is past
all the scopes of the caller's state) with parent `f.Closure`; the older
scopes are as they were, and the new scope binds parameters only.  So an
identifier `k` that is not a bound parameter is looked up from `f.Closure`
on, and the lookup never looks at the caller's scope: the entry state is the
same for every caller scope `c`. -/
theorem C2_closure_scope (fuel : Nat) (f : JsFunction) (args : List JsValue)
    (s : InterpreterStat) (k : String) (n : Nat)
    (hk : k ∉ (f.Params.take args.length).map EIdentifier.Value) :
    (∀ (id : Option EIdentifier) (params : List EIdentifier) (body : Option SBody)
        (sc : InterpreterStat),
      VisitFuncExpr id params body sc
        = (match id with
            | some i => do
              ScopeSet sc.Scope i.Value (some sc.values.length)
              pure (some sc.values.length)
            | none => pure (some sc.values.length) : Go InterpreterStat (Option Nat))
          { sc with functions := sc.functions ++ [⟨sc.Scope, params, body⟩],
                    values := sc.values ++ [⟨Any.ptrJsFunction sc.functions.length, JsType.Function⟩] })
    ∧ ∃ rv s0 env, callEntry f args s = Res.ok rv s0
      ∧ (∀ c, callEntry f args { s with Scope := c } = Res.ok rv s0)
      ∧ s0.Scope = some s.scopes.length
      ∧ s0.scopes = s.scopes ++ [⟨f.Closure, env⟩]
      ∧ (∀ k1, mapGet env k1 ≠ none → k1 ∈ (f.Params.take args.length).map EIdentifier.Value)
      ∧ Call (fuel + 1) f args s
          = callDefer s.Scope
              ((match f.Body with
                | some (SBody.mk _ (some stmts)) => do
                  VisitStmts fuel stmts
                  pure rv
                | _ => Go.throw (Panic.runtime GoRuntimeError.nilPointerDereference)
                  : Go InterpreterStat (Option Nat)) s0)
      ∧ ScopeGet (n + 1) s0.Scope k s0
          = (if f.Closure ≠ none then ScopeGet n f.Closure k else alloc undefined) s0 := by
  constructor
  · intro id params body sc
    cases id <;> rfl
  · obtain ⟨rv, s0, env, h1, h2, h3, h4⟩ := callEntry_spec f args s
    refine ⟨rv, s0, env, h1, ?_, h2, h3, h4, ?_, ?_⟩
    · intro c
      rw [callEntry_caller, h1]
    · simp only [Call]
      rw [bind_ok _ _ s s0 rv h1]
    · have hnone : mapGet env k = none := by
        by_contra h
        exact hk (h4 k h)
      have hsc : scopeAt (some s.scopes.length) s0 = Res.ok ⟨f.Closure, env⟩ s0 := by
        simp [scopeAt, h3]
      rw [h2]
      simp only [ScopeGet]
      rw [bind_ok _ _ s0 s0 _ hsc]
      simp only [hnone]
      split <;> rfl

/-- Witness of C2: a call of `function (x)` (closure: the root scope) with
one argument resolves the free name `console` from the root scope on; and a
program in which the caller binds `x` anew logs the `x` of the scope where
the function was created. -/
theorem C2_closure_scope_witness :
    "console" ∉ (sampleFunction.Params.take [undefined].length).map EIdentifier.Value
    ∧ (∃ rv s0 env, callEntry sampleFunction [undefined] (InitInterpreterStat "") = Res.ok rv s0
        ∧ s0.Scope = some 1
        ∧ s0.scopes = (InitInterpreterStat "").scopes ++ [⟨some 0, env⟩]
        ∧ ScopeGet 2 s0.Scope "console" s0 = ScopeGet 1 (some 0) "console" s0)
    ∧ Run 1000 ("let x = 1; function f() \x7b console.log(x); \x7d " ++
        "function g() \x7b let x = 2; f(); \x7d g();") = Outcome.exit "1.00000\n" := by
  refine ⟨by decide, ?_, by decide!⟩
  obtain ⟨_, rv, s0, env, h1, _, h2, h3, _, _, h5⟩ :=
    C2_closure_scope 0 sampleFunction [undefined] (InitInterpreterStat "") "console" 1 (by decide)
  exact ⟨rv, s0, env, h1, h2, h3, h5⟩

/-- C3 (the code as it is): `EvaluateStmt` has no case for `break` and
`continue`, so both statements do nothing in every state, and the loop of
scenario S3 logs all of 0 to 4 where the claim expects 0, 1, 3. -/
theorem C3_break_and_continue_do_nothing :
    Run 1000 ("for (let i = 0; i < 5; i++) \x7b if (i == 2) \x7b continue; \x7d " ++
        "if (i == 4) \x7b break; \x7d console.log(i); \x7d")
      = Outcome.exit "0.00000\n1.00000\n2.00000\n3.00000\n4.00000\n"
    ∧ (∀ (fuel : Nat) (loc : Loc) (s : InterpreterStat),
        EvaluateStmt (fuel + 1) (some (Stmt.mk loc (some S.SBreak))) s = Res.ok () s)
    ∧ (∀ (fuel : Nat) (loc : Loc) (s : InterpreterStat),
        EvaluateStmt (fuel + 1) (some (Stmt.mk loc (some S.SContinue))) s = Res.ok () s) :=
  ⟨by decide!, fun _ _ _ => by simp [EvaluateStmt]; rfl,
    fun _ _ _ => by simp [EvaluateStmt]; rfl⟩

/-- C4 (the code as it is): the `else` branch has a nil condition, and
`VisitConditionStmt` passes it to `EvaluateExpr`, which dereferences it: when
the loop over the branches reaches an `else` branch the evaluation panics, in
every state.  In scenario S6 that nil dereference reaches the deferred
function of `Run`, which raises the zero `RuntimeError` in its place: the run
writes nothing and dies, where the claim expects the line `f`; with a truthy
condition the first branch does run. -/
theorem C4_else_branch_dereferences_nil :
    recovered 1000 "if (\"\") \x7b console.log(\"t\"); \x7d else \x7b console.log(\"f\"); \x7d"
      = some (Panic.runtime GoRuntimeError.nilPointerDereference)
    ∧ Run 1000 "if (\"\") \x7b console.log(\"t\"); \x7d else \x7b console.log(\"f\"); \x7d"
      = Outcome.crash (Panic.RuntimeError Loc.zero "") ""
    ∧ Run 1000 "if (\"x\") \x7b console.log(\"t\"); \x7d else \x7b console.log(\"f\"); \x7d"
      = Outcome.exit "t\n"
    ∧ ∀ (fuel : Nat) (body : Option SBody) (rest : List Branch) (s : InterpreterStat),
        branchesLoop (fuel + 2) (Branch.mk none body :: rest) s
          = Res.panic (Panic.runtime GoRuntimeError.nilPointerDereference) s :=
  ⟨by decide!, by decide!, by decide!, fun _ _ _ _ => by
    simp only [branchesLoop, EvaluateExpr]
    rfl⟩

/-- C5 (the code as it is): for a first token that is an identifier,
`primary` calls `calcLocFromPrevToken` before any token was consumed, and
`Prev` indexes `Tokens[-1]`: the body of `Parse` panics with a run-time
error.  The deferred function of `Parse` sets `HasError`, does not take the
panic for an `AstError` and raises the zero `AstError` in its place; the
deferred function of `Run` does not take that for a `RuntimeError` and raises
the zero `RuntimeError`.  So scenario S1 writes nothing and dies.  The same
statements after a leading `;` log the two lines of the claim. -/
theorem C5_leading_identifier_panics :
    bodyPanic 1000 (parserOf 1000 "console.log(1 + 2); console.log(\"a\" + 1);")
      = some (Panic.runtime GoRuntimeError.indexOutOfRange)
    ∧ parsePanic 1000 "console.log(1 + 2); console.log(\"a\" + 1);"
      = some (Panic.AstError Loc.zero "", true)
    ∧ Run 1000 "console.log(1 + 2); console.log(\"a\" + 1);"
      = Outcome.crash (Panic.RuntimeError Loc.zero "") ""
    ∧ Run 1000 ";console.log(1 + 2); console.log(\"a\" + 1);"
      = Outcome.exit "3.00000\na1.00000\n" :=
  ⟨by decide!, by decide!, by decide!, by decide!⟩

/-- C6 (the code as it is): on the empty source the token list is empty, and
`Parse` calls `calcLocFromPrevToken`, whose `Prev` indexes `Tokens[-1]`: the
body of `Parse` panics with a run-time error.  The deferred function of
`Parse` sets `HasError` and raises the zero `AstError` in its place, and the
deferred function of `Run` the zero `RuntimeError`: the run dies instead of
completing. -/
theorem C6_empty_source_panics :
    (Tokenizer 1000 (NewLexer "")).map (fun r => (r.1, r.2.HasError)) = some ([], false)
    ∧ bodyPanic 1000 (parserOf 1000 "") = some (Panic.runtime GoRuntimeError.indexOutOfRange)
    ∧ parsePanic 1000 "" = some (Panic.AstError Loc.zero "", true)
    ∧ Run 1000 "" = Outcome.crash (Panic.RuntimeError Loc.zero "") "" :=
  ⟨by decide!, by decide!, by decide!, by decide!⟩

/-- C7 (the code as it is): `IsTruthy` compares the payload of a number with
the constant `0` of type `int`, which no `float64` equals: every number with
a `float64` payload is truthy, the number zero included, so `if (x)` with
`x = 0` runs its body. -/
theorem C7_number_zero_is_truthy :
    IsTruthy ⟨Any.float64 F64.zero, JsType.Number⟩ = true
    ∧ (∀ f : F64, IsTruthy ⟨Any.float64 f, JsType.Number⟩ = true)
    ∧ valueOf 10 (numLit "0") = some ⟨Any.float64 F64.zero, JsType.Number⟩
    ∧ Run 1000 "let x = 0; if (x) \x7b console.log(\"t\"); \x7d" = Outcome.exit "t\n" :=
  ⟨by decide!, fun _ => rfl, by decide!, by decide!⟩

/-- C8 (the code as it is): `ToBoolean` has no case for undefined and null,
which fall in its `default` case and give true, while `IsTruthy` gives false
for both; so `!u` for an undefined `u` logs `false`. -/
theorem C8_ToBoolean_of_undefined_is_true :
    ToBoolean ⟨Any.nil, JsType.Undefined⟩ = ⟨Any.bool true, JsType.Boolean⟩
    ∧ IsTruthy ⟨Any.nil, JsType.Undefined⟩ = false
    ∧ ToBoolean ⟨Any.nil, JsType.Null⟩ = ⟨Any.bool true, JsType.Boolean⟩
    ∧ IsTruthy ⟨Any.nil, JsType.Null⟩ = false
    ∧ Run 1000 "let u; let x = !u; console.log(x);" = Outcome.exit "false\n" :=
  ⟨by decide!, by decide!, by decide!, by decide!, by decide!⟩

/-- The operator `+` on operands whose payloads fit their tags: once the
operands of `l + r` are evaluated to cells holding the values `l` and `r`
(a Number with a `float64`, a String with a `string`, a Boolean with a
`bool`), the expression evaluates to
a new cell: if `l` or `r` has the String tag, the String whose text is the
text of `ToString(l)` followed by the text of `ToString(r)`; otherwise the
Number `ToNumber(l) + ToNumber(r)`.  The heap afterwards is the heap after the
operands with the new cell appended, so the operands are not modified. -/
theorem plus_of_wellFormed (fuel : Nat) (loc : Loc) (left right : Expr) (s s1 s2 : InterpreterStat)
    (lp rp : Nat) (l r : JsValue)
    (el : EvaluateExpr fuel (some left) s = Res.ok (some lp) s1)
    (er : EvaluateExpr fuel (some right) s1 = Res.ok (some rp) s2)
    (hl : s2.values.get? lp = some l) (hr : s2.values.get? rp = some r)
    (wl : l.wellFormed = true) (wr : r.wellFormed = true) :
    (l.Typ = JsType.String ∨ r.Typ = JsType.String →
      ∃ ls rs tl tr, ToString l = Except.ok ⟨Any.string ls, tl⟩
        ∧ ToString r = Except.ok ⟨Any.string rs, tr⟩
        ∧ VisitBinaryExpr (fuel + 1) loc T.TPlus left right s
          = Res.ok (some s2.values.length)
              { s2 with values := s2.values ++ [⟨Any.string (ls ++ rs), JsType.String⟩] })
    ∧ (¬ (l.Typ = JsType.String ∨ r.Typ = JsType.String) →
      ∃ a b, ToNumber l = Except.ok ⟨Any.float64 a, JsType.Number⟩
        ∧ ToNumber r = Except.ok ⟨Any.float64 b, JsType.Number⟩
        ∧ VisitBinaryExpr (fuel + 1) loc T.TPlus left right s
          = Res.ok (some s2.values.length)
              { s2 with values := s2.values ++ [⟨Any.float64 (F64.add a b), JsType.Number⟩] }) := by
  have hv : VisitBinaryExpr (fuel + 1) loc T.TPlus left right s
      = applyBinary loc T.TPlus (some lp) (some rp) s2 := by
    simp only [VisitBinaryExpr]
    rw [bind_ok _ _ s s1 (some lp) el, bind_ok _ _ s1 s2 (some rp) er]
  rw [hv, applyBinary_plus loc lp rp l r s2 hl hr]
  constructor
  · intro h
    obtain ⟨ls, tl, h1⟩ := ToString_wellFormed l wl
    obtain ⟨rs, tr, h2⟩ := ToString_wellFormed r wr
    refine ⟨ls, rs, tl, tr, h1, h2, ?_⟩
    rw [if_pos h]
    exact stringPlus_ok lp rp l r s2 ls rs tl tr hl hr h1 h2
  · intro h
    obtain ⟨a, h1⟩ := ToNumber_wellFormed l wl
    obtain ⟨b, h2⟩ := ToNumber_wellFormed r wr
    refine ⟨a, b, h1, h2, ?_⟩
    rw [if_neg h]
    exact numberPlus_ok lp rp l r s2 a b hl hr h1 h2

/-- An instance of `plus_of_wellFormed`: `"a" + 1` in the initial state.  The operands evaluate to
the cells 7 and 8, and the sum is the new cell 9 holding the String
`a1.00000`, after the untouched cells of the operands. -/
theorem plus_of_wellFormed_instance :
    EvaluateExpr 1 (some (strLit "a")) (InitInterpreterStat "")
        = Res.ok (some 7) (withValues [⟨Any.string "a", JsType.String⟩])
    ∧ EvaluateExpr 1 (some (numLit "1")) (withValues [⟨Any.string "a", JsType.String⟩])
        = Res.ok (some 8)
            (withValues [⟨Any.string "a", JsType.String⟩,
              ⟨Any.float64 (F64.ofNat 1), JsType.Number⟩])
    ∧ VisitBinaryExpr 2 Loc.zero T.TPlus (strLit "a") (numLit "1") (InitInterpreterStat "")
        = Res.ok (some 9)
            (withValues [⟨Any.string "a", JsType.String⟩,
              ⟨Any.float64 (F64.ofNat 1), JsType.Number⟩,
              ⟨Any.string "a1.00000", JsType.String⟩]) := by
  have el : EvaluateExpr 1 (some (strLit "a")) (InitInterpreterStat "")
        = Res.ok (some 7) (withValues [⟨Any.string "a", JsType.String⟩]) := rfl
  have er : EvaluateExpr 1 (some (numLit "1")) (withValues [⟨Any.string "a", JsType.String⟩])
        = Res.ok (some 8)
            (withValues [⟨Any.string "a", JsType.String⟩,
              ⟨Any.float64 (F64.ofNat 1), JsType.Number⟩]) := rfl
  refine ⟨el, er, ?_⟩
  obtain ⟨ls, rs, tl, tr, h1, h2, h3⟩ :=
    (plus_of_wellFormed 1 Loc.zero (strLit "a") (numLit "1") _ _ _ 7 8 _ _ el er rfl rfl rfl rfl).1
      (Or.inl rfl)
  rw [h3]
  have e1 : ls = "a" := by
    have h : ToString ⟨Any.string "a", JsType.String⟩
        = Except.ok ⟨Any.string "a", JsType.String⟩ := rfl
    rw [h] at h1
    injection h1 with h1
    injection h1 with h1 _
    injection h1 with h1
    exact h1.symm
  have e2 : rs = "1.00000" := by
    have h : ToString ⟨Any.float64 (F64.ofNat 1), JsType.Number⟩
        = Except.ok ⟨Any.string "1.00000", JsType.String⟩ := rfl
    rw [h] at h2
    injection h2 with h2
    injection h2 with h2 _
    injection h2 with h2
    exact h2.symm
  subst e1 e2
  rfl

/-- C9 (the code as it is): the operands of `+` need not hold what their tag
says.  `%` makes a Number whose payload is a Go `int` (the defect of C10),
which `ToNumber` passes on as it is and `ToString` rejects, so with such an
operand the type assertion on the operand fails in either branch of `+`:
`5 % 3 + 1` and `"a" + 5 % 3` end in a run-time panic, where the claim
expects the Number 3 and the String `a2.00000`, and the run dies with nothing
logged.  With the literal `2` in the place of `5 % 3` both results are the
ones of the claim (`plus_of_wellFormed` covers every such pair of
operands). -/
theorem C9_plus_dies_on_a_remainder :
    valueOf 10 (binExpr T.TPercent (numLit "5") (numLit "3")) = some ⟨Any.int 2, JsType.Number⟩
    ∧ ToNumber ⟨Any.int 2, JsType.Number⟩ = Except.ok ⟨Any.int 2, JsType.Number⟩
    ∧ exprPanic 10 (binExpr T.TPlus (binExpr T.TPercent (numLit "5") (numLit "3")) (numLit "1"))
      = some (Panic.runtime GoRuntimeError.interfaceConversion)
    ∧ exprPanic 10 (binExpr T.TPlus (strLit "a") (binExpr T.TPercent (numLit "5") (numLit "3")))
      = some (Panic.runtime GoRuntimeError.interfaceConversion)
    ∧ recovered 1000 "let x = 5 % 3 + 1; console.log(x);"
      = some (Panic.runtime GoRuntimeError.interfaceConversion)
    ∧ Run 1000 "let x = 5 % 3 + 1; console.log(x);"
      = Outcome.crash (Panic.RuntimeError Loc.zero "") ""
    ∧ recovered 1000 "let x = \"a\" + 5 % 3; console.log(x);"
      = some (Panic.runtime GoRuntimeError.interfaceConversion)
    ∧ Run 1000 "let x = \"a\" + 5 % 3; console.log(x);"
      = Outcome.crash (Panic.RuntimeError Loc.zero "") ""
    ∧ Run 1000 "let x = 2 + 1; console.log(x);" = Outcome.exit "3.00000\n"
    ∧ Run 1000 "let x = \"a\" + 2; console.log(x);" = Outcome.exit "a2.00000\n" :=
  ⟨by decide!, rfl, by decide!, by decide!, by decide!, by decide!, by decide!, by decide!,
    by decide!, by decide!⟩

/-- C10 (the code as it is): `%` stores the Go `int` remainder as the payload
of the Number, not a `float64`: `5 % 3` is the Number with payload `int(2)`,
which `ToString` rejects with a failed type assertion, where the claim has
`ToString` and further arithmetic accept it.  So logging it, or adding 1 to
it, ends in that run-time panic, which the deferred function of `Run` does not
take for a `RuntimeError`: it raises the zero `RuntimeError` in its place and
the run dies with nothing logged.  A declaration alone, without any use of
the value, completes. -/
theorem C10_remainder_payload_is_an_int :
    valueOf 10 (Expr.mk Loc.zero (some (E.EBinary T.TPercent (numLit "5") (numLit "3"))))
      = some ⟨Any.int 2, JsType.Number⟩
    ∧ ToString ⟨Any.int 2, JsType.Number⟩
      = Except.error (Panic.runtime GoRuntimeError.interfaceConversion)
    ∧ recovered 1000 "let x = 5 % 3; console.log(x);"
      = some (Panic.runtime GoRuntimeError.interfaceConversion)
    ∧ Run 1000 "let x = 5 % 3; console.log(x);"
      = Outcome.crash (Panic.RuntimeError Loc.zero "") ""
    ∧ recovered 1000 "let x = 5 % 3 + 1;"
      = some (Panic.runtime GoRuntimeError.interfaceConversion)
    ∧ Run 1000 "let x = 5 % 3 + 1;"
      = Outcome.crash (Panic.RuntimeError Loc.zero "") ""
    ∧ Run 1000 "let x = 5 % 3;" = Outcome.exit "" :=
  ⟨by decide!, rfl, by decide!, by decide!, by decide!, by decide!, by decide!⟩

/-! ### Lemmas on the comparison operators -/

theorem VisitBinaryExpr_apply (fuel : Nat) (loc : Loc) (op : T) (left right : Expr)
    (s s1 s2 : InterpreterStat) (lp rp : Option Nat)
    (el : EvaluateExpr fuel (some left) s = Res.ok lp s1)
    (er : EvaluateExpr fuel (some right) s1 = Res.ok rp s2) :
    VisitBinaryExpr (fuel + 1) loc op left right s = applyBinary loc op lp rp s2 := by
  simp only [VisitBinaryExpr]
  rw [bind_ok _ _ s s1 lp el, bind_ok _ _ s1 s2 rp er]

theorem goEq_primitive (l r : JsValue) (wl : l.primitive = true) (wr : r.primitive = true)
    (ht : l.Typ = r.Typ) :
    ∃ b, l.Value.goEq r.Value = some b
      ∧ (b = true ↔ (match l.Value, r.Value with
          | Any.float64 x, Any.float64 y => F64.eq x y = true
          | x, y => x = y)) := by
  obtain ⟨lv, lt⟩ := l
  obtain ⟨rv, rt⟩ := r
  simp only at ht
  subst ht
  cases lt <;> cases lv <;> simp [JsValue.primitive] at wl <;>
    cases rv <;> simp [JsValue.primitive] at wr <;> simp [Any.goEq]

theorem applyBinary_equals (loc : Loc) (lp rp : Nat) (l r : JsValue) (s : InterpreterStat)
    (hl : s.values.get? lp = some l) (hr : s.values.get? rp = some r) :
    applyBinary loc T.TEqualsEquals (some lp) (some rp) s
      = if l.Typ = r.Typ then
          (match l.Value.goEq r.Value with
            | some b => alloc ⟨Any.bool b, JsType.Boolean⟩
            | none => Go.throw (Panic.runtime GoRuntimeError.uncomparableType)) s
        else alloc ⟨Any.bool false, JsType.Boolean⟩ s := by
  unfold applyBinary
  simp only [reduceCtorEq, or_self, ↓reduceIte]
  rw [bind_ok _ _ s s l (deref_some s lp l hl), bind_ok _ _ s s r (deref_some s rp r hr)]
  split <;> rfl

theorem applyBinary_compare (loc : Loc) (op : T) (lp rp : Nat) (l r : JsValue)
    (s : InterpreterStat)
    (hop : op = T.TLessThan ∨ op = T.TGreaterThan ∨ op = T.TLessThanEquals
      ∨ op = T.TGreaterThanEquals)
    (hl : s.values.get? lp = some l) (hr : s.values.get? rp = some r) :
    applyBinary loc op (some lp) (some rp) s
      = (if l.Typ ≠ r.Typ then Go.throw (Panic.RuntimeError loc "left type mismatch right type")
        else if l.Typ ≠ JsType.Number then Go.throw (Panic.RuntimeError loc "type must be number")
        else
          match l.Value, r.Value with
          | Any.float64 a, Any.float64 b =>
            if op = T.TLessThan then alloc ⟨Any.bool (F64.lt a b), JsType.Boolean⟩
            else if op = T.TGreaterThan then alloc ⟨Any.bool (F64.gt a b), JsType.Boolean⟩
            else if op = T.TLessThanEquals then alloc ⟨Any.bool (F64.le a b), JsType.Boolean⟩
            else alloc ⟨Any.bool (F64.ge a b), JsType.Boolean⟩
          | _, _ => Go.throw (Panic.runtime GoRuntimeError.interfaceConversion)) s := by
  unfold applyBinary
  have h1 : ¬ (op = T.TMinus ∨ op = T.TSlash ∨ op = T.TAsterisk ∨ op = T.TPercent) := by
    rcases hop with h | h | h | h <;> simp [h]
  have h2 : ¬ op = T.TPlus := by
    rcases hop with h | h | h | h <;> simp [h]
  have h3 : ¬ op = T.TEqualsEquals := by
    rcases hop with h | h | h | h <;> simp [h]
  rw [if_neg h1, if_neg h2, if_neg h3, if_pos hop]
  rw [bind_ok _ _ s s l (deref_some s lp l hl), bind_ok _ _ s s r (deref_some s rp r hr)]

/-! ### Lemmas on the chain of scopes -/

theorem scopeAt_some (s : InterpreterStat) (a : Nat) (sc : Scope)
    (h : s.scopes.get? a = some sc) : scopeAt (some a) s = Res.ok sc s := by
  unfold scopeAt
  simp only [h]

theorem mapGet_mapSet_same (env : List (String × Option Nat)) (k : String) (v : Option Nat) :
    mapGet (mapSet env k v) k = some v := by
  induction env with
  | nil => simp [mapSet, mapGet]
  | cons p rest ih =>
    obtain ⟨k1, v1⟩ := p
    by_cases h : k1 = k
    · simp [mapSet, mapGet, h]
    · simp [mapSet, mapGet, h, ih]

theorem ScopeGet_found (s : InterpreterStat) (k : String) (a : Nat) (v : Option Nat) :
    ∀ (n : Nat) (p : Option Nat), nearestBinding n s.scopes p k = some (some (a, v)) →
      ScopeGet n p k s = Res.ok v s := by
  intro n
  induction n with
  | zero =>
    intro p h
    simp [nearestBinding] at h
  | succ n ih =>
    intro p h
    cases p with
    | none => simp [nearestBinding] at h
    | some b =>
      cases hget : s.scopes.get? b with
      | none => simp only [nearestBinding, hget] at h; exact absurd h (by simp)
      | some sc =>
        simp only [ScopeGet]
        rw [bind_ok _ _ s s sc (scopeAt_some s b sc hget)]
        cases hm : mapGet sc.Env k with
        | some v1 =>
          simp only [nearestBinding, hget, hm, Option.some.injEq, Prod.mk.injEq] at h
          rw [← h.2]
          rfl
        | none =>
          simp only [nearestBinding, hget, hm] at h
          by_cases hp : sc.Parent ≠ none
          · rw [if_pos hp] at h
            simp only [hp, ne_eq, not_false_eq_true, ↓reduceIte]
            exact ih sc.Parent h
          · rw [if_neg hp] at h
            exact absurd h (by simp)

theorem ScopeGet_unbound (s : InterpreterStat) (k : String) :
    ∀ (n : Nat) (p : Option Nat), nearestBinding n s.scopes p k = some none →
      ScopeGet n p k s = alloc undefined s := by
  intro n
  induction n with
  | zero =>
    intro p h
    simp [nearestBinding] at h
  | succ n ih =>
    intro p h
    cases p with
    | none => simp [nearestBinding] at h
    | some b =>
      cases hget : s.scopes.get? b with
      | none => simp only [nearestBinding, hget] at h; exact absurd h (by simp)
      | some sc =>
        simp only [ScopeGet]
        rw [bind_ok _ _ s s sc (scopeAt_some s b sc hget)]
        cases hm : mapGet sc.Env k with
        | some v1 =>
          simp only [nearestBinding, hget, hm] at h
          exact absurd h (by simp)
        | none =>
          simp only [nearestBinding, hget, hm] at h
          by_cases hp : sc.Parent ≠ none
          · rw [if_pos hp] at h
            simp only [hp, ne_eq, not_false_eq_true, ↓reduceIte]
            exact ih sc.Parent h
          · simp only [hp, ↓reduceIte]
            rfl

theorem ScopeUpdate_found (k : String) (a : Nat) (v0 v : Option Nat) :
    ∀ (n : Nat) (p : Option Nat) (s : InterpreterStat),
      nearestBinding n s.scopes p k = some (some (a, v0)) →
      ∃ sc, s.scopes.get? a = some sc ∧ mapGet sc.Env k = some v0
        ∧ ScopeUpdate n p k v s
          = Res.ok v { s with scopes := s.scopes.set a { sc with Env := mapSet sc.Env k v } } := by
  intro n
  induction n with
  | zero =>
    intro p s h
    simp [nearestBinding] at h
  | succ n ih =>
    intro p s h
    cases p with
    | none => simp [nearestBinding] at h
    | some b =>
      cases hget : s.scopes.get? b with
      | none => simp only [nearestBinding, hget] at h; exact absurd h (by simp)
      | some sc =>
        simp only [ScopeUpdate]
        rw [bind_ok _ _ s s sc (scopeAt_some s b sc hget)]
        cases hm : mapGet sc.Env k with
        | some v1 =>
          simp only [nearestBinding, hget, hm, Option.some.injEq, Prod.mk.injEq] at h
          obtain ⟨h1, h2⟩ := h
          subst h1 h2
          refine ⟨sc, hget, hm, ?_⟩
          have hset : ScopeSet (some b) k v s
              = Res.ok () { s with scopes := s.scopes.set b { sc with Env := mapSet sc.Env k v } } := by
            unfold ScopeSet
            simp only [hget]
          simp only []
          rw [bind_ok _ _ _ _ _ hset]
          rfl
        | none =>
          simp only [nearestBinding, hget, hm] at h
          by_cases hp : sc.Parent ≠ none
          · rw [if_pos hp] at h
            simp only [hp, ne_eq, not_false_eq_true, ↓reduceIte]
            exact ih sc.Parent s h
          · rw [if_neg hp] at h
            exact absurd h (by simp)

theorem nearestBinding_sound (scopes : List Scope) (k : String) (a : Nat) (v : Option Nat) :
    ∀ (n : Nat) (p : Option Nat), nearestBinding n scopes p k = some (some (a, v)) →
      ∃ sc, scopes.get? a = some sc ∧ mapGet sc.Env k = some v := by
  intro n
  induction n with
  | zero =>
    intro p h
    simp [nearestBinding] at h
  | succ n ih =>
    intro p h
    cases p with
    | none => simp [nearestBinding] at h
    | some b =>
      cases hget : scopes.get? b with
      | none => simp only [nearestBinding, hget] at h; exact absurd h (by simp)
      | some sc1 =>
        cases hm : mapGet sc1.Env k with
        | some v1 =>
          simp only [nearestBinding, hget, hm, Option.some.injEq, Prod.mk.injEq] at h
          obtain ⟨h1, h2⟩ := h
          subst h1 h2
          exact ⟨sc1, hget, hm⟩
        | none =>
          simp only [nearestBinding, hget, hm] at h
          by_cases hp : sc1.Parent ≠ none
          · rw [if_pos hp] at h
            exact ih sc1.Parent h
          · rw [if_neg hp] at h
            exact absurd h (by simp)

theorem nearestBinding_set (scopes : List Scope) (k : String) (a : Nat) (v0 v : Option Nat)
    (sc : Scope) (hsc : scopes.get? a = some sc) :
    ∀ (n : Nat) (p : Option Nat), nearestBinding n scopes p k = some (some (a, v0)) →
      nearestBinding n (scopes.set a { sc with Env := mapSet sc.Env k v }) p k
        = some (some (a, v)) := by
  intro n
  induction n with
  | zero =>
    intro p h
    simp [nearestBinding] at h
  | succ n ih =>
    intro p h
    cases p with
    | none => simp [nearestBinding] at h
    | some b =>
      cases hget : scopes.get? b with
      | none => simp only [nearestBinding, hget] at h; exact absurd h (by simp)
      | some sc1 =>
        cases hm : mapGet sc1.Env k with
        | some v1 =>
          simp only [nearestBinding, hget, hm, Option.some.injEq, Prod.mk.injEq] at h
          obtain ⟨h1, h2⟩ := h
          subst h1
          have hb : b < scopes.length := by
            by_contra hlt
            rw [List.get?_eq_none.mpr (Nat.le_of_not_lt hlt)] at hget
            exact absurd hget (by simp)
          have hget2 : (scopes.set b { sc with Env := mapSet sc.Env k v }).get? b
              = some { sc with Env := mapSet sc.Env k v } := by
            simp [List.getElem?_set, hb]
          simp only [nearestBinding, hget2, mapGet_mapSet_same]
        | none =>
          simp only [nearestBinding, hget, hm] at h
          by_cases hp : sc1.Parent ≠ none
          · rw [if_pos hp] at h
            obtain ⟨sc2, h1, h2⟩ := nearestBinding_sound scopes k a v0 n sc1.Parent h
            have hne : a ≠ b := by
              intro hab
              subst hab
              rw [hget] at h1
              injection h1 with h1
              subst h1
              rw [hm] at h2
              exact absurd h2 (by simp)
            have hget2 : (scopes.set a { sc with Env := mapSet sc.Env k v }).get? b
                = some sc1 := by
              simp only [List.get?_eq_getElem?] at hget
              simp [List.getElem?_set, hne, hget]
            simp only [nearestBinding, hget2, hm, hp, ne_eq, not_false_eq_true, ↓reduceIte]
            exact ih sc1.Parent h
          · rw [if_neg hp] at h
            exact absurd h (by simp)

theorem nearestBinding_append (scopes extra : List Scope) (k : String)
    (r : Option (Nat × Option Nat)) :
    ∀ (n : Nat) (p : Option Nat), nearestBinding n scopes p k = some r →
      nearestBinding n (scopes ++ extra) p k = some r := by
  intro n
  induction n with
  | zero =>
    intro p h
    simp [nearestBinding] at h
  | succ n ih =>
    intro p h
    cases p with
    | none => simp [nearestBinding] at h
    | some b =>
      cases hget : scopes.get? b with
      | none => simp only [nearestBinding, hget] at h; exact absurd h (by simp)
      | some sc1 =>
        have hb : b < scopes.length := by
          by_contra hlt
          rw [List.get?_eq_none.mpr (Nat.le_of_not_lt hlt)] at hget
          exact absurd hget (by simp)
        have hget2 : (scopes ++ extra).get? b = some sc1 := by
          simp only [List.get?_eq_getElem?] at hget
          simp [List.getElem?_append_left hb, hget]
        cases hm : mapGet sc1.Env k with
        | some v1 =>
          simp only [nearestBinding, hget, hm] at h
          simp only [nearestBinding, hget2, hm]
          exact h
        | none =>
          simp only [nearestBinding, hget, hm] at h
          simp only [nearestBinding, hget2, hm]
          by_cases hp : sc1.Parent ≠ none
          · rw [if_pos hp] at h
            rw [if_pos hp]
            exact ih sc1.Parent h
          · rw [if_neg hp] at h
            rw [if_neg hp]
            exact h

theorem nearestBinding_fuel (scopes : List Scope) (k : String)
    (r : Option (Nat × Option Nat)) :
    ∀ (n : Nat) (p : Option Nat), nearestBinding n scopes p k = some r →
      nearestBinding (n + 1) scopes p k = some r := by
  intro n
  induction n with
  | zero =>
    intro p h
    simp [nearestBinding] at h
  | succ n ih =>
    intro p h
    cases p with
    | none => simp [nearestBinding] at h
    | some b =>
      cases hget : scopes.get? b with
      | none => simp only [nearestBinding, hget] at h; exact absurd h (by simp)
      | some sc1 =>
        cases hm : mapGet sc1.Env k with
        | some v1 =>
          simp only [nearestBinding, hget, hm] at h
          simp only [nearestBinding, hget, hm]
          exact h
        | none =>
          rw [nearestBinding] at h
          simp only [hget, hm] at h
          rw [nearestBinding]
          simp only [hget, hm]
          by_cases hp : sc1.Parent ≠ none
          · rw [if_pos hp] at h
            rw [if_pos hp]
            exact ih sc1.Parent h
          · rw [if_neg hp] at h
            rw [if_neg hp]
            exact h

theorem EvaluateExpr_identifier (fuel : Nat) (loc : Loc) (x : String) (s : InterpreterStat) :
    EvaluateExpr (fuel + 1) (some (Expr.mk loc (some (E.EIdentifier x)))) s
      = ScopeGet (s.scopes.length + 1) s.Scope x s := by
  simp only [EvaluateExpr]
  rfl

theorem VisitUnaryExpr_apply (fuel : Nat) (loc : Loc) (op : T) (value : Expr)
    (assoc : Association) (s s1 : InterpreterStat) (val : Option Nat)
    (h : EvaluateExpr fuel (some value) s = Res.ok val s1) :
    VisitUnaryExpr (fuel + 1) loc op value assoc s = applyUnary loc op value.Data assoc val s1 := by
  simp only [VisitUnaryExpr]
  rw [bind_ok _ _ s s1 val h]

theorem applyUnary_notNumber (loc : Loc) (op : T) (operand : Option E) (assoc : Association)
    (s : InterpreterStat) (p : Nat) (v : JsValue)
    (hop : op = T.TPlusPlus ∨ op = T.TMinusMinus)
    (hv : s.values.get? p = some v) (ht : v.Typ ≠ JsType.Number) :
    applyUnary loc op operand assoc (some p) s
      = Res.panic (Panic.RuntimeError loc "this operator need number operand") s := by
  unfold applyUnary
  have h1 : ¬ op = T.TExclamation := by
    rcases hop with h | h <;> simp [h]
  rw [if_neg h1, if_pos hop, bind_ok _ _ s s v (deref_some s p v hv), if_pos ht]
  rfl

theorem applyUnary_identifier (loc : Loc) (op : T) (d : F64) (x : String) (assoc : Association)
    (s : InterpreterStat) (vp : Nat) (n : F64)
    (hop : op = T.TPlusPlus ∧ d = F64.ofInt 1 ∨ op = T.TMinusMinus ∧ d = F64.ofInt (-1))
    (hn : s.values.get? vp = some ⟨Any.float64 n, JsType.Number⟩) :
    applyUnary loc op (some (E.EIdentifier x)) assoc (some vp) s
      = (if assoc = Association.AssociationRight then do
            let _ ← ScopeUpdate (s.scopes.length + 1) s.Scope x (some s.values.length)
            pure (some vp)
          else ScopeUpdate (s.scopes.length + 1) s.Scope x (some s.values.length))
          { s with values := s.values ++ [⟨Any.float64 (F64.add n d), JsType.Number⟩] } := by
  unfold applyUnary
  have h0 : op = T.TPlusPlus ∨ op = T.TMinusMinus := by
    rcases hop with h | h
    · exact Or.inl h.1
    · exact Or.inr h.1
  have h1 : ¬ op = T.TExclamation := by
    rcases h0 with h | h <;> simp [h]
  have h2 : (if op = T.TMinusMinus then F64.ofInt (-1) else F64.ofInt 1) = d := by
    rcases hop with ⟨h, hd⟩ | ⟨h, hd⟩ <;> simp [h, hd]
  rw [if_neg h1, if_pos h0, bind_ok _ _ s s _ (deref_some s vp _ hn)]
  simp only [ne_eq, not_true_eq_false, ↓reduceIte, h2]
  cases assoc <;> rfl

/-! ### Lemmas on member access and on slices -/

theorem Wrap_eq (s : InterpreterStat) :
    Wrap s = Res.ok ⟨Any.ptrJsValue (some (s.values.length + 2)), JsType.BuiltInObject⟩
      { s with values := s.values ++ [⟨Any.func GoFunc.wrapToString, JsType.BuiltInFunction⟩,
          ⟨Any.func GoFunc.wrapToNumber, JsType.BuiltInFunction⟩,
          ⟨Any.map [("toString", some s.values.length), ("toNumber", some (s.values.length + 1))],
            JsType.BuiltInObject⟩] } := by
  simp [Wrap, bind, Go.andThen, alloc, pure, Go.ret]

theorem applyMember_array (s : InterpreterStat) (p : Nat) (v : JsValue) (name : String)
    (hv : s.values.get? p = some v) (ht : v.Typ = JsType.Array)
    (hname : name = "push" ∨ name = "splice") :
    ∃ s1, applyMember (some p) name s = Res.ok none s1 := by
  unfold applyMember
  rw [bind_ok _ _ s s v (deref_some s p v hv)]
  simp only [ht, reduceCtorEq, ↓reduceIte]
  rw [bind_ok _ _ _ _ _ (Wrap_eq s)]
  simp only []
  have hd : (s.values ++ ([⟨Any.func GoFunc.wrapToString, JsType.BuiltInFunction⟩,
        ⟨Any.func GoFunc.wrapToNumber, JsType.BuiltInFunction⟩,
        ⟨Any.map [("toString", some s.values.length), ("toNumber", some (s.values.length + 1))],
          JsType.BuiltInObject⟩] : List JsValue)).get? (s.values.length + 2)
      = some ⟨Any.map [("toString", some s.values.length),
          ("toNumber", some (s.values.length + 1))], JsType.BuiltInObject⟩ := by
    rw [List.get?_eq_getElem?, List.getElem?_append_right (Nat.le_add_right _ _)]
    simp
  rw [bind_ok _ _ _ _ _ (deref_some _ (s.values.length + 2) _ hd)]
  rcases hname with h | h <;> subst h <;> exact ⟨_, rfl⟩

theorem allocAll_spec : ∀ (items : List JsValue) (s : InterpreterStat),
    allocAll items s
      = Res.ok ((List.range items.length).map (fun i => some (s.values.length + i)))
          { s with values := s.values ++ items } := by
  intro items
  induction items with
  | nil =>
    intro s
    simp [allocAll, pure, Go.ret]
  | cons v vs ih =>
    intro s
    simp only [allocAll]
    have h1 : alloc v s = Res.ok (some s.values.length) { s with values := s.values ++ [v] } := rfl
    rw [bind_ok _ _ _ _ _ h1, bind_ok _ _ _ _ _ (ih _)]
    simp only [pure, Go.ret, List.length_append, List.length_singleton, List.append_assoc,
      List.singleton_append, List.length_cons, Res.ok.injEq, and_true]
    rw [List.range_succ_eq_map]
    simp only [List.map_cons, Nat.add_zero, List.map_map, List.cons.injEq, true_and]
    apply List.map_congr_left
    intro i _
    simp only [Function.comp_apply, Option.some.injEq]
    simp only [List.length_nil, Nat.succ_eq_add_one]
    omega

theorem overwrite_take : ∀ (xs b : List (Option Nat)) (i : Nat), i + xs.length ≤ b.length →
    (GoSlice.overwrite b i xs).take (i + xs.length) = b.take i ++ xs := by
  intro xs
  induction xs with
  | nil =>
    intro b i _
    simp [GoSlice.overwrite]
  | cons x xs ih =>
    intro b i h
    simp only [List.length_cons] at h
    have hi : i < b.length := by omega
    simp only [GoSlice.overwrite, List.length_cons]
    have h2 := ih (b.set i x) (i + 1) (by simp only [List.length_set]; omega)
    rw [show i + (xs.length + 1) = i + 1 + xs.length by omega, h2, List.take_succ,
      List.set_take, List.set_eq_of_length_le (by simp)]
    simp [List.getElem?_set, hi]

theorem GoSlice_append_elems (sl : GoSlice) (xs : List (Option Nat)) (h : sl.len ≤ sl.cap) :
    (sl.append xs).elems = sl.elems ++ xs ∧ (sl.append xs).len = sl.len + xs.length := by
  unfold GoSlice.append GoSlice.appendAt GoSlice.elems
  unfold GoSlice.cap at h
  by_cases hc : sl.len + xs.length ≤ sl.cap
  · simp only [hc, ↓reduceIte, and_true]
    exact overwrite_take xs sl.backing sl.len hc
  · simp only [hc, ↓reduceIte, and_true]
    rw [List.append_assoc, ← List.append_assoc (List.take sl.len sl.backing)]
    apply List.take_left'
    simp [h]

/-! ### Lemmas on the scope of a call -/

theorem nearestBinding_entry (scopes : List Scope) (closure : Option Nat)
    (env : List (String × Option Nat)) (k : String) (n : Nat) (h : mapGet env k = none) :
    nearestBinding (n + 1) (scopes ++ [⟨closure, env⟩]) (some scopes.length) k
      = if closure ≠ none then nearestBinding n (scopes ++ [⟨closure, env⟩]) closure k
        else some none := by
  have hget : (scopes ++ [(⟨closure, env⟩ : Scope)]).get? scopes.length = some ⟨closure, env⟩ := by
    simp
  simp only [nearestBinding, hget, h]

/-! ### Lemmas on the conversion of an index -/

theorem F64_cutoff : F64.round false 1 1 63 = F64.fin false (2 ^ 52) 11 := by decide!

theorem F64_lt_cutoff (s : Bool) (m : Nat) (e : Int) (hk : 0 ≤ F64.truncInt s m e) :
    F64.lt (F64.fin s m e) (F64.fin false (2 ^ 52) 11)
      = decide (F64.truncInt s m e < 2 ^ 63) := by
  cases s with
  | true =>
    -- a value that is not positive
    have h1 : F64.truncInt true m e < 2 ^ 63 := by
      simp only [F64.truncInt, ↓reduceIte] at hk ⊢
      omega
    simp only [h1, decide_True]
    simp only [F64.lt, F64.cmpKey, ↓reduceIte, decide_eq_true_eq]
    generalize (if e ≤ 11 then e else 11) = emin
    have h2 : 0 < 2 ^ 52 * 2 ^ (11 - emin).toNat :=
      Nat.mul_pos (Nat.pos_pow_of_pos _ (by decide)) (Nat.pos_pow_of_pos _ (by decide))
    generalize 2 ^ 52 * 2 ^ (11 - emin).toNat = A at h2 ⊢
    generalize m * 2 ^ (e - emin).toNat = B
    simp only [Bool.false_eq_true, ↓reduceIte, one_mul, neg_mul]
    omega
  | false =>
    simp only [F64.lt, F64.cmpKey, F64.truncInt, Bool.false_eq_true, ↓reduceIte, one_mul]
    rw [decide_eq_decide]
    have hpos : ∀ k : Nat, 0 < 2 ^ k := fun k => Nat.pos_pow_of_pos _ (by decide)
    rcases Int.eq_nat_or_neg e with ⟨n, rfl | rfl⟩
    · by_cases hn : n ≤ 11
      · have h1 : ((n : Int) ≤ 11) := by exact_mod_cast hn
        simp only [h1, ↓reduceIte, sub_self, Int.toNat_zero, pow_zero, mul_one,
          Int.natCast_nonneg, Int.toNat_ofNat]
        have h2 : ((11 : Int) - n).toNat = 11 - n := by omega
        rw [h2]
        have h3 : (2 : Nat) ^ (52 + (11 - n) + n) = 2 ^ 52 * 2 ^ (11 - n) * 2 ^ n := by
          rw [pow_add, pow_add]
        have h63 : 52 + (11 - n) + n = 63 := by omega
        rw [h63] at h3
        constructor
        · intro h
          have h4 : m < 2 ^ 52 * 2 ^ (11 - n) := by exact_mod_cast h
          have h5 : m * 2 ^ n < 2 ^ 63 := by
            rw [h3]
            exact Nat.mul_lt_mul_of_pos_right h4 (hpos n)
          exact_mod_cast h5
        · intro h
          have h5 : m * 2 ^ n < 2 ^ 63 := by exact_mod_cast h
          rw [h3] at h5
          have h4 := Nat.lt_of_mul_lt_mul_right h5
          exact_mod_cast h4
      · have h1 : ¬ ((n : Int) ≤ 11) := by
          intro h
          exact hn (by exact_mod_cast h)
        simp only [h1, ↓reduceIte, sub_self, Int.toNat_zero, pow_zero, mul_one,
          Int.natCast_nonneg, Int.toNat_ofNat]
        have h2 : ((n : Int) - 11).toNat = n - 11 := by omega
        rw [h2]
        have h3 : (2 : Nat) ^ 63 = 2 ^ 52 * 2 ^ 11 := by norm_num
        have h6 : m * 2 ^ (n - 11 + 11) = m * 2 ^ (n - 11) * 2 ^ 11 := by
          rw [pow_add, mul_assoc]
        have h7 : n - 11 + 11 = n := by omega
        rw [h7] at h6
        constructor
        · intro h
          have h4 : m * 2 ^ (n - 11) < 2 ^ 52 := by exact_mod_cast h
          have h5 : m * 2 ^ n < 2 ^ 63 := by
            rw [h3, h6]
            exact Nat.mul_lt_mul_of_pos_right h4 (hpos 11)
          exact_mod_cast h5
        · intro h
          have h5 : m * 2 ^ n < 2 ^ 63 := by exact_mod_cast h
          rw [h3, h6] at h5
          have h4 := Nat.lt_of_mul_lt_mul_right h5
          exact_mod_cast h4
    · by_cases hn : n = 0
      · subst hn
        have h11 : Int.toNat 11 = 11 := rfl
        simp only [CharP.cast_eq_zero, neg_zero, ↓reduceIte, sub_self,
          Int.toNat_zero, pow_zero, mul_one, sub_zero, le_refl]
        norm_num [h11]
      · have h1 : (-(n : Int) ≤ 11) := by omega
        have h0 : ¬ ((0 : Int) ≤ -(n : Int)) := by omega
        simp only [h1, h0, ↓reduceIte, sub_self, Int.toNat_zero, pow_zero, mul_one, neg_neg,
          Int.toNat_ofNat]
        have h2 : ((11 : Int) - -(n : Int)).toNat = 11 + n := by omega
        rw [h2]
        have h3 : (2 : Nat) ^ 52 * 2 ^ (11 + n) = 2 ^ 63 * 2 ^ n := by
          rw [pow_add, ← mul_assoc]
          norm_num
        rw [h3]
        constructor
        · intro h
          have h4 : m < 2 ^ 63 * 2 ^ n := by exact_mod_cast h
          have h5 : m / 2 ^ n < 2 ^ 63 := by
            rw [Nat.div_lt_iff_lt_mul (hpos n)]
            exact h4
          exact_mod_cast h5
        · intro h
          have h5 : m / 2 ^ n < 2 ^ 63 := by exact_mod_cast h
          rw [Nat.div_lt_iff_lt_mul (hpos n)] at h5
          exact_mod_cast h5

theorem F64_toUint_small (s : Bool) (m : Nat) (e : Int) (hk : 0 ≤ F64.truncInt s m e)
    (h : F64.truncInt s m e < 2 ^ 63) :
    F64.toUint (F64.fin s m e) = (F64.truncInt s m e).toNat := by
  unfold F64.toUint
  simp only [F64_cutoff, F64_lt_cutoff s m e hk, h, decide_True, ↓reduceIte]
  have h1 : F64.toInt (F64.fin s m e) = F64.truncInt s m e := by
    simp only [F64.toInt]
    rw [if_pos ⟨by omega, h⟩]
  rw [h1, Int.emod_eq_of_lt hk (by omega)]

theorem F64_toUint_large (s : Bool) (m : Nat) (e : Int) (hk : 0 ≤ F64.truncInt s m e)
    (h : ¬ F64.truncInt s m e < 2 ^ 63) :
    2 ^ 63 ≤ F64.toUint (F64.fin s m e) := by
  unfold F64.toUint
  simp only [F64_cutoff, F64_lt_cutoff s m e hk, h, decide_False, Bool.false_eq_true, ↓reduceIte]
  apply Nat.testBit_implies_ge
  rw [Nat.testBit_or, Nat.testBit_two_pow_self, Bool.or_true]

theorem VisitIndexExpr_apply (fuel : Nat) (loc : Loc) (target idx : Expr)
    (s s1 s2 : InterpreterStat) (tp ip : Option Nat)
    (et : EvaluateExpr fuel (some target) s = Res.ok tp s1)
    (ei : EvaluateExpr fuel (some idx) s1 = Res.ok ip s2) :
    VisitIndexExpr (fuel + 1) loc target idx s = applyIndex loc tp ip s2 := by
  simp only [VisitIndexExpr]
  rw [bind_ok _ _ s s1 tp et, bind_ok _ _ s1 s2 ip ei]

theorem applyIndex_array (loc : Loc) (s : InterpreterStat) (tp ip a : Nat) (i : JsValue)
    (arr : JsArray) (f : F64)
    (ht : s.values.get? tp = some ⟨Any.ptrJsArray a, JsType.Array⟩)
    (hi : s.values.get? ip = some i) (ha : s.arrays.get? a = some arr)
    (hn : ToNumber i = Except.ok ⟨Any.float64 f, JsType.Number⟩) :
    applyIndex loc (some tp) (some ip) s
      = (if F64.toUint f ≥ arr.Length then alloc undefined
          else if F64.toUint f < arr.Arr.len then
            pure ((arr.Arr.backing.get? (F64.toUint f)).getD none)
          else Go.throw (Panic.runtime GoRuntimeError.indexOutOfRange)) s := by
  unfold applyIndex
  rw [bind_ok _ _ s s _ (deref_some s tp _ ht)]
  simp only [↓reduceIte]
  have hat : arrayAt a s = Res.ok arr s := by
    unfold arrayAt
    simp only [ha]
  have hnum : toNumberFloat i s = Res.ok f s := by
    unfold toNumberFloat
    rw [bind_ok _ _ s s ⟨Any.float64 f, JsType.Number⟩ (by simp only [lift, hn])]
    rfl
  rw [bind_ok _ _ s s _ hat, bind_ok _ _ s s _ (deref_some s ip i hi), bind_ok _ _ s s _ hnum]

theorem applyIndex_notArray (loc : Loc) (s : InterpreterStat) (tp : Nat) (ip : Option Nat)
    (t : JsValue) (ht : s.values.get? tp = some t) (hty : t.Typ ≠ JsType.Array) :
    applyIndex loc (some tp) ip s
      = Res.panic (Panic.RuntimeError loc
          "index expression can only be used for array or object") s := by
  unfold applyIndex
  rw [bind_ok _ _ s s _ (deref_some s tp _ ht), if_neg hty]
  rfl

/-! ### Lemmas on the scopes that the evaluator keeps -/

theorem scopesKept_refl (s : InterpreterStat) : scopesKept s s :=
  fun _ sc h => ⟨sc, h, rfl⟩

theorem scopesKept_trans (s s1 s2 : InterpreterStat) (h1 : scopesKept s s1)
    (h2 : scopesKept s1 s2) : scopesKept s s2 := by
  intro a sc h
  obtain ⟨sc1, h3, h4⟩ := h1 a sc h
  obtain ⟨sc2, h5, h6⟩ := h2 a sc1 h3
  exact ⟨sc2, h5, h6.trans h4⟩

theorem scopesKept_of_eq (s s1 : InterpreterStat) (h : s1.scopes = s.scopes) :
    scopesKept s s1 := by
  intro a sc hsc
  exact ⟨sc, by rw [h]; exact hsc, rfl⟩

theorem scopeKept_refl (s : InterpreterStat) : scopeKept s s := ⟨rfl, scopesKept_refl s⟩

theorem scopeKept_trans (s s1 s2 : InterpreterStat) (h1 : scopeKept s s1)
    (h2 : scopeKept s1 s2) : scopeKept s s2 :=
  ⟨h2.1.trans h1.1, scopesKept_trans s s1 s2 h1.2 h2.2⟩

theorem scopeKept_of_eq (s s1 : InterpreterStat) (h0 : s1.Scope = s.Scope)
    (h : s1.scopes = s.scopes) : scopeKept s s1 :=
  ⟨h0, scopesKept_of_eq s s1 h⟩

theorem scopesKept_append (s s1 : InterpreterStat) (extra : List Scope)
    (h : s1.scopes = s.scopes ++ extra) : scopesKept s s1 := by
  intro a sc hsc
  refine ⟨sc, ?_, rfl⟩
  have ha : a < s.scopes.length := by
    by_contra hlt
    rw [List.get?_eq_none.mpr (Nat.le_of_not_lt hlt)] at hsc
    exact absurd hsc (by simp)
  simp only [List.get?_eq_getElem?] at hsc
  rw [h, List.get?_eq_getElem?, List.getElem?_append_left ha]
  exact hsc

theorem scopesKept_set (s s1 : InterpreterStat) (a : Nat) (sc : Scope)
    (env : List (String × Option Nat)) (hsc : s.scopes.get? a = some sc)
    (h : s1.scopes = s.scopes.set a { sc with Env := env }) : scopesKept s s1 := by
  intro b scb hb
  have hlt : b < s.scopes.length := by
    by_contra hlt
    rw [List.get?_eq_none.mpr (Nat.le_of_not_lt hlt)] at hb
    exact absurd hb (by simp)
  simp only [List.get?_eq_getElem?] at hb hsc
  by_cases hab : a = b
  · subst hab
    rw [hsc] at hb
    injection hb with hb
    subst hb
    exact ⟨{ sc with Env := env }, by rw [h]; simp [List.getElem?_set, hlt], rfl⟩
  · exact ⟨scb, by rw [h]; simp [List.getElem?_set, hab, hb], rfl⟩

theorem onExit_from (s s1 : InterpreterStat) {α : Type} (r : Res InterpreterStat α)
    (h1 : scopeKept s s1) (h2 : onExit scopeKept s1 r) : onExit scopeKept s r := by
  cases r with
  | ok a s2 => exact scopeKept_trans s s1 s2 h1 h2
  | panic e s2 => exact scopeKept_trans s s1 s2 h1 h2
  | timeout => trivial

theorem keeps_bind {α β : Type} (m : Go InterpreterStat α) (f : α → Go InterpreterStat β)
    (hm : keeps m) (hf : ∀ a, keeps (f a)) : keeps (m >>= f) := by
  intro s
  show onExit scopeKept s (Go.andThen m f s)
  unfold Go.andThen
  have h1 := hm s
  cases hr : m s with
  | ok a s1 =>
    rw [hr] at h1
    exact onExit_from s s1 _ h1 (hf a s1)
  | panic e s1 =>
    rw [hr] at h1
    exact h1
  | timeout => trivial

theorem keeps_pure {α : Type} (a : α) : keeps (pure a : Go InterpreterStat α) :=
  fun s => scopeKept_refl s

theorem keeps_throw {α : Type} (e : Panic) : keeps (Go.throw e : Go InterpreterStat α) :=
  fun s => scopeKept_refl s

theorem keeps_stuck {α : Type} : keeps (Go.stuck : Go InterpreterStat α) :=
  fun _ => trivial

theorem keeps_alloc (v : JsValue) : keeps (alloc v) :=
  fun s => scopeKept_of_eq s _ rfl rfl

theorem keeps_deref (p : Option Nat) : keeps (deref p) := by
  intro s
  unfold deref
  split
  · exact scopeKept_refl s
  · split <;> exact scopeKept_refl s

theorem keeps_store (p : Option Nat) (v : JsValue) : keeps (store p v) := by
  intro s
  unfold store
  split
  · exact scopeKept_refl s
  · split
    · exact scopeKept_of_eq s _ rfl rfl
    · exact scopeKept_refl s

theorem keeps_lift {α : Type} (r : Except Panic α) : keeps (lift r) := by
  intro s
  unfold lift
  split <;> exact scopeKept_refl s

theorem keeps_write (text : String) : keeps (write text) :=
  fun s => scopeKept_of_eq s _ rfl rfl

theorem keeps_curScope : keeps curScope :=
  fun s => scopeKept_refl s

theorem keeps_get : keeps (Go.get : Go InterpreterStat InterpreterStat) :=
  fun s => scopeKept_refl s

theorem keeps_scopeAt (p : Option Nat) : keeps (scopeAt p) := by
  intro s
  unfold scopeAt
  split
  · exact scopeKept_refl s
  · split <;> exact scopeKept_refl s

theorem keeps_ScopeSet (p : Option Nat) (k : String) (v : Option Nat) :
    keeps (ScopeSet p k v) := by
  intro s
  cases p with
  | none => exact scopeKept_refl s
  | some a =>
    cases hsc : s.scopes.get? a with
    | none =>
      simp only [ScopeSet, hsc]
      exact scopeKept_refl s
    | some sc =>
      simp only [ScopeSet, hsc]
      exact ⟨rfl, scopesKept_set s _ a sc _ hsc rfl⟩

theorem keeps_ScopeGet (k : String) :
    ∀ (n : Nat) (p : Option Nat), keeps (ScopeGet n p k) := by
  intro n
  induction n with
  | zero =>
    intro p
    exact keeps_stuck
  | succ n ih =>
    intro p
    simp only [ScopeGet]
    repeat' first
      | exact keeps_pure _ | exact keeps_throw _ | exact keeps_stuck | exact keeps_alloc _
      | exact keeps_deref _ | exact keeps_store _ _ | exact keeps_lift _ | exact keeps_write _
      | exact keeps_curScope | exact keeps_get | exact keeps_scopeAt _
      | exact keeps_ScopeSet _ _ _ | exact ih _ | apply keeps_bind | split | dsimp only | intro _

theorem keeps_ScopeUpdate (k : String) (v : Option Nat) :
    ∀ (n : Nat) (p : Option Nat), keeps (ScopeUpdate n p k v) := by
  intro n
  induction n with
  | zero =>
    intro p
    exact keeps_stuck
  | succ n ih =>
    intro p
    simp only [ScopeUpdate]
    repeat' first
      | exact keeps_pure _ | exact keeps_throw _ | exact keeps_stuck | exact keeps_alloc _
      | exact keeps_deref _ | exact keeps_store _ _ | exact keeps_lift _ | exact keeps_write _
      | exact keeps_curScope | exact keeps_get | exact keeps_scopeAt _
      | exact keeps_ScopeSet _ _ _ | exact ih _ | apply keeps_bind | split | dsimp only | intro _

theorem keeps_Get (p : Option Nat) (k : String) : keeps (Get p k) :=
  fun s => keeps_ScopeGet k _ p s

theorem keeps_Update (p : Option Nat) (k : String) (v : Option Nat) : keeps (Update p k v) :=
  fun s => keeps_ScopeUpdate k v _ p s

theorem keeps_arrayAt (a : Nat) : keeps (arrayAt a) := by
  intro s
  unfold arrayAt
  split <;> exact scopeKept_refl s

theorem keeps_arraySet (a : Nat) (arr : JsArray) : keeps (arraySet a arr) :=
  fun s => scopeKept_of_eq s _ rfl rfl

theorem keeps_allocAll : ∀ (vs : List JsValue), keeps (allocAll vs) := by
  intro vs
  induction vs with
  | nil => exact keeps_pure _
  | cons v vs ih =>
    simp only [allocAll]
    repeat' first
      | exact keeps_pure _ | exact keeps_throw _ | exact keeps_stuck | exact keeps_alloc _
      | exact keeps_deref _ | exact keeps_store _ _ | exact keeps_lift _ | exact keeps_write _
      | exact keeps_curScope | exact keeps_get | exact keeps_scopeAt _
      | exact keeps_ScopeSet _ _ _ | exact ih | apply keeps_bind | split | dsimp only | intro _

theorem keeps_toNumberFloat (v : JsValue) : keeps (toNumberFloat v) := by
  unfold toNumberFloat
  repeat' first
    | exact keeps_pure _ | exact keeps_throw _ | exact keeps_stuck | exact keeps_alloc _
    | exact keeps_deref _ | exact keeps_store _ _ | exact keeps_lift _ | exact keeps_write _
    | exact keeps_curScope | exact keeps_get | exact keeps_scopeAt _ | exact keeps_ScopeSet _ _ _
    | apply keeps_bind | split | dsimp only | intro _

theorem keeps_consoleLogLoop : ∀ (args : List JsValue), keeps (consoleLogLoop args) := by
  intro args
  induction args with
  | nil => exact keeps_pure _
  | cons v vs ih =>
    simp only [consoleLogLoop]
    repeat' first
      | exact keeps_pure _ | exact keeps_throw _ | exact keeps_stuck | exact keeps_alloc _
      | exact keeps_deref _ | exact keeps_store _ _ | exact keeps_lift _ | exact keeps_write _
      | exact keeps_curScope | exact keeps_get | exact keeps_scopeAt _
      | exact keeps_ScopeSet _ _ _ | exact ih | apply keeps_bind | split | dsimp only | intro _

theorem keeps_ArrayPush (this : JsValue) (args : List JsValue) : keeps (ArrayPush this args) := by
  unfold ArrayPush
  repeat' first
    | exact keeps_pure _ | exact keeps_throw _ | exact keeps_stuck | exact keeps_alloc _
    | exact keeps_deref _ | exact keeps_store _ _ | exact keeps_lift _ | exact keeps_write _
    | exact keeps_curScope | exact keeps_get | exact keeps_scopeAt _ | exact keeps_ScopeSet _ _ _
    | exact keeps_Get _ _ | exact keeps_Update _ _ _ | exact keeps_arrayAt _
    | exact keeps_arraySet _ _ | exact keeps_allocAll _ | exact keeps_toNumberFloat _
    | exact keeps_consoleLogLoop _ | apply keeps_bind | split | dsimp only | intro _

theorem keeps_ArraySplice (this : JsValue) (args : List JsValue) :
    keeps (ArraySplice this args) := by
  unfold ArraySplice
  repeat' first
    | exact keeps_pure _ | exact keeps_throw _ | exact keeps_stuck | exact keeps_alloc _
    | exact keeps_deref _ | exact keeps_store _ _ | exact keeps_lift _ | exact keeps_write _
    | exact keeps_curScope | exact keeps_get | exact keeps_scopeAt _ | exact keeps_ScopeSet _ _ _
    | exact keeps_Get _ _ | exact keeps_Update _ _ _ | exact keeps_arrayAt _
    | exact keeps_arraySet _ _ | exact keeps_allocAll _ | exact keeps_toNumberFloat _
    | exact keeps_consoleLogLoop _ | apply keeps_bind | split | dsimp only | intro _

theorem keeps_callBuiltIn (f : GoFunc) (this : JsValue) (args : List JsValue) :
    keeps (callBuiltIn f this args) := by
  unfold callBuiltIn
  repeat' first
    | exact keeps_pure _ | exact keeps_throw _ | exact keeps_stuck | exact keeps_alloc _
    | exact keeps_deref _ | exact keeps_store _ _ | exact keeps_lift _ | exact keeps_write _
    | exact keeps_curScope | exact keeps_get | exact keeps_scopeAt _ | exact keeps_ScopeSet _ _ _
    | exact keeps_Get _ _ | exact keeps_Update _ _ _ | exact keeps_arrayAt _
    | exact keeps_arraySet _ _ | exact keeps_allocAll _ | exact keeps_toNumberFloat _
    | exact keeps_consoleLogLoop _ | exact keeps_ArrayPush _ _ | exact keeps_ArraySplice _ _
    | apply keeps_bind | split | dsimp only | intro _

theorem keeps_Wrap : keeps Wrap :=
  fun s => scopeKept_of_eq s _ rfl rfl

theorem keeps_stringPlus (l r : Option Nat) : keeps (stringPlus l r) := by
  unfold stringPlus
  repeat' first
    | exact keeps_pure _ | exact keeps_throw _ | exact keeps_stuck | exact keeps_alloc _
    | exact keeps_deref _ | exact keeps_store _ _ | exact keeps_lift _ | exact keeps_write _
    | exact keeps_curScope | exact keeps_get | exact keeps_scopeAt _ | exact keeps_ScopeSet _ _ _
    | exact keeps_Get _ _ | exact keeps_Update _ _ _ | exact keeps_arrayAt _
    | exact keeps_arraySet _ _ | exact keeps_allocAll _ | exact keeps_toNumberFloat _
    | exact keeps_consoleLogLoop _ | apply keeps_bind | split | dsimp only | intro _

theorem keeps_numberPlus (l r : Option Nat) : keeps (numberPlus l r) := by
  unfold numberPlus
  repeat' first
    | exact keeps_pure _ | exact keeps_throw _ | exact keeps_stuck | exact keeps_alloc _
    | exact keeps_deref _ | exact keeps_store _ _ | exact keeps_lift _ | exact keeps_write _
    | exact keeps_curScope | exact keeps_get | exact keeps_scopeAt _ | exact keeps_ScopeSet _ _ _
    | exact keeps_Get _ _ | exact keeps_Update _ _ _ | exact keeps_arrayAt _
    | exact keeps_arraySet _ _ | exact keeps_allocAll _ | exact keeps_toNumberFloat _
    | exact keeps_consoleLogLoop _ | apply keeps_bind | split | dsimp only | intro _

theorem keeps_applyBinary (loc : Loc) (op : T) (l r : Option Nat) :
    keeps (applyBinary loc op l r) := by
  unfold applyBinary
  repeat' first
    | exact keeps_pure _ | exact keeps_throw _ | exact keeps_stuck | exact keeps_alloc _
    | exact keeps_deref _ | exact keeps_store _ _ | exact keeps_lift _ | exact keeps_write _
    | exact keeps_curScope | exact keeps_get | exact keeps_scopeAt _ | exact keeps_ScopeSet _ _ _
    | exact keeps_Get _ _ | exact keeps_Update _ _ _ | exact keeps_arrayAt _
    | exact keeps_arraySet _ _ | exact keeps_allocAll _ | exact keeps_toNumberFloat _
    | exact keeps_consoleLogLoop _ | exact keeps_stringPlus _ _ | exact keeps_numberPlus _ _
    | apply keeps_bind | split | dsimp only | intro _

theorem keeps_applyUnary (loc : Loc) (op : T) (operand : Option E) (assoc : Association)
    (val : Option Nat) : keeps (applyUnary loc op operand assoc val) := by
  unfold applyUnary
  repeat' first
    | exact keeps_pure _ | exact keeps_throw _ | exact keeps_stuck | exact keeps_alloc _
    | exact keeps_deref _ | exact keeps_store _ _ | exact keeps_lift _ | exact keeps_write _
    | exact keeps_curScope | exact keeps_get | exact keeps_scopeAt _ | exact keeps_ScopeSet _ _ _
    | exact keeps_Get _ _ | exact keeps_Update _ _ _ | exact keeps_arrayAt _
    | exact keeps_arraySet _ _ | exact keeps_allocAll _ | exact keeps_toNumberFloat _
    | exact keeps_consoleLogLoop _ | apply keeps_bind | split | dsimp only | intro _

theorem keeps_applyMember (obj : Option Nat) (property : String) :
    keeps (applyMember obj property) := by
  unfold applyMember
  repeat' first
    | exact keeps_pure _ | exact keeps_throw _ | exact keeps_stuck | exact keeps_alloc _
    | exact keeps_deref _ | exact keeps_store _ _ | exact keeps_lift _ | exact keeps_write _
    | exact keeps_curScope | exact keeps_get | exact keeps_scopeAt _ | exact keeps_ScopeSet _ _ _
    | exact keeps_Get _ _ | exact keeps_Update _ _ _ | exact keeps_arrayAt _
    | exact keeps_arraySet _ _ | exact keeps_allocAll _ | exact keeps_toNumberFloat _
    | exact keeps_consoleLogLoop _ | exact keeps_Wrap | apply keeps_bind | split | dsimp only
    | intro _

theorem keeps_applyIndex (loc : Loc) (t i : Option Nat) : keeps (applyIndex loc t i) := by
  unfold applyIndex
  repeat' first
    | exact keeps_pure _ | exact keeps_throw _ | exact keeps_stuck | exact keeps_alloc _
    | exact keeps_deref _ | exact keeps_store _ _ | exact keeps_lift _ | exact keeps_write _
    | exact keeps_curScope | exact keeps_get | exact keeps_scopeAt _ | exact keeps_ScopeSet _ _ _
    | exact keeps_Get _ _ | exact keeps_Update _ _ _ | exact keeps_arrayAt _
    | exact keeps_arraySet _ _ | exact keeps_allocAll _ | exact keeps_toNumberFloat _
    | exact keeps_consoleLogLoop _ | apply keeps_bind | split | dsimp only | intro _

theorem keeps_objectKey (loc : Loc) (properties : List (String × Option Nat))
    (k val : Option Nat) : keeps (objectKey loc properties k val) := by
  unfold objectKey
  repeat' first
    | exact keeps_pure _ | exact keeps_throw _ | exact keeps_stuck | exact keeps_alloc _
    | exact keeps_deref _ | exact keeps_store _ _ | exact keeps_lift _ | exact keeps_write _
    | exact keeps_curScope | exact keeps_get | exact keeps_scopeAt _ | exact keeps_ScopeSet _ _ _
    | exact keeps_Get _ _ | exact keeps_Update _ _ _ | exact keeps_arrayAt _
    | exact keeps_arraySet _ _ | exact keeps_allocAll _ | exact keeps_toNumberFloat _
    | exact keeps_consoleLogLoop _ | apply keeps_bind | split | dsimp only | intro _

theorem keeps_VisitFuncStmt (id : Option EIdentifier) : keeps (VisitFuncStmt id) := by
  unfold VisitFuncStmt
  repeat' first
    | exact keeps_pure _ | exact keeps_throw _ | exact keeps_stuck | exact keeps_alloc _
    | exact keeps_deref _ | exact keeps_store _ _ | exact keeps_lift _ | exact keeps_write _
    | exact keeps_curScope | exact keeps_get | exact keeps_scopeAt _ | exact keeps_ScopeSet _ _ _
    | exact keeps_Get _ _ | exact keeps_Update _ _ _ | exact keeps_arrayAt _
    | exact keeps_arraySet _ _ | exact keeps_allocAll _ | exact keeps_toNumberFloat _
    | exact keeps_consoleLogLoop _ | apply keeps_bind | split | dsimp only | intro _

theorem keeps_VisitFuncExpr (id : Option EIdentifier) (params : List EIdentifier)
    (body : Option SBody) : keeps (VisitFuncExpr id params body) := by
  intro s
  unfold VisitFuncExpr
  apply onExit_from s _ _ (scopeKept_of_eq s
    { s with functions := s.functions ++ [⟨s.Scope, params, body⟩] } rfl rfl)
  have h : ∀ a, keeps (do
      let fn ← alloc ⟨Any.ptrJsFunction a, JsType.Function⟩
      match id with
      | some i =>
        ScopeSet (← curScope) i.Value fn
        return fn
      | none => return fn : Go InterpreterStat (Option Nat)) := by
    intro a
    repeat' first
      | exact keeps_pure _ | exact keeps_throw _ | exact keeps_stuck | exact keeps_alloc _
      | exact keeps_deref _ | exact keeps_store _ _ | exact keeps_lift _ | exact keeps_write _
      | exact keeps_curScope | exact keeps_get | exact keeps_scopeAt _
      | exact keeps_ScopeSet _ _ _ | exact keeps_Get _ _ | exact keeps_Update _ _ _
      | exact keeps_arrayAt _ | exact keeps_arraySet _ _ | exact keeps_allocAll _
      | exact keeps_toNumberFloat _ | exact keeps_consoleLogLoop _ | apply keeps_bind | split
      | dsimp only | intro _
  exact h _ _

theorem onExit_bind {α β : Type} (P : InterpreterStat → InterpreterStat → Prop)
    (htrans : ∀ s s1 s2, P s s1 → P s1 s2 → P s s2)
    (m : Go InterpreterStat α) (f : α → Go InterpreterStat β)
    (hm : ∀ s, onExit P s (m s)) (hf : ∀ a s, onExit P s (f a s)) :
    ∀ s, onExit P s ((m >>= f) s) := by
  intro s
  show onExit P s (Go.andThen m f s)
  unfold Go.andThen
  have h1 := hm s
  cases hr : m s with
  | ok a s1 =>
    rw [hr] at h1
    have h2 := hf a s1
    simp only []
    cases hr2 : f a s1 with
    | ok b s2 =>
      rw [hr2] at h2
      exact htrans s s1 s2 h1 h2
    | panic e s2 =>
      rw [hr2] at h2
      exact htrans s s1 s2 h1 h2
    | timeout => trivial
  | panic e s1 =>
    rw [hr] at h1
    exact h1
  | timeout => trivial

theorem keeps_modify {β : Type} (g : InterpreterStat → InterpreterStat)
    (k : InterpreterStat → Go InterpreterStat β) (hg : ∀ s, scopeKept s (g s))
    (hk : ∀ a, keeps (k a)) :
    keeps (Go.get >>= fun s => Go.set (g s) >>= fun _ => k s) := by
  intro s
  exact onExit_from s (g s) _ (hg s) (hk s (g s))

theorem popScope_entered (s s2 : InterpreterStat)
    (h : scopeKept { s with scopes := s.scopes ++ [⟨s.Scope, []⟩], Scope := some s.scopes.length } s2) :
    PopScope s2 = Res.ok () { s2 with Scope := s.Scope }
      ∧ scopeKept s { s2 with Scope := s.Scope } := by
  obtain ⟨h1, h2⟩ := h
  obtain ⟨sc1, h3, h4⟩ := h2 s.scopes.length ⟨s.Scope, []⟩ (by simp)
  constructor
  · unfold PopScope
    have h5 : scopeAt s2.Scope s2 = Res.ok sc1 s2 := by
      rw [h1]
      exact scopeAt_some s2 _ sc1 h3
    rw [h5]
    simp only [h4]
  · refine ⟨rfl, ?_⟩
    exact scopesKept_trans s
      { s with scopes := s.scopes ++ [⟨s.Scope, []⟩], Scope := some s.scopes.length } _
      (scopesKept_append s _ [⟨s.Scope, []⟩] rfl) h2

theorem EnterScope_eq (s : InterpreterStat) :
    EnterScope s
      = Res.ok () { s with scopes := s.scopes ++ [⟨s.Scope, []⟩], Scope := some s.scopes.length } :=
  rfl

theorem callDefer_keeps (s : InterpreterStat) (r : Res InterpreterStat (Option Nat))
    (h : onExit scopesKept s r) : onExit scopeKept s (callDefer s.Scope r) := by
  cases r with
  | ok v s1 => exact ⟨rfl, h⟩
  | panic e s1 => cases e <;> exact ⟨rfl, h⟩
  | timeout => trivial

theorem callEntry_keeps (f : JsFunction) (args : List JsValue) (s : InterpreterStat) :
    onExit scopesKept s (callEntry f args s) := by
  obtain ⟨rv, s0, env, h1, _, h3, _⟩ := callEntry_spec f args s
  rw [h1]
  exact scopesKept_append s s0 _ h3

theorem keeps_EvaluateExpr_succ (fuel : Nat) (h : EvaluatorKeeps fuel) :
    ∀ e, keeps (EvaluateExpr (fuel + 1) e) := by
  intro e
  cases e with
  | none => exact keeps_throw _
  | some e =>
    obtain ⟨loc, data⟩ := e
    simp only [EvaluateExpr]
    repeat' first
      | with_reducible exact keeps_pure _ | with_reducible exact keeps_throw _
      | with_reducible exact keeps_stuck | with_reducible exact keeps_alloc _
      | with_reducible exact keeps_deref _ | with_reducible exact keeps_store _ _
      | with_reducible exact keeps_lift _ | with_reducible exact keeps_write _
      | with_reducible exact keeps_curScope | with_reducible exact keeps_get
      | with_reducible exact keeps_scopeAt _ | with_reducible exact keeps_ScopeSet _ _ _
      | with_reducible exact keeps_Get _ _ | with_reducible exact keeps_Update _ _ _
      | with_reducible exact keeps_callBuiltIn _ _ _
      | with_reducible exact keeps_applyBinary _ _ _ _
      | with_reducible exact keeps_applyUnary _ _ _ _ _
      | with_reducible exact keeps_applyMember _ _ | with_reducible exact keeps_applyIndex _ _ _
      | with_reducible exact keeps_objectKey _ _ _ _
      | with_reducible exact keeps_VisitFuncExpr _ _ _
      | with_reducible exact keeps_VisitFuncStmt _ | with_reducible exact h.expr _
      | with_reducible exact h.stmt _ | with_reducible exact h.stmts _
      | with_reducible exact h.ret _ | with_reducible exact h.varDecl _ _
      | with_reducible exact h.loopFor _ _ _ | with_reducible exact h.loop _ _ _
      | with_reducible exact h.forStmt _ _ _ _ | with_reducible exact h.branches _
      | with_reducible exact h.condition _ | with_reducible exact h.binary _ _ _ _
      | with_reducible exact h.unary _ _ _ _ | with_reducible exact h.member _ _
      | with_reducible exact h.assign _ _ | with_reducible exact h.arrayLoop _ _
      | with_reducible exact h.array _ _ | with_reducible exact h.objectLoop _ _ _
      | with_reducible exact h.object _ _ _ | with_reducible exact h.index _ _ _
      | with_reducible exact h.argsLoop _ _ | with_reducible exact h.call _ _ _
      | with_reducible exact h.callFn _ _ | with_reducible apply keeps_modify
      | with_reducible apply keeps_bind | split | dsimp only
      | exact fun s => scopeKept_of_eq s _ rfl rfl | intro _

theorem keeps_EvaluateStmt_succ (fuel : Nat) (h : EvaluatorKeeps fuel) :
    ∀ st, keeps (EvaluateStmt (fuel + 1) st) := by
  intro st
  cases st with
  | none => exact keeps_throw _
  | some st =>
    obtain ⟨loc, data⟩ := st
    simp only [EvaluateStmt]
    repeat' first
      | with_reducible exact keeps_pure _ | with_reducible exact keeps_throw _
      | with_reducible exact keeps_stuck | with_reducible exact keeps_alloc _
      | with_reducible exact keeps_deref _ | with_reducible exact keeps_store _ _
      | with_reducible exact keeps_lift _ | with_reducible exact keeps_write _
      | with_reducible exact keeps_curScope | with_reducible exact keeps_get
      | with_reducible exact keeps_scopeAt _ | with_reducible exact keeps_ScopeSet _ _ _
      | with_reducible exact keeps_Get _ _ | with_reducible exact keeps_Update _ _ _
      | with_reducible exact keeps_callBuiltIn _ _ _
      | with_reducible exact keeps_applyBinary _ _ _ _
      | with_reducible exact keeps_applyUnary _ _ _ _ _
      | with_reducible exact keeps_applyMember _ _ | with_reducible exact keeps_applyIndex _ _ _
      | with_reducible exact keeps_objectKey _ _ _ _
      | with_reducible exact keeps_VisitFuncExpr _ _ _
      | with_reducible exact keeps_VisitFuncStmt _ | with_reducible exact h.expr _
      | with_reducible exact h.stmt _ | with_reducible exact h.stmts _
      | with_reducible exact h.ret _ | with_reducible exact h.varDecl _ _
      | with_reducible exact h.loopFor _ _ _ | with_reducible exact h.loop _ _ _
      | with_reducible exact h.forStmt _ _ _ _ | with_reducible exact h.branches _
      | with_reducible exact h.condition _ | with_reducible exact h.binary _ _ _ _
      | with_reducible exact h.unary _ _ _ _ | with_reducible exact h.member _ _
      | with_reducible exact h.assign _ _ | with_reducible exact h.arrayLoop _ _
      | with_reducible exact h.array _ _ | with_reducible exact h.objectLoop _ _ _
      | with_reducible exact h.object _ _ _ | with_reducible exact h.index _ _ _
      | with_reducible exact h.argsLoop _ _ | with_reducible exact h.call _ _ _
      | with_reducible exact h.callFn _ _ | with_reducible apply keeps_modify
      | with_reducible apply keeps_bind | split | dsimp only
      | exact fun s => scopeKept_of_eq s _ rfl rfl | intro _

theorem keeps_VisitStmts_succ (fuel : Nat) (h : EvaluatorKeeps fuel) :
    ∀ l, keeps (VisitStmts (fuel + 1) l) := by
  intro l
  cases l with
  | nil => exact keeps_pure _
  | cons st l =>
    simp only [VisitStmts]
    repeat' first
      | with_reducible exact keeps_pure _ | with_reducible exact keeps_throw _
      | with_reducible exact keeps_stuck | with_reducible exact keeps_alloc _
      | with_reducible exact keeps_deref _ | with_reducible exact keeps_store _ _
      | with_reducible exact keeps_lift _ | with_reducible exact keeps_write _
      | with_reducible exact keeps_curScope | with_reducible exact keeps_get
      | with_reducible exact keeps_scopeAt _ | with_reducible exact keeps_ScopeSet _ _ _
      | with_reducible exact keeps_Get _ _ | with_reducible exact keeps_Update _ _ _
      | with_reducible exact keeps_callBuiltIn _ _ _
      | with_reducible exact keeps_applyBinary _ _ _ _
      | with_reducible exact keeps_applyUnary _ _ _ _ _
      | with_reducible exact keeps_applyMember _ _ | with_reducible exact keeps_applyIndex _ _ _
      | with_reducible exact keeps_objectKey _ _ _ _
      | with_reducible exact keeps_VisitFuncExpr _ _ _
      | with_reducible exact keeps_VisitFuncStmt _ | with_reducible exact h.expr _
      | with_reducible exact h.stmt _ | with_reducible exact h.stmts _
      | with_reducible exact h.ret _ | with_reducible exact h.varDecl _ _
      | with_reducible exact h.loopFor _ _ _ | with_reducible exact h.loop _ _ _
      | with_reducible exact h.forStmt _ _ _ _ | with_reducible exact h.branches _
      | with_reducible exact h.condition _ | with_reducible exact h.binary _ _ _ _
      | with_reducible exact h.unary _ _ _ _ | with_reducible exact h.member _ _
      | with_reducible exact h.assign _ _ | with_reducible exact h.arrayLoop _ _
      | with_reducible exact h.array _ _ | with_reducible exact h.objectLoop _ _ _
      | with_reducible exact h.object _ _ _ | with_reducible exact h.index _ _ _
      | with_reducible exact h.argsLoop _ _ | with_reducible exact h.call _ _ _
      | with_reducible exact h.callFn _ _ | with_reducible apply keeps_modify
      | with_reducible apply keeps_bind | split | dsimp only
      | exact fun s => scopeKept_of_eq s _ rfl rfl | intro _

theorem keeps_VisitReturnStmt_succ (fuel : Nat) (h : EvaluatorKeeps fuel) :
    ∀ e, keeps (VisitReturnStmt (fuel + 1) e) := by
  intro e
  simp only [VisitReturnStmt]
  repeat' first
    | with_reducible exact keeps_pure _ | with_reducible exact keeps_throw _
    | with_reducible exact keeps_stuck | with_reducible exact keeps_alloc _
    | with_reducible exact keeps_deref _ | with_reducible exact keeps_store _ _
    | with_reducible exact keeps_lift _ | with_reducible exact keeps_write _
    | with_reducible exact keeps_curScope | with_reducible exact keeps_get
    | with_reducible exact keeps_scopeAt _ | with_reducible exact keeps_ScopeSet _ _ _
    | with_reducible exact keeps_Get _ _ | with_reducible exact keeps_Update _ _ _
    | with_reducible exact keeps_callBuiltIn _ _ _
    | with_reducible exact keeps_applyBinary _ _ _ _
    | with_reducible exact keeps_applyUnary _ _ _ _ _
    | with_reducible exact keeps_applyMember _ _ | with_reducible exact keeps_applyIndex _ _ _
    | with_reducible exact keeps_objectKey _ _ _ _
    | with_reducible exact keeps_VisitFuncExpr _ _ _ | with_reducible exact keeps_VisitFuncStmt _
    | with_reducible exact h.expr _ | with_reducible exact h.stmt _
    | with_reducible exact h.stmts _ | with_reducible exact h.ret _
    | with_reducible exact h.varDecl _ _ | with_reducible exact h.loopFor _ _ _
    | with_reducible exact h.loop _ _ _ | with_reducible exact h.forStmt _ _ _ _
    | with_reducible exact h.branches _ | with_reducible exact h.condition _
    | with_reducible exact h.binary _ _ _ _ | with_reducible exact h.unary _ _ _ _
    | with_reducible exact h.member _ _ | with_reducible exact h.assign _ _
    | with_reducible exact h.arrayLoop _ _ | with_reducible exact h.array _ _
    | with_reducible exact h.objectLoop _ _ _ | with_reducible exact h.object _ _ _
    | with_reducible exact h.index _ _ _ | with_reducible exact h.argsLoop _ _
    | with_reducible exact h.call _ _ _ | with_reducible exact h.callFn _ _
    | with_reducible apply keeps_modify | with_reducible apply keeps_bind | split | dsimp only
    | exact fun s => scopeKept_of_eq s _ rfl rfl | intro _

theorem keeps_VisitVarDeclStmt_succ (fuel : Nat) (h : EvaluatorKeeps fuel) :
    ∀ id init, keeps (VisitVarDeclStmt (fuel + 1) id init) := by
  intro id init
  simp only [VisitVarDeclStmt]
  repeat' first
    | with_reducible exact keeps_pure _ | with_reducible exact keeps_throw _
    | with_reducible exact keeps_stuck | with_reducible exact keeps_alloc _
    | with_reducible exact keeps_deref _ | with_reducible exact keeps_store _ _
    | with_reducible exact keeps_lift _ | with_reducible exact keeps_write _
    | with_reducible exact keeps_curScope | with_reducible exact keeps_get
    | with_reducible exact keeps_scopeAt _ | with_reducible exact keeps_ScopeSet _ _ _
    | with_reducible exact keeps_Get _ _ | with_reducible exact keeps_Update _ _ _
    | with_reducible exact keeps_callBuiltIn _ _ _
    | with_reducible exact keeps_applyBinary _ _ _ _
    | with_reducible exact keeps_applyUnary _ _ _ _ _
    | with_reducible exact keeps_applyMember _ _ | with_reducible exact keeps_applyIndex _ _ _
    | with_reducible exact keeps_objectKey _ _ _ _
    | with_reducible exact keeps_VisitFuncExpr _ _ _ | with_reducible exact keeps_VisitFuncStmt _
    | with_reducible exact h.expr _ | with_reducible exact h.stmt _
    | with_reducible exact h.stmts _ | with_reducible exact h.ret _
    | with_reducible exact h.varDecl _ _ | with_reducible exact h.loopFor _ _ _
    | with_reducible exact h.loop _ _ _ | with_reducible exact h.forStmt _ _ _ _
    | with_reducible exact h.branches _ | with_reducible exact h.condition _
    | with_reducible exact h.binary _ _ _ _ | with_reducible exact h.unary _ _ _ _
    | with_reducible exact h.member _ _ | with_reducible exact h.assign _ _
    | with_reducible exact h.arrayLoop _ _ | with_reducible exact h.array _ _
    | with_reducible exact h.objectLoop _ _ _ | with_reducible exact h.object _ _ _
    | with_reducible exact h.index _ _ _ | with_reducible exact h.argsLoop _ _
    | with_reducible exact h.call _ _ _ | with_reducible exact h.callFn _ _
    | with_reducible apply keeps_modify | with_reducible apply keeps_bind | split | dsimp only
    | exact fun s => scopeKept_of_eq s _ rfl rfl | intro _

theorem keeps_runLoopFor_succ (fuel : Nat) (h : EvaluatorKeeps fuel) :
    ∀ c r b, keeps (runLoopFor (fuel + 1) c r b) := by
  intro c r b
  simp only [runLoopFor]
  repeat' first
    | with_reducible exact keeps_pure _ | with_reducible exact keeps_throw _
    | with_reducible exact keeps_stuck | with_reducible exact keeps_alloc _
    | with_reducible exact keeps_deref _ | with_reducible exact keeps_store _ _
    | with_reducible exact keeps_lift _ | with_reducible exact keeps_write _
    | with_reducible exact keeps_curScope | with_reducible exact keeps_get
    | with_reducible exact keeps_scopeAt _ | with_reducible exact keeps_ScopeSet _ _ _
    | with_reducible exact keeps_Get _ _ | with_reducible exact keeps_Update _ _ _
    | with_reducible exact keeps_callBuiltIn _ _ _
    | with_reducible exact keeps_applyBinary _ _ _ _
    | with_reducible exact keeps_applyUnary _ _ _ _ _
    | with_reducible exact keeps_applyMember _ _ | with_reducible exact keeps_applyIndex _ _ _
    | with_reducible exact keeps_objectKey _ _ _ _
    | with_reducible exact keeps_VisitFuncExpr _ _ _ | with_reducible exact keeps_VisitFuncStmt _
    | with_reducible exact h.expr _ | with_reducible exact h.stmt _
    | with_reducible exact h.stmts _ | with_reducible exact h.ret _
    | with_reducible exact h.varDecl _ _ | with_reducible exact h.loopFor _ _ _
    | with_reducible exact h.loop _ _ _ | with_reducible exact h.forStmt _ _ _ _
    | with_reducible exact h.branches _ | with_reducible exact h.condition _
    | with_reducible exact h.binary _ _ _ _ | with_reducible exact h.unary _ _ _ _
    | with_reducible exact h.member _ _ | with_reducible exact h.assign _ _
    | with_reducible exact h.arrayLoop _ _ | with_reducible exact h.array _ _
    | with_reducible exact h.objectLoop _ _ _ | with_reducible exact h.object _ _ _
    | with_reducible exact h.index _ _ _ | with_reducible exact h.argsLoop _ _
    | with_reducible exact h.call _ _ _ | with_reducible exact h.callFn _ _
    | with_reducible apply keeps_modify | with_reducible apply keeps_bind | split | dsimp only
    | exact fun s => scopeKept_of_eq s _ rfl rfl | intro _

theorem keeps_runLoop_succ (fuel : Nat) (h : EvaluatorKeeps fuel) :
    ∀ c r b, keeps (runLoop (fuel + 1) c r b) := by
  intro c r b s
  simp only [runLoop]
  have h1 := h.loopFor c r b s
  have h2 : keeps (do
      EvaluateStmt fuel r
      runLoop fuel c r b : Go InterpreterStat Unit) :=
    keeps_bind _ _ (h.stmt r) (fun _ => h.loop c r b)
  cases hr : runLoopFor fuel c r b s with
  | ok u s1 =>
    rw [hr] at h1
    exact h1
  | timeout => trivial
  | panic e s1 =>
    rw [hr] at h1
    cases e with
    | SContinue => exact onExit_from s s1 _ h1 (h2 s1)
    | SBreak => exact h1
    | AstError _ _ => exact h1
    | RuntimeError _ _ => exact h1
    | JsValuePtr _ => exact h1
    | runtime _ => exact h1

theorem keeps_VisitForLoopStmt_succ (fuel : Nat) (h : EvaluatorKeeps fuel) :
    ∀ i c r b, keeps (VisitForLoopStmt (fuel + 1) i c r b) := by
  intro i c r b s
  simp only [VisitForLoopStmt, EnterScope_eq]
  have h2 : keeps (do
      EvaluateStmt fuel i
      runLoop fuel c r b : Go InterpreterStat Unit) :=
    keeps_bind _ _ (h.stmt i) (fun _ => h.loop c r b)
  have h1 := h2 { s with scopes := s.scopes ++ [⟨s.Scope, []⟩], Scope := some s.scopes.length }
  revert h1
  cases (do
      EvaluateStmt fuel i
      runLoop fuel c r b : Go InterpreterStat Unit)
      { s with scopes := s.scopes ++ [⟨s.Scope, []⟩], Scope := some s.scopes.length } with
  | ok u s2 =>
    intro h1
    obtain ⟨h3, h4⟩ := popScope_entered s s2 h1
    simp only [h3]
    exact h4
  | timeout =>
    intro _
    trivial
  | panic e s2 =>
    intro h1
    obtain ⟨h3, h4⟩ := popScope_entered s s2 h1
    simp only [h3]
    cases e <;> exact h4

theorem keeps_branchesLoop_succ (fuel : Nat) (h : EvaluatorKeeps fuel) :
    ∀ l, keeps (branchesLoop (fuel + 1) l) := by
  intro l
  cases l with
  | nil => exact keeps_pure _
  | cons br l =>
    obtain ⟨c, b⟩ := br
    simp only [branchesLoop]
    repeat' first
      | with_reducible exact keeps_pure _ | with_reducible exact keeps_throw _
      | with_reducible exact keeps_stuck | with_reducible exact keeps_alloc _
      | with_reducible exact keeps_deref _ | with_reducible exact keeps_store _ _
      | with_reducible exact keeps_lift _ | with_reducible exact keeps_write _
      | with_reducible exact keeps_curScope | with_reducible exact keeps_get
      | with_reducible exact keeps_scopeAt _ | with_reducible exact keeps_ScopeSet _ _ _
      | with_reducible exact keeps_Get _ _ | with_reducible exact keeps_Update _ _ _
      | with_reducible exact keeps_callBuiltIn _ _ _
      | with_reducible exact keeps_applyBinary _ _ _ _
      | with_reducible exact keeps_applyUnary _ _ _ _ _
      | with_reducible exact keeps_applyMember _ _ | with_reducible exact keeps_applyIndex _ _ _
      | with_reducible exact keeps_objectKey _ _ _ _
      | with_reducible exact keeps_VisitFuncExpr _ _ _
      | with_reducible exact keeps_VisitFuncStmt _ | with_reducible exact h.expr _
      | with_reducible exact h.stmt _ | with_reducible exact h.stmts _
      | with_reducible exact h.ret _ | with_reducible exact h.varDecl _ _
      | with_reducible exact h.loopFor _ _ _ | with_reducible exact h.loop _ _ _
      | with_reducible exact h.forStmt _ _ _ _ | with_reducible exact h.branches _
      | with_reducible exact h.condition _ | with_reducible exact h.binary _ _ _ _
      | with_reducible exact h.unary _ _ _ _ | with_reducible exact h.member _ _
      | with_reducible exact h.assign _ _ | with_reducible exact h.arrayLoop _ _
      | with_reducible exact h.array _ _ | with_reducible exact h.objectLoop _ _ _
      | with_reducible exact h.object _ _ _ | with_reducible exact h.index _ _ _
      | with_reducible exact h.argsLoop _ _ | with_reducible exact h.call _ _ _
      | with_reducible exact h.callFn _ _ | with_reducible apply keeps_modify
      | with_reducible apply keeps_bind | split | dsimp only
      | exact fun s => scopeKept_of_eq s _ rfl rfl | intro _

theorem keeps_VisitConditionStmt_succ (fuel : Nat) (h : EvaluatorKeeps fuel) :
    ∀ l, keeps (VisitConditionStmt (fuel + 1) l) := by
  intro l s
  simp only [VisitConditionStmt, EnterScope_eq]
  have h1 := h.branches l
    { s with scopes := s.scopes ++ [⟨s.Scope, []⟩], Scope := some s.scopes.length }
  revert h1
  cases branchesLoop fuel l
      { s with scopes := s.scopes ++ [⟨s.Scope, []⟩], Scope := some s.scopes.length } with
  | ok u s2 =>
    intro h1
    obtain ⟨h3, h4⟩ := popScope_entered s s2 h1
    simp only [h3]
    exact h4
  | timeout =>
    intro _
    trivial
  | panic e s2 =>
    intro h1
    obtain ⟨h3, h4⟩ := popScope_entered s s2 h1
    simp only [h3]
    exact h4

theorem keeps_VisitBinaryExpr_succ (fuel : Nat) (h : EvaluatorKeeps fuel) :
    ∀ loc op l r, keeps (VisitBinaryExpr (fuel + 1) loc op l r) := by
  intro loc op l r
  simp only [VisitBinaryExpr]
  repeat' first
    | with_reducible exact keeps_pure _ | with_reducible exact keeps_throw _
    | with_reducible exact keeps_stuck | with_reducible exact keeps_alloc _
    | with_reducible exact keeps_deref _ | with_reducible exact keeps_store _ _
    | with_reducible exact keeps_lift _ | with_reducible exact keeps_write _
    | with_reducible exact keeps_curScope | with_reducible exact keeps_get
    | with_reducible exact keeps_scopeAt _ | with_reducible exact keeps_ScopeSet _ _ _
    | with_reducible exact keeps_Get _ _ | with_reducible exact keeps_Update _ _ _
    | with_reducible exact keeps_callBuiltIn _ _ _
    | with_reducible exact keeps_applyBinary _ _ _ _
    | with_reducible exact keeps_applyUnary _ _ _ _ _
    | with_reducible exact keeps_applyMember _ _ | with_reducible exact keeps_applyIndex _ _ _
    | with_reducible exact keeps_objectKey _ _ _ _
    | with_reducible exact keeps_VisitFuncExpr _ _ _ | with_reducible exact keeps_VisitFuncStmt _
    | with_reducible exact h.expr _ | with_reducible exact h.stmt _
    | with_reducible exact h.stmts _ | with_reducible exact h.ret _
    | with_reducible exact h.varDecl _ _ | with_reducible exact h.loopFor _ _ _
    | with_reducible exact h.loop _ _ _ | with_reducible exact h.forStmt _ _ _ _
    | with_reducible exact h.branches _ | with_reducible exact h.condition _
    | with_reducible exact h.binary _ _ _ _ | with_reducible exact h.unary _ _ _ _
    | with_reducible exact h.member _ _ | with_reducible exact h.assign _ _
    | with_reducible exact h.arrayLoop _ _ | with_reducible exact h.array _ _
    | with_reducible exact h.objectLoop _ _ _ | with_reducible exact h.object _ _ _
    | with_reducible exact h.index _ _ _ | with_reducible exact h.argsLoop _ _
    | with_reducible exact h.call _ _ _ | with_reducible exact h.callFn _ _
    | with_reducible apply keeps_modify | with_reducible apply keeps_bind | split | dsimp only
    | exact fun s => scopeKept_of_eq s _ rfl rfl | intro _

theorem keeps_VisitUnaryExpr_succ (fuel : Nat) (h : EvaluatorKeeps fuel) :
    ∀ loc op v a, keeps (VisitUnaryExpr (fuel + 1) loc op v a) := by
  intro loc op v a
  simp only [VisitUnaryExpr]
  repeat' first
    | with_reducible exact keeps_pure _ | with_reducible exact keeps_throw _
    | with_reducible exact keeps_stuck | with_reducible exact keeps_alloc _
    | with_reducible exact keeps_deref _ | with_reducible exact keeps_store _ _
    | with_reducible exact keeps_lift _ | with_reducible exact keeps_write _
    | with_reducible exact keeps_curScope | with_reducible exact keeps_get
    | with_reducible exact keeps_scopeAt _ | with_reducible exact keeps_ScopeSet _ _ _
    | with_reducible exact keeps_Get _ _ | with_reducible exact keeps_Update _ _ _
    | with_reducible exact keeps_callBuiltIn _ _ _
    | with_reducible exact keeps_applyBinary _ _ _ _
    | with_reducible exact keeps_applyUnary _ _ _ _ _
    | with_reducible exact keeps_applyMember _ _ | with_reducible exact keeps_applyIndex _ _ _
    | with_reducible exact keeps_objectKey _ _ _ _
    | with_reducible exact keeps_VisitFuncExpr _ _ _ | with_reducible exact keeps_VisitFuncStmt _
    | with_reducible exact h.expr _ | with_reducible exact h.stmt _
    | with_reducible exact h.stmts _ | with_reducible exact h.ret _
    | with_reducible exact h.varDecl _ _ | with_reducible exact h.loopFor _ _ _
    | with_reducible exact h.loop _ _ _ | with_reducible exact h.forStmt _ _ _ _
    | with_reducible exact h.branches _ | with_reducible exact h.condition _
    | with_reducible exact h.binary _ _ _ _ | with_reducible exact h.unary _ _ _ _
    | with_reducible exact h.member _ _ | with_reducible exact h.assign _ _
    | with_reducible exact h.arrayLoop _ _ | with_reducible exact h.array _ _
    | with_reducible exact h.objectLoop _ _ _ | with_reducible exact h.object _ _ _
    | with_reducible exact h.index _ _ _ | with_reducible exact h.argsLoop _ _
    | with_reducible exact h.call _ _ _ | with_reducible exact h.callFn _ _
    | with_reducible apply keeps_modify | with_reducible apply keeps_bind | split | dsimp only
    | exact fun s => scopeKept_of_eq s _ rfl rfl | intro _

theorem keeps_VisitMemberExpr_succ (fuel : Nat) (h : EvaluatorKeeps fuel) :
    ∀ obj p, keeps (VisitMemberExpr (fuel + 1) obj p) := by
  intro obj p
  simp only [VisitMemberExpr]
  repeat' first
    | with_reducible exact keeps_pure _ | with_reducible exact keeps_throw _
    | with_reducible exact keeps_stuck | with_reducible exact keeps_alloc _
    | with_reducible exact keeps_deref _ | with_reducible exact keeps_store _ _
    | with_reducible exact keeps_lift _ | with_reducible exact keeps_write _
    | with_reducible exact keeps_curScope | with_reducible exact keeps_get
    | with_reducible exact keeps_scopeAt _ | with_reducible exact keeps_ScopeSet _ _ _
    | with_reducible exact keeps_Get _ _ | with_reducible exact keeps_Update _ _ _
    | with_reducible exact keeps_callBuiltIn _ _ _
    | with_reducible exact keeps_applyBinary _ _ _ _
    | with_reducible exact keeps_applyUnary _ _ _ _ _
    | with_reducible exact keeps_applyMember _ _ | with_reducible exact keeps_applyIndex _ _ _
    | with_reducible exact keeps_objectKey _ _ _ _
    | with_reducible exact keeps_VisitFuncExpr _ _ _ | with_reducible exact keeps_VisitFuncStmt _
    | with_reducible exact h.expr _ | with_reducible exact h.stmt _
    | with_reducible exact h.stmts _ | with_reducible exact h.ret _
    | with_reducible exact h.varDecl _ _ | with_reducible exact h.loopFor _ _ _
    | with_reducible exact h.loop _ _ _ | with_reducible exact h.forStmt _ _ _ _
    | with_reducible exact h.branches _ | with_reducible exact h.condition _
    | with_reducible exact h.binary _ _ _ _ | with_reducible exact h.unary _ _ _ _
    | with_reducible exact h.member _ _ | with_reducible exact h.assign _ _
    | with_reducible exact h.arrayLoop _ _ | with_reducible exact h.array _ _
    | with_reducible exact h.objectLoop _ _ _ | with_reducible exact h.object _ _ _
    | with_reducible exact h.index _ _ _ | with_reducible exact h.argsLoop _ _
    | with_reducible exact h.call _ _ _ | with_reducible exact h.callFn _ _
    | with_reducible apply keeps_modify | with_reducible apply keeps_bind | split | dsimp only
    | exact fun s => scopeKept_of_eq s _ rfl rfl | intro _

theorem keeps_VisitAssignExpr_succ (fuel : Nat) (h : EvaluatorKeeps fuel) :
    ∀ t a, keeps (VisitAssignExpr (fuel + 1) t a) := by
  intro t a
  simp only [VisitAssignExpr]
  repeat' first
    | with_reducible exact keeps_pure _ | with_reducible exact keeps_throw _
    | with_reducible exact keeps_stuck | with_reducible exact keeps_alloc _
    | with_reducible exact keeps_deref _ | with_reducible exact keeps_store _ _
    | with_reducible exact keeps_lift _ | with_reducible exact keeps_write _
    | with_reducible exact keeps_curScope | with_reducible exact keeps_get
    | with_reducible exact keeps_scopeAt _ | with_reducible exact keeps_ScopeSet _ _ _
    | with_reducible exact keeps_Get _ _ | with_reducible exact keeps_Update _ _ _
    | with_reducible exact keeps_callBuiltIn _ _ _
    | with_reducible exact keeps_applyBinary _ _ _ _
    | with_reducible exact keeps_applyUnary _ _ _ _ _
    | with_reducible exact keeps_applyMember _ _ | with_reducible exact keeps_applyIndex _ _ _
    | with_reducible exact keeps_objectKey _ _ _ _
    | with_reducible exact keeps_VisitFuncExpr _ _ _ | with_reducible exact keeps_VisitFuncStmt _
    | with_reducible exact h.expr _ | with_reducible exact h.stmt _
    | with_reducible exact h.stmts _ | with_reducible exact h.ret _
    | with_reducible exact h.varDecl _ _ | with_reducible exact h.loopFor _ _ _
    | with_reducible exact h.loop _ _ _ | with_reducible exact h.forStmt _ _ _ _
    | with_reducible exact h.branches _ | with_reducible exact h.condition _
    | with_reducible exact h.binary _ _ _ _ | with_reducible exact h.unary _ _ _ _
    | with_reducible exact h.member _ _ | with_reducible exact h.assign _ _
    | with_reducible exact h.arrayLoop _ _ | with_reducible exact h.array _ _
    | with_reducible exact h.objectLoop _ _ _ | with_reducible exact h.object _ _ _
    | with_reducible exact h.index _ _ _ | with_reducible exact h.argsLoop _ _
    | with_reducible exact h.call _ _ _ | with_reducible exact h.callFn _ _
    | with_reducible apply keeps_modify | with_reducible apply keeps_bind | split | dsimp only
    | exact fun s => scopeKept_of_eq s _ rfl rfl | intro _

theorem keeps_arrayExprLoop_succ (fuel : Nat) (h : EvaluatorKeeps fuel) :
    ∀ es arr, keeps (arrayExprLoop (fuel + 1) es arr) := by
  intro es arr
  cases es with
  | nil => exact keeps_pure _
  | cons e es =>
    simp only [arrayExprLoop]
    repeat' first
      | with_reducible exact keeps_pure _ | with_reducible exact keeps_throw _
      | with_reducible exact keeps_stuck | with_reducible exact keeps_alloc _
      | with_reducible exact keeps_deref _ | with_reducible exact keeps_store _ _
      | with_reducible exact keeps_lift _ | with_reducible exact keeps_write _
      | with_reducible exact keeps_curScope | with_reducible exact keeps_get
      | with_reducible exact keeps_scopeAt _ | with_reducible exact keeps_ScopeSet _ _ _
      | with_reducible exact keeps_Get _ _ | with_reducible exact keeps_Update _ _ _
      | with_reducible exact keeps_callBuiltIn _ _ _
      | with_reducible exact keeps_applyBinary _ _ _ _
      | with_reducible exact keeps_applyUnary _ _ _ _ _
      | with_reducible exact keeps_applyMember _ _ | with_reducible exact keeps_applyIndex _ _ _
      | with_reducible exact keeps_objectKey _ _ _ _
      | with_reducible exact keeps_VisitFuncExpr _ _ _
      | with_reducible exact keeps_VisitFuncStmt _ | with_reducible exact h.expr _
      | with_reducible exact h.stmt _ | with_reducible exact h.stmts _
      | with_reducible exact h.ret _ | with_reducible exact h.varDecl _ _
      | with_reducible exact h.loopFor _ _ _ | with_reducible exact h.loop _ _ _
      | with_reducible exact h.forStmt _ _ _ _ | with_reducible exact h.branches _
      | with_reducible exact h.condition _ | with_reducible exact h.binary _ _ _ _
      | with_reducible exact h.unary _ _ _ _ | with_reducible exact h.member _ _
      | with_reducible exact h.assign _ _ | with_reducible exact h.arrayLoop _ _
      | with_reducible exact h.array _ _ | with_reducible exact h.objectLoop _ _ _
      | with_reducible exact h.object _ _ _ | with_reducible exact h.index _ _ _
      | with_reducible exact h.argsLoop _ _ | with_reducible exact h.call _ _ _
      | with_reducible exact h.callFn _ _ | with_reducible apply keeps_modify
      | with_reducible apply keeps_bind | split | dsimp only
      | exact fun s => scopeKept_of_eq s _ rfl rfl | intro _

theorem keeps_VisitArrayExpr_succ (fuel : Nat) (h : EvaluatorKeeps fuel) :
    ∀ es n, keeps (VisitArrayExpr (fuel + 1) es n) := by
  intro es n
  simp only [VisitArrayExpr]
  repeat' first
    | with_reducible exact keeps_pure _ | with_reducible exact keeps_throw _
    | with_reducible exact keeps_stuck | with_reducible exact keeps_alloc _
    | with_reducible exact keeps_deref _ | with_reducible exact keeps_store _ _
    | with_reducible exact keeps_lift _ | with_reducible exact keeps_write _
    | with_reducible exact keeps_curScope | with_reducible exact keeps_get
    | with_reducible exact keeps_scopeAt _ | with_reducible exact keeps_ScopeSet _ _ _
    | with_reducible exact keeps_Get _ _ | with_reducible exact keeps_Update _ _ _
    | with_reducible exact keeps_callBuiltIn _ _ _
    | with_reducible exact keeps_applyBinary _ _ _ _
    | with_reducible exact keeps_applyUnary _ _ _ _ _
    | with_reducible exact keeps_applyMember _ _ | with_reducible exact keeps_applyIndex _ _ _
    | with_reducible exact keeps_objectKey _ _ _ _
    | with_reducible exact keeps_VisitFuncExpr _ _ _ | with_reducible exact keeps_VisitFuncStmt _
    | with_reducible exact h.expr _ | with_reducible exact h.stmt _
    | with_reducible exact h.stmts _ | with_reducible exact h.ret _
    | with_reducible exact h.varDecl _ _ | with_reducible exact h.loopFor _ _ _
    | with_reducible exact h.loop _ _ _ | with_reducible exact h.forStmt _ _ _ _
    | with_reducible exact h.branches _ | with_reducible exact h.condition _
    | with_reducible exact h.binary _ _ _ _ | with_reducible exact h.unary _ _ _ _
    | with_reducible exact h.member _ _ | with_reducible exact h.assign _ _
    | with_reducible exact h.arrayLoop _ _ | with_reducible exact h.array _ _
    | with_reducible exact h.objectLoop _ _ _ | with_reducible exact h.object _ _ _
    | with_reducible exact h.index _ _ _ | with_reducible exact h.argsLoop _ _
    | with_reducible exact h.call _ _ _ | with_reducible exact h.callFn _ _
    | with_reducible apply keeps_modify | with_reducible apply keeps_bind | split | dsimp only
    | exact fun s => scopeKept_of_eq s _ rfl rfl | intro _

theorem keeps_objectExprLoop_succ (fuel : Nat) (h : EvaluatorKeeps fuel) :
    ∀ loc es ps, keeps (objectExprLoop (fuel + 1) loc es ps) := by
  intro loc es ps
  cases es with
  | nil => exact keeps_pure _
  | cons ke es =>
    cases es with
    | nil => exact keeps_throw _
    | cons ve rest =>
      simp only [objectExprLoop]
      repeat' first
        | with_reducible exact keeps_pure _ | with_reducible exact keeps_throw _
        | with_reducible exact keeps_stuck | with_reducible exact keeps_alloc _
        | with_reducible exact keeps_deref _ | with_reducible exact keeps_store _ _
        | with_reducible exact keeps_lift _ | with_reducible exact keeps_write _
        | with_reducible exact keeps_curScope | with_reducible exact keeps_get
        | with_reducible exact keeps_scopeAt _ | with_reducible exact keeps_ScopeSet _ _ _
        | with_reducible exact keeps_Get _ _ | with_reducible exact keeps_Update _ _ _
        | with_reducible exact keeps_callBuiltIn _ _ _
        | with_reducible exact keeps_applyBinary _ _ _ _
        | with_reducible exact keeps_applyUnary _ _ _ _ _
        | with_reducible exact keeps_applyMember _ _
        | with_reducible exact keeps_applyIndex _ _ _
        | with_reducible exact keeps_objectKey _ _ _ _
        | with_reducible exact keeps_VisitFuncExpr _ _ _
        | with_reducible exact keeps_VisitFuncStmt _ | with_reducible exact h.expr _
        | with_reducible exact h.stmt _ | with_reducible exact h.stmts _
        | with_reducible exact h.ret _ | with_reducible exact h.varDecl _ _
        | with_reducible exact h.loopFor _ _ _ | with_reducible exact h.loop _ _ _
        | with_reducible exact h.forStmt _ _ _ _ | with_reducible exact h.branches _
        | with_reducible exact h.condition _ | with_reducible exact h.binary _ _ _ _
        | with_reducible exact h.unary _ _ _ _ | with_reducible exact h.member _ _
        | with_reducible exact h.assign _ _ | with_reducible exact h.arrayLoop _ _
        | with_reducible exact h.array _ _ | with_reducible exact h.objectLoop _ _ _
        | with_reducible exact h.object _ _ _ | with_reducible exact h.index _ _ _
        | with_reducible exact h.argsLoop _ _ | with_reducible exact h.call _ _ _
        | with_reducible exact h.callFn _ _ | with_reducible apply keeps_modify
        | with_reducible apply keeps_bind | split | dsimp only
        | exact fun s => scopeKept_of_eq s _ rfl rfl | intro _

theorem keeps_VisitObjectExpr_succ (fuel : Nat) (h : EvaluatorKeeps fuel) :
    ∀ loc proto es, keeps (VisitObjectExpr (fuel + 1) loc proto es) := by
  intro loc proto es
  simp only [VisitObjectExpr]
  repeat' first
    | with_reducible exact keeps_pure _ | with_reducible exact keeps_throw _
    | with_reducible exact keeps_stuck | with_reducible exact keeps_alloc _
    | with_reducible exact keeps_deref _ | with_reducible exact keeps_store _ _
    | with_reducible exact keeps_lift _ | with_reducible exact keeps_write _
    | with_reducible exact keeps_curScope | with_reducible exact keeps_get
    | with_reducible exact keeps_scopeAt _ | with_reducible exact keeps_ScopeSet _ _ _
    | with_reducible exact keeps_Get _ _ | with_reducible exact keeps_Update _ _ _
    | with_reducible exact keeps_callBuiltIn _ _ _
    | with_reducible exact keeps_applyBinary _ _ _ _
    | with_reducible exact keeps_applyUnary _ _ _ _ _
    | with_reducible exact keeps_applyMember _ _ | with_reducible exact keeps_applyIndex _ _ _
    | with_reducible exact keeps_objectKey _ _ _ _
    | with_reducible exact keeps_VisitFuncExpr _ _ _ | with_reducible exact keeps_VisitFuncStmt _
    | with_reducible exact h.expr _ | with_reducible exact h.stmt _
    | with_reducible exact h.stmts _ | with_reducible exact h.ret _
    | with_reducible exact h.varDecl _ _ | with_reducible exact h.loopFor _ _ _
    | with_reducible exact h.loop _ _ _ | with_reducible exact h.forStmt _ _ _ _
    | with_reducible exact h.branches _ | with_reducible exact h.condition _
    | with_reducible exact h.binary _ _ _ _ | with_reducible exact h.unary _ _ _ _
    | with_reducible exact h.member _ _ | with_reducible exact h.assign _ _
    | with_reducible exact h.arrayLoop _ _ | with_reducible exact h.array _ _
    | with_reducible exact h.objectLoop _ _ _ | with_reducible exact h.object _ _ _
    | with_reducible exact h.index _ _ _ | with_reducible exact h.argsLoop _ _
    | with_reducible exact h.call _ _ _ | with_reducible exact h.callFn _ _
    | with_reducible apply keeps_modify | with_reducible apply keeps_bind | split | dsimp only
    | exact fun s => scopeKept_of_eq s _ rfl rfl | intro _

theorem keeps_VisitIndexExpr_succ (fuel : Nat) (h : EvaluatorKeeps fuel) :
    ∀ loc t i, keeps (VisitIndexExpr (fuel + 1) loc t i) := by
  intro loc t i
  simp only [VisitIndexExpr]
  repeat' first
    | with_reducible exact keeps_pure _ | with_reducible exact keeps_throw _
    | with_reducible exact keeps_stuck | with_reducible exact keeps_alloc _
    | with_reducible exact keeps_deref _ | with_reducible exact keeps_store _ _
    | with_reducible exact keeps_lift _ | with_reducible exact keeps_write _
    | with_reducible exact keeps_curScope | with_reducible exact keeps_get
    | with_reducible exact keeps_scopeAt _ | with_reducible exact keeps_ScopeSet _ _ _
    | with_reducible exact keeps_Get _ _ | with_reducible exact keeps_Update _ _ _
    | with_reducible exact keeps_callBuiltIn _ _ _
    | with_reducible exact keeps_applyBinary _ _ _ _
    | with_reducible exact keeps_applyUnary _ _ _ _ _
    | with_reducible exact keeps_applyMember _ _ | with_reducible exact keeps_applyIndex _ _ _
    | with_reducible exact keeps_objectKey _ _ _ _
    | with_reducible exact keeps_VisitFuncExpr _ _ _ | with_reducible exact keeps_VisitFuncStmt _
    | with_reducible exact h.expr _ | with_reducible exact h.stmt _
    | with_reducible exact h.stmts _ | with_reducible exact h.ret _
    | with_reducible exact h.varDecl _ _ | with_reducible exact h.loopFor _ _ _
    | with_reducible exact h.loop _ _ _ | with_reducible exact h.forStmt _ _ _ _
    | with_reducible exact h.branches _ | with_reducible exact h.condition _
    | with_reducible exact h.binary _ _ _ _ | with_reducible exact h.unary _ _ _ _
    | with_reducible exact h.member _ _ | with_reducible exact h.assign _ _
    | with_reducible exact h.arrayLoop _ _ | with_reducible exact h.array _ _
    | with_reducible exact h.objectLoop _ _ _ | with_reducible exact h.object _ _ _
    | with_reducible exact h.index _ _ _ | with_reducible exact h.argsLoop _ _
    | with_reducible exact h.call _ _ _ | with_reducible exact h.callFn _ _
    | with_reducible apply keeps_modify | with_reducible apply keeps_bind | split | dsimp only
    | exact fun s => scopeKept_of_eq s _ rfl rfl | intro _

theorem keeps_callArgsLoop_succ (fuel : Nat) (h : EvaluatorKeeps fuel) :
    ∀ es args, keeps (callArgsLoop (fuel + 1) es args) := by
  intro es args
  cases es with
  | nil => exact keeps_pure _
  | cons e es =>
    simp only [callArgsLoop]
    repeat' first
      | with_reducible exact keeps_pure _ | with_reducible exact keeps_throw _
      | with_reducible exact keeps_stuck | with_reducible exact keeps_alloc _
      | with_reducible exact keeps_deref _ | with_reducible exact keeps_store _ _
      | with_reducible exact keeps_lift _ | with_reducible exact keeps_write _
      | with_reducible exact keeps_curScope | with_reducible exact keeps_get
      | with_reducible exact keeps_scopeAt _ | with_reducible exact keeps_ScopeSet _ _ _
      | with_reducible exact keeps_Get _ _ | with_reducible exact keeps_Update _ _ _
      | with_reducible exact keeps_callBuiltIn _ _ _
      | with_reducible exact keeps_applyBinary _ _ _ _
      | with_reducible exact keeps_applyUnary _ _ _ _ _
      | with_reducible exact keeps_applyMember _ _ | with_reducible exact keeps_applyIndex _ _ _
      | with_reducible exact keeps_objectKey _ _ _ _
      | with_reducible exact keeps_VisitFuncExpr _ _ _
      | with_reducible exact keeps_VisitFuncStmt _ | with_reducible exact h.expr _
      | with_reducible exact h.stmt _ | with_reducible exact h.stmts _
      | with_reducible exact h.ret _ | with_reducible exact h.varDecl _ _
      | with_reducible exact h.loopFor _ _ _ | with_reducible exact h.loop _ _ _
      | with_reducible exact h.forStmt _ _ _ _ | with_reducible exact h.branches _
      | with_reducible exact h.condition _ | with_reducible exact h.binary _ _ _ _
      | with_reducible exact h.unary _ _ _ _ | with_reducible exact h.member _ _
      | with_reducible exact h.assign _ _ | with_reducible exact h.arrayLoop _ _
      | with_reducible exact h.array _ _ | with_reducible exact h.objectLoop _ _ _
      | with_reducible exact h.object _ _ _ | with_reducible exact h.index _ _ _
      | with_reducible exact h.argsLoop _ _ | with_reducible exact h.call _ _ _
      | with_reducible exact h.callFn _ _ | with_reducible apply keeps_modify
      | with_reducible apply keeps_bind | split | dsimp only
      | exact fun s => scopeKept_of_eq s _ rfl rfl | intro _

theorem keeps_VisitCallExpr_succ (fuel : Nat) (h : EvaluatorKeeps fuel) :
    ∀ loc c es, keeps (VisitCallExpr (fuel + 1) loc c es) := by
  intro loc c es
  simp only [VisitCallExpr]
  repeat' first
    | with_reducible exact keeps_pure _ | with_reducible exact keeps_throw _
    | with_reducible exact keeps_stuck | with_reducible exact keeps_alloc _
    | with_reducible exact keeps_deref _ | with_reducible exact keeps_store _ _
    | with_reducible exact keeps_lift _ | with_reducible exact keeps_write _
    | with_reducible exact keeps_curScope | with_reducible exact keeps_get
    | with_reducible exact keeps_scopeAt _ | with_reducible exact keeps_ScopeSet _ _ _
    | with_reducible exact keeps_Get _ _ | with_reducible exact keeps_Update _ _ _
    | with_reducible exact keeps_callBuiltIn _ _ _
    | with_reducible exact keeps_applyBinary _ _ _ _
    | with_reducible exact keeps_applyUnary _ _ _ _ _
    | with_reducible exact keeps_applyMember _ _ | with_reducible exact keeps_applyIndex _ _ _
    | with_reducible exact keeps_objectKey _ _ _ _
    | with_reducible exact keeps_VisitFuncExpr _ _ _ | with_reducible exact keeps_VisitFuncStmt _
    | with_reducible exact h.expr _ | with_reducible exact h.stmt _
    | with_reducible exact h.stmts _ | with_reducible exact h.ret _
    | with_reducible exact h.varDecl _ _ | with_reducible exact h.loopFor _ _ _
    | with_reducible exact h.loop _ _ _ | with_reducible exact h.forStmt _ _ _ _
    | with_reducible exact h.branches _ | with_reducible exact h.condition _
    | with_reducible exact h.binary _ _ _ _ | with_reducible exact h.unary _ _ _ _
    | with_reducible exact h.member _ _ | with_reducible exact h.assign _ _
    | with_reducible exact h.arrayLoop _ _ | with_reducible exact h.array _ _
    | with_reducible exact h.objectLoop _ _ _ | with_reducible exact h.object _ _ _
    | with_reducible exact h.index _ _ _ | with_reducible exact h.argsLoop _ _
    | with_reducible exact h.call _ _ _ | with_reducible exact h.callFn _ _
    | with_reducible apply keeps_modify | with_reducible apply keeps_bind | split | dsimp only
    | exact fun s => scopeKept_of_eq s _ rfl rfl | intro _

theorem keeps_Call_succ (fuel : Nat) (h : EvaluatorKeeps fuel) :
    ∀ f args, keeps (Call (fuel + 1) f args) := by
  intro f args s
  simp only [Call]
  apply callDefer_keeps
  apply onExit_bind scopesKept scopesKept_trans _ _ (callEntry_keeps f args)
  intro rv s0
  have hbody : ∀ stmts, onExit scopesKept s0 ((do
      VisitStmts fuel stmts
      pure rv : Go InterpreterStat (Option Nat)) s0) := by
    intro stmts
    refine onExit_bind scopesKept scopesKept_trans (VisitStmts fuel stmts) (fun _ => pure rv)
      ?_ ?_ s0
    · intro s1
      have h1 := h.stmts stmts s1
      revert h1
      cases VisitStmts fuel stmts s1 with
      | ok u s2 => exact fun h1 => h1.2
      | panic e s2 => exact fun h1 => h1.2
      | timeout => exact fun _ => trivial
    · intro _ s1
      exact scopesKept_refl s1
  cases f.Body with
  | none => exact scopesKept_refl s0
  | some b =>
    obtain ⟨loc, d⟩ := b
    cases d with
    | none => exact scopesKept_refl s0
    | some stmts => exact hbody stmts

theorem evaluatorKeeps : ∀ fuel, EvaluatorKeeps fuel := by
  intro fuel
  induction fuel with
  | zero =>
    constructor <;> intros <;> exact keeps_stuck
  | succ fuel ih =>
    exact {
      expr := keeps_EvaluateExpr_succ fuel ih
      stmt := keeps_EvaluateStmt_succ fuel ih
      stmts := keeps_VisitStmts_succ fuel ih
      ret := keeps_VisitReturnStmt_succ fuel ih
      varDecl := keeps_VisitVarDeclStmt_succ fuel ih
      loopFor := keeps_runLoopFor_succ fuel ih
      loop := keeps_runLoop_succ fuel ih
      forStmt := keeps_VisitForLoopStmt_succ fuel ih
      branches := keeps_branchesLoop_succ fuel ih
      condition := keeps_VisitConditionStmt_succ fuel ih
      binary := keeps_VisitBinaryExpr_succ fuel ih
      unary := keeps_VisitUnaryExpr_succ fuel ih
      member := keeps_VisitMemberExpr_succ fuel ih
      assign := keeps_VisitAssignExpr_succ fuel ih
      arrayLoop := keeps_arrayExprLoop_succ fuel ih
      array := keeps_VisitArrayExpr_succ fuel ih
      objectLoop := keeps_objectExprLoop_succ fuel ih
      object := keeps_VisitObjectExpr_succ fuel ih
      index := keeps_VisitIndexExpr_succ fuel ih
      argsLoop := keeps_callArgsLoop_succ fuel ih
      call := keeps_VisitCallExpr_succ fuel ih
      callFn := keeps_Call_succ fuel ih }

/-! ### Lemmas on the parameters of a call -/

theorem mapGet_mapSet_other (env : List (String × Option Nat)) (k k1 : String) (v : Option Nat)
    (h : k1 ≠ k) : mapGet (mapSet env k v) k1 = mapGet env k1 := by
  induction env with
  | nil => simp [mapSet, mapGet, Ne.symm h]
  | cons p rest ih =>
    obtain ⟨k2, v2⟩ := p
    by_cases h2 : k2 = k
    · simp [mapSet, mapGet, h2, Ne.symm h]
    · simp [mapSet, mapGet, h2, ih]

theorem bindParams_perIteration (cell : Option Nat) (base : List Scope) (parent : Option Nat) :
    ∀ (args : List JsValue) (params : List EIdentifier) (env : List (String × Option Nat))
      (s : InterpreterStat),
      s.Scope = some base.length → s.scopes = base ++ [⟨parent, env⟩] →
      ∃ s1 env1, bindParams true cell params args s = Res.ok () s1
        ∧ s1.Scope = some base.length
        ∧ s1.scopes = base ++ [⟨parent, env1⟩]
        ∧ s1.values = s.values ++ args.take (params.length + 1)
        ∧ (∀ k, k ∉ (params.take args.length).map EIdentifier.Value →
            mapGet env1 k = mapGet env k)
        ∧ (∀ i p, params.get? i = some p → i < args.length →
            (∀ j q, i < j → j < args.length → params.get? j = some q → q.Value ≠ p.Value) →
            mapGet env1 p.Value = some (some (s.values.length + i))) := by
  intro args
  induction args with
  | nil =>
    intro params env s hs hsc
    refine ⟨s, env, ?_, hs, hsc, by simp, fun _ _ => rfl, ?_⟩
    · cases params <;> rfl
    · intro i p _ hi
      exact absurd hi (by simp)
  | cons arg args ih =>
    intro params env s hs hsc
    cases params with
    | nil =>
      refine ⟨{ s with values := s.values ++ [arg] }, env, rfl, hs, hsc, by simp,
        fun _ _ => rfl, ?_⟩
      intro i p hp
      exact absurd hp (by simp)
    | cons p ps =>
      have h2 : ScopeSet (some base.length) p.Value (some s.values.length)
            { s with values := s.values ++ [arg] }
          = Res.ok () { s with values := s.values ++ [arg],
                               scopes := base ++ [⟨parent, mapSet env p.Value (some s.values.length)⟩] } :=
        scopeSet_last base parent env p.Value (some s.values.length)
          { s with values := s.values ++ [arg] } hsc
      obtain ⟨s1, env1, h3, h4, h5, h6, h7, h8⟩ :=
        ih ps (mapSet env p.Value (some s.values.length))
          { s with values := s.values ++ [arg],
                   scopes := base ++ [⟨parent, mapSet env p.Value (some s.values.length)⟩] }
          hs rfl
      refine ⟨s1, env1, ?_, h4, h5, ?_, ?_, ?_⟩
      · simp only [bindParams, ↓reduceIte]
        have h1 : alloc arg s
            = Res.ok (some s.values.length) { s with values := s.values ++ [arg] } := rfl
        rw [bind_ok _ _ _ _ _ h1]
        have hcur : curScope { s with values := s.values ++ [arg] }
            = Res.ok (some base.length) { s with values := s.values ++ [arg] } := by
          simp only [curScope, hs]
        rw [bind_ok _ _ _ _ _ hcur, bind_ok _ _ _ _ _ h2]
        exact h3
      · rw [h6]
        simp
      · intro k hk
        have hk1 : k ≠ p.Value := by
          intro h
          apply hk
          simp [h]
        have hk2 : k ∉ (ps.take args.length).map EIdentifier.Value := by
          intro h
          apply hk
          simp only [List.length_cons, List.take_succ_cons, List.map_cons, List.mem_cons]
          exact Or.inr h
        rw [h7 k hk2, mapGet_mapSet_other env p.Value k _ hk1]
      · intro i q hq hi hlast
        cases i with
        | zero =>
          have hqp : q = p := by
            have : some p = some q := hq
            injection this with h
            exact h.symm
          subst hqp
          have hk2 : q.Value ∉ (ps.take args.length).map EIdentifier.Value := by
            intro h
            obtain ⟨r, hr, hrv⟩ := List.mem_map.mp h
            obtain ⟨j, hj, hjr⟩ := List.getElem_of_mem hr
            have hj2 : j < args.length ∧ j < ps.length := by
              simp only [List.length_take] at hj
              omega
            have hget : (q :: ps).get? (j + 1) = some r := by
              show ps.get? j = some r
              rw [List.get?_eq_getElem?, List.getElem?_eq_getElem hj2.2]
              rw [← hjr, List.getElem_take]
            exact hlast (j + 1) r (by omega) (by simp; omega) hget hrv
          rw [h7 _ hk2, mapGet_mapSet_same]
          rfl
        | succ i =>
          have := h8 i q hq (by simpa using hi) (by
            intro j r hij hj hr
            exact hlast (j + 1) r (by omega) (by simp; omega) hr)
          rw [this]
          simp only [List.length_append, List.length_singleton]
          congr 2
          omega

theorem callEntry_perIteration (f : JsFunction) (args : List JsValue) (s : InterpreterStat)
    (hs : s.loopVarPerIteration = true) :
    ∃ s0 env, callEntry f args s = Res.ok (some s.values.length) s0
      ∧ s0.Scope = some s.scopes.length
      ∧ s0.scopes = s.scopes ++ [⟨f.Closure, env⟩]
      ∧ s0.values = s.values ++ undefined :: args.take (f.Params.length + 1)
      ∧ (∀ k, k ∉ (f.Params.take args.length).map EIdentifier.Value → mapGet env k = none)
      ∧ (∀ i p, f.Params.get? i = some p → i < args.length →
          (∀ j q, i < j → j < args.length → f.Params.get? j = some q → q.Value ≠ p.Value) →
          mapGet env p.Value = some (some (s.values.length + 1 + i))) := by
  let s3 : InterpreterStat :=
    { s with values := s.values ++ [undefined], scopes := s.scopes ++ [⟨f.Closure, []⟩],
             Scope := some s.scopes.length }
  obtain ⟨s5, env, h6, h7, h8, h9, h10, h11⟩ :=
    bindParams_perIteration none s.scopes f.Closure args f.Params [] s3 rfl rfl
  refine ⟨s5, env, ?_, h7, h8, ?_, ?_, ?_⟩
  · have hstart : callEntry f args s
        = ((if s.loopVarPerIteration = true ∨ args = [] then pure none
              else alloc undefined : Go InterpreterStat (Option Nat)) >>= fun cell => do
            bindParams s.loopVarPerIteration cell f.Params args
            pure (some s.values.length)) s3 := rfl
    have hcell : (if s.loopVarPerIteration = true ∨ args = [] then pure none
              else alloc undefined : Go InterpreterStat (Option Nat)) s3 = Res.ok none s3 := by
      rw [if_pos (Or.inl hs)]
      rfl
    rw [hstart, bind_ok _ _ s3 s3 none hcell, hs, bind_ok _ _ s3 s5 () h6]
    rfl
  · rw [h9]
    simp [s3]
  · intro k hk
    rw [h10 k hk]
    rfl
  · intro i p hp hi hlast
    rw [h11 i p hp hi hlast]
    simp [s3]

/-! ### The claims C11 to C20 -/

/-- The operator `==` on primitive values whose payloads fit their tags: once
the operands of `l == r` are evaluated to cells holding the values `l` and
`r` (undefined, null, a number with a `float64`, a string or a boolean), the
expression evaluates to a new cell holding a Boolean `b`, and
`b` is true exactly when the type tags are the same and the payloads are
equal: as `float64` for two numbers (so NaN differs from itself and the two
zeros are equal), the same payload otherwise.  No operand is coerced. -/
theorem equals_of_primitive (fuel : Nat) (loc : Loc) (left right : Expr) (s s1 s2 : InterpreterStat)
    (lp rp : Nat) (l r : JsValue)
    (el : EvaluateExpr fuel (some left) s = Res.ok (some lp) s1)
    (er : EvaluateExpr fuel (some right) s1 = Res.ok (some rp) s2)
    (hl : s2.values.get? lp = some l) (hr : s2.values.get? rp = some r)
    (wl : l.primitive = true) (wr : r.primitive = true) :
    ∃ b, VisitBinaryExpr (fuel + 1) loc T.TEqualsEquals left right s
        = Res.ok (some s2.values.length)
            { s2 with values := s2.values ++ [⟨Any.bool b, JsType.Boolean⟩] }
      ∧ (b = true ↔ l.Typ = r.Typ ∧ (match l.Value, r.Value with
          | Any.float64 x, Any.float64 y => F64.eq x y = true
          | x, y => x = y)) := by
  rw [VisitBinaryExpr_apply fuel loc _ left right s s1 s2 _ _ el er,
    applyBinary_equals loc lp rp l r s2 hl hr]
  by_cases ht : l.Typ = r.Typ
  · obtain ⟨b, h1, h2⟩ := goEq_primitive l r wl wr ht
    refine ⟨b, ?_, ?_⟩
    · rw [if_pos ht, h1]
      rfl
    · rw [h2]
      exact ⟨fun h => ⟨ht, h⟩, fun h => h.2⟩
  · refine ⟨false, ?_, ?_⟩
    · rw [if_neg ht]
      rfl
    · simp [ht]

/-- An instance of `equals_of_primitive`: `1 == "1"` in the initial state.  The operands evaluate
to the cells 7 and 8, a Number and a String, and the result is a new Boolean
cell that is not true; a program logs that a number does not equal a string,
that undefined equals undefined and that 1 equals 1. -/
theorem equals_of_primitive_instance :
    EvaluateExpr 1 (some (numLit "1")) (InitInterpreterStat "")
        = Res.ok (some 7) (withValues [⟨Any.float64 (F64.ofNat 1), JsType.Number⟩])
    ∧ EvaluateExpr 1 (some (strLit "1")) (withValues [⟨Any.float64 (F64.ofNat 1), JsType.Number⟩])
        = Res.ok (some 8)
            (withValues [⟨Any.float64 (F64.ofNat 1), JsType.Number⟩,
              ⟨Any.string "1", JsType.String⟩])
    ∧ (∃ b, VisitBinaryExpr 2 Loc.zero T.TEqualsEquals (numLit "1") (strLit "1")
          (InitInterpreterStat "")
        = Res.ok (some 9)
            (withValues [⟨Any.float64 (F64.ofNat 1), JsType.Number⟩,
              ⟨Any.string "1", JsType.String⟩, ⟨Any.bool b, JsType.Boolean⟩])
        ∧ b ≠ true)
    ∧ Run 1000 ("let u; let v; console.log(u == v); console.log(1 == \"1\"); " ++
        "console.log(1 == 1);") = Outcome.exit "true\nfalse\ntrue\n" := by
  have el : EvaluateExpr 1 (some (numLit "1")) (InitInterpreterStat "")
        = Res.ok (some 7) (withValues [⟨Any.float64 (F64.ofNat 1), JsType.Number⟩]) := rfl
  have er : EvaluateExpr 1 (some (strLit "1"))
        (withValues [⟨Any.float64 (F64.ofNat 1), JsType.Number⟩])
        = Res.ok (some 8)
            (withValues [⟨Any.float64 (F64.ofNat 1), JsType.Number⟩,
              ⟨Any.string "1", JsType.String⟩]) := rfl
  refine ⟨el, er, ?_, by decide!⟩
  obtain ⟨b, h1, h2⟩ :=
    equals_of_primitive 1 Loc.zero (numLit "1") (strLit "1") _ _ _ 7 8 _ _ el er rfl rfl rfl rfl
  refine ⟨b, h1, ?_⟩
  intro hb
  have h3 := (h2.1 hb).1
  exact absurd h3 (by decide)

/-- C11 (the code as it is): `==` compares the payloads as Go interface
values, so two numbers are equal only if their payloads have the same Go
type.  `%` makes a Number whose payload is a Go `int` (the defect of C10),
and an `int` never equals the `float64` of a numeric literal: `5 % 3 == 2`
evaluates to false and a program logs `false`, where the claim, the two
operands being the number 2 with the same tag, expects true.  With the
literal `2` on both sides the result is true (`equals_of_primitive` covers
every pair of primitive operands whose payloads fit their tags). -/
theorem C11_equals_fails_on_a_remainder :
    valueOf 10 (binExpr T.TPercent (numLit "5") (numLit "3")) = some ⟨Any.int 2, JsType.Number⟩
    ∧ valueOf 10 (numLit "2") = some ⟨Any.float64 (F64.ofNat 2), JsType.Number⟩
    ∧ Any.goEq (Any.int 2) (Any.float64 (F64.ofNat 2)) = some false
    ∧ valueOf 10 (binExpr T.TEqualsEquals (binExpr T.TPercent (numLit "5") (numLit "3"))
        (numLit "2")) = some ⟨Any.bool false, JsType.Boolean⟩
    ∧ valueOf 10 (binExpr T.TEqualsEquals (numLit "2") (numLit "2"))
      = some ⟨Any.bool true, JsType.Boolean⟩
    ∧ Run 1000 "let x = 5 % 3 == 2; console.log(x);" = Outcome.exit "false\n"
    ∧ Run 1000 "let x = 2 == 2; console.log(x);" = Outcome.exit "true\n" :=
  ⟨by decide!, by decide!, rfl, by decide!, by decide!, by decide!, by decide!⟩

/-- The operators `<`, `>`, `<=` and `>=` on operands whose payloads fit their
tags: once the operands of `l < r`, `l > r`, `l <= r` or `l >= r` are
evaluated to cells holding the values `l` and `r` (a Number with a `float64`,
a String with a `string`, a Boolean with a `bool`), the expression raises a `RuntimeError` when the operands are not both
Number-tagged, and otherwise evaluates to a new cell holding the Boolean of
the `float64` comparison of the two payloads; so it raises a `RuntimeError`
exactly when the operands are not both numbers. -/
theorem compare_of_wellFormed (fuel : Nat) (loc : Loc) (op : T) (left right : Expr)
    (s s1 s2 : InterpreterStat) (lp rp : Nat) (l r : JsValue)
    (hop : op = T.TLessThan ∨ op = T.TGreaterThan ∨ op = T.TLessThanEquals
      ∨ op = T.TGreaterThanEquals)
    (el : EvaluateExpr fuel (some left) s = Res.ok (some lp) s1)
    (er : EvaluateExpr fuel (some right) s1 = Res.ok (some rp) s2)
    (hl : s2.values.get? lp = some l) (hr : s2.values.get? rp = some r)
    (wl : l.wellFormed = true) (wr : r.wellFormed = true) :
    (¬ (l.Typ = JsType.Number ∧ r.Typ = JsType.Number) →
      ∃ msg, VisitBinaryExpr (fuel + 1) loc op left right s
        = Res.panic (Panic.RuntimeError loc msg) s2)
    ∧ (l.Typ = JsType.Number ∧ r.Typ = JsType.Number →
      ∃ a b c, l.Value = Any.float64 a ∧ r.Value = Any.float64 b
        ∧ VisitBinaryExpr (fuel + 1) loc op left right s
          = Res.ok (some s2.values.length)
              { s2 with values := s2.values ++ [⟨Any.bool c, JsType.Boolean⟩] }
        ∧ (op = T.TLessThan → c = F64.lt a b)
        ∧ (op = T.TGreaterThan → c = F64.gt a b)
        ∧ (op = T.TLessThanEquals → c = F64.le a b)
        ∧ (op = T.TGreaterThanEquals → c = F64.ge a b)) := by
  rw [VisitBinaryExpr_apply fuel loc _ left right s s1 s2 _ _ el er,
    applyBinary_compare loc op lp rp l r s2 hop hl hr]
  constructor
  · intro h
    by_cases ht : l.Typ = r.Typ
    · have hn : l.Typ ≠ JsType.Number := fun hn => h ⟨hn, ht ▸ hn⟩
      exact ⟨_, by rw [if_neg (not_not.mpr ht), if_pos hn]; rfl⟩
    · exact ⟨_, by rw [if_pos ht]; rfl⟩
  · intro ⟨hln, hrn⟩
    obtain ⟨lv, lt⟩ := l
    obtain ⟨rv, rt⟩ := r
    simp only at hln hrn
    subst hln hrn
    cases lv <;> simp [JsValue.wellFormed] at wl
    cases rv <;> simp [JsValue.wellFormed] at wr
    rename_i a b
    simp only [ne_eq, not_true_eq_false, ↓reduceIte]
    rcases hop with h | h | h | h <;> subst h <;>
      exact ⟨a, b, _, rfl, rfl, rfl, by simp⟩

/-- An instance of `compare_of_wellFormed`: `1 < 2` in the initial state evaluates to a new Boolean
cell holding the comparison of the two payloads, and a program that compares
a number with a string stops with the diagnostic of the `RuntimeError`. -/
theorem compare_of_wellFormed_instance :
    EvaluateExpr 1 (some (numLit "1")) (InitInterpreterStat "")
        = Res.ok (some 7) (withValues [⟨Any.float64 (F64.ofNat 1), JsType.Number⟩])
    ∧ EvaluateExpr 1 (some (numLit "2")) (withValues [⟨Any.float64 (F64.ofNat 1), JsType.Number⟩])
        = Res.ok (some 8)
            (withValues [⟨Any.float64 (F64.ofNat 1), JsType.Number⟩,
              ⟨Any.float64 (F64.ofNat 2), JsType.Number⟩])
    ∧ (∃ c, VisitBinaryExpr 2 Loc.zero T.TLessThan (numLit "1") (numLit "2")
          (InitInterpreterStat "")
        = Res.ok (some 9)
            (withValues [⟨Any.float64 (F64.ofNat 1), JsType.Number⟩,
              ⟨Any.float64 (F64.ofNat 2), JsType.Number⟩, ⟨Any.bool c, JsType.Boolean⟩])
        ∧ c = true)
    ∧ Run 1000 "let x = 1 < 2; console.log(x); let y = 1 > 2; console.log(y);"
        = Outcome.exit "true\nfalse\n"
    ∧ Run 1000 "let x = 1 < \"a\";"
        = Outcome.exit ("     1| let x = 1 < \"a\";\n                ^\n" ++
            " left type mismatch right type\n") := by
  have el : EvaluateExpr 1 (some (numLit "1")) (InitInterpreterStat "")
        = Res.ok (some 7) (withValues [⟨Any.float64 (F64.ofNat 1), JsType.Number⟩]) := rfl
  have er : EvaluateExpr 1 (some (numLit "2"))
        (withValues [⟨Any.float64 (F64.ofNat 1), JsType.Number⟩])
        = Res.ok (some 8)
            (withValues [⟨Any.float64 (F64.ofNat 1), JsType.Number⟩,
              ⟨Any.float64 (F64.ofNat 2), JsType.Number⟩]) := rfl
  refine ⟨el, er, ?_, by decide!, by decide!⟩
  obtain ⟨a, b, c, h1, h2, h3, h4, _⟩ :=
    (compare_of_wellFormed 1 Loc.zero T.TLessThan (numLit "1") (numLit "2") _ _ _ 7 8 _ _ (Or.inl rfl)
      el er rfl rfl rfl rfl).2 ⟨rfl, rfl⟩
  refine ⟨c, h3, ?_⟩
  injection h1 with h1
  injection h2 with h2
  subst h1 h2
  rw [h4 rfl]
  decide!

/-- C12 (the code as it is): the comparison operators assert that the
payloads of two Number-tagged operands are `float64`.  `%` makes a Number
whose payload is a Go `int` (the defect of C10), on which the assertion fails:
`5 % 3 < 2` and `3 >= 5 % 3`, both operands being Number-tagged, end in a
run-time panic of Go, which is neither the Boolean of the comparison nor a
`RuntimeError` of the evaluator.  The deferred function of `Run` does not
take that panic for a `RuntimeError` and raises the zero `RuntimeError` in its
place, so the run dies with nothing logged, where the claim expects `false`.
With the literal `2` in the place of `5 % 3` the result is the one of the
claim (`compare_of_wellFormed` covers every pair of operands whose payloads
fit their tags). -/
theorem C12_compare_dies_on_a_remainder :
    exprPanic 10 (binExpr T.TLessThan (binExpr T.TPercent (numLit "5") (numLit "3")) (numLit "2"))
      = some (Panic.runtime GoRuntimeError.interfaceConversion)
    ∧ exprPanic 10 (binExpr T.TGreaterThanEquals (numLit "3")
        (binExpr T.TPercent (numLit "5") (numLit "3")))
      = some (Panic.runtime GoRuntimeError.interfaceConversion)
    ∧ recovered 1000 "let x = 5 % 3 < 2; console.log(x);"
      = some (Panic.runtime GoRuntimeError.interfaceConversion)
    ∧ Run 1000 "let x = 5 % 3 < 2; console.log(x);"
      = Outcome.crash (Panic.RuntimeError Loc.zero "") ""
    ∧ valueOf 10 (binExpr T.TLessThan (numLit "2") (numLit "2"))
      = some ⟨Any.bool false, JsType.Boolean⟩
    ∧ Run 1000 "let x = 2 < 2; console.log(x);" = Outcome.exit "false\n" :=
  ⟨by decide!, by decide!, by decide!, by decide!, by decide!, by decide!⟩

/-- The operators `++` and `--` on an identifier bound to a number whose
payload is a `float64`, or to a value without the Number tag: let the
identifier `x` be bound on the chain of the current scope,
the nearest binding being in the scope at `a` and pointing to the cell `vp`
that holds the value `v`.  If `v` is not Number-tagged, `x++`, `++x`, `x--`
and `--x` raise a `RuntimeError` and leave the state as it was.  If `v` is
the number `n`, they allocate a cell for `n + d` (`d` being 1 or -1) and
re-point the binding of `x` in the scope at `a` to it, changing nothing else:
the postfix form evaluates to the old cell, which still holds `n`, the prefix
form to the new cell, and afterwards the nearest binding of `x` is still the
one of the scope at `a` and `x` resolves to the new cell holding `n + d`. -/
theorem increment_of_float (fuel : Nat) (loc l2 : Loc) (op : T) (d : F64) (x : String)
    (s : InterpreterStat) (a vp : Nat) (v : JsValue)
    (hop : op = T.TPlusPlus ∧ d = F64.ofInt 1 ∨ op = T.TMinusMinus ∧ d = F64.ofInt (-1))
    (hx : nearestBinding (s.scopes.length + 1) s.scopes s.Scope x = some (some (a, some vp)))
    (hv : s.values.get? vp = some v) :
    (v.Typ ≠ JsType.Number → ∀ assoc,
      VisitUnaryExpr (fuel + 2) loc op (Expr.mk l2 (some (E.EIdentifier x))) assoc s
        = Res.panic (Panic.RuntimeError loc "this operator need number operand") s)
    ∧ (∀ n, v = ⟨Any.float64 n, JsType.Number⟩ →
      ∃ sc s1, s.scopes.get? a = some sc
        ∧ s1 = { s with
            values := s.values ++ [⟨Any.float64 (F64.add n d), JsType.Number⟩],
            scopes := s.scopes.set a { sc with Env := mapSet sc.Env x (some s.values.length) } }
        ∧ VisitUnaryExpr (fuel + 2) loc op (Expr.mk l2 (some (E.EIdentifier x)))
            Association.AssociationRight s = Res.ok (some vp) s1
        ∧ VisitUnaryExpr (fuel + 2) loc op (Expr.mk l2 (some (E.EIdentifier x)))
            Association.AssociationLeft s = Res.ok (some s.values.length) s1
        ∧ s1.values.get? vp = some ⟨Any.float64 n, JsType.Number⟩
        ∧ s1.values.get? s.values.length = some ⟨Any.float64 (F64.add n d), JsType.Number⟩
        ∧ nearestBinding (s1.scopes.length + 1) s1.scopes s1.Scope x
            = some (some (a, some s.values.length))
        ∧ Get s1.Scope x s1 = Res.ok (some s.values.length) s1) := by
  have hEval : EvaluateExpr (fuel + 1) (some (Expr.mk l2 (some (E.EIdentifier x)))) s
      = Res.ok (some vp) s := by
    rw [EvaluateExpr_identifier]
    exact ScopeGet_found s x a (some vp) _ _ hx
  have hV : ∀ assoc, VisitUnaryExpr (fuel + 2) loc op (Expr.mk l2 (some (E.EIdentifier x))) assoc s
      = applyUnary loc op (some (E.EIdentifier x)) assoc (some vp) s := fun assoc =>
    VisitUnaryExpr_apply (fuel + 1) loc op _ assoc s s (some vp) hEval
  constructor
  · intro ht assoc
    rw [hV]
    refine applyUnary_notNumber loc op _ assoc s vp v ?_ hv ht
    rcases hop with h | h
    · exact Or.inl h.1
    · exact Or.inr h.1
  · intro n hn
    subst hn
    obtain ⟨sc, h1, _, h3⟩ := ScopeUpdate_found x a (some vp) (some s.values.length)
      (s.scopes.length + 1) s.Scope
      { s with values := s.values ++ [⟨Any.float64 (F64.add n d), JsType.Number⟩] } hx
    have hlen : (s.scopes.set a { sc with Env := mapSet sc.Env x (some s.values.length) }).length
        = s.scopes.length := by simp
    have hvp : vp < s.values.length := by
      by_contra hlt
      rw [List.get?_eq_none.mpr (Nat.le_of_not_lt hlt)] at hv
      exact absurd hv (by simp)
    have hnb := nearestBinding_set s.scopes x a (some vp) (some s.values.length) sc h1 _ _ hx
    refine ⟨sc, _, h1, rfl, ?_, ?_, ?_, ?_, ?_, ?_⟩
    · rw [hV, applyUnary_identifier loc op d x _ s vp n hop hv]
      simp only [↓reduceIte]
      rw [bind_ok _ _ _ _ _ h3]
      rfl
    · rw [hV, applyUnary_identifier loc op d x _ s vp n hop hv]
      simp only [reduceCtorEq, ↓reduceIte]
      exact h3
    · simp only [List.get?_eq_getElem?] at hv
      simp [List.getElem?_append_left hvp, hv]
    · simp
    · simp only [hlen]
      exact hnb
    · unfold Get
      simp only [hlen]
      exact ScopeGet_found _ x a (some s.values.length) _ _ hnb

/-- An instance of `increment_of_float`: in the state after `let x = 1;` the root scope binds `x`
to the cell 7.  `x++` evaluates to the cell 7 and `++x` to the new cell 8, and
either way the cell 7 still holds 1 and `x` resolves to the cell 8 holding
`1 + 1`; a program logs the values of the four forms and of `x` after them. -/
theorem increment_of_float_instance :
    EvaluateStmt 3 (some (Stmt.mk Loc.zero
        (some (S.SVarDecl ⟨"x"⟩ VarKind.VLet (some (numLit "1")))))) (InitInterpreterStat "")
      = Res.ok () stateWithX
    ∧ nearestBinding (stateWithX.scopes.length + 1) stateWithX.scopes stateWithX.Scope "x"
      = some (some (0, some 7))
    ∧ stateWithX.values.get? 7 = some ⟨Any.float64 (F64.ofNat 1), JsType.Number⟩
    ∧ (∃ s1, VisitUnaryExpr 2 Loc.zero T.TPlusPlus (ident "x") Association.AssociationRight
          stateWithX = Res.ok (some 7) s1
        ∧ VisitUnaryExpr 2 Loc.zero T.TPlusPlus (ident "x") Association.AssociationLeft
          stateWithX = Res.ok (some 8) s1
        ∧ s1.values.get? 7 = some ⟨Any.float64 (F64.ofNat 1), JsType.Number⟩
        ∧ s1.values.get? 8 = some ⟨Any.float64 (F64.ofNat 2), JsType.Number⟩
        ∧ Get s1.Scope "x" s1 = Res.ok (some 8) s1)
    ∧ Run 1000 ("let x = 1; console.log(x++); console.log(x); console.log(++x); " ++
        "console.log(x); console.log(x--); console.log(x); console.log(--x); console.log(x);")
      = Outcome.exit ("1.00000\n2.00000\n3.00000\n3.00000\n3.00000\n2.00000\n" ++
          "1.00000\n1.00000\n") := by
  refine ⟨rfl, rfl, rfl, ?_, by decide!⟩
  obtain ⟨sc, s1, _, _, h3, h4, h5, h6, _, h8⟩ :=
    (increment_of_float 0 Loc.zero Loc.zero T.TPlusPlus (F64.ofInt 1) "x" stateWithX 0 7
      ⟨Any.float64 (F64.ofNat 1), JsType.Number⟩ (Or.inl ⟨rfl, rfl⟩) rfl rfl).2 (F64.ofNat 1) rfl
  exact ⟨s1, h3, h4, h5, h6, h8⟩

/-- C13 (the code as it is): `++` and `--` assert that the payload of a
Number-tagged operand is a `float64`.  `%` makes a Number whose payload is a
Go `int` (the defect of C10), on which the assertion fails: for `x` bound to
`5 % 3`, the forms `x++` and `--x` end in a run-time panic of Go, so `x` is
not updated and no `RuntimeError` of the evaluator is raised.  The deferred
function of `Run` does not take that panic for a `RuntimeError` and raises the
zero `RuntimeError` in its place, so the run dies with nothing logged, where
the claim expects the lines `2.00000` and `3.00000`.  For `x` bound to the
literal `2` the two lines are logged (`increment_of_float` covers every
binding to a number with a `float64` payload). -/
theorem C13_increment_dies_on_a_remainder :
    recovered 1000 "let x = 5 % 3; let y = x++; console.log(y); console.log(x);"
      = some (Panic.runtime GoRuntimeError.interfaceConversion)
    ∧ Run 1000 "let x = 5 % 3; let y = x++; console.log(y); console.log(x);"
      = Outcome.crash (Panic.RuntimeError Loc.zero "") ""
    ∧ recovered 1000 "let x = 5 % 3; let y = --x; console.log(y);"
      = some (Panic.runtime GoRuntimeError.interfaceConversion)
    ∧ Run 1000 "let x = 5 % 3; let y = --x; console.log(y);"
      = Outcome.crash (Panic.RuntimeError Loc.zero "") ""
    ∧ Run 1000 "let x = 2; let y = x++; console.log(y); console.log(x);"
      = Outcome.exit "2.00000\n3.00000\n" :=
  ⟨by decide!, by decide!, by decide!, by decide!, by decide!⟩

/-- C14 (counterexample): the claim fails for an expression whose evaluation
re-points the binding of the target.  In `x = x++` the target is evaluated
first, to the cell that `x` is bound to; `x++` evaluates to that same cell
(the value 1, which is what `console.log(x++)` logs) and re-points `x` to a
new cell holding 2; the assignment then overwrites the old cell, and `x`
resolves to 2, not to the value of the right-hand side. -/
theorem C14_assignment_counterexample :
    Run 1000 "let x = 1; console.log(x++);" = Outcome.exit "1.00000\n"
    ∧ Run 1000 "let x = 1; x = x++; console.log(x);" = Outcome.exit "2.00000\n" :=
  ⟨by decide!, by decide!⟩

/-- C14 (amended): once the target of an assignment is evaluated to the cell
`tp` and the right-hand side to a cell holding the value `v`, the assignment
overwrites the cell `tp` with `v` in place, changes nothing else and returns
`tp`.  So the cell `tp` holds `v` afterwards, and every name whose nearest
binding points to `tp` once the right-hand side is evaluated (the target
itself unless that evaluation re-pointed it, and every alias of it) resolves
to the cell `tp`, that is to the value of the right-hand side. -/
theorem C14_assignment (fuel : Nat) (target e : Option Expr) (s s1 s2 : InterpreterStat)
    (tp vp : Nat) (v : JsValue)
    (et : EvaluateExpr fuel target s = Res.ok (some tp) s1)
    (ee : EvaluateExpr fuel e s1 = Res.ok (some vp) s2)
    (hv : s2.values.get? vp = some v) (ht : tp < s2.values.length) :
    ∃ s3, s3 = { s2 with values := s2.values.set tp v }
      ∧ VisitAssignExpr (fuel + 1) target e s = Res.ok (some tp) s3
      ∧ s3.values.get? tp = some v
      ∧ ∀ (n : Nat) (p : Option Nat) (k : String) (a : Nat),
          nearestBinding n s2.scopes p k = some (some (a, some tp)) →
          ScopeGet n p k s3 = Res.ok (some tp) s3 := by
  refine ⟨_, rfl, ?_, ?_, ?_⟩
  · simp only [VisitAssignExpr]
    rw [bind_ok _ _ s s1 _ et, bind_ok _ _ s1 s2 _ ee, bind_ok _ _ s2 s2 _ (deref_some s2 vp v hv)]
    have hs : store (some tp) v s2 = Res.ok () { s2 with values := s2.values.set tp v } := by
      simp [store, ht]
    rw [bind_ok _ _ _ _ _ hs]
    rfl
  · simp [ht]
  · intro n p k a h
    exact ScopeGet_found _ k a (some tp) n p h

/-- Witness of C14: in the state after `let x = 1;`, the assignment `x = 7`
overwrites the cell 7 that `x` is bound to, and `x` resolves to that cell;
scenario S5 logs `x` and `7.00000`, and after `let b = a` an assignment to `b`
changes what `a` resolves to. -/
theorem C14_assignment_witness :
    EvaluateExpr 1 (some (ident "x")) stateWithX = Res.ok (some 7) stateWithX
    ∧ (∃ s2 s3, EvaluateExpr 1 (some (numLit "7")) stateWithX = Res.ok (some 8) s2
        ∧ s2.values.get? 8 = some ⟨Any.float64 (F64.ofNat 7), JsType.Number⟩
        ∧ VisitAssignExpr 2 (some (ident "x")) (some (numLit "7")) stateWithX
          = Res.ok (some 7) s3
        ∧ s3.values.get? 7 = some ⟨Any.float64 (F64.ofNat 7), JsType.Number⟩
        ∧ ScopeGet 2 (some 0) "x" s3 = Res.ok (some 7) s3)
    ∧ Run 1000 ("let o = \x7b name: \"x\", v: 1 \x7d; o.v = 7; console.log(o.name); " ++
        "console.log(o.v);") = Outcome.exit "x\n7.00000\n"
    ∧ Run 1000 "let a = 1; let b = a; b = 2; console.log(a);" = Outcome.exit "2.00000\n" := by
  have et : EvaluateExpr 1 (some (ident "x")) stateWithX = Res.ok (some 7) stateWithX := rfl
  have ee : EvaluateExpr 1 (some (numLit "7")) stateWithX
      = Res.ok (some 8)
          { stateWithX with
            values := stateWithX.values ++ [⟨Any.float64 (F64.ofNat 7), JsType.Number⟩] } := rfl
  refine ⟨et, ?_, by decide!, by decide!⟩
  obtain ⟨s3, _, h2, h3, h4⟩ :=
    C14_assignment 1 (some (ident "x")) (some (numLit "7")) stateWithX stateWithX _ 7 8
      ⟨Any.float64 (F64.ofNat 7), JsType.Number⟩ et ee rfl (by decide)
  exact ⟨_, s3, ee, rfl, h2, h3, h4 2 (some 0) "x" 0 rfl⟩

/-- C15 (counterexample): the claim fails for a function that repeats the
name of a parameter.  The parameter loop of `Call` binds the names in order
in one map, so the binding of a later parameter replaces the binding of an
earlier parameter of the same name: in the call of `function (a, a)` with the
arguments 1 and 2, the name `a` of the first parameter resolves to the cell
9, which holds the second argument, the number 2, and not to its own
argument, the number 1; both parameters resolve to the same argument, and a
program logs `2.00000` for `a`. -/
theorem C15_parameters_counterexample :
    sampleFunction3.Params.get? 0 = some ⟨"a"⟩
    ∧ (∃ s0, callEntry sampleFunction3
          [⟨Any.float64 (F64.ofNat 1), JsType.Number⟩, ⟨Any.float64 (F64.ofNat 2), JsType.Number⟩]
          (InitInterpreterStat "") = Res.ok (some 7) s0
        ∧ ScopeGet 1 s0.Scope "a" s0 = Res.ok (some 9) s0
        ∧ s0.values.get? 9 = some ⟨Any.float64 (F64.ofNat 2), JsType.Number⟩)
    ∧ Run 1000 "function f(a, a) \x7b console.log(a); \x7d f(1, 2);"
      = Outcome.exit "2.00000\n" :=
  ⟨rfl, ⟨_, rfl, rfl, rfl⟩, by decide!⟩

/-- C15 (amended): let the state be one of a program built as shipped, where
each iteration of the parameter loop of `Call` has its own variable.  A call
of a function with the parameters `p_0 … p_(m-1)` and the arguments
`a_0 … a_(k-1)` returns from `callEntry` and runs its body in a state `s0`
whose current scope is a new scope with the closure as parent.  That scope
binds names of the parameters `p_j` with `j < min(m, k)` only, so an argument
without a parameter binds nothing.  For every `i` with a parameter `p_i` and
an argument `a_i`, the name of `p_i` being the name of no later parameter
that has an argument, the name is bound to the cell `|values| + 1 + i`, a
cell of its own for each `i`, which holds `a_i`, and a lookup of the name
from the scope of the call resolves to that cell. -/
theorem C15_parameters (fuel : Nat) (f : JsFunction) (args : List JsValue)
    (s : InterpreterStat) (i : Nat) (p : EIdentifier) (a : JsValue)
    (hs : s.loopVarPerIteration = true)
    (hp : f.Params.get? i = some p) (ha : args.get? i = some a)
    (hlast : ∀ j q, i < j → j < args.length → f.Params.get? j = some q → q.Value ≠ p.Value) :
    ∃ s0 env, callEntry f args s = Res.ok (some s.values.length) s0
      ∧ Call (fuel + 1) f args s
          = callDefer s.Scope
              ((match f.Body with
                | some (SBody.mk _ (some stmts)) => do
                  VisitStmts fuel stmts
                  pure (some s.values.length)
                | _ => Go.throw (Panic.runtime GoRuntimeError.nilPointerDereference)
                  : Go InterpreterStat (Option Nat)) s0)
      ∧ s0.Scope = some s.scopes.length
      ∧ s0.scopes = s.scopes ++ [⟨f.Closure, env⟩]
      ∧ (∀ k, mapGet env k ≠ none → k ∈ (f.Params.take args.length).map EIdentifier.Value)
      ∧ mapGet env p.Value = some (some (s.values.length + 1 + i))
      ∧ s0.values.get? (s.values.length + 1 + i) = some a
      ∧ ∀ n, ScopeGet (n + 1) s0.Scope p.Value s0 = Res.ok (some (s.values.length + 1 + i)) s0 := by
  have hi : i < args.length := by
    by_contra h
    rw [List.get?_eq_none.mpr (Nat.le_of_not_lt h)] at ha
    exact absurd ha (by simp)
  have him : i < f.Params.length := by
    by_contra h
    rw [List.get?_eq_none.mpr (Nat.le_of_not_lt h)] at hp
    exact absurd hp (by simp)
  obtain ⟨s0, env, h1, h2, h3, h4, h5, h6⟩ := callEntry_perIteration f args s hs
  have hbound := h6 i p hp hi hlast
  refine ⟨s0, env, h1, ?_, h2, h3, ?_, hbound, ?_, ?_⟩
  · simp only [Call]
    rw [bind_ok _ _ s s0 _ h1]
  · intro k hk
    by_contra hn
    exact hk (h5 k hn)
  · rw [h4, List.get?_eq_getElem?,
      List.getElem?_append_right (by omega : s.values.length ≤ s.values.length + 1 + i)]
    have h7 : s.values.length + 1 + i - s.values.length = i + 1 := by omega
    rw [h7, List.getElem?_cons_succ, List.getElem?_take_of_lt (by omega), ← List.get?_eq_getElem?]
    exact ha
  · intro n
    have hsc : scopeAt (some s.scopes.length) s0 = Res.ok ⟨f.Closure, env⟩ s0 := by
      simp [scopeAt, h3]
    rw [h2]
    simp only [ScopeGet]
    rw [bind_ok _ _ s0 s0 _ hsc]
    simp only [hbound]
    rfl

/-- Witness of C15: `function (a, b)` (closure: the root scope) called with
the arguments 1 and 2 in the initial state, for the parameter `a`: the call
enters its body with `a` bound to the cell 8, which holds 1, and `b` to
another cell, which holds 2.  A program logs 1 for `a` and 2 for `b`, and
with one parameter and two arguments it logs 1 for `a`. -/
theorem C15_parameters_witness :
    (InitInterpreterStat "").loopVarPerIteration = true
    ∧ sampleFunction2.Params.get? 0 = some ⟨"a"⟩
    ∧ (∃ s0 env, callEntry sampleFunction2
          [⟨Any.float64 (F64.ofNat 1), JsType.Number⟩, ⟨Any.float64 (F64.ofNat 2), JsType.Number⟩]
          (InitInterpreterStat "") = Res.ok (some 7) s0
        ∧ mapGet env "a" = some (some 8)
        ∧ s0.values.get? 8 = some ⟨Any.float64 (F64.ofNat 1), JsType.Number⟩
        ∧ ScopeGet 1 s0.Scope "a" s0 = Res.ok (some 8) s0)
    ∧ entryBindings true sampleFunction2
        [⟨Any.float64 (F64.ofNat 1), JsType.Number⟩, ⟨Any.float64 (F64.ofNat 2), JsType.Number⟩]
      = some [("a", some ⟨Any.float64 (F64.ofNat 1), JsType.Number⟩),
              ("b", some ⟨Any.float64 (F64.ofNat 2), JsType.Number⟩)]
    ∧ Run 1000 "function f(a, b) \x7b console.log(a); console.log(b); \x7d f(1, 2);"
      = Outcome.exit "1.00000\n2.00000\n"
    ∧ Run 1000 "function f(a) \x7b console.log(a); \x7d f(1, 2);"
      = Outcome.exit "1.00000\n" := by
  refine ⟨rfl, rfl, ?_, by decide!, by decide!, by decide!⟩
  obtain ⟨s0, env, h1, _, _, _, _, h6, h7, h8⟩ :=
    C15_parameters 0 sampleFunction2
      [⟨Any.float64 (F64.ofNat 1), JsType.Number⟩, ⟨Any.float64 (F64.ofNat 2), JsType.Number⟩]
      (InitInterpreterStat "") 0 ⟨"a"⟩ ⟨Any.float64 (F64.ofNat 1), JsType.Number⟩ rfl rfl rfl
      (by
        intro j q h1 h2 h3
        have hj : j = 1 := by
          simp only [List.length_cons, List.length_nil] at h2
          omega
        subst hj
        have h4 : some (⟨"b"⟩ : EIdentifier) = some q := h3
        injection h4 with h4
        subst h4
        decide)
  exact ⟨s0, env, h1, h6, h7, h8 0⟩

/-- C16 (counterexample): a parameter without an argument is not bound in the
scope of the call, so the lookup of its name goes on in the closure scope,
and a binding of the same name there is what it resolves to: with `x` bound
to 5 where `f` is declared, the body of `function f(x)` called as `f()` logs
5, not undefined. -/
theorem C16_unbound_parameter_counterexample :
    Run 1000 "let x = 5; function f(x) \x7b console.log(x); \x7d f();"
      = Outcome.exit "5.00000\n" := by
  decide!

/-- C16 (amended): a call with fewer arguments than parameters enters its
body in a state `s0`, the same for every caller scope `c`, whose current
scope is new and has the closure scope as parent.  A parameter `p` at a
position `j` past the arguments, whose name is not the name of a parameter
that has an argument, is absent from that scope, and read inside the body it
resolves as a free name does: to the pointer of the nearest binding of its
name on the chain of the closure scope when there is one, and to a new
undefined value when the chain of the closure scope binds no such name. -/
theorem C16_unbound_parameter (f : JsFunction) (args : List JsValue) (s : InterpreterStat)
    (j : Nat) (p : EIdentifier)
    (_hj : f.Params.get? j = some p) (_hlt : args.length ≤ j)
    (hk : p.Value ∉ (f.Params.take args.length).map EIdentifier.Value) :
    ∃ rv s0 env, callEntry f args s = Res.ok rv s0
      ∧ (∀ c, callEntry f args { s with Scope := c } = Res.ok rv s0)
      ∧ s0.Scope = some s.scopes.length
      ∧ s0.scopes = s.scopes ++ [⟨f.Closure, env⟩]
      ∧ mapGet env p.Value = none
      ∧ (∀ a v, nearestBinding (s.scopes.length + 1) s.scopes f.Closure p.Value
            = some (some (a, v)) →
          Get s0.Scope p.Value s0 = Res.ok v s0)
      ∧ (nearestBinding (s.scopes.length + 1) s.scopes f.Closure p.Value = some none →
          Get s0.Scope p.Value s0
            = Res.ok (some s0.values.length) { s0 with values := s0.values ++ [undefined] }) := by
  obtain ⟨rv, s0, env, h1, h2, h3, h4⟩ := callEntry_spec f args s
  have hnone : mapGet env p.Value = none := by
    by_contra h
    exact hk (h4 p.Value h)
  have hlen : s0.scopes.length + 1 = s.scopes.length + 1 + 1 := by
    rw [h3]
    simp
  have hentry := nearestBinding_entry s.scopes f.Closure env p.Value (s.scopes.length + 1) hnone
  refine ⟨rv, s0, env, h1, ?_, h2, h3, hnone, ?_, ?_⟩
  · intro c
    rw [callEntry_caller, h1]
  · intro a v h
    have hc : f.Closure ≠ none := by
      intro hc
      rw [hc] at h
      simp [nearestBinding] at h
    unfold Get
    rw [hlen, h2]
    apply ScopeGet_found s0 p.Value a v
    rw [h3, hentry, if_pos hc]
    exact nearestBinding_append s.scopes _ p.Value _ _ _ h
  · intro h
    have hc : f.Closure ≠ none := by
      intro hc
      rw [hc] at h
      simp [nearestBinding] at h
    have h5 : ScopeGet (s0.scopes.length + 1) s0.Scope p.Value s0 = alloc undefined s0 := by
      rw [hlen, h2]
      apply ScopeGet_unbound s0 p.Value
      rw [h3, hentry, if_pos hc]
      exact nearestBinding_append s.scopes _ p.Value _ _ _ h
    unfold Get
    rw [h5]
    rfl

/-- Witness of C16: `function (a, b)` (closure: the root scope) called with
one argument.  The parameter `b`, at position 1, is absent from the scope of
the call, and as the root scope does not bind `b` it resolves to a new
undefined value; a program logs `undefined` for it. -/
theorem C16_unbound_parameter_witness :
    sampleFunction2.Params.get? 1 = some ⟨"b"⟩
    ∧ nearestBinding 2 (InitInterpreterStat "").scopes sampleFunction2.Closure "b" = some none
    ∧ (∃ rv s0 env, callEntry sampleFunction2 [⟨Any.float64 (F64.ofNat 1), JsType.Number⟩]
          (InitInterpreterStat "") = Res.ok rv s0
        ∧ s0.scopes = (InitInterpreterStat "").scopes ++ [⟨some 0, env⟩]
        ∧ mapGet env "b" = none
        ∧ Get s0.Scope "b" s0
          = Res.ok (some s0.values.length) { s0 with values := s0.values ++ [undefined] })
    ∧ Run 1000 "function f(a, b) \x7b console.log(b); \x7d f(1);" = Outcome.exit "undefined\n" := by
  refine ⟨rfl, rfl, ?_, by decide!⟩
  obtain ⟨rv, s0, env, h1, _, _, h4, h5, _, h7⟩ :=
    C16_unbound_parameter sampleFunction2 [⟨Any.float64 (F64.ofNat 1), JsType.Number⟩]
      (InitInterpreterStat "") 1 ⟨"b"⟩ rfl (by decide) (by decide)
  exact ⟨rv, s0, env, h1, h4, h5, h7 rfl⟩

/-- C17: from every state and with every amount of fuel, every exit of a
function call (`Call`), of a `for` statement and of an `if` statement, be it
the normal return or a panic (the signal of `return`, `break` or `continue`,
a `RuntimeError` or a run-time panic of Go), leaves the current scope that
was current before, and every scope that existed before still exists with the
same parent, so the chain of the current scope is the chain it was. -/
theorem C17_scope_restored (fuel : Nat) (s : InterpreterStat) :
    (∀ f args, onExit scopeKept s (Call fuel f args s))
    ∧ (∀ initializer condition reset body,
        onExit scopeKept s (VisitForLoopStmt fuel initializer condition reset body s))
    ∧ (∀ branches, onExit scopeKept s (VisitConditionStmt fuel branches s)) :=
  ⟨fun f args => (evaluatorKeeps fuel).callFn f args s,
    fun i c r b => (evaluatorKeeps fuel).forStmt i c r b s,
    fun l => (evaluatorKeeps fuel).condition l s⟩

/-- Witness of C17: in the initial state, a `for` statement whose body is
`return 1;` ends in the panic of the `return`, and an `if` statement whose
condition is true and whose body is empty returns normally; after both, the
current scope is the root scope again, the scope of the statement being the
scope 1 that was added. -/
theorem C17_scope_restored_witness :
    (∃ s1, VisitForLoopStmt 10 (some (Stmt.mk Loc.zero none))
          (some (Expr.mk Loc.zero (some (E.EBoolLiteral true)))) none
          (some (SBody.mk Loc.zero (some [Stmt.mk Loc.zero (some (S.SReturn (numLit "1")))])))
          (InitInterpreterStat "") = Res.panic (Panic.JsValuePtr (some 8)) s1
        ∧ s1.Scope = some 0 ∧ s1.scopes.length = 2)
    ∧ (∃ s1, VisitConditionStmt 10
          [Branch.mk (some (Expr.mk Loc.zero (some (E.EBoolLiteral true))))
            (some (SBody.mk Loc.zero (some [])))]
          (InitInterpreterStat "") = Res.ok () s1
        ∧ s1.Scope = some 0 ∧ s1.scopes.length = 2) := by
  obtain ⟨_, h2, h3⟩ := C17_scope_restored 10 (InitInterpreterStat "")
  constructor
  · have h := h2 (some (Stmt.mk Loc.zero none))
      (some (Expr.mk Loc.zero (some (E.EBoolLiteral true)))) none
      (some (SBody.mk Loc.zero (some [Stmt.mk Loc.zero (some (S.SReturn (numLit "1")))])))
    exact ⟨_, rfl, h.1, rfl⟩
  · have h := h3 [Branch.mk (some (Expr.mk Loc.zero (some (E.EBoolLiteral true))))
      (some (SBody.mk Loc.zero (some [])))]
    exact ⟨_, rfl, h.1, rfl⟩

/-- The index expression for an index that `ToNumber` turns into a finite
`float64`: once the target and the index of `a[i]` are evaluated to cells
holding the values `t` and `i`: if `t` is not Array-tagged the expression
raises a `RuntimeError`.  If `t` is an array whose `Length` is the number of
elements of its `Arr` (a Go slice, so that number is within the capacity and
below `2^63`) and `ToNumber(i)` is a finite number whose truncation `k` is
not negative, the expression returns normally: a new undefined value when
`k ≥ Length`, and the `k`-th element of `Arr`, which exists, when
`k < Length`. -/
theorem index_of_finite (fuel : Nat) (loc : Loc) (target idx : Expr) (s s1 s2 : InterpreterStat)
    (tp ip : Nat) (t i : JsValue)
    (et : EvaluateExpr fuel (some target) s = Res.ok (some tp) s1)
    (ei : EvaluateExpr fuel (some idx) s1 = Res.ok (some ip) s2)
    (ht : s2.values.get? tp = some t) (hi : s2.values.get? ip = some i) :
    (t.Typ ≠ JsType.Array →
      VisitIndexExpr (fuel + 1) loc target idx s
        = Res.panic (Panic.RuntimeError loc
            "index expression can only be used for array or object") s2)
    ∧ (∀ (a : Nat) (arr : JsArray) (sg : Bool) (m : Nat) (e : Int),
        t = ⟨Any.ptrJsArray a, JsType.Array⟩ → s2.arrays.get? a = some arr →
        arr.Length = arr.Arr.len → arr.Arr.len ≤ arr.Arr.cap → arr.Length < 2 ^ 63 →
        ToNumber i = Except.ok ⟨Any.float64 (F64.fin sg m e), JsType.Number⟩ →
        0 ≤ F64.truncInt sg m e →
        (arr.Length ≤ (F64.truncInt sg m e).toNat →
          VisitIndexExpr (fuel + 1) loc target idx s
            = Res.ok (some s2.values.length) { s2 with values := s2.values ++ [undefined] })
        ∧ ((F64.truncInt sg m e).toNat < arr.Length →
          ∃ h, arr.Arr.elems.get? (F64.truncInt sg m e).toNat = some h
            ∧ VisitIndexExpr (fuel + 1) loc target idx s = Res.ok h s2)) := by
  rw [VisitIndexExpr_apply fuel loc target idx s s1 s2 _ _ et ei]
  constructor
  · intro hty
    exact applyIndex_notArray loc s2 tp _ t ht hty
  · intro a arr sg m e hta ha hlen hcap hbound hn hk
    subst hta
    rw [applyIndex_array loc s2 tp ip a i arr _ ht hi ha hn]
    constructor
    · intro hge
      have h1 : F64.toUint (F64.fin sg m e) ≥ arr.Length := by
        by_cases hs : F64.truncInt sg m e < 2 ^ 63
        · rw [F64_toUint_small sg m e hk hs]
          exact hge
        · have := F64_toUint_large sg m e hk hs
          omega
      rw [if_pos h1]
      rfl
    · intro hlt
      have hs : F64.truncInt sg m e < 2 ^ 63 := by omega
      rw [F64_toUint_small sg m e hk hs]
      have h1 : ¬ (F64.truncInt sg m e).toNat ≥ arr.Length := by omega
      have h2 : (F64.truncInt sg m e).toNat < arr.Arr.len := by omega
      rw [if_neg h1, if_pos h2]
      unfold GoSlice.cap at hcap
      have h3 : (F64.truncInt sg m e).toNat < arr.Arr.backing.length := by omega
      refine ⟨arr.Arr.backing.get ⟨_, h3⟩, ?_, ?_⟩
      · unfold GoSlice.elems
        simp [List.getElem?_take, h2, List.getElem?_eq_getElem h3]
      · simp [List.getElem?_eq_getElem h3, pure, Go.ret]

/-- An instance of `index_of_finite`: `[1, 2, 3][1]` in the initial state.  The literal
evaluates to the cell 10, an array whose elements are the cells 7, 8 and 9,
and the index to the cell 11 holding the number 1, whose truncation is 1: the
expression evaluates to the cell 8, the element 1.  A program logs the
elements 0 and 2, undefined for the index 3, which is the length, and the
element 1 for the index `"1"`; indexing a number stops with the diagnostic of
the `RuntimeError`. -/
theorem index_of_finite_instance :
    EvaluateExpr 10 (some arrayLit) (InitInterpreterStat "") = Res.ok (some 10) stateWithLiteral
    ∧ EvaluateExpr 10 (some (numLit "1")) stateWithLiteral
      = Res.ok (some 11)
          { stateWithLiteral with
            values := stateWithLiteral.values ++ [⟨Any.float64 (F64.ofNat 1), JsType.Number⟩] }
    ∧ F64.ofNat 1 = F64.fin false 4503599627370496 (-52)
    ∧ F64.truncInt false 4503599627370496 (-52) = 1
    ∧ VisitIndexExpr 11 Loc.zero arrayLit (numLit "1") (InitInterpreterStat "")
      = Res.ok (some 8)
          { stateWithLiteral with
            values := stateWithLiteral.values ++ [⟨Any.float64 (F64.ofNat 1), JsType.Number⟩] }
    ∧ Run 1000 ("let a = [1, 2, 3]; console.log(a[0]); console.log(a[2]); console.log(a[3]); " ++
        "console.log(a[\"1\"]);") = Outcome.exit "1.00000\n3.00000\nundefined\n2.00000\n"
    ∧ Run 1000 "let a = 1; console.log(a[0]);"
      = Outcome.exit ("     1| let a = 1; console.log(a[0]);\n" ++
          "                               ^^^^\n" ++
          " index expression can only be used for array or object\n") := by
  have et : EvaluateExpr 10 (some arrayLit) (InitInterpreterStat "")
      = Res.ok (some 10) stateWithLiteral := rfl
  have ei : EvaluateExpr 10 (some (numLit "1")) stateWithLiteral
      = Res.ok (some 11)
          { stateWithLiteral with
            values := stateWithLiteral.values ++ [⟨Any.float64 (F64.ofNat 1), JsType.Number⟩] } :=
    rfl
  have hone : F64.ofNat 1 = F64.fin false 4503599627370496 (-52) := by decide!
  have hn : ToNumber ⟨Any.float64 (F64.ofNat 1), JsType.Number⟩
      = Except.ok ⟨Any.float64 (F64.fin false 4503599627370496 (-52)), JsType.Number⟩ := by
    rw [hone]
    rfl
  refine ⟨et, ei, hone, by decide, ?_, by decide!, by decide!⟩
  obtain ⟨h, h1, h2⟩ :=
    ((index_of_finite 10 Loc.zero arrayLit (numLit "1") _ _ _ 10 11 _ _ et ei rfl rfl).2 0
      ⟨⟨[some 7, some 8, some 9, none], 3⟩, 3⟩ false 4503599627370496 (-52) rfl rfl rfl
      (by decide) (by norm_num) hn (by decide)).2 (by decide)
  rw [h2]
  have h3 : h = some 8 := by
    have h4 : (⟨[some 7, some 8, some 9, none], 3⟩ : GoSlice).elems.get?
        (F64.truncInt false 4503599627370496 (-52)).toNat = some (some 8) := by decide
    rw [h4] at h1
    injection h1 with h1
    exact h1.symm
  rw [h3]

/-- C18 (the code as it is): `VisitIndexExpr` asserts that the payload of
`ToNumber(idx)` is a `float64`.  `%` makes a Number whose payload is a Go
`int` (the defect of C10), which `ToNumber` passes on as it is, so the
assertion fails: for the array `[1, 2, 3]` and the index `4 % 3`, whose
truncation is 1, the expression ends in a run-time panic of Go.  The deferred
function of `Run` does not take that panic for a `RuntimeError` and raises the
zero `RuntimeError` in its place, so the run dies with nothing logged, where
the claim expects the element 1, the line `2.00000`.  With the literal `1`
for the index that line is logged (`index_of_finite` covers every index that
`ToNumber` turns into a finite `float64`). -/
theorem C18_index_dies_on_a_remainder :
    valueOf 10 (binExpr T.TPercent (numLit "4") (numLit "3")) = some ⟨Any.int 1, JsType.Number⟩
    ∧ ToNumber ⟨Any.int 1, JsType.Number⟩ = Except.ok ⟨Any.int 1, JsType.Number⟩
    ∧ exprPanic 20 (Expr.mk Loc.zero (some (E.EIndex arrayLit
        (binExpr T.TPercent (numLit "4") (numLit "3")))))
      = some (Panic.runtime GoRuntimeError.interfaceConversion)
    ∧ recovered 1000 "let a = [1, 2, 3]; let y = a[4 % 3]; console.log(y);"
      = some (Panic.runtime GoRuntimeError.interfaceConversion)
    ∧ Run 1000 "let a = [1, 2, 3]; let y = a[4 % 3]; console.log(y);"
      = Outcome.crash (Panic.RuntimeError Loc.zero "") ""
    ∧ Run 1000 "let a = [1, 2, 3]; let y = a[1]; console.log(y);" = Outcome.exit "2.00000\n" :=
  ⟨by decide!, rfl, by decide!, by decide!, by decide!, by decide!⟩

/-- C19 (the code as it is): `VisitMemberExpr` has no case for arrays.  An
Array-tagged value falls in the `default` case, where the property is looked
up in the wrapper that `Wrap` builds, which has the keys `toString` and
`toNumber` only and does not refer to `ArrayPrototype`: whatever the state
and the payload of an Array-tagged cell, `push` and `splice` on it evaluate to
the nil pointer, which the call dereferences.  The deferred function of `Run`
does not take that nil dereference for a `RuntimeError` and raises the zero
`RuntimeError` in its place: scenario S4 writes nothing and dies, and so does
each of its two method calls alone. -/
theorem C19_array_methods_are_nil :
    recovered 1000 ("let a = [1, 2, 3]; a.push(4); a.splice(1, 1); console.log(a[0]); " ++
        "console.log(a[1]); console.log(a[2]);")
      = some (Panic.runtime GoRuntimeError.nilPointerDereference)
    ∧ Run 1000 ("let a = [1, 2, 3]; a.push(4); a.splice(1, 1); console.log(a[0]); " ++
        "console.log(a[1]); console.log(a[2]);")
      = Outcome.crash (Panic.RuntimeError Loc.zero "") ""
    ∧ recovered 1000 "let a = [1, 2, 3]; a.push(4);"
      = some (Panic.runtime GoRuntimeError.nilPointerDereference)
    ∧ Run 1000 "let a = [1, 2, 3]; a.push(4);"
      = Outcome.crash (Panic.RuntimeError Loc.zero "") ""
    ∧ recovered 1000 "let a = [1, 2, 3]; a.splice(1, 1);"
      = some (Panic.runtime GoRuntimeError.nilPointerDereference)
    ∧ Run 1000 "let a = [1, 2, 3]; a.splice(1, 1);"
      = Outcome.crash (Panic.RuntimeError Loc.zero "") ""
    ∧ ∀ (s : InterpreterStat) (payload : Any),
        (∃ s1, applyMember (some s.values.length) "push"
          { s with values := s.values ++ [⟨payload, JsType.Array⟩] } = Res.ok none s1)
        ∧ (∃ s1, applyMember (some s.values.length) "splice"
          { s with values := s.values ++ [⟨payload, JsType.Array⟩] } = Res.ok none s1) := by
  refine ⟨by decide!, by decide!, by decide!, by decide!, by decide!, by decide!, ?_⟩
  intro s payload
  have hv : (s.values ++ [(⟨payload, JsType.Array⟩ : JsValue)]).get? s.values.length
      = some ⟨payload, JsType.Array⟩ := by simp
  exact ⟨applyMember_array _ _ _ "push" hv rfl (Or.inl rfl),
    applyMember_array _ _ _ "splice" hv rfl (Or.inr rfl)⟩

/-- C20 (the code as it is): for an array at `a` whose `Length` is the number
of elements of its `Arr` (a slice, so its length is within its capacity) and
for every list of argument values, `ArrayPush` returns normally; it puts the
items in new cells, in argument order, and afterwards the elements of `Arr`
are the previous elements followed by the pointers to those cells, `Length`
is the previous `Length` plus the number of items and is still the number of
elements, and nothing else is changed.  But the value returned is not a
Number of the data model: under the Number tag its payload is the new
`Length` as a Go `uint`, without the conversion to `float64` (the slip that
`%` makes with an `int`, C10).  `ToString` rejects it with a failed type
assertion, `ToNumber` passes it on as it is, and as an interface value it
equals no `float64`, not even the one of the new `Length`. -/
theorem C20_ArrayPush_returns_a_uint (s : InterpreterStat) (a : Nat) (arr : JsArray)
    (typ : JsType) (items : List JsValue)
    (ha : s.arrays.get? a = some arr) (hlen : arr.Length = arr.Arr.len)
    (hcap : arr.Arr.len ≤ arr.Arr.cap) :
    ∃ arr1, ArrayPush ⟨Any.ptrJsArray a, typ⟩ items s
        = Res.ok ⟨Any.uint (arr.Length + items.length), JsType.Number⟩
            { s with values := s.values ++ items, arrays := s.arrays.set a arr1 }
      ∧ arr1.Arr.elems
          = arr.Arr.elems ++ (List.range items.length).map (fun i => some (s.values.length + i))
      ∧ (∀ i, i < items.length → (s.values ++ items).get? (s.values.length + i) = items.get? i)
      ∧ arr1.Length = arr.Length + items.length
      ∧ arr1.Length = arr1.Arr.len
      ∧ arr1.Arr.elems.length = arr1.Length
      ∧ JsValue.wellFormed ⟨Any.uint (arr.Length + items.length), JsType.Number⟩ = false
      ∧ ToString ⟨Any.uint (arr.Length + items.length), JsType.Number⟩
          = Except.error (Panic.runtime GoRuntimeError.interfaceConversion)
      ∧ ToNumber ⟨Any.uint (arr.Length + items.length), JsType.Number⟩
          = Except.ok ⟨Any.uint (arr.Length + items.length), JsType.Number⟩
      ∧ ∀ x : F64, Any.goEq (Any.uint (arr.Length + items.length)) (Any.float64 x)
          = some false := by
  obtain ⟨h1, h2⟩ := GoSlice_append_elems arr.Arr
    ((List.range items.length).map (fun i => some (s.values.length + i))) hcap
  simp only [List.length_map, List.length_range] at h2
  refine ⟨{ Arr := arr.Arr.append ((List.range items.length).map
      (fun i => some (s.values.length + i))), Length := arr.Length + items.length },
    ?_, h1, ?_, rfl, ?_, ?_, rfl, rfl, rfl, fun _ => rfl⟩
  · unfold ArrayPush
    simp only []
    have hat : arrayAt a s = Res.ok arr s := by
      unfold arrayAt
      simp only [ha]
    rw [bind_ok _ _ _ _ _ hat, bind_ok _ _ _ _ _ (allocAll_spec items s)]
    rfl
  · intro i hi
    rw [List.get?_eq_getElem?, List.get?_eq_getElem?,
      List.getElem?_append_right (Nat.le_add_right _ _)]
    simp
  · simp only [h2, hlen]
  · simp only [h1, List.length_append, List.length_map, List.length_range, hlen]
    unfold GoSlice.elems
    unfold GoSlice.cap at hcap
    simp [hcap]

/-- Witness of C20: pushing 3 and 4 on the array `[0, 1, 2]` gives the
elements 7 to 11, the last two being the new cells of the items, and the
`Length` 5; the value returned holds the `uint` 5 under the Number tag, which
`ToString` rejects. -/
theorem C20_ArrayPush_returns_a_uint_witness :
    stateWithArray.arrays.get? 0 = some ⟨⟨[some 7, some 8, some 9], 3⟩, 3⟩
    ∧ ∃ arr1, ArrayPush ⟨Any.ptrJsArray 0, JsType.Array⟩
          [⟨Any.float64 (F64.ofNat 3), JsType.Number⟩, ⟨Any.float64 (F64.ofNat 4), JsType.Number⟩]
          stateWithArray
        = Res.ok ⟨Any.uint 5, JsType.Number⟩
            { stateWithArray with
              values := stateWithArray.values ++
                [⟨Any.float64 (F64.ofNat 3), JsType.Number⟩,
                 ⟨Any.float64 (F64.ofNat 4), JsType.Number⟩],
              arrays := stateWithArray.arrays.set 0 arr1 }
      ∧ arr1.Arr.elems = [some 7, some 8, some 9, some 10, some 11]
      ∧ arr1.Length = 5
      ∧ ToString ⟨Any.uint 5, JsType.Number⟩
          = Except.error (Panic.runtime GoRuntimeError.interfaceConversion)
      ∧ Any.goEq (Any.uint 5) (Any.float64 (F64.ofNat 5)) = some false := by
  refine ⟨rfl, ?_⟩
  obtain ⟨arr1, h1, h2, _, h4, _, _, _, h8, _, h10⟩ :=
    C20_ArrayPush_returns_a_uint stateWithArray 0 ⟨⟨[some 7, some 8, some 9], 3⟩, 3⟩ JsType.Array
      [⟨Any.float64 (F64.ofNat 3), JsType.Number⟩, ⟨Any.float64 (F64.ofNat 4), JsType.Number⟩]
      rfl rfl (by decide)
  exact ⟨arr1, h1, h2, h4, h8, h10 _⟩

/-! ### Lemmas on the deletion loop of `ArraySplice` -/

theorem overwrite_length : ∀ (xs b : List (Option Nat)) (i : Nat),
    (GoSlice.overwrite b i xs).length = b.length := by
  intro xs
  induction xs with
  | nil =>
    intro b i
    rfl
  | cons x xs ih =>
    intro b i
    simp only [GoSlice.overwrite]
    rw [ih, List.length_set]

theorem appendAt_inPlace (sl : GoSlice) (n : Nat) (items : List (Option Nat))
    (h : n + items.length ≤ sl.cap) :
    (sl.appendAt n items).elems = sl.backing.take n ++ items
      ∧ (sl.appendAt n items).len = n + items.length
      ∧ (sl.appendAt n items).cap = sl.cap := by
  unfold GoSlice.appendAt GoSlice.elems GoSlice.cap
  unfold GoSlice.cap at h
  simp only [GoSlice.cap, h, ↓reduceIte, true_and]
  exact ⟨overwrite_take items sl.backing n h, overwrite_length items sl.backing n⟩

theorem GoSlice_append_cap (sl : GoSlice) (xs : List (Option Nat)) (h : sl.len ≤ sl.cap) :
    (sl.append xs).len ≤ (sl.append xs).cap := by
  unfold GoSlice.append GoSlice.appendAt GoSlice.cap
  unfold GoSlice.cap at h
  by_cases hc : sl.len + xs.length ≤ sl.backing.length
  · simp only [GoSlice.cap, hc, ↓reduceIte]
    rw [overwrite_length]
    exact hc
  · simp only [GoSlice.cap, hc, ↓reduceIte, List.length_append, List.length_take,
      List.length_replicate]
    omega

theorem spliceDelete_spec : ∀ (d : Nat) (arr : GoSlice) (index : Nat) (deleted : GoSlice),
    arr.len ≤ arr.cap → deleted.len ≤ deleted.cap → index + d ≤ arr.len →
    (spliceDelete d arr index deleted).2.2 = false
      ∧ (spliceDelete d arr index deleted).1.elems
        = arr.elems.take index ++ arr.elems.drop (index + d)
      ∧ (spliceDelete d arr index deleted).1.len = arr.len - d
      ∧ (spliceDelete d arr index deleted).1.len ≤ (spliceDelete d arr index deleted).1.cap
      ∧ (spliceDelete d arr index deleted).2.1.elems
        = deleted.elems ++ (arr.elems.drop index).take d
      ∧ (spliceDelete d arr index deleted).2.1.len = deleted.len + d := by
  intro d
  induction d with
  | zero =>
    intro arr index deleted hwf _ _
    simp only [spliceDelete, Nat.add_zero, List.take_append_drop, Nat.sub_zero, List.take_zero,
      List.append_nil, true_and]
    exact ⟨hwf, trivial⟩
  | succ d ih =>
    intro arr index deleted hwf hdel hid
    have hlt : index < arr.len := by omega
    have hcap : arr.len ≤ arr.backing.length := hwf
    simp only [spliceDelete, hlt, ↓reduceIte]
    have hm : index + ((arr.backing.take arr.len).drop (index + 1)).length ≤ arr.cap := by
      simp only [List.length_drop, List.length_take, GoSlice.cap]
      omega
    obtain ⟨he, hl, hc⟩ := appendAt_inPlace arr index _ hm
    have hl1 : (arr.appendAt index ((arr.backing.take arr.len).drop (index + 1))).len
        = arr.len - 1 := by
      rw [hl]
      simp only [List.length_drop, List.length_take]
      omega
    have hwf1 : (arr.appendAt index ((arr.backing.take arr.len).drop (index + 1))).len
        ≤ (arr.appendAt index ((arr.backing.take arr.len).drop (index + 1))).cap := by
      rw [hl1, hc]
      unfold GoSlice.cap
      omega
    obtain ⟨hde, hdl⟩ := GoSlice_append_elems deleted
      [(arr.backing.get? index).getD none] hdel
    have hdwf := GoSlice_append_cap deleted [(arr.backing.get? index).getD none] hdel
    obtain ⟨i1, i2, i3, i4, i5, i6⟩ := ih _ index _ hwf1 hdwf (by rw [hl1]; omega)
    have hE : (arr.appendAt index ((arr.backing.take arr.len).drop (index + 1))).elems
        = arr.elems.take index ++ arr.elems.drop (index + 1) := by
      rw [he]
      unfold GoSlice.elems
      rw [List.take_take, Nat.min_eq_left (Nat.le_of_lt hlt)]
    have hlenE : arr.elems.length = arr.len := by
      unfold GoSlice.elems
      rw [List.length_take]
      omega
    have htl : (arr.elems.take index).length = index := by
      rw [List.length_take]
      omega
    refine ⟨i1, ?_, ?_, i4, ?_, ?_⟩
    · rw [i2, hE, List.take_append_of_le_length (by omega), List.take_take, Nat.min_self,
        List.drop_append_eq_append_drop, List.drop_of_length_le (by omega), htl,
        List.drop_drop]
      simp only [List.nil_append]
      congr 2
      omega
    · rw [i3, hl1]
      omega
    · rw [i5, hde, hE, List.drop_append_eq_append_drop, List.drop_of_length_le (by omega), htl]
      simp only [Nat.sub_self, List.drop_zero, List.nil_append, List.append_assoc,
        List.singleton_append]
      congr 1
      have hx : (arr.backing.get? index).getD none = arr.elems.get ⟨index, by omega⟩ := by
        unfold GoSlice.elems
        rw [List.get?_eq_getElem?, List.getElem?_eq_getElem (by omega)]
        simp [List.getElem_take]
      rw [hx, List.drop_eq_getElem_cons (show index < arr.elems.length by omega),
        List.take_succ_cons]
      rfl
    · rw [i6, hdl]
      simp only [List.length_singleton]
      omega

theorem toNumberFloat_ok (v : JsValue) (f : F64) (s : InterpreterStat)
    (h : ToNumber v = Except.ok ⟨Any.float64 f, JsType.Number⟩) :
    toNumberFloat v s = Res.ok f s := by
  unfold toNumberFloat
  rw [h]
  rfl

/-! ### Lemmas on what the parser returns -/

/-- The parser of a source on which the lexer terminates. -/
theorem parserOf_spec (fuel : Nat) (source : String)
    (h : (NewParser fuel source).isSome = true) :
    NewParser fuel source = some (parserOf fuel source) := by
  unfold parserOf
  cases hn : NewParser fuel source with
  | none => rw [hn] at h; exact absurd h (by simp)
  | some p => rfl

/-- The body of `Parse` when it panics. -/
theorem bodyPanic_spec (fuel : Nat) (p : AstParser) (e : Panic)
    (h : bodyPanic fuel p = some e) :
    parseBody fuel p = Res.panic e (parserAtPanic fuel p) := by
  unfold bodyPanic at h
  unfold parserAtPanic
  cases hb : parseBody fuel p with
  | ok a s => rw [hb] at h; exact absurd h (by simp)
  | timeout => rw [hb] at h; exact absurd h (by simp)
  | panic e1 s =>
    rw [hb] at h
    simp only [Option.some.injEq] at h
    rw [h]

/-! ### Lemmas on the comment loops of the lexer -/

theorem Step_avoids (t : Char) (ht : RuneError ≠ t) (lexer : Lexer)
    (hc : lexer.CurChar ≠ t) (hs : ∀ c ∈ lexer.Source, c ≠ t) :
    lexer.Step.CurChar ≠ t ∧ ∀ c ∈ lexer.Step.Source, c ≠ t := by
  unfold Lexer.Step
  split
  · exact ⟨hc, hs⟩
  · split
    · rename_i h
      exact ⟨ht, fun c hm => hs c hm⟩
    · rename_i char rest h
      rw [h] at hs
      exact ⟨hs char (List.mem_cons_self _ _), fun c hm => hs c (List.mem_cons_of_mem _ hm)⟩

theorem lineCommentLoop_none : ∀ (fuel : Nat) (lexer : Lexer) (loc : Loc),
    lexer.CurChar ≠ '\n' → (∀ c ∈ lexer.Source, c ≠ '\n') →
    lineCommentLoop fuel lexer loc = none := by
  intro fuel
  induction fuel with
  | zero =>
    intro lexer loc _ _
    rfl
  | succ fuel ih =>
    intro lexer loc hc hs
    obtain ⟨h1, h2⟩ := Step_avoids '\n' (by decide) lexer hc hs
    simp only [lineCommentLoop, ne_eq, hc, not_false_eq_true, ↓reduceIte]
    exact ih _ _ h1 h2

theorem blockCommentLoop_none : ∀ (fuel : Nat) (lexer : Lexer) (loc : Loc),
    lexer.CurChar ≠ '/' → (∀ c ∈ lexer.Source, c ≠ '/') →
    blockCommentLoop fuel lexer loc = none := by
  intro fuel
  induction fuel with
  | zero =>
    intro lexer loc _ _
    rfl
  | succ fuel ih =>
    intro lexer loc hc hs
    obtain ⟨h1, h2⟩ := Step_avoids '/' (by decide) lexer hc hs
    obtain ⟨h3, h4⟩ := Step_avoids '/' (by decide) lexer.Step h1 h2
    simp only [blockCommentLoop, ne_eq, hc, not_false_eq_true, ↓reduceIte]
    split
    · exact ih _ _ h3 h4
    · exact ih _ _ h1 h2

theorem NewLexer_cons (c : Char) (rest : List Char) :
    NewLexer (String.mk (c :: rest))
      = { Current := 0, End := c.utf8Size, Line := 1, Source := rest,
          RawSource := String.mk (c :: rest), CurChar := c, CurCharWidth := c.utf8Size,
          HasError := false, stdout := "" } := by
  have hpos : 0 < c.utf8Size := Char.utf8Size_pos c
  unfold NewLexer Lexer.Step Lexer.IsEnd goLen
  simp only [String.utf8ByteSize, String.utf8ByteSize.go, ge_iff_le, Nat.le_zero_eq,
    Nat.zero_add]
  rw [if_neg (by simp only [decide_eq_true_eq]; omega)]

theorem NewLexer_two (c1 c2 : Char) (rest : List Char) :
    (NewLexer (String.mk (c1 :: c2 :: rest))).IsEnd = false
      ∧ (NewLexer (String.mk (c1 :: c2 :: rest))).CurChar = c1
      ∧ (NewLexer (String.mk (c1 :: c2 :: rest))).Step.CurChar = c2
      ∧ (NewLexer (String.mk (c1 :: c2 :: rest))).Step.Source = rest := by
  have hlen : ¬ (goLen (String.mk (c1 :: c2 :: rest)) ≤ 0) := by
    unfold goLen
    simp only [String.utf8ByteSize, String.utf8ByteSize.go]
    have : 0 < c1.utf8Size := Char.utf8Size_pos _
    omega
  rw [NewLexer_cons]
  unfold Lexer.Step Lexer.IsEnd
  simp only [ge_iff_le, decide_eq_true_eq, hlen, ↓reduceIte, and_self, decide_False,
    Bool.false_eq_true]

/-- A text that starts with `//` and has no line feed after it: the lexer does
not terminate, whatever the fuel. -/
theorem Tokenizer_lineComment (rest : List Char) (h : ∀ c ∈ rest, c ≠ '\n') :
    ∀ fuel, Tokenizer fuel (NewLexer (String.mk ('/' :: '/' :: rest))) = none := by
  intro fuel
  obtain ⟨hI, hC, s1, s2⟩ := NewLexer_two '/' '/' rest
  cases fuel with
  | zero => rfl
  | succ fuel =>
    cases fuel with
    | zero => rfl
    | succ fuel =>
      obtain ⟨a1, a2⟩ := Step_avoids '\n' (by decide)
        (NewLexer (String.mk ('/' :: '/' :: rest))).Step (by rw [s1]; decide)
        (by rw [s2]; exact h)
      simp only [Tokenizer, tokenizerLoop, hI, hC, Bool.not_false, ↓reduceIte]
      unfold lexSwitch
      simp +decide only [s1, ↓reduceIte, false_or, or_self, lineCommentLoop_none _ _ _ a1 a2]

/-- A text that starts with `/*` and has no `/` after it: the lexer does not
terminate, whatever the fuel. -/
theorem Tokenizer_blockComment (rest : List Char) (h : ∀ c ∈ rest, c ≠ '/') :
    ∀ fuel, Tokenizer fuel (NewLexer (String.mk ('/' :: '*' :: rest))) = none := by
  intro fuel
  obtain ⟨hI, hC, s1, s2⟩ := NewLexer_two '/' '*' rest
  cases fuel with
  | zero => rfl
  | succ fuel =>
    cases fuel with
    | zero => rfl
    | succ fuel =>
      obtain ⟨a1, a2⟩ := Step_avoids '/' (by decide)
        (NewLexer (String.mk ('/' :: '*' :: rest))).Step (by rw [s1]; decide)
        (by rw [s2]; exact h)
      simp only [Tokenizer, tokenizerLoop, hI, hC, Bool.not_false, ↓reduceIte]
      unfold lexSwitch
      simp +decide only [s1, ↓reduceIte, false_or, or_self, blockCommentLoop_none _ _ _ a1 a2]

/-! ### Lemmas on the loops of the parser that do not advance -/

theorem bind_timeout {σ α β : Type} (m : Go σ α) (f : α → Go σ β) (s : σ)
    (h : m s = Res.timeout) : (m >>= f) s = Res.timeout := by
  show Go.andThen m f s = Res.timeout
  unfold Go.andThen
  rw [h]

theorem get?_lt {α : Type} (l : List α) (i : Nat) (a : α) (h : l.get? i = some a) :
    i < l.length := by
  rw [List.get?_eq_getElem?] at h
  exact (List.getElem?_eq_some_iff.mp h).1

theorem CurToken_at (p : AstParser) (t : Token) (h : p.Tokens.get? p.Curr = some t) :
    CurToken p = Res.ok t p := by
  unfold CurToken
  rw [if_neg (Nat.not_le.mpr (get?_lt _ _ _ h)), h]

theorem IsEnd_at (p : AstParser) (t : Token) (h : p.Tokens.get? p.Curr = some t) :
    AstParser.IsEnd p = Res.ok false p := by
  unfold AstParser.IsEnd
  rw [decide_eq_false (Nat.not_le.mpr (get?_lt _ _ _ h))]

theorem Step_at (p : AstParser) (t : Token) (h : p.Tokens.get? p.Curr = some t) :
    AstParser.Step p = Res.ok t { p with Curr := p.Curr + 1 } := by
  unfold AstParser.Step
  rw [h]

theorem Check_at (p : AstParser) (t : Token) (ts : List T)
    (h : p.Tokens.get? p.Curr = some t) :
    Check ts p = Res.ok (ts.any (fun x => t.T = x)) p := by
  unfold Check
  rw [bind_ok _ _ _ _ _ (IsEnd_at p t h)]
  simp only [Bool.false_eq_true, ↓reduceIte]
  rw [bind_ok (pure PUnit.unit) _ p p PUnit.unit rfl, bind_ok _ _ _ _ _ (CurToken_at p t h)]
  rfl

theorem Consume_at (p : AstParser) (t : Token) (k : T)
    (h : p.Tokens.get? p.Curr = some t) (hk : t.T = k) :
    Consume k p = Res.ok t { p with Curr := p.Curr + 1 } := by
  unfold Consume
  rw [bind_ok _ _ _ _ _ (CurToken_at p t h)]
  simp only [hk, ↓reduceIte]
  exact Step_at p t h

/-- The loop `Params` at a token that is neither `)` nor `,` nor an
identifier: the iteration changes nothing, so the loop never ends. -/
theorem paramsLoop_hangs (p : AstParser) (t : Token) (h : p.Tokens.get? p.Curr = some t)
    (h1 : t.T ≠ TCloseParen) (h2 : t.T ≠ TComma) (h3 : t.T ≠ TIdentifier) :
    ∀ (fuel : Nat) (params : List EIdentifier), paramsLoop fuel params p = Res.timeout := by
  intro fuel
  induction fuel with
  | zero =>
    intro params
    rfl
  | succ n ih =>
    intro params
    simp only [paramsLoop]
    rw [bind_ok _ _ _ _ _ (IsEnd_at p t h)]
    simp only [Bool.not_false, ↓reduceIte]
    rw [bind_ok _ _ _ _ _ (CurToken_at p t h)]
    simp only [h1, h2, h3, ↓reduceIte]
    exact ih params

/-- The loop `ObjectLiteral` at a token that starts no member and is not
the closing brace: the iteration changes nothing, so the loop never ends. -/
theorem objectLoop_hangs (p : AstParser) (t : Token) (h : p.Tokens.get? p.Curr = some t)
    (h1 : t.T ≠ TOpenBracket) (h2 : t.T ≠ TCloseBrace) (h3 : t.T ≠ TIdentifier)
    (h4 : t.T ≠ TStringLiteral) (h5 : t.T ≠ TNumericLiteral) :
    ∀ (fuel : Nat) (properties : List Expr), objectLoop fuel properties p = Res.timeout := by
  intro fuel
  induction fuel with
  | zero =>
    intro properties
    rfl
  | succ n ih =>
    intro properties
    simp only [objectLoop]
    rw [bind_ok _ _ _ _ _ (IsEnd_at p t h)]
    simp only [Bool.not_false, ↓reduceIte]
    rw [bind_ok _ _ _ _ _ (CurToken_at p t h)]
    simp only [h1, h2, h3, h4, h5, or_self, ↓reduceIte]
    exact ih properties

/-- The call `funcDecl` at `(` followed by a token that is neither `)` nor
`,` nor an identifier. -/
theorem funcDecl_hangs (p : AstParser) (t0 t1 : Token)
    (h0 : p.Tokens.get? p.Curr = some t0) (k0 : t0.T = TOpenParen)
    (h1 : p.Tokens.get? (p.Curr + 1) = some t1)
    (b1 : t1.T ≠ TCloseParen) (b2 : t1.T ≠ TComma) (b3 : t1.T ≠ TIdentifier) :
    ∀ fuel, funcDecl fuel p = Res.timeout := by
  intro fuel
  cases fuel with
  | zero => rfl
  | succ n =>
    simp only [funcDecl]
    rw [bind_ok _ _ _ _ _ (Consume_at p t0 TOpenParen h0 k0)]
    exact bind_timeout _ _ _ (paramsLoop_hangs { p with Curr := p.Curr + 1 } t1 h1 b1 b2 b3 n [])

/-- The call `primary` at `function (` followed by a token that is neither
`)` nor `,` nor an identifier. -/
theorem primary_function_hangs (p : AstParser) (t0 t1 t2 : Token)
    (h0 : p.Tokens.get? p.Curr = some t0) (k0 : t0.T = TFunction)
    (h1 : p.Tokens.get? (p.Curr + 1) = some t1) (k1 : t1.T = TOpenParen)
    (h2 : p.Tokens.get? (p.Curr + 1 + 1) = some t2)
    (b1 : t2.T ≠ TCloseParen) (b2 : t2.T ≠ TComma) (b3 : t2.T ≠ TIdentifier) :
    ∀ fuel, primary fuel p = Res.timeout := by
  intro fuel
  cases fuel with
  | zero => rfl
  | succ n =>
    simp only [primary]
    rw [bind_ok _ _ _ _ _ (CurToken_at p t0 h0)]
    simp only [k0, ↓reduceIte]
    rw [bind_ok _ _ _ _ _ (Step_at p t0 h0),
      bind_ok _ _ _ _ _ (CurToken_at { p with Curr := p.Curr + 1 } t1 h1)]
    simp only [k1, reduceCtorEq, ↓reduceIte]
    rw [bind_ok (pure none) _ _ _ none rfl]
    exact bind_timeout _ _ _
      (funcDecl_hangs { p with Curr := p.Curr + 1 } t1 t2 h1 k1 h2 b1 b2 b3 n)

/-- The call `primary` at an opening brace followed by a token that starts no
member and is not the closing brace. -/
theorem primary_object_hangs (p : AstParser) (t0 t1 : Token)
    (h0 : p.Tokens.get? p.Curr = some t0) (k0 : t0.T = TOpenBrace)
    (h1 : p.Tokens.get? (p.Curr + 1) = some t1)
    (b1 : t1.T ≠ TOpenBracket) (b2 : t1.T ≠ TCloseBrace) (b3 : t1.T ≠ TIdentifier)
    (b4 : t1.T ≠ TStringLiteral) (b5 : t1.T ≠ TNumericLiteral) :
    ∀ fuel, primary fuel p = Res.timeout := by
  intro fuel
  cases fuel with
  | zero => rfl
  | succ n =>
    simp only [primary]
    rw [bind_ok _ _ _ _ _ (CurToken_at p t0 h0)]
    simp only [k0, reduceCtorEq, ↓reduceIte]
    rw [bind_ok _ _ _ _ _ (Step_at p t0 h0)]
    exact bind_timeout _ _ _
      (objectLoop_hangs { p with Curr := p.Curr + 1 } t1 h1 b1 b2 b3 b4 b5 n [])

/-- When `primary` never returns at a token that is neither `(` nor a prefix
operator, neither does `expr`: every level between them calls the next one
before anything else that could end it. -/
theorem expr_hangs (p : AstParser) (t : Token) (h : p.Tokens.get? p.Curr = some t)
    (n1 : t.T ≠ TOpenParen)
    (n2 : ¬ (t.T = TExclamation ∨ t.T = TMinus ∨ t.T = TPlusPlus ∨ t.T = TMinusMinus))
    (hp : ∀ fuel, primary fuel p = Res.timeout) :
    ∀ fuel, expr fuel p = Res.timeout := by
  have c := CurToken_at p t h
  have e := IsEnd_at p t h
  have l1 : ∀ fuel, paren fuel p = Res.timeout := by
    intro fuel
    cases fuel with
    | zero => rfl
    | succ n =>
      simp only [paren]
      rw [bind_ok _ _ _ _ _ c]
      simp only [n1, ↓reduceIte]
      exact hp n
  have l2 : ∀ fuel, memberExpr fuel p = Res.timeout := by
    intro fuel
    cases fuel with
    | zero => rfl
    | succ n =>
      simp only [memberExpr]
      exact bind_timeout _ _ _ (l1 n)
  have l3 : ∀ fuel, callExpr fuel p = Res.timeout := by
    intro fuel
    cases fuel with
    | zero => rfl
    | succ n =>
      simp only [callExpr]
      exact bind_timeout _ _ _ (l2 n)
  have l4 : ∀ fuel, unary fuel p = Res.timeout := by
    intro fuel
    cases fuel with
    | zero => rfl
    | succ n =>
      simp only [unary]
      rw [bind_ok _ _ _ _ _ c]
      simp only [n2, ↓reduceIte]
      exact bind_timeout _ _ _ (l3 n)
  have l5 : ∀ fuel, multiplyAndDivision fuel p = Res.timeout := by
    intro fuel
    cases fuel with
    | zero => rfl
    | succ n =>
      simp only [multiplyAndDivision]
      rw [bind_ok _ _ _ _ _ c]
      exact bind_timeout _ _ _ (l4 n)
  have l6 : ∀ fuel, plusAndMinus fuel p = Res.timeout := by
    intro fuel
    cases fuel with
    | zero => rfl
    | succ n =>
      simp only [plusAndMinus]
      rw [bind_ok _ _ _ _ _ c]
      exact bind_timeout _ _ _ (l5 n)
  have l7 : ∀ fuel, compare fuel p = Res.timeout := by
    intro fuel
    cases fuel with
    | zero => rfl
    | succ n =>
      simp only [compare]
      exact bind_timeout _ _ _ (l6 n)
  have l8 : ∀ fuel, and fuel p = Res.timeout := by
    intro fuel
    cases fuel with
    | zero => rfl
    | succ n =>
      simp only [and]
      exact bind_timeout _ _ _ (l7 n)
  have l9 : ∀ fuel, or fuel p = Res.timeout := by
    intro fuel
    cases fuel with
    | zero => rfl
    | succ n =>
      simp only [or]
      exact bind_timeout _ _ _ (l8 n)
  have l10 : ∀ fuel, equals fuel p = Res.timeout := by
    intro fuel
    cases fuel with
    | zero => rfl
    | succ n =>
      simp only [equals]
      exact bind_timeout _ _ _ (l9 n)
  have l11 : ∀ fuel, assignment fuel p = Res.timeout := by
    intro fuel
    cases fuel with
    | zero => rfl
    | succ n =>
      simp only [assignment]
      rw [bind_ok _ _ _ _ _ e]
      simp only [Bool.false_eq_true, ↓reduceIte]
      rw [bind_ok (pure PUnit.unit) _ p p PUnit.unit rfl, bind_ok _ _ _ _ _ c]
      exact bind_timeout _ _ _ (l10 n)
  intro fuel
  cases fuel with
  | zero => rfl
  | succ n =>
    simp only [expr]
    exact l11 n

/-- A declaration `let name = ...` whose initialiser never returns: neither
does `Parse`. -/
theorem Parse_let_hangs (p : AstParser) (t0 t1 t2 : Token) (name : String)
    (h0 : p.Tokens.get? p.Curr = some t0) (k0 : t0.T = TLet)
    (h1 : p.Tokens.get? (p.Curr + 1) = some t1) (k1 : t1.T = TIdentifier)
    (hr : JsInterp.Raw t1.Loc p.RawSource = some name)
    (h2 : p.Tokens.get? (p.Curr + 1 + 1) = some t2) (k2 : t2.T = TEquals)
    (he : ∀ fuel, expr fuel { p with Curr := p.Curr + 1 + 1 + 1 } = Res.timeout) :
    ∀ fuel, Parse fuel p = Res.timeout := by
  have l1 : ∀ fuel id kind,
      varDecl fuel id kind { p with Curr := p.Curr + 1 + 1 } = Res.timeout := by
    intro fuel id kind
    cases fuel with
    | zero => rfl
    | succ n =>
      simp only [varDecl]
      rw [bind_ok _ _ _ _ _ (Check_at { p with Curr := p.Curr + 1 + 1 } t2 [TEquals] h2)]
      simp only [k2, List.any_cons, decide_True, List.any_nil, Bool.or_false, ↓reduceIte]
      rw [bind_ok _ _ _ _ _ (Step_at { p with Curr := p.Curr + 1 + 1 } t2 h2)]
      exact bind_timeout _ _ _ (he n)
  have l2 : ∀ fuel, sVarDecl fuel p = Res.timeout := by
    intro fuel
    cases fuel with
    | zero => rfl
    | succ n =>
      simp only [sVarDecl]
      rw [bind_ok _ _ _ _ _ (Step_at p t0 h0),
        bind_ok _ _ _ _ _ (Consume_at { p with Curr := p.Curr + 1 } t1 TIdentifier h1 k1)]
      have hraw : rawAt t1.Loc { p with Curr := p.Curr + 1 + 1 }
          = Res.ok name { p with Curr := p.Curr + 1 + 1 } := by
        unfold rawAt
        simp only [hr]
      rw [bind_ok _ _ _ _ _ hraw]
      exact bind_timeout _ _ _ (l1 n _ _)
  have l3 : ∀ fuel, stmt fuel p = Res.timeout := by
    intro fuel
    cases fuel with
    | zero => rfl
    | succ n =>
      simp only [stmt]
      rw [bind_ok _ _ _ _ _ (CurToken_at p t0 h0)]
      simp only [k0, reduceCtorEq, ↓reduceIte, true_or]
      exact bind_timeout _ _ _ (l2 n)
  have l4 : ∀ fuel stmts, parseLoop fuel stmts p = Res.timeout := by
    intro fuel stmts
    cases fuel with
    | zero => rfl
    | succ n =>
      simp only [parseLoop]
      rw [bind_ok _ _ _ _ _ (IsEnd_at p t0 h0)]
      simp only [Bool.not_false, ↓reduceIte]
      exact bind_timeout _ _ _ (l3 n)
  intro fuel
  unfold Parse parseBody
  rw [bind_timeout _ _ _ (l4 fuel [])]

/-! ### The claims C21 to C30 -/

/-- C21 (the code as it is): `ArrayPush` adds the number of items to the
field `Length` instead of setting it to the number of elements, so a `Length`
that was wrong before stays wrong.  On the array of `TestArrayMethods` (three
elements, `Length` 1) the push of two items leaves five elements, the
previous ones followed by the items, and the `Length` 3, and `checkEqual`
reports the length both after the push and after the splice: the test of the
repository fails on the code.  In every state the `Length` afterwards is the
`Length` before plus the number of items, whatever the elements are. -/
theorem C21_push_adds_to_Length :
    testArrayState.arrays = [⟨⟨[some 7, some 8, some 9], 3⟩, 1⟩]
    ∧ arrayAfter (ArrayPush ⟨Any.ptrJsArray 0, JsType.Array⟩ [numberValue 3, numberValue 4]
        testArrayState)
      = some ([some 7, some 8, some 9, some 10, some 11], 3, ⟨Any.uint 3, JsType.Number⟩)
    ∧ testErrors (TestArrayMethods testArrayState)
      = some ["长度应该为5，结果为3", "长度应该为4，结果为3"]
    ∧ ∀ (s : InterpreterStat) (arr : JsArray) (items : List JsValue),
        ArrayPush ⟨Any.ptrJsArray 0, JsType.Array⟩ items { s with arrays := [arr] }
          = Res.ok ⟨Any.uint (arr.Length + items.length), JsType.Number⟩
              { s with
                values := s.values ++ items,
                arrays := [⟨arr.Arr.append
                  ((List.range items.length).map (fun i => some (s.values.length + i))),
                  arr.Length + items.length⟩] } := by
  refine ⟨rfl, by decide!, by decide!, ?_⟩
  intro s arr items
  unfold ArrayPush
  simp only []
  have hat : arrayAt 0 { s with arrays := [arr] } = Res.ok arr { s with arrays := [arr] } := rfl
  rw [bind_ok _ _ _ _ _ hat, bind_ok _ _ _ _ _ (allocAll_spec items _)]
  rfl

/-- C22 (the code as it is): for an array at address `a` whose slice is well
formed (its length is at most its capacity) with elements `xs`, an index `i`
that does not exceed `Length` and a count `d` with `i + d ≤ |xs|`, where the
two arguments convert to floats whose conversions to `uint` and `int` are `i`
and `d`: `ArraySplice` with no items to insert returns; the array then holds
`xs` without the `d` elements from position `i` on, the field `Length` and
everything else in the state being as before; and the value returned holds
exactly the `d` elements removed, in order.  But that value is not an array
that the program can use: under the Array tag its payload is a `JsArray`
struct, where `VisitArrayExpr` stores a `*JsArray` and every consumer asserts
a `*JsArray`.  Given the value returned as the receiver, `ArrayPush` and
`ArraySplice` end in the run-time panic of a failed type assertion, and so
does an index expression on a cell that holds it. -/
theorem C22_splice_returns_a_struct (s : InterpreterStat) (a : Nat) (arr : JsArray)
    (a0 a1 : JsValue) (f0 f1 : F64) (i d : Nat)
    (harr : s.arrays.get? a = some arr) (hwf : arr.Arr.len ≤ arr.Arr.cap)
    (h0 : ToNumber a0 = Except.ok ⟨Any.float64 f0, JsType.Number⟩) (hi : F64.toUint f0 = i)
    (h1 : ToNumber a1 = Except.ok ⟨Any.float64 f1, JsType.Number⟩) (hd : F64.toInt f1 = (d : Int))
    (hlen : i ≤ arr.Length) (hid : i + d ≤ arr.Arr.elems.length) :
    ∃ arr3 deleted,
      ArraySplice ⟨Any.ptrJsArray a, JsType.Array⟩ [a0, a1] s
        = Res.ok ⟨Any.jsArray deleted deleted.len, JsType.Array⟩
            { s with arrays := s.arrays.set a { Arr := arr3, Length := arr.Length } }
      ∧ arr3.elems = arr.Arr.elems.take i ++ arr.Arr.elems.drop (i + d)
      ∧ deleted.elems = (arr.Arr.elems.drop i).take d
      ∧ deleted.len = d
      ∧ (∀ (items : List JsValue) (s1 : InterpreterStat),
          ArrayPush ⟨Any.jsArray deleted deleted.len, JsType.Array⟩ items s1
            = Res.panic (Panic.runtime GoRuntimeError.interfaceConversion) s1)
      ∧ ArraySplice ⟨Any.jsArray deleted deleted.len, JsType.Array⟩ [a0, a1] s
          = Res.panic (Panic.runtime GoRuntimeError.interfaceConversion) s
      ∧ (∀ (loc : Loc) (idx : Option Nat) (s1 : InterpreterStat),
          applyIndex loc (some s1.values.length) idx
              { s1 with values := s1.values ++ [⟨Any.jsArray deleted deleted.len, JsType.Array⟩] }
            = Res.panic (Panic.runtime GoRuntimeError.interfaceConversion)
              { s1 with
                values := s1.values ++ [⟨Any.jsArray deleted deleted.len, JsType.Array⟩] }) := by
  have hlenE : arr.Arr.elems.length = arr.Arr.len := by
    unfold GoSlice.elems
    rw [List.length_take]
    unfold GoSlice.cap at hwf
    omega
  rw [hlenE] at hid
  obtain ⟨d1, d2, d3, d4, d5, d6⟩ :=
    spliceDelete_spec d arr.Arr i GoSlice.empty hwf (Nat.le_refl _) hid
  have hcap1 : (spliceDelete d arr.Arr i GoSlice.empty).1.len
      ≤ (spliceDelete d arr.Arr i GoSlice.empty).1.backing.length := d4
  have hle : i ≤ (spliceDelete d arr.Arr i GoSlice.empty).1.len := by
    rw [d3]
    omega
  have hin : i ≤ (spliceDelete d arr.Arr i GoSlice.empty).1.cap := by
    unfold GoSlice.cap
    omega
  have harr2 : (spliceDelete d arr.Arr i GoSlice.empty).1.appendAt i []
      = ⟨(spliceDelete d arr.Arr i GoSlice.empty).1.backing, i⟩ := by
    unfold GoSlice.appendAt
    simp only [hin, ↓reduceIte, GoSlice.overwrite, List.length_nil, Nat.add_zero]
  refine ⟨(GoSlice.mk (spliceDelete d arr.Arr i GoSlice.empty).1.backing i).append
      (((spliceDelete d arr.Arr i GoSlice.empty).1.backing.drop i).take
        ((spliceDelete d arr.Arr i GoSlice.empty).1.len - i)),
    (spliceDelete d arr.Arr i GoSlice.empty).2.1, ?_, ?_, ?_, ?_, fun _ _ => rfl, ?_, ?_⟩
  · unfold ArraySplice
    simp only []
    rw [bind_ok _ _ _ _ _ (toNumberFloat_ok a0 f0 s h0),
      bind_ok _ _ _ _ _ (toNumberFloat_ok a1 f1 s h1)]
    have hall : allocAll [] s = Res.ok [] s := rfl
    rw [bind_ok _ _ _ _ _ hall]
    have hat : arrayAt a s = Res.ok arr s := by
      unfold arrayAt
      rw [harr]
    rw [bind_ok _ _ _ _ _ hat]
    simp only [hi, hd, Int.toNat_ofNat, Nat.not_lt.mpr hlen, ↓reduceIte, gt_iff_lt]
    have hset : arraySet a ⟨(spliceDelete d arr.Arr i GoSlice.empty).1, arr.Length⟩ s
        = Res.ok () _ := rfl
    rw [bind_ok _ _ _ _ _ hset]
    simp only [d1, Bool.false_eq_true, ↓reduceIte, Nat.not_lt.mpr hle, harr2, hin,
      decide_True]
    simp only [arraySet, bind, Go.andThen, pure, Go.ret, List.set_set, ite_self]
  · unfold GoSlice.append
    have hfit : i + (((spliceDelete d arr.Arr i GoSlice.empty).1.backing.drop i).take
        ((spliceDelete d arr.Arr i GoSlice.empty).1.len - i)).length
        ≤ (GoSlice.mk (spliceDelete d arr.Arr i GoSlice.empty).1.backing i).cap := by
      simp only [List.length_take, List.length_drop, GoSlice.cap]
      omega
    rw [(appendAt_inPlace _ i _ hfit).1, ← d2]
    simp only []
    unfold GoSlice.elems
    rw [← List.take_add]
    congr 1
    omega
  · rw [d5]
    rfl
  · rw [d6]
    exact Nat.zero_add d
  · unfold ArraySplice
    simp only []
    rw [bind_ok _ _ _ _ _ (toNumberFloat_ok a0 f0 s h0),
      bind_ok _ _ _ _ _ (toNumberFloat_ok a1 f1 s h1)]
    rfl
  · intro loc idx s1
    simp [applyIndex, deref, bind, Go.andThen, Go.throw]

/-- Witness of C22: the array `[7, 8, 9]` of `stateWithArray`, index 1 and
count 1.  The array is left with the elements 7 and 9, and the value returned
holds the element 8 in a `JsArray` struct, on which `ArrayPush` panics. -/
theorem C22_splice_returns_a_struct_witness :
    ∃ arr3 deleted,
      ArraySplice ⟨Any.ptrJsArray 0, JsType.Array⟩ [numberValue 1, numberValue 1] stateWithArray
        = Res.ok ⟨Any.jsArray deleted deleted.len, JsType.Array⟩
            { stateWithArray with
              arrays := stateWithArray.arrays.set 0 { Arr := arr3, Length := 3 } }
      ∧ arr3.elems = [some 7, some 9]
      ∧ deleted.elems = [some 8]
      ∧ deleted.len = 1
      ∧ ArrayPush ⟨Any.jsArray deleted deleted.len, JsType.Array⟩ [numberValue 1] stateWithArray
          = Res.panic (Panic.runtime GoRuntimeError.interfaceConversion) stateWithArray := by
  obtain ⟨arr3, deleted, h1, h2, h3, h4, h5, _, _⟩ :=
    C22_splice_returns_a_struct stateWithArray 0 ⟨⟨[some 7, some 8, some 9], 3⟩, 3⟩
      (numberValue 1) (numberValue 1) (F64.ofNat 1) (F64.ofNat 1) 1 1
      rfl (by decide) rfl (by decide!) rfl (by decide!) (by decide) (by decide)
  exact ⟨arr3, deleted, h1, h2, h3, h4, h5 _ _⟩

/-- C23 (the code as it is): `ArraySplice` never writes the field `Length`.
On the array `[0, 1, 2]` with `Length` 3, `splice(1, 1)` completes and leaves
two elements and the `Length` 3; and `TestArrayMethods`, started with the
`Length` 3 that fits its three elements, still ends with the report that the
length should be 4 and is 5. -/
theorem C23_splice_keeps_Length :
    stateWithArray.arrays = [⟨⟨[some 7, some 8, some 9], 3⟩, 3⟩]
    ∧ arrayAfter (ArraySplice ⟨Any.ptrJsArray 0, JsType.Array⟩ [numberValue 1, numberValue 1]
        stateWithArray)
      = some ([some 7, some 9], 3, ⟨Any.jsArray ⟨[some 8], 1⟩ 1, JsType.Array⟩)
    ∧ testErrors (TestArrayMethods stateWithArray) = some ["长度应该为4，结果为5"] :=
  ⟨rfl, by decide!, by decide!⟩

/-- C24 (the code as it is): `restArr := arr.Arr[index:]` shares the backing
array of `arr.Arr`, and `append(arr.Arr[:index], addItems...)` writes the
items in place whenever the capacity holds `index` plus the items, that is
over the elements that `restArr` is about to give back.  On the array
`[0, 1, 2]` (the cells 7, 8, 9), `splice(1, 1, 9)` puts the item in the new
cell 10 and leaves the elements 7, 10, 10: the item twice and the surviving
element 9 lost, where the claim expects 7, 10, 9.  Without a deletion,
`splice(1, 0, 9)` leaves 7, 10, 10, 9 where the claim expects 7, 10, 8, 9. -/
theorem C24_splice_overwrites_the_rest :
    arrayAfter (ArraySplice ⟨Any.ptrJsArray 0, JsType.Array⟩
        [numberValue 1, numberValue 1, numberValue 9] stateWithArray)
      = some ([some 7, some 10, some 10], 3, ⟨Any.jsArray ⟨[some 8], 1⟩ 1, JsType.Array⟩)
    ∧ arrayAfter (ArraySplice ⟨Any.ptrJsArray 0, JsType.Array⟩
        [numberValue 1, numberValue 0, numberValue 9] stateWithArray)
      = some ([some 7, some 10, some 10, some 9], 3, ⟨Any.jsArray ⟨[], 0⟩ 0, JsType.Array⟩) :=
  ⟨by decide!, by decide!⟩

/-- C25: `ToString` returns normally on every value that is not
Number-tagged: the payload itself with the String tag for a String; the
String `true` for the Boolean true and `false` for the Boolean false;
`undefined` for undefined; the text `null` with the Null tag for null;
`[object Array]`, `[object Function]` and `[object Object]` for an array, a
function and an object; `[object Internal]` for the tags of the built-ins.
`ToString` is a function of the value: it writes nothing. -/
theorem C25_ToString :
    (∀ payload, ToString ⟨payload, JsType.String⟩ = Except.ok ⟨payload, JsType.String⟩)
    ∧ ToString ⟨Any.bool true, JsType.Boolean⟩ = Except.ok ⟨Any.string "true", JsType.String⟩
    ∧ ToString ⟨Any.bool false, JsType.Boolean⟩ = Except.ok ⟨Any.string "false", JsType.String⟩
    ∧ (∀ payload, ToString ⟨payload, JsType.Undefined⟩
        = Except.ok ⟨Any.string "undefined", JsType.String⟩)
    ∧ (∀ payload, ToString ⟨payload, JsType.Null⟩ = Except.ok ⟨Any.string "null", JsType.Null⟩)
    ∧ (∀ payload, ToString ⟨payload, JsType.Array⟩
        = Except.ok ⟨Any.string "[object Array]", JsType.String⟩)
    ∧ (∀ payload, ToString ⟨payload, JsType.Function⟩
        = Except.ok ⟨Any.string "[object Function]", JsType.String⟩)
    ∧ (∀ payload, ToString ⟨payload, JsType.Object⟩
        = Except.ok ⟨Any.string "[object Object]", JsType.String⟩)
    ∧ (∀ payload, ToString ⟨payload, JsType.BuiltInFunction⟩
        = Except.ok ⟨Any.string "[object Internal]", JsType.String⟩)
    ∧ (∀ payload, ToString ⟨payload, JsType.BuiltInObject⟩
        = Except.ok ⟨Any.string "[object Internal]", JsType.String⟩) :=
  ⟨fun _ => rfl, rfl, rfl, fun _ => rfl, fun _ => rfl, fun _ => rfl, fun _ => rfl, fun _ => rfl,
    fun _ => rfl, fun _ => rfl⟩

/-- C26 (the code as it is): the parser makes an `SBlock` of a brace at
statement level, but the type switch of `EvaluateStmt` has no case for
`*SBlock`, and `VisitBlockStmt` is never called: a block statement does
nothing, whatever its statements and the state are.  The program of the claim
logs nothing, and goes on with the statement after the block. -/
theorem C26_block_statement_does_nothing :
    Run 1000 "let x = 1; \x7b console.log(x); \x7d" = Outcome.exit ""
    ∧ Run 1000 "let x = 1; \x7b console.log(x); \x7d console.log(2);" = Outcome.exit "2.00000\n"
    ∧ ∀ (fuel : Nat) (loc : Loc) (stmts : List Stmt) (s : InterpreterStat),
        EvaluateStmt (fuel + 1) (some (Stmt.mk loc (some (S.SBlock stmts)))) s = Res.ok () s :=
  ⟨by decide!, by decide!, fun _ _ _ _ => by simp [EvaluateStmt]; rfl⟩

/-- C27 (the code as it is): for a key written as an identifier or as a
numeric literal the parser builds a string literal of the source text, so the
evaluator never sees a number: `1 : expr` is stored under the key `1`, while
the computed form `[1] : expr` (followed by a comma) is stored under the
coercion `1.00000`.  When the computed member is the last one and no comma
follows, the parser leaves the loop before appending it, and the object has no
key at all.  The first object of each list is `console`. -/
theorem C27_numeric_key_is_the_source_text :
    objectKeys 1000 "let o = \x7b 1: \"a\" \x7d;" = some [["log"], ["1"]]
    ∧ objectKeys 1000 "let o = \x7b [1]: \"a\", \x7d;" = some [["log"], ["1.00000"]]
    ∧ objectKeys 1000 "let o = \x7b [1]: \"a\" \x7d;" = some [["log"], []] :=
  ⟨by decide!, by decide!, by decide!⟩

/-- C28: when the lexer reported nothing and the parsing ends in a syntax
error (the body of `Parse` panics with an `AstError`, the parser being then
in the state `p1`), `Parse` sets `HasError`, prints the diagnostic and
returns the zero statement, or panics in `Logger.Print` with what was printed
until then; the evaluation of the zero statement returns at once and leaves
every state as it is.  So what `Run` wrote is what the parser wrote followed
by the diagnostic, and nothing else: no statement of the program is
evaluated.  When `Logger.Print` panicked, the deferred function of `Run` does
not take that panic for a `RuntimeError` and raises the zero `RuntimeError`
in its place, and the run dies at that point. -/
theorem C28_parse_error_skips_evaluation (fuel : Nat) (source : String) (p p1 : AstParser)
    (loc : Loc) (msg : String)
    (hp : NewParser fuel source = some p) (hl : p.HasError = false)
    (hb : parseBody fuel p = Res.panic (Panic.AstError loc msg) p1) :
    (∃ p3, p3.HasError = true
      ∧ p3.stdout = p1.stdout ++ (Print p1.RawSource loc msg).1
      ∧ Parse fuel p
        = if (Print p1.RawSource loc msg).2 then
            Res.panic (Panic.runtime GoRuntimeError.indexOutOfRange) p3
          else Res.ok (Stmt.mk Loc.zero none) p3)
    ∧ (∀ s, EvaluateStmt fuel (some (Stmt.mk Loc.zero none)) s = Res.ok () s)
    ∧ Run fuel source
      = if (Print p1.RawSource loc msg).2 then
          Outcome.crash (Panic.RuntimeError Loc.zero "")
            (p1.stdout ++ (Print p1.RawSource loc msg).1)
        else Outcome.exit (p1.stdout ++ (Print p1.RawSource loc msg).1) := by
  have hfuel : ∃ n, fuel = n + 1 := by
    cases fuel with
    | zero =>
      have h0 : parseBody 0 p = Res.timeout := rfl
      rw [h0] at hb
      exact absurd hb (by simp)
    | succ n => exact ⟨n, rfl⟩
  obtain ⟨n, hn⟩ := hfuel
  have hparse : Parse fuel p
      = if (Print p1.RawSource loc msg).2 then
          Res.panic (Panic.runtime GoRuntimeError.indexOutOfRange)
            { p1 with HasError := true,
                      stdout := p1.stdout ++ (Print p1.RawSource loc msg).1 }
        else Res.ok (Stmt.mk Loc.zero none)
            { p1 with HasError := true,
                      stdout := p1.stdout ++ (Print p1.RawSource loc msg).1 } := by
    unfold Parse
    rw [hb]
  have heval : ∀ s, EvaluateStmt fuel (some (Stmt.mk Loc.zero none)) s = Res.ok () s := by
    intro s
    rw [hn]
    simp only [EvaluateStmt]
    rfl
  refine ⟨⟨_, rfl, rfl, hparse⟩, heval, ?_⟩
  unfold Run
  cases hpr : (Print p1.RawSource loc msg).2
  · rw [hpr] at hparse
    simp only [hp, hl, Bool.false_eq_true, ↓reduceIte, hparse, heval]
    rfl
  · rw [hpr] at hparse
    simp only [hp, hl, Bool.false_eq_true, ↓reduceIte, hparse]
    rfl

/-- Witness of C28: in `;console.log(1); let = 2;` the lexer reports
nothing and the parser panics at the `=` with the error of `Consume`; the run
writes the diagnostic only, and not the line `1.00000` of the statement that
precedes the error.  With a string literal that holds a line feed before the
error, `Logger.Print` panics after the start of the diagnostic, and the run
dies there, again without the line `1.00000`. -/
theorem C28_parse_error_skips_evaluation_witness :
    (NewParser 100 ";console.log(1); let = 2;"
        = some (parserOf 100 ";console.log(1); let = 2;")
      ∧ (parserOf 100 ";console.log(1); let = 2;").HasError = false
      ∧ parseBody 100 (parserOf 100 ";console.log(1); let = 2;")
        = Res.panic (Panic.AstError ⟨21, 1, 1⟩ "expect , but found =")
            (parserAtPanic 100 (parserOf 100 ";console.log(1); let = 2;")))
    ∧ Run 100 ";console.log(1); let = 2;"
      = Outcome.exit ("     1| ;console.log(1); let = 2;\n" ++
          "                             ^\n expect , but found =\n")
    ∧ Run 100 ";console.log(1);" = Outcome.exit "1.00000\n"
    ∧ bodyPanic 100 (parserOf 100 ";console.log(1); let s = \"a\nb\"; let = 2;")
      = some (Panic.AstError ⟨36, 1, 1⟩ "expect , but found =")
    ∧ Run 100 ";console.log(1); let s = \"a\nb\"; let = 2;"
      = Outcome.crash (Panic.RuntimeError Loc.zero "")
          ("     1| ;console.log(1); let s = \"a\n" ++
            "                                   ") := by
  have hp : NewParser 100 ";console.log(1); let = 2;"
      = some (parserOf 100 ";console.log(1); let = 2;") :=
    parserOf_spec _ _ (by decide!)
  have hl : (parserOf 100 ";console.log(1); let = 2;").HasError = false := by decide!
  have hb : parseBody 100 (parserOf 100 ";console.log(1); let = 2;")
      = Res.panic (Panic.AstError ⟨21, 1, 1⟩ "expect , but found =")
          (parserAtPanic 100 (parserOf 100 ";console.log(1); let = 2;")) :=
    bodyPanic_spec _ _ _ (by decide!)
  refine ⟨⟨hp, hl, hb⟩, ?_, by decide!, by decide!, by decide!⟩
  rw [(C28_parse_error_skips_evaluation 100 _ _ _ _ _ hp hl hb).2.2]
  decide!

/-- C29 (the code as it is): on a text that starts a `//` comment and has no line feed
after it, and on a text that starts a `/*` comment and has no `/` after it,
`Tokenizer` does not return, whatever the fuel: at the end of the text `Step`
does nothing, `CurChar` stays the rune of the empty text and the loops of the
two comments wait for a character that never comes.  So on `// c` and on
`/* c` the lexer hangs, while `// c` followed by a line feed gives the comment
token.  A text that ends inside a string literal does terminate, with the
token of the string and `HasError` not set. -/
theorem C29_comment_without_end_never_returns :
    (∀ (rest : List Char) (fuel : Nat),
      Tokenizer fuel (NewLexer (String.mk ('/' :: '/' :: rest.filter (fun c => c ≠ '\n'))))
        = none)
    ∧ (∀ (rest : List Char) (fuel : Nat),
      Tokenizer fuel (NewLexer (String.mk ('/' :: '*' :: rest.filter (fun c => c ≠ '/'))))
        = none)
    ∧ (∀ fuel, lexed fuel "// c" = none)
    ∧ (∀ fuel, lexed fuel "/* c" = none)
    ∧ lexed 100 "// c\n" = some ([⟨TSingleLineComment, ⟨0, 4, 1⟩⟩], false, "")
    ∧ lexed 100 "\"abc" = some ([⟨TStringLiteral, ⟨0, 4, 1⟩⟩], false, "") := by
  have hline : ∀ (rest : List Char) (fuel : Nat),
      Tokenizer fuel (NewLexer (String.mk ('/' :: '/' :: rest.filter (fun c => c ≠ '\n'))))
        = none := by
    intro rest fuel
    apply Tokenizer_lineComment
    intro c hc
    simpa using (List.mem_filter.mp hc).2
  have hblock : ∀ (rest : List Char) (fuel : Nat),
      Tokenizer fuel (NewLexer (String.mk ('/' :: '*' :: rest.filter (fun c => c ≠ '/'))))
        = none := by
    intro rest fuel
    apply Tokenizer_blockComment
    intro c hc
    simpa using (List.mem_filter.mp hc).2
  refine ⟨hline, hblock, ?_, ?_, by decide!, by decide!⟩
  · intro fuel
    have h := hline [' ', 'c'] fuel
    have e : String.mk ('/' :: '/' :: [' ', 'c'].filter (fun c => c ≠ '\n')) = "// c" := by
      decide
    rw [e] at h
    unfold lexed
    rw [h]
    rfl
  · intro fuel
    have h := hblock [' ', 'c'] fuel
    have e : String.mk ('/' :: '*' :: [' ', 'c'].filter (fun c => c ≠ '/')) = "/* c" := by
      decide
    rw [e] at h
    unfold lexed
    rw [h]
    rfl

/-- C30 (the code as it is): in `let f = function(1){};` the loop `Params`
of `funcDecl` meets the number `1`, and in `let o = {;};` the loop of the
object literal meets the `;`: neither loop has a case for such a token and
neither advances, so `Parse` does not return on the tokens that the lexer
made of these texts, whatever the fuel, and reports no syntax error; the run
of either text ends in no outcome within the fuel. -/
theorem C30_parser_loops_do_not_advance :
    (NewParser 100 "let f = function(1)\x7b\x7d;"
        = some (parserOf 100 "let f = function(1)\x7b\x7d;")
      ∧ (parserOf 100 "let f = function(1)\x7b\x7d;").HasError = false
      ∧ (parserOf 100 "let f = function(1)\x7b\x7d;").Tokens.map (fun t => t.T)
        = [TLet, TIdentifier, TEquals, TFunction, TOpenParen, TNumericLiteral, TCloseParen,
            TOpenBrace, TCloseBrace, TSemicolon]
      ∧ (∀ fuel, Parse fuel (parserOf 100 "let f = function(1)\x7b\x7d;") = Res.timeout)
      ∧ Run 100 "let f = function(1)\x7b\x7d;" = Outcome.timeout
      ∧ Run 1000 "let f = function(1)\x7b\x7d;" = Outcome.timeout)
    ∧ (NewParser 100 "let o = \x7b;\x7d;" = some (parserOf 100 "let o = \x7b;\x7d;")
      ∧ (parserOf 100 "let o = \x7b;\x7d;").HasError = false
      ∧ (parserOf 100 "let o = \x7b;\x7d;").Tokens.map (fun t => t.T)
        = [TLet, TIdentifier, TEquals, TOpenBrace, TSemicolon, TCloseBrace, TSemicolon]
      ∧ (∀ fuel, Parse fuel (parserOf 100 "let o = \x7b;\x7d;") = Res.timeout)
      ∧ Run 100 "let o = \x7b;\x7d;" = Outcome.timeout
      ∧ Run 1000 "let o = \x7b;\x7d;" = Outcome.timeout) := by
  refine ⟨⟨parserOf_spec _ _ (by decide!), by decide!, by decide!, ?_, by decide!, by decide!⟩,
    ⟨parserOf_spec _ _ (by decide!), by decide!, by decide!, ?_, by decide!, by decide!⟩⟩
  · exact Parse_let_hangs (parserOf 100 "let f = function(1)\x7b\x7d;")
      ⟨TLet, ⟨0, 3, 1⟩⟩ ⟨TIdentifier, ⟨4, 1, 1⟩⟩ ⟨TEquals, ⟨6, 1, 1⟩⟩ "f"
      (by decide!) rfl (by decide!) rfl (by decide!) (by decide!) rfl
      (expr_hangs _ ⟨TFunction, ⟨8, 8, 1⟩⟩ (by decide!) (by decide) (by decide)
        (primary_function_hangs _ ⟨TFunction, ⟨8, 8, 1⟩⟩ ⟨TOpenParen, ⟨16, 1, 1⟩⟩
          ⟨TNumericLiteral, ⟨17, 1, 1⟩⟩ (by decide!) rfl (by decide!) rfl (by decide!)
          (by decide) (by decide) (by decide)))
  · exact Parse_let_hangs (parserOf 100 "let o = \x7b;\x7d;")
      ⟨TLet, ⟨0, 3, 1⟩⟩ ⟨TIdentifier, ⟨4, 1, 1⟩⟩ ⟨TEquals, ⟨6, 1, 1⟩⟩ "o"
      (by decide!) rfl (by decide!) rfl (by decide!) (by decide!) rfl
      (expr_hangs _ ⟨TOpenBrace, ⟨8, 1, 1⟩⟩ (by decide!) (by decide) (by decide)
        (primary_object_hangs _ ⟨TOpenBrace, ⟨8, 1, 1⟩⟩ ⟨TSemicolon, ⟨9, 1, 1⟩⟩
          (by decide!) rfl (by decide!)
          (by decide) (by decide) (by decide) (by decide) (by decide)))

/-! ### Lemmas on the identifier loop of the lexer -/

theorem identPart_utf8Size (c : Char) (h : isIdentPart c = true) : c.utf8Size = 1 := by
  have hle : c.toNat ≤ 127 := by
    unfold isIdentPart isIdentStart F64.isDigit at h
    simp only [Bool.or_eq_true, decide_eq_true_eq] at h
    rcases h with ((((h | h) | h) | h) | h)
    · rw [h]; decide
    · rw [h]; decide
    · have : 'z'.toNat = 122 := by decide
      omega
    · have : 'Z'.toNat = 90 := by decide
      omega
    · have : '9'.toNat = 57 := by decide
      omega
  unfold Char.utf8Size
  have : c.val ≤ 127 := by
    rw [UInt32.le_def]
    exact hle
  simp [this]

theorem identStart_part (c : Char) (h : isIdentStart c = true) : isIdentPart c = true := by
  unfold isIdentPart
  rw [h]
  rfl

theorem identStart_ne (c x : Char) (hx : isIdentStart x = false) (hc : isIdentStart c = true) :
    c ≠ x := by
  intro h
  rw [h, hx] at hc
  exact absurd hc (by simp)

theorem identStart_not_digit (c : Char) (hc : isIdentStart c = true) :
    F64.isDigit c = false := by
  unfold isIdentStart at hc
  unfold F64.isDigit
  simp only [Bool.or_eq_true, decide_eq_true_eq] at hc
  have h9 : '9'.toNat = 57 := by decide
  have h0 : '0'.toNat = 48 := by decide
  have ha : 'a'.toNat = 97 := by decide
  have hA : 'A'.toNat = 65 := by decide
  rcases hc with (((h | h) | h) | h)
  · rw [h]; decide
  · rw [h]; decide
  · simp only [decide_eq_false_iff_not, not_and, not_le]
    omega
  · simp only [decide_eq_false_iff_not, not_and, not_le]
    omega

theorem goLen_ascii : ∀ (w : List Char), (∀ x ∈ w, isIdentPart x = true) →
    goLen (String.mk w) = w.length := by
  intro w
  induction w with
  | nil =>
    intro _
    rfl
  | cons x r ih =>
    intro h
    have hx := identPart_utf8Size x (h x (List.mem_cons_self _ _))
    have hr := ih (fun y hy => h y (List.mem_cons_of_mem _ hy))
    unfold goLen at hr ⊢
    simp only [String.utf8ByteSize, String.utf8ByteSize.go, List.length_cons] at hr ⊢
    omega

theorem sliceChars_all : ∀ (w : List Char) (pos hi : Nat), (∀ x ∈ w, isIdentPart x = true) →
    pos + w.length ≤ hi → sliceChars w pos 0 hi = w := by
  intro w
  induction w with
  | nil =>
    intro pos hi _ _
    rfl
  | cons x r ih =>
    intro pos hi h hle
    have hx := identPart_utf8Size x (h x (List.mem_cons_self _ _))
    simp only [List.length_cons] at hle
    have hlt : pos < hi := by omega
    simp only [sliceChars, Nat.zero_le, hlt, and_self, ↓reduceIte, hx]
    rw [ih (pos + 1) hi (fun y hy => h y (List.mem_cons_of_mem _ hy)) (by omega)]

theorem Step_word (lexer : Lexer) (x : Char) (r : List Char)
    (hallr : ∀ y ∈ r, isIdentPart y = true)
    (hcur : lexer.Current + (r.length + 1) = goLen lexer.RawSource)
    (h3 : lexer.Source = r) (h4 : lexer.End = lexer.Current + 1) :
    lexer.Step.Current + r.length = goLen lexer.Step.RawSource
      ∧ (∀ y r1, r = y :: r1 →
        lexer.Step.CurChar = y ∧ lexer.Step.CurCharWidth = 1 ∧ lexer.Step.Source = r1
          ∧ lexer.Step.End = lexer.Step.Current + 1)
      ∧ lexer.Step.HasError = lexer.HasError ∧ lexer.Step.stdout = lexer.stdout
      ∧ lexer.Step.RawSource = lexer.RawSource ∧ lexer.Step.Line = lexer.Line := by
  have _hx := x
  have hend : lexer.IsEnd = false := by
    unfold Lexer.IsEnd
    simp only [ge_iff_le, decide_eq_false_iff_not, not_le]
    omega
  unfold Lexer.Step
  rw [hend]
  simp only [Bool.false_eq_true, ↓reduceIte]
  rw [h3]
  cases r with
  | nil =>
    simp only [List.length_nil, Nat.add_zero, Nat.zero_add] at hcur
    simp only [List.length_nil, Nat.add_zero, and_self, and_true]
    refine ⟨by omega, ?_⟩
    intro y r1 hr
    exact absurd hr (by simp)
  | cons y r1 =>
    have hy := identPart_utf8Size y (hallr y (List.mem_cons_self _ _))
    simp only [List.length_cons] at hcur
    simp only [List.length_cons, hy, and_self, and_true]
    refine ⟨by omega, ?_⟩
    intro y1 r2 hr
    simp only [List.cons.injEq] at hr
    rw [← hr.1, ← hr.2]
    simp

theorem identifierLoop_word : ∀ (rem : List Char) (g : Nat) (lexer : Lexer) (loc : Loc),
    (∀ x ∈ rem, isIdentPart x = true) →
    rem.length + 1 ≤ g →
    lexer.Current + rem.length = goLen lexer.RawSource →
    (∀ x r, rem = x :: r →
      lexer.CurChar = x ∧ lexer.CurCharWidth = 1 ∧ lexer.Source = r
        ∧ lexer.End = lexer.Current + 1) →
    ∃ lexer1, identifierLoop g lexer loc
        = some (lexer1, { loc with Len := loc.Len + (rem.length : Int) })
      ∧ lexer1.IsEnd = true ∧ lexer1.HasError = lexer.HasError
      ∧ lexer1.stdout = lexer.stdout ∧ lexer1.RawSource = lexer.RawSource := by
  intro rem
  induction rem with
  | nil =>
    intro g lexer loc _ hg hcur _
    obtain ⟨g1, rfl⟩ : ∃ g1, g = g1 + 1 := ⟨g - 1, by omega⟩
    have hend : lexer.IsEnd = true := by
      unfold Lexer.IsEnd
      simp only [List.length_nil, Nat.add_zero] at hcur
      simp [hcur]
    refine ⟨lexer, ?_, hend, rfl, rfl, rfl⟩
    simp only [identifierLoop, hend, Bool.not_true, Bool.false_eq_true, ↓reduceIte,
      List.length_nil, Nat.cast_zero, Int.add_zero]
  | cons x r ih =>
    intro g lexer loc hall hg hcur hinv
    obtain ⟨g1, rfl⟩ : ∃ g1, g = g1 + 1 := ⟨g - 1, by omega⟩
    obtain ⟨h1, h2, h3, h4⟩ := hinv x r rfl
    simp only [List.length_cons] at hg hcur
    have hend : lexer.IsEnd = false := by
      unfold Lexer.IsEnd
      simp only [ge_iff_le, decide_eq_false_iff_not, not_le]
      omega
    have hx : isIdentPart lexer.CurChar = true := by
      rw [h1]
      exact hall x (List.mem_cons_self _ _)
    have hallr : ∀ y ∈ r, isIdentPart y = true := fun y hy => hall y (List.mem_cons_of_mem _ hy)
    obtain ⟨s1, s2, s3, s4, s5, _⟩ := Step_word lexer x r hallr hcur h3 h4
    obtain ⟨lexer1, e1, e2, e3, e4, e5⟩ := ih g1 lexer.Step (loc.grow lexer) hallr (by omega) s1 s2
    refine ⟨lexer1, ?_, e2, e3.trans s3, e4.trans s4, e5.trans s5⟩
    simp only [identifierLoop, hend, Bool.not_false, ↓reduceIte, hx, e1, Option.some.injEq,
      Prod.mk.injEq, true_and]
    unfold Loc.grow
    simp only [h2, List.length_cons, Nat.cast_add, Nat.cast_one, Loc.mk.injEq, true_and,
      and_true]
    omega

theorem Raw_word (lexer : Lexer) (w : List Char) (line : Int)
    (hraw : lexer.RawSource = String.mk w) (hall : ∀ x ∈ w, isIdentPart x = true) :
    lexer.Raw ⟨0, (w.length : Int), line⟩ = some (String.mk w) := by
  unfold Lexer.Raw goSlice
  rw [hraw, goLen_ascii w hall]
  simp only [Int.add_zero, Int.le_refl, Int.natCast_nonneg, and_self, ↓reduceIte,
    Int.toNat_zero, Int.toNat_ofNat]
  rw [sliceChars_all w 0 w.length hall (by omega)]

theorem wordKind_token (name : String) (loc : Loc) (lexer : Lexer) :
    (if name = "true" then LexStep.token ⟨TTrue, loc⟩ lexer
      else if name = "false" then LexStep.token ⟨TFalse, loc⟩ lexer
      else
        match Keywords name with
        | some t => LexStep.token ⟨t, loc⟩ lexer
        | none => LexStep.token ⟨TIdentifier, loc⟩ lexer)
      = LexStep.token ⟨wordKind name, loc⟩ lexer := by
  unfold wordKind
  split
  · rfl
  · split
    · rfl
    · split <;> rename_i hk <;> simp only [hk]

theorem lexSwitch_word (g : Nat) (lexer lexer1 : Lexer) (c : Char) (loc loc1 : Loc)
    (name : String) (hc : isIdentStart c = true)
    (hloop : identifierLoop g lexer loc = some (lexer1, loc1))
    (hraw : lexer1.Raw loc1 = some name) :
    lexSwitch g lexer c loc = LexStep.token ⟨wordKind name, loc1⟩ lexer1 := by
  unfold lexSwitch
  simp only [identStart_ne c ' ' (by decide) hc, identStart_ne c '\t' (by decide) hc,
    identStart_ne c '\n' (by decide) hc, identStart_ne c '\r' (by decide) hc,
    identStart_ne c ':' (by decide) hc, identStart_ne c ';' (by decide) hc,
    identStart_ne c ',' (by decide) hc, identStart_ne c '.' (by decide) hc,
    identStart_ne c '(' (by decide) hc, identStart_ne c ')' (by decide) hc,
    identStart_ne c '\x7b' (by decide) hc, identStart_ne c '\x7d' (by decide) hc,
    identStart_ne c '[' (by decide) hc, identStart_ne c ']' (by decide) hc,
    identStart_ne c '<' (by decide) hc, identStart_ne c '>' (by decide) hc,
    identStart_ne c '!' (by decide) hc, identStart_ne c '=' (by decide) hc,
    identStart_ne c '+' (by decide) hc, identStart_ne c '-' (by decide) hc,
    identStart_ne c '*' (by decide) hc, identStart_ne c '/' (by decide) hc,
    identStart_ne c '%' (by decide) hc, or_self, ↓reduceIte, hc, hloop, hraw]
  exact wordKind_token name loc1 lexer1

/-! ### Lemmas on the regular expression of `IsValidNumber` -/

theorem afterDigits_dropWhile : ∀ (cs : List Char),
    optGroupEnd (cs.dropWhile F64.isDigit) = true →
    (afterDigits cs).any optGroupEnd = true := by
  intro cs
  induction cs with
  | nil =>
    intro _
    rfl
  | cons c s ih =>
    intro h
    by_cases hc : F64.isDigit c = true
    · rw [List.dropWhile_cons_of_pos hc] at h
      simp only [afterDigits, hc, ↓reduceIte, List.any_cons, ih h, Bool.or_true]
    · rw [List.dropWhile_cons_of_neg hc] at h
      simp only [afterDigits, hc, Bool.false_eq_true, ↓reduceIte, List.any_cons, h,
        List.any_nil, Bool.or_false]

theorem matchesNumberSpec_valid (s : String) (h : matchesNumberSpec s = true) :
    IsValidNumber s = true := by
  unfold IsValidNumber
  apply afterDigits_dropWhile
  unfold matchesNumberSpec at h
  split at h
  · rename_i h1
    rw [h1]
    rfl
  · rename_i a d h1
    rw [h1]
    simp only [Bool.and_eq_true, decide_eq_true_eq] at h
    simp only [optGroupEnd, h.1, h.2, Bool.and_true]
    decide
  · exact absurd h (by simp)

/-! ### Lemmas on the loops of the binary operators -/

theorem calcLoc_at (p : AstParser) (tp : Token) (loc : Loc) (h : Prev p = Res.ok tp p) :
    calcLocFromPrevToken loc p
      = Res.ok { loc with Len := tp.Loc.Offset + tp.Loc.Len - loc.Offset } p := by
  unfold calcLocFromPrevToken
  rw [bind_ok _ _ _ _ _ h]
  rfl

theorem plusLoop_stop (n : Nat) (p : AstParser) (t : Token) (e : Expr) (loc : Loc)
    (h : CurToken p = Res.ok t p) (hn : ¬ (t.T = TPlus ∨ t.T = TMinus)) :
    plusLoop (n + 1) e loc p = Res.ok e p := by
  simp only [plusLoop]
  rw [bind_ok _ _ _ _ _ h]
  simp only [hn, ↓reduceIte]
  rfl

theorem plusAndMinus_single (n : Nat) (p p1 : AstParser) (ta t3 : Token) (e : Expr)
    (h0 : CurToken p = Res.ok ta p) (he : multiplyAndDivision (n + 1) p = Res.ok e p1)
    (h3 : CurToken p1 = Res.ok t3 p1) (hn : ¬ (t3.T = TPlus ∨ t3.T = TMinus)) :
    plusAndMinus (n + 2) p = Res.ok e p1 := by
  simp only [plusAndMinus]
  rw [bind_ok _ _ _ _ _ h0, bind_ok _ _ _ _ _ he]
  exact plusLoop_stop n p1 t3 e ta.Loc h3 hn

theorem plusAndMinus_step (n : Nat) (p p1 p3 : AstParser) (ta op t3 tp : Token)
    (ea right : Expr)
    (h0 : CurToken p = Res.ok ta p) (he : multiplyAndDivision (n + 2) p = Res.ok ea p1)
    (hop : p1.Tokens.get? p1.Curr = some op) (hk : op.T = TPlus ∨ op.T = TMinus)
    (hr : plusAndMinus (n + 1) { p1 with Curr := p1.Curr + 1 } = Res.ok right p3)
    (h3 : CurToken p3 = Res.ok t3 p3) (hn : ¬ (t3.T = TPlus ∨ t3.T = TMinus))
    (hp : Prev p3 = Res.ok tp p3) :
    plusAndMinus (n + 3) p
      = Res.ok (Expr.mk { ta.Loc with Len := tp.Loc.Offset + tp.Loc.Len - ta.Loc.Offset }
          (some (E.EBinary op.T ea right))) p3 := by
  simp only [plusAndMinus]
  rw [bind_ok _ _ _ _ _ h0, bind_ok _ _ _ _ _ he]
  simp only [plusLoop]
  rw [bind_ok _ _ _ _ _ (CurToken_at p1 op hop)]
  simp only [hk, ↓reduceIte]
  rw [bind_ok _ _ _ _ _ (Step_at p1 op hop), bind_ok _ _ _ _ _ hr,
    bind_ok _ _ _ _ _ (calcLoc_at p3 tp ta.Loc hp)]
  exact plusLoop_stop n p3 t3 _ _ h3 hn

theorem mulLoop_stop (n : Nat) (p : AstParser) (t : Token) (e : Expr) (loc : Loc)
    (h : CurToken p = Res.ok t p)
    (hn : ¬ (t.T = TAsterisk ∨ t.T = TSlash ∨ t.T = TPercent)) :
    mulLoop (n + 1) e loc p = Res.ok e p := by
  simp only [mulLoop]
  rw [bind_ok _ _ _ _ _ h]
  simp only [hn, ↓reduceIte]
  rfl

theorem multiplyAndDivision_single (n : Nat) (p p1 : AstParser) (ta t3 : Token) (e : Expr)
    (h0 : CurToken p = Res.ok ta p) (he : unary (n + 1) p = Res.ok e p1)
    (h3 : CurToken p1 = Res.ok t3 p1)
    (hn : ¬ (t3.T = TAsterisk ∨ t3.T = TSlash ∨ t3.T = TPercent)) :
    multiplyAndDivision (n + 2) p = Res.ok e p1 := by
  simp only [multiplyAndDivision]
  rw [bind_ok _ _ _ _ _ h0, bind_ok _ _ _ _ _ he]
  exact mulLoop_stop n p1 t3 e ta.Loc h3 hn

theorem multiplyAndDivision_step (n : Nat) (p p1 p3 : AstParser) (ta op t3 tp : Token)
    (ea right : Expr)
    (h0 : CurToken p = Res.ok ta p) (he : unary (n + 2) p = Res.ok ea p1)
    (hop : p1.Tokens.get? p1.Curr = some op)
    (hk : op.T = TAsterisk ∨ op.T = TSlash ∨ op.T = TPercent)
    (hr : multiplyAndDivision (n + 1) { p1 with Curr := p1.Curr + 1 } = Res.ok right p3)
    (h3 : CurToken p3 = Res.ok t3 p3)
    (hn : ¬ (t3.T = TAsterisk ∨ t3.T = TSlash ∨ t3.T = TPercent))
    (hp : Prev p3 = Res.ok tp p3) :
    multiplyAndDivision (n + 3) p
      = Res.ok (Expr.mk { ta.Loc with Len := tp.Loc.Offset + tp.Loc.Len - ta.Loc.Offset }
          (some (E.EBinary op.T ea right))) p3 := by
  simp only [multiplyAndDivision]
  rw [bind_ok _ _ _ _ _ h0, bind_ok _ _ _ _ _ he]
  simp only [mulLoop]
  rw [bind_ok _ _ _ _ _ (CurToken_at p1 op hop)]
  simp only [hk, ↓reduceIte]
  rw [bind_ok _ _ _ _ _ (Step_at p1 op hop), bind_ok _ _ _ _ _ hr,
    bind_ok _ _ _ _ _ (calcLoc_at p3 tp ta.Loc hp)]
  exact mulLoop_stop n p3 t3 _ _ h3 hn

theorem compareLoop_stop (n : Nat) (p : AstParser) (t : Token) (e : Expr) (loc : Loc)
    (h : CurToken p = Res.ok t p)
    (hn : ¬ (t.T = TLessThan ∨ t.T = TLessThanEquals ∨ t.T = TGreaterThan
      ∨ t.T = TGreaterThanEquals)) :
    compareLoop (n + 1) e loc p = Res.ok e p := by
  simp only [compareLoop]
  rw [bind_ok _ _ _ _ _ h]
  simp only [hn, ↓reduceIte]
  rfl

theorem compare_single (n : Nat) (p p1 : AstParser) (t3 : Token) (e : Expr)
    (he : plusAndMinus (n + 1) p = Res.ok e p1) (h3 : CurToken p1 = Res.ok t3 p1)
    (hn : ¬ (t3.T = TLessThan ∨ t3.T = TLessThanEquals ∨ t3.T = TGreaterThan
      ∨ t3.T = TGreaterThanEquals)) :
    compare (n + 2) p = Res.ok e p1 := by
  simp only [compare]
  rw [bind_ok _ _ _ _ _ he]
  exact compareLoop_stop n p1 t3 e e.Loc h3 hn

theorem compare_step (n : Nat) (p p1 p3 : AstParser) (op t3 : Token) (ea right : Expr)
    (he : plusAndMinus (n + 2) p = Res.ok ea p1)
    (hop : p1.Tokens.get? p1.Curr = some op)
    (hk : op.T = TLessThan ∨ op.T = TLessThanEquals ∨ op.T = TGreaterThan
      ∨ op.T = TGreaterThanEquals)
    (hr : compare (n + 1) { p1 with Curr := p1.Curr + 1 } = Res.ok right p3)
    (h3 : CurToken p3 = Res.ok t3 p3)
    (hn : ¬ (t3.T = TLessThan ∨ t3.T = TLessThanEquals ∨ t3.T = TGreaterThan
      ∨ t3.T = TGreaterThanEquals)) :
    compare (n + 3) p
      = Res.ok (Expr.mk { ea.Loc with Len := ea.Loc.Len + (op.Loc.Len + right.Loc.Len) }
          (some (E.EBinary op.T ea right))) p3 := by
  simp only [compare]
  rw [bind_ok _ _ _ _ _ he]
  simp only [compareLoop]
  rw [bind_ok _ _ _ _ _ (CurToken_at p1 op hop)]
  simp only [hk, ↓reduceIte]
  rw [bind_ok _ _ _ _ _ (Step_at p1 op hop), bind_ok _ _ _ _ _ hr, bind_ok _ _ _ _ _ h3]
  simp only [hn, ↓reduceIte]
  rfl

theorem equalsLoop_stop (n : Nat) (p : AstParser) (t : Token) (e : Expr)
    (h : CurToken p = Res.ok t p)
    (hn : ¬ (t.T = TEqualsEquals ∨ t.T = TEqualsEqualsEquals)) :
    equalsLoop (n + 1) e p = Res.ok e p := by
  simp only [equalsLoop]
  rw [bind_ok _ _ _ _ _ h]
  simp only [hn, ↓reduceIte]
  rfl

theorem equals_single (n : Nat) (p p1 : AstParser) (t3 : Token) (e : Expr)
    (he : or (n + 1) p = Res.ok e p1) (h3 : CurToken p1 = Res.ok t3 p1)
    (hn : ¬ (t3.T = TEqualsEquals ∨ t3.T = TEqualsEqualsEquals)) :
    equals (n + 2) p = Res.ok e p1 := by
  simp only [equals]
  rw [bind_ok _ _ _ _ _ he]
  exact equalsLoop_stop n p1 t3 e h3 hn

theorem equals_step (n : Nat) (p p1 p3 : AstParser) (op t3 : Token) (ea right : Expr)
    (he : or (n + 2) p = Res.ok ea p1)
    (hop : p1.Tokens.get? p1.Curr = some op)
    (hk : op.T = TEqualsEquals ∨ op.T = TEqualsEqualsEquals)
    (hr : equals (n + 1) { p1 with Curr := p1.Curr + 1 } = Res.ok right p3)
    (h3 : CurToken p3 = Res.ok t3 p3)
    (hn : ¬ (t3.T = TEqualsEquals ∨ t3.T = TEqualsEqualsEquals)) :
    equals (n + 3) p
      = Res.ok (Expr.mk
          { Offset := ea.Loc.Offset, Len := ea.Loc.Len + op.Loc.Len + right.Loc.Len,
            Line := ea.Loc.Line }
          (some (E.EBinary op.T ea right))) p3 := by
  simp only [equals]
  rw [bind_ok _ _ _ _ _ he]
  simp only [equalsLoop]
  rw [bind_ok _ _ _ _ _ (CurToken_at p1 op hop)]
  simp only [hk, ↓reduceIte]
  rw [bind_ok _ _ _ _ _ (Step_at p1 op hop), bind_ok _ _ _ _ _ hr, bind_ok _ _ _ _ _ h3]
  simp only [hn, ↓reduceIte]
  rfl

/-! ### Lemmas on `Get`, `Set` and `Update` over a chain without cycle -/

theorem parentsBelow_get : ∀ (scopes : List Scope) (i a b : Nat) (sc : Scope),
    parentsBelow i scopes = true → scopes.get? a = some sc → sc.Parent = some b → b < i + a := by
  intro scopes
  induction scopes with
  | nil =>
    intro i a b sc _ h
    simp at h
  | cons sc0 rest ih =>
    intro i a b sc hwf hget hpar
    simp only [parentsBelow, Bool.and_eq_true] at hwf
    cases a with
    | zero =>
      simp only [List.get?_cons_zero, Option.some.injEq] at hget
      rw [hget, hpar] at hwf
      simpa using hwf.1
    | succ a =>
      simp only [List.get?_cons_succ] at hget
      have := ih (i + 1) a b sc hwf.2 hget hpar
      omega

theorem nearestBinding_total (scopes : List Scope) (k : String)
    (hwf : parentsBelow 0 scopes = true) :
    ∀ (n a : Nat), a < scopes.length → a < n →
      ∃ r, nearestBinding n scopes (some a) k = some r := by
  intro n
  induction n with
  | zero =>
    intro a _ h
    exact absurd h (Nat.not_lt_zero a)
  | succ n ih =>
    intro a ha hn
    have hget : scopes.get? a = some (scopes.get ⟨a, ha⟩) := List.get?_eq_get ha
    simp only [nearestBinding, hget]
    cases hm : mapGet (scopes.get ⟨a, ha⟩).Env k with
    | some v => exact ⟨_, rfl⟩
    | none =>
      cases hp : (scopes.get ⟨a, ha⟩).Parent with
      | none => exact ⟨none, by simp⟩
      | some b =>
        have hb := parentsBelow_get scopes 0 a b _ hwf hget hp
        simp only [ne_eq, reduceCtorEq, not_false_eq_true, ↓reduceIte]
        exact ih b (by omega) (by omega)

theorem ScopeUpdate_unbound (k : String) (v : Option Nat) :
    ∀ (n : Nat) (p : Option Nat) (s : InterpreterStat),
      nearestBinding n s.scopes p k = some none →
      ∃ r sc, rootOf n s.scopes p = some r ∧ s.scopes.get? r = some sc ∧ sc.Parent = none
        ∧ mapGet sc.Env k = none
        ∧ ScopeUpdate n p k v s
          = Res.ok (some (s.values.length + 1))
              { s with
                values := s.values ++ [undefined, undefined],
                scopes := s.scopes.set r
                  { sc with Env := mapSet sc.Env k (some s.values.length) } } := by
  intro n
  induction n with
  | zero =>
    intro p s h
    simp [nearestBinding] at h
  | succ n ih =>
    intro p s h
    cases p with
    | none => simp [nearestBinding] at h
    | some b =>
      cases hsc : s.scopes.get? b with
      | none => simp only [nearestBinding, hsc] at h; exact absurd h (by simp)
      | some sc =>
        simp only [ScopeUpdate, rootOf, hsc]
        rw [bind_ok _ _ s s sc (scopeAt_some s b sc hsc)]
        cases hm : mapGet sc.Env k with
        | some v1 =>
          simp only [nearestBinding, hsc, hm] at h
          exact absurd h (by simp)
        | none =>
          simp only [nearestBinding, hsc, hm] at h
          by_cases hp : sc.Parent ≠ none
          · rw [if_pos hp] at h
            simp only [hp, ne_eq, not_false_eq_true, ↓reduceIte]
            exact ih sc.Parent s h
          · simp only [hp, ↓reduceIte]
            refine ⟨b, sc, rfl, hsc, by simpa using hp, hm, ?_⟩
            have hal : alloc ⟨Any.nil, JsType.Undefined⟩ s
                = Res.ok (some s.values.length) { s with values := s.values ++ [undefined] } :=
              rfl
            rw [bind_ok _ _ _ _ _ hal]
            have hset : ScopeSet (some b) k (some s.values.length)
                  { s with values := s.values ++ [undefined] }
                = Res.ok () { s with
                    values := s.values ++ [undefined],
                    scopes := s.scopes.set b
                      { sc with Env := mapSet sc.Env k (some s.values.length) } } := by
              unfold ScopeSet
              simp only [hsc]
            rw [bind_ok _ _ _ _ _ hset]
            simp only [alloc, List.append_assoc, List.singleton_append, List.length_append,
              List.length_singleton, undefined]

/-! ### The claims C31 to C40 -/

/-- C31 (the code as it is): a text that is one compound operator.  The
operators `==`, `=>`, `!=`, `!==`, `++`, `--`, `+=`, `-=`, `*=`, `**`, `**=`
and `/=` give one token of their own kind over all their bytes.  For `===`
the assignment of `TEqualsEqualsEquals` is overwritten and the length is set,
not added to: the token is `TEqualsEquals` of length 1.  For `<=` and `>=`
the `=` is not consumed: the token has length 1 and a token `TEquals`
follows.  The switch has no case for `&`, `|` and `?`, which are reported as
unexpected words (`HasError` is set, a zero token is appended for each), and
`...` gives three tokens `TDot`. -/
theorem C31_compound_operators :
    lexed 100 "==" = some ([⟨TEqualsEquals, ⟨0, 2, 1⟩⟩], false, "")
    ∧ lexed 100 "=>" = some ([⟨TEqualsGreaterThan, ⟨0, 2, 1⟩⟩], false, "")
    ∧ lexed 100 "!=" = some ([⟨TExclamationEquals, ⟨0, 2, 1⟩⟩], false, "")
    ∧ lexed 100 "!==" = some ([⟨TExclamationEqualsEquals, ⟨0, 3, 1⟩⟩], false, "")
    ∧ lexed 100 "++" = some ([⟨TPlusPlus, ⟨0, 2, 1⟩⟩], false, "")
    ∧ lexed 100 "--" = some ([⟨TMinusMinus, ⟨0, 2, 1⟩⟩], false, "")
    ∧ lexed 100 "+=" = some ([⟨TPlusEquals, ⟨0, 2, 1⟩⟩], false, "")
    ∧ lexed 100 "-=" = some ([⟨TMinusEquals, ⟨0, 2, 1⟩⟩], false, "")
    ∧ lexed 100 "*=" = some ([⟨TAsteriskEquals, ⟨0, 2, 1⟩⟩], false, "")
    ∧ lexed 100 "**" = some ([⟨TAsteriskAsterisk, ⟨0, 2, 1⟩⟩], false, "")
    ∧ lexed 100 "**=" = some ([⟨TAsteriskAsteriskEquals, ⟨0, 3, 1⟩⟩], false, "")
    ∧ lexed 100 "/=" = some ([⟨TSlashEquals, ⟨0, 2, 1⟩⟩], false, "")
    ∧ lexed 100 "===" = some ([⟨TEqualsEquals, ⟨0, 1, 1⟩⟩], false, "")
    ∧ lexed 100 "<=" = some ([⟨TLessThanEquals, ⟨0, 1, 1⟩⟩, ⟨TEquals, ⟨1, 1, 1⟩⟩], false, "")
    ∧ lexed 100 ">=" = some ([⟨TGreaterThanEquals, ⟨0, 1, 1⟩⟩, ⟨TEquals, ⟨1, 1, 1⟩⟩], false, "")
    ∧ lexed 100 "&&" = some ([Token.zero, Token.zero], true,
        "     1| &&\n        ^\n unexpected word\n     1| &&\n         ^\n unexpected word\n")
    ∧ lexed 100 "||" = some ([Token.zero, Token.zero], true,
        "     1| ||\n        ^\n unexpected word\n     1| ||\n         ^\n unexpected word\n")
    ∧ lexed 100 "??" = some ([Token.zero, Token.zero], true,
        "     1| ??\n        ^\n unexpected word\n     1| ??\n         ^\n unexpected word\n")
    ∧ lexed 100 "?." = some ([Token.zero, ⟨TDot, ⟨1, 1, 1⟩⟩], true,
        "     1| ?.\n        ^\n unexpected word\n")
    ∧ lexed 100 "..."
      = some ([⟨TDot, ⟨0, 1, 1⟩⟩, ⟨TDot, ⟨1, 1, 1⟩⟩, ⟨TDot, ⟨2, 1, 1⟩⟩], false, "") := by
  refine ⟨by decide!, by decide!, by decide!, by decide!, by decide!, by decide!, by decide!,
    by decide!, by decide!, by decide!, by decide!, by decide!, by decide!, by decide!,
    by decide!, by decide!, by decide!, by decide!, by decide!, by decide!⟩

/-- C32 (the code as it is): a comment is not skipped.  The case of `//`
ends without `continue`, so a token `TSingleLineComment` is appended whenever
the loop returns; the case of `/*` assigns no token, so the zero token is
appended, and its loop stops at the first `/` without consuming it, so the `/`
that closes the comment is read again, as a token `TSlash` here.  The tokens of
`1 // c` and of `1 /* c */ 2` are not those of the text without the comment,
and the parser meets the token of the comment: a program with a comment
between two statements stops at a syntax error and logs nothing. -/
theorem C32_comments_give_tokens :
    (∀ (fuel : Nat) (lexer : Lexer) (loc : Loc),
      lexSwitch fuel { lexer with CurChar := '/' } '/' loc = LexStep.timeout
      ∨ ∃ loc1 lexer1, lexSwitch fuel { lexer with CurChar := '/' } '/' loc
          = LexStep.token ⟨TSingleLineComment, loc1⟩ lexer1)
    ∧ (∀ (fuel : Nat) (lexer : Lexer) (loc : Loc),
      lexSwitch fuel { lexer with CurChar := '*' } '/' loc = LexStep.timeout
      ∨ ∃ lexer1, lexSwitch fuel { lexer with CurChar := '*' } '/' loc
          = LexStep.token Token.zero lexer1)
    ∧ lexed 100 "1 // c\n2"
      = some ([⟨TNumericLiteral, ⟨0, 1, 1⟩⟩, ⟨TSingleLineComment, ⟨2, 4, 1⟩⟩,
          ⟨TNumericLiteral, ⟨7, 1, 2⟩⟩], false, "")
    ∧ lexed 100 "1 \n2"
      = some ([⟨TNumericLiteral, ⟨0, 1, 1⟩⟩, ⟨TNumericLiteral, ⟨3, 1, 2⟩⟩], false, "")
    ∧ lexed 100 "1 /* c */ 2"
      = some ([⟨TNumericLiteral, ⟨0, 1, 1⟩⟩, Token.zero, ⟨TSlash, ⟨8, 1, 1⟩⟩,
          ⟨TNumericLiteral, ⟨10, 1, 1⟩⟩], false, "")
    ∧ lexed 100 "1  2"
      = some ([⟨TNumericLiteral, ⟨0, 1, 1⟩⟩, ⟨TNumericLiteral, ⟨3, 1, 1⟩⟩], false, "")
    ∧ Run 200 "let x = 1; // c\nconsole.log(x);"
      = Outcome.exit "     1| let x = 1; // c\n                   ^^^^\n unexpected token\n"
    ∧ Run 200 "let x = 1; \nconsole.log(x);" = Outcome.exit "1.00000\n" := by
  refine ⟨?_, ?_, by decide!, by decide!, by decide!, by decide!, by decide!, by decide!⟩
  · intro fuel lexer loc
    unfold lexSwitch
    simp +decide only [↓reduceIte, false_or, or_self]
    split
    · exact Or.inl rfl
    · exact Or.inr ⟨_, _, rfl⟩
  · intro fuel lexer loc
    unfold lexSwitch
    simp +decide only [↓reduceIte, false_or, or_self]
    split
    · exact Or.inl rfl
    · exact Or.inr ⟨_, rfl⟩

/-- C33: for a text that is one word, a first character `c` of the class
`[_$A-Za-z]` followed by characters `cs` of the class `[_$A-Za-z0-9]`, and any
fuel from the length of the word plus 2 on, `Tokenizer` returns: exactly one
token, at offset 0 of line 1, as long as the word, of the kind that the
specification gives the word; `HasError` is not set and nothing is written. -/
theorem C33_word (c : Char) (cs : List Char) (fuel : Nat)
    (hc : isIdentStart c = true) (hcs : ∀ x ∈ cs, isIdentPart x = true)
    (hf : cs.length + 3 ≤ fuel) :
    lexed fuel (String.mk (c :: cs))
      = some ([⟨wordKind (String.mk (c :: cs)), ⟨0, ((c :: cs).length : Int), 1⟩⟩],
          false, "") := by
  obtain ⟨g, rfl⟩ : ∃ g, fuel = g + 2 := ⟨fuel - 2, by omega⟩
  have hg : cs.length + 1 ≤ g := by omega
  have hcw := identPart_utf8Size c (identStart_part c hc)
  have hall : ∀ x ∈ c :: cs, isIdentPart x = true := by
    intro x hx
    rcases List.mem_cons.mp hx with h | h
    · rw [h]
      exact identStart_part c hc
    · exact hcs x h
  have hlen := goLen_ascii (c :: cs) hall
  simp only [List.length_cons] at hlen
  have e0 := NewLexer_cons c cs
  rw [hcw] at e0
  have f1 : (NewLexer (String.mk (c :: cs))).IsEnd = false := by
    rw [e0]
    unfold Lexer.IsEnd
    simp only [ge_iff_le, decide_eq_false_iff_not, not_le]
    omega
  have f2 : (NewLexer (String.mk (c :: cs))).CurChar = c := by rw [e0]
  have f3 : (NewLexer (String.mk (c :: cs))).Current = 0 := by rw [e0]
  have f4 : (NewLexer (String.mk (c :: cs))).CurCharWidth = 1 := by rw [e0]
  have f5 : (NewLexer (String.mk (c :: cs))).Line = 1 := by rw [e0]
  have f6 : (NewLexer (String.mk (c :: cs))).Source = cs := by rw [e0]
  have f7 : (NewLexer (String.mk (c :: cs))).End = 1 := by rw [e0]
  have f8 : (NewLexer (String.mk (c :: cs))).RawSource = String.mk (c :: cs) := by rw [e0]
  have f9 : (NewLexer (String.mk (c :: cs))).HasError = false := by rw [e0]
  have f10 : (NewLexer (String.mk (c :: cs))).stdout = "" := by rw [e0]
  obtain ⟨s1, s2, s3, s4, s5, _⟩ := Step_word (NewLexer (String.mk (c :: cs))) c cs hcs
    (by rw [f3, f8, hlen]; omega) f6 (by rw [f7, f3])
  obtain ⟨lexer1, e1, e2, e3, e4, e5⟩ := identifierLoop_word cs g
    (NewLexer (String.mk (c :: cs))).Step ⟨0, 1, 1⟩ hcs hg s1 s2
  have hloc : ({ Offset := 0, Len := 1 + (cs.length : Int), Line := 1 } : Loc)
      = ⟨0, ((c :: cs).length : Int), 1⟩ := by
    simp only [List.length_cons, Nat.cast_add, Nat.cast_one, Loc.mk.injEq, true_and, and_true]
    omega
  simp only [hloc] at e1
  have hraw := Raw_word lexer1 (c :: cs) 1 (e5.trans (s5.trans f8)) hall
  have hsw := lexSwitch_word g (NewLexer (String.mk (c :: cs))).Step lexer1 c ⟨0, 1, 1⟩ _ _ hc
    e1 hraw
  obtain ⟨g1, rfl⟩ : ∃ g1, g = g1 + 1 := ⟨g - 1, by omega⟩
  unfold lexed
  simp only [Tokenizer, tokenizerLoop, f1, f2, f3, f4, f5, Bool.not_false, ↓reduceIte,
    Nat.cast_zero, Nat.cast_one, hsw, e2, Bool.not_true, Bool.false_eq_true, List.nil_append,
    Option.map_some', e3, e4, s3, s4, f9, f10]

/-- Witness of C33: the words `true` (a boolean literal), `while` (a
keyword) and `x1` (an identifier). -/
theorem C33_word_witness :
    lexed 10 "true" = some ([⟨TTrue, ⟨0, 4, 1⟩⟩], false, "")
    ∧ lexed 10 "while" = some ([⟨TWhile, ⟨0, 5, 1⟩⟩], false, "")
    ∧ lexed 10 "x1" = some ([⟨TIdentifier, ⟨0, 2, 1⟩⟩], false, "") :=
  ⟨C33_word 't' ['r', 'u', 'e'] 10 (by decide) (by decide) (by decide),
    C33_word 'w' ['h', 'i', 'l', 'e'] 10 (by decide) (by decide) (by decide),
    C33_word 'x' ['1'] 10 (by decide) (by decide) (by decide)⟩

/-- C34 (the code as it is): the regular expression of `IsValidNumber` is
`^[0-9]*(.[0-9])?$`, with a dot that is not escaped and so stands for any
character but a line feed.  Every text that the expression of the
specification matches is valid for the code, `421` and `0.8` among them, but
the converse fails: `1a5`, `a5` and `1-5` are valid for the code and are not
matched by the expression of the specification. -/
theorem C34_IsValidNumber_dot_is_any_character :
    (∀ s, (matchesNumberSpec s && !IsValidNumber s) = false)
    ∧ IsValidNumber "421" = true ∧ IsValidNumber "0.8" = true
    ∧ IsValidNumber "1a5" = true ∧ matchesNumberSpec "1a5" = false
    ∧ IsValidNumber "a5" = true ∧ matchesNumberSpec "a5" = false
    ∧ IsValidNumber "1-5" = true ∧ matchesNumberSpec "1-5" = false
    ∧ IsValidNumber "1\n5" = false ∧ IsValidNumber "0.85" = false := by
  refine ⟨?_, by decide!, by decide!, by decide!, by decide!, by decide!, by decide!,
    by decide!, by decide!, by decide!, by decide!⟩
  intro s
  cases h : matchesNumberSpec s with
  | false => rfl
  | true => simp only [matchesNumberSpec_valid s h, Bool.not_true, Bool.and_false]

/-- C35: at each of the four levels, a chain of three operands and two
operators of the level parses to the node of the first operator over the
first operand and the node of the second operator over the other two.  The
operands are whatever the next level parses (`multiplyAndDivision` for `+ -`,
`unary` for `* / %`, `plusAndMinus` for the comparisons, `or` for the
equalities), from the state where the chain starts, after the first operator
and after the second; the token after the chain is no operator of the level.
For `+ -` and `* / %` the location of a node runs from its first token to the
token before the current one. -/
theorem C35_right_associative :
    (∀ (n : Nat) (p0 p1 p2 p3 : AstParser) (ta tb tc op1 op2 t3 tp : Token) (ea eb ec : Expr),
      CurToken p0 = Res.ok ta p0 → multiplyAndDivision (n + 5) p0 = Res.ok ea p1 →
      p1.Tokens.get? p1.Curr = some op1 → (op1.T = TPlus ∨ op1.T = TMinus) →
      CurToken { p1 with Curr := p1.Curr + 1 } = Res.ok tb { p1 with Curr := p1.Curr + 1 } →
      multiplyAndDivision (n + 3) { p1 with Curr := p1.Curr + 1 } = Res.ok eb p2 →
      p2.Tokens.get? p2.Curr = some op2 → (op2.T = TPlus ∨ op2.T = TMinus) →
      CurToken { p2 with Curr := p2.Curr + 1 } = Res.ok tc { p2 with Curr := p2.Curr + 1 } →
      multiplyAndDivision (n + 1) { p2 with Curr := p2.Curr + 1 } = Res.ok ec p3 →
      CurToken p3 = Res.ok t3 p3 → ¬ (t3.T = TPlus ∨ t3.T = TMinus) →
      Prev p3 = Res.ok tp p3 →
      plusAndMinus (n + 6) p0
        = Res.ok (Expr.mk { ta.Loc with Len := tp.Loc.Offset + tp.Loc.Len - ta.Loc.Offset }
            (some (E.EBinary op1.T ea
              (Expr.mk { tb.Loc with Len := tp.Loc.Offset + tp.Loc.Len - tb.Loc.Offset }
                (some (E.EBinary op2.T eb ec)))))) p3)
    ∧ (∀ (n : Nat) (p0 p1 p2 p3 : AstParser) (ta tb tc op1 op2 t3 tp : Token)
        (ea eb ec : Expr),
      CurToken p0 = Res.ok ta p0 → unary (n + 5) p0 = Res.ok ea p1 →
      p1.Tokens.get? p1.Curr = some op1 →
      (op1.T = TAsterisk ∨ op1.T = TSlash ∨ op1.T = TPercent) →
      CurToken { p1 with Curr := p1.Curr + 1 } = Res.ok tb { p1 with Curr := p1.Curr + 1 } →
      unary (n + 3) { p1 with Curr := p1.Curr + 1 } = Res.ok eb p2 →
      p2.Tokens.get? p2.Curr = some op2 →
      (op2.T = TAsterisk ∨ op2.T = TSlash ∨ op2.T = TPercent) →
      CurToken { p2 with Curr := p2.Curr + 1 } = Res.ok tc { p2 with Curr := p2.Curr + 1 } →
      unary (n + 1) { p2 with Curr := p2.Curr + 1 } = Res.ok ec p3 →
      CurToken p3 = Res.ok t3 p3 → ¬ (t3.T = TAsterisk ∨ t3.T = TSlash ∨ t3.T = TPercent) →
      Prev p3 = Res.ok tp p3 →
      multiplyAndDivision (n + 6) p0
        = Res.ok (Expr.mk { ta.Loc with Len := tp.Loc.Offset + tp.Loc.Len - ta.Loc.Offset }
            (some (E.EBinary op1.T ea
              (Expr.mk { tb.Loc with Len := tp.Loc.Offset + tp.Loc.Len - tb.Loc.Offset }
                (some (E.EBinary op2.T eb ec)))))) p3)
    ∧ (∀ (n : Nat) (p0 p1 p2 p3 : AstParser) (op1 op2 t3 : Token) (ea eb ec : Expr),
      plusAndMinus (n + 5) p0 = Res.ok ea p1 →
      p1.Tokens.get? p1.Curr = some op1 →
      (op1.T = TLessThan ∨ op1.T = TLessThanEquals ∨ op1.T = TGreaterThan
        ∨ op1.T = TGreaterThanEquals) →
      plusAndMinus (n + 3) { p1 with Curr := p1.Curr + 1 } = Res.ok eb p2 →
      p2.Tokens.get? p2.Curr = some op2 →
      (op2.T = TLessThan ∨ op2.T = TLessThanEquals ∨ op2.T = TGreaterThan
        ∨ op2.T = TGreaterThanEquals) →
      plusAndMinus (n + 1) { p2 with Curr := p2.Curr + 1 } = Res.ok ec p3 →
      CurToken p3 = Res.ok t3 p3 →
      ¬ (t3.T = TLessThan ∨ t3.T = TLessThanEquals ∨ t3.T = TGreaterThan
        ∨ t3.T = TGreaterThanEquals) →
      compare (n + 6) p0
        = Res.ok (Expr.mk
            { ea.Loc with Len := ea.Loc.Len + (op1.Loc.Len
                + (eb.Loc.Len + (op2.Loc.Len + ec.Loc.Len))) }
            (some (E.EBinary op1.T ea
              (Expr.mk { eb.Loc with Len := eb.Loc.Len + (op2.Loc.Len + ec.Loc.Len) }
                (some (E.EBinary op2.T eb ec)))))) p3)
    ∧ (∀ (n : Nat) (p0 p1 p2 p3 : AstParser) (op1 op2 t3 : Token) (ea eb ec : Expr),
      or (n + 5) p0 = Res.ok ea p1 →
      p1.Tokens.get? p1.Curr = some op1 →
      (op1.T = TEqualsEquals ∨ op1.T = TEqualsEqualsEquals) →
      or (n + 3) { p1 with Curr := p1.Curr + 1 } = Res.ok eb p2 →
      p2.Tokens.get? p2.Curr = some op2 →
      (op2.T = TEqualsEquals ∨ op2.T = TEqualsEqualsEquals) →
      or (n + 1) { p2 with Curr := p2.Curr + 1 } = Res.ok ec p3 →
      CurToken p3 = Res.ok t3 p3 →
      ¬ (t3.T = TEqualsEquals ∨ t3.T = TEqualsEqualsEquals) →
      equals (n + 6) p0
        = Res.ok (Expr.mk
            { Offset := ea.Loc.Offset,
              Len := ea.Loc.Len + op1.Loc.Len + (eb.Loc.Len + op2.Loc.Len + ec.Loc.Len),
              Line := ea.Loc.Line }
            (some (E.EBinary op1.T ea
              (Expr.mk
                { Offset := eb.Loc.Offset, Len := eb.Loc.Len + op2.Loc.Len + ec.Loc.Len,
                  Line := eb.Loc.Line }
                (some (E.EBinary op2.T eb ec)))))) p3) := by
  refine ⟨?_, ?_, ?_, ?_⟩
  · intro n p0 p1 p2 p3 ta tb tc op1 op2 t3 tp ea eb ec ha hea hop1 hk1 hb heb hop2 hk2 hc hec
      h3 hn3 hp
    have inner := plusAndMinus_single n _ p3 tc t3 ec hc hec h3 hn3
    have middle := plusAndMinus_step (n + 1) _ p2 p3 tb op2 t3 tp eb ec hb heb hop2 hk2 inner
      h3 hn3 hp
    exact plusAndMinus_step (n + 3) p0 p1 p3 ta op1 t3 tp ea _ ha hea hop1 hk1 middle h3 hn3 hp
  · intro n p0 p1 p2 p3 ta tb tc op1 op2 t3 tp ea eb ec ha hea hop1 hk1 hb heb hop2 hk2 hc hec
      h3 hn3 hp
    have inner := multiplyAndDivision_single n _ p3 tc t3 ec hc hec h3 hn3
    have middle := multiplyAndDivision_step (n + 1) _ p2 p3 tb op2 t3 tp eb ec hb heb hop2 hk2
      inner h3 hn3 hp
    exact multiplyAndDivision_step (n + 3) p0 p1 p3 ta op1 t3 tp ea _ ha hea hop1 hk1 middle
      h3 hn3 hp
  · intro n p0 p1 p2 p3 op1 op2 t3 ea eb ec hea hop1 hk1 heb hop2 hk2 hec h3 hn3
    have inner := compare_single n _ p3 t3 ec hec h3 hn3
    have middle := compare_step (n + 1) _ p2 p3 op2 t3 eb ec heb hop2 hk2 inner h3 hn3
    exact compare_step (n + 3) p0 p1 p3 op1 t3 ea _ hea hop1 hk1 middle h3 hn3
  · intro n p0 p1 p2 p3 op1 op2 t3 ea eb ec hea hop1 hk1 heb hop2 hk2 hec h3 hn3
    have inner := equals_single n _ p3 t3 ec hec h3 hn3
    have middle := equals_step (n + 1) _ p2 p3 op2 t3 eb ec heb hop2 hk2 inner h3 hn3
    exact equals_step (n + 3) p0 p1 p3 op1 t3 ea _ hea hop1 hk1 middle h3 hn3

/-- Witness of C35: the chains `10 - 2 - 3`, `8 / 4 % 3`, `1 < 2 > 3` and
`1 == 2 == 3` on the tokens that the lexer makes of them, and the run of
`10 - 2 - 3`, which gives 11. -/
theorem C35_right_associative_witness :
    (lexed 100 "10 - 2 - 3" = some (plusChain.Tokens, false, "")
      ∧ plusAndMinus 16 plusChain
        = Res.ok (Expr.mk ⟨0, 10, 1⟩ (some (E.EBinary TMinus
            (Expr.mk ⟨0, 2, 1⟩ (some (E.ENumericLiteral "10")))
            (Expr.mk ⟨5, 5, 1⟩ (some (E.EBinary TMinus
              (Expr.mk ⟨5, 1, 1⟩ (some (E.ENumericLiteral "2")))
              (Expr.mk ⟨9, 1, 1⟩ (some (E.ENumericLiteral "3")))))))))
          { plusChain with Curr := 5 })
    ∧ (lexed 100 "8 / 4 % 3" = some (mulChain.Tokens, false, "")
      ∧ multiplyAndDivision 16 mulChain
        = Res.ok (Expr.mk ⟨0, 9, 1⟩ (some (E.EBinary TSlash
            (Expr.mk ⟨0, 1, 1⟩ (some (E.ENumericLiteral "8")))
            (Expr.mk ⟨4, 5, 1⟩ (some (E.EBinary TPercent
              (Expr.mk ⟨4, 1, 1⟩ (some (E.ENumericLiteral "4")))
              (Expr.mk ⟨8, 1, 1⟩ (some (E.ENumericLiteral "3")))))))))
          { mulChain with Curr := 5 })
    ∧ (lexed 100 "1 < 2 > 3" = some (compareChain.Tokens, false, "")
      ∧ compare 16 compareChain
        = Res.ok (Expr.mk ⟨0, 5, 1⟩ (some (E.EBinary TLessThan
            (Expr.mk ⟨0, 1, 1⟩ (some (E.ENumericLiteral "1")))
            (Expr.mk ⟨4, 3, 1⟩ (some (E.EBinary TGreaterThan
              (Expr.mk ⟨4, 1, 1⟩ (some (E.ENumericLiteral "2")))
              (Expr.mk ⟨8, 1, 1⟩ (some (E.ENumericLiteral "3")))))))))
          { compareChain with Curr := 5 })
    ∧ (lexed 100 "1 == 2 == 3" = some (equalsChain.Tokens, false, "")
      ∧ equals 16 equalsChain
        = Res.ok (Expr.mk ⟨0, 7, 1⟩ (some (E.EBinary TEqualsEquals
            (Expr.mk ⟨0, 1, 1⟩ (some (E.ENumericLiteral "1")))
            (Expr.mk ⟨5, 4, 1⟩ (some (E.EBinary TEqualsEquals
              (Expr.mk ⟨5, 1, 1⟩ (some (E.ENumericLiteral "2")))
              (Expr.mk ⟨10, 1, 1⟩ (some (E.ENumericLiteral "3")))))))))
          { equalsChain with Curr := 5 })
    ∧ Run 200 "let r = 10 - 2 - 3; console.log(r);" = Outcome.exit "11.00000\n" :=
  ⟨⟨by decide!,
      C35_right_associative.1 10 plusChain { plusChain with Curr := 1 }
        { plusChain with Curr := 3 } { plusChain with Curr := 5 }
        ⟨TNumericLiteral, ⟨0, 2, 1⟩⟩ ⟨TNumericLiteral, ⟨5, 1, 1⟩⟩ ⟨TNumericLiteral, ⟨9, 1, 1⟩⟩
        ⟨TMinus, ⟨3, 1, 1⟩⟩ ⟨TMinus, ⟨7, 1, 1⟩⟩ ⟨TEndOfFile, ⟨9, 1, 1⟩⟩
        ⟨TNumericLiteral, ⟨9, 1, 1⟩⟩ _ _ _
        rfl rfl rfl (by decide) rfl rfl rfl (by decide) rfl rfl rfl (by decide) rfl⟩,
    ⟨by decide!,
      C35_right_associative.2.1 10 mulChain { mulChain with Curr := 1 }
        { mulChain with Curr := 3 } { mulChain with Curr := 5 }
        ⟨TNumericLiteral, ⟨0, 1, 1⟩⟩ ⟨TNumericLiteral, ⟨4, 1, 1⟩⟩ ⟨TNumericLiteral, ⟨8, 1, 1⟩⟩
        ⟨TSlash, ⟨2, 1, 1⟩⟩ ⟨TPercent, ⟨6, 1, 1⟩⟩ ⟨TEndOfFile, ⟨8, 1, 1⟩⟩
        ⟨TNumericLiteral, ⟨8, 1, 1⟩⟩ _ _ _
        rfl rfl rfl (by decide) rfl rfl rfl (by decide) rfl rfl rfl (by decide) rfl⟩,
    ⟨by decide!,
      C35_right_associative.2.2.1 10 compareChain { compareChain with Curr := 1 }
        { compareChain with Curr := 3 } { compareChain with Curr := 5 }
        ⟨TLessThan, ⟨2, 1, 1⟩⟩ ⟨TGreaterThan, ⟨6, 1, 1⟩⟩ ⟨TEndOfFile, ⟨8, 1, 1⟩⟩ _ _ _
        rfl rfl (by decide) rfl rfl (by decide) rfl rfl (by decide)⟩,
    ⟨by decide!,
      C35_right_associative.2.2.2 10 equalsChain { equalsChain with Curr := 1 }
        { equalsChain with Curr := 3 } { equalsChain with Curr := 5 }
        ⟨TEqualsEquals, ⟨2, 2, 1⟩⟩ ⟨TEqualsEquals, ⟨7, 2, 1⟩⟩ ⟨TEndOfFile, ⟨10, 1, 1⟩⟩ _ _ _
        rfl rfl (by decide) rfl rfl (by decide) rfl rfl (by decide)⟩,
    by decide!⟩

/-- C36 (the code as it is): after the first property, which is asserted to
be an `*EIdentifier`, the loop of `memberExpr` asserts every further property
to be an `*EStringLiteral`.  So `a.b` parses to a member node, but in `a.b.c`
the body of `Parse` ends in the run-time panic of a failed type assertion.
The deferred function of `Parse` sets `HasError`, does not take that panic
for an `AstError` and raises the zero `AstError` in its place; the deferred
function of `Run` does not take that for a `RuntimeError` and raises the zero
`RuntimeError`: the run dies.  A chain parses only when the second and later
names are written as string literals, and then it nests to the left as the
claim says. -/
theorem C36_member_chain_panics :
    (firstInit 100 "let y = a.b;").map (showExpr 10) = some "(. a b)"
    ∧ bodyPanic 100 (parserOf 100 "let y = a.b.c;")
      = some (Panic.runtime GoRuntimeError.interfaceConversion)
    ∧ parsePanic 100 "let y = a.b.c;" = some (Panic.AstError Loc.zero "", true)
    ∧ Run 100 "let y = a.b.c;" = Outcome.crash (Panic.RuntimeError Loc.zero "") ""
    ∧ (firstInit 100 "let y = a.b.'c';").map (showExpr 10) = some "(. (. a b) c)"
    ∧ (firstInit 100 "let y = a.b.'c'.'d';").map (showExpr 10) = some "(. (. (. a b) c) d)"
    ∧ bodyPanic 100 (parserOf 100 "let y = a.'b';")
      = some (Panic.runtime GoRuntimeError.interfaceConversion)
    ∧ parsePanic 100 "let y = a.'b';" = some (Panic.AstError Loc.zero "", true) :=
  ⟨by decide!, by decide!, by decide!, by decide!, by decide!, by decide!, by decide!,
    by decide!⟩

/-- C37: in a state whose scopes have their parents below them, for the
scope at `a`, a name `k` and a pointer `v`.  `Get` returns: when a scope of
the chain binds `k`, the pointer bound in the nearest one, the state being
unchanged; when none does, the address of a newly allocated undefined value.
`Set` returns and replaces the scope at `a` by the same scope with `k` bound to
`v`: `Get` then returns `v`, every other scope is as before, the parent of the
scope is as before, and so is the binding of every other name. -/
theorem C37_Get_and_Set (s : InterpreterStat) (a : Nat) (k : String) (v : Option Nat)
    (hwf : parentsBelow 0 s.scopes = true) (ha : a < s.scopes.length) :
    (∃ r, nearestBinding (s.scopes.length + 1) s.scopes (some a) k = some r
      ∧ (∀ b v0, r = some (b, v0) →
          (∃ sc, s.scopes.get? b = some sc ∧ mapGet sc.Env k = some v0)
          ∧ Get (some a) k s = Res.ok v0 s)
      ∧ (r = none →
          Get (some a) k s
            = Res.ok (some s.values.length) { s with values := s.values ++ [undefined] }))
    ∧ ∃ sc, s.scopes.get? a = some sc
      ∧ ScopeSet (some a) k v s
        = Res.ok () { s with scopes := s.scopes.set a { sc with Env := mapSet sc.Env k v } }
      ∧ Get (some a) k { s with scopes := s.scopes.set a { sc with Env := mapSet sc.Env k v } }
        = Res.ok v { s with scopes := s.scopes.set a { sc with Env := mapSet sc.Env k v } }
      ∧ (∀ b, b ≠ a →
          (s.scopes.set a { sc with Env := mapSet sc.Env k v }).get? b = s.scopes.get? b)
      ∧ (∀ k1, k1 ≠ k → mapGet (mapSet sc.Env k v) k1 = mapGet sc.Env k1) := by
  constructor
  · obtain ⟨r, hr⟩ := nearestBinding_total s.scopes k hwf (s.scopes.length + 1) a ha
      (Nat.lt_succ_of_lt ha)
    refine ⟨r, hr, ?_, ?_⟩
    · intro b v0 hrb
      rw [hrb] at hr
      exact ⟨nearestBinding_sound s.scopes k b v0 _ _ hr, ScopeGet_found s k b v0 _ _ hr⟩
    · intro hrn
      rw [hrn] at hr
      exact ScopeGet_unbound s k _ _ hr
  · have hget : s.scopes.get? a = some (s.scopes.get ⟨a, ha⟩) := List.get?_eq_get ha
    refine ⟨s.scopes.get ⟨a, ha⟩, hget, ?_, ?_, ?_, ?_⟩
    · unfold ScopeSet
      simp only [hget]
    · apply ScopeGet_found _ k a v
      have hget1 : (s.scopes.set a
          { s.scopes.get ⟨a, ha⟩ with Env := mapSet (s.scopes.get ⟨a, ha⟩).Env k v }).get? a
          = some { s.scopes.get ⟨a, ha⟩ with Env := mapSet (s.scopes.get ⟨a, ha⟩).Env k v } := by
        rw [List.get?_eq_getElem?, List.getElem?_set_self ha]
      simp only [nearestBinding, hget1, mapGet_mapSet_same]
    · intro b hb
      rw [List.get?_eq_getElem?, List.get?_eq_getElem?, List.getElem?_set_ne (Ne.symm hb)]
    · intro k1 hk1
      exact mapGet_mapSet_other _ k k1 v hk1

/-- Witness of C37: in the block of `stateWithChain`, `x` is found in the
root scope, and `z`, which no scope binds, gives a new undefined value. -/
theorem C37_Get_and_Set_witness :
    parentsBelow 0 stateWithChain.scopes = true
    ∧ nearestBinding 3 stateWithChain.scopes (some 1) "x" = some (some (0, some 7))
    ∧ Get (some 1) "x" stateWithChain = Res.ok (some 7) stateWithChain
    ∧ nearestBinding 3 stateWithChain.scopes (some 1) "z" = some none
    ∧ Get (some 1) "z" stateWithChain
      = Res.ok (some 8) { stateWithChain with values := stateWithChain.values ++ [undefined] }
    ∧ ScopeSet (some 1) "x" (some 6) stateWithChain
      = Res.ok () { stateWithChain with
          scopes := [⟨none, [("console", some 5), ("x", some 7)]⟩,
            ⟨some 0, [("y", some 7), ("x", some 6)]⟩] } := by
  have hx : nearestBinding 3 stateWithChain.scopes (some 1) "x" = some (some (0, some 7)) := by
    decide
  have hz : nearestBinding 3 stateWithChain.scopes (some 1) "z" = some none := by decide
  obtain ⟨⟨r, hr, hfound, _⟩, _⟩ :=
    C37_Get_and_Set stateWithChain 1 "x" (some 6) (by decide) (by decide)
  obtain ⟨⟨r1, hr1, _, hnone⟩, sc, hsc, hset, _⟩ :=
    C37_Get_and_Set stateWithChain 1 "z" none (by decide) (by decide)
  refine ⟨by decide, hx, ?_, hz, ?_, rfl⟩
  · exact (hfound 0 (some 7) (Option.some.inj (hr.symm.trans hx))).2
  · exact hnone (Option.some.inj (hr1.symm.trans hz))

/-- C38: in a state whose scopes have their parents below them, for the
scope at `a`, a name `k` and a pointer `v`.  When a scope of the chain binds
`k`, `Update` replaces the binding of `k` in the nearest one by `v` and
returns `v`; nothing else in the state changes.  When none does, `Update`
allocates two undefined values, binds `k` to the first in the root of the
chain and returns the second; `v` is stored nowhere.  In both cases the
binding of every other name of the scope that is written is as before. -/
theorem C38_Update (s : InterpreterStat) (a : Nat) (k : String) (v : Option Nat)
    (hwf : parentsBelow 0 s.scopes = true) (ha : a < s.scopes.length) :
    ∃ r, nearestBinding (s.scopes.length + 1) s.scopes (some a) k = some r
      ∧ (∀ b v0, r = some (b, v0) →
          ∃ sc, s.scopes.get? b = some sc ∧ mapGet sc.Env k = some v0
            ∧ Update (some a) k v s
              = Res.ok v
                  { s with scopes := s.scopes.set b { sc with Env := mapSet sc.Env k v } })
      ∧ (r = none →
          ∃ root sc, rootOf (s.scopes.length + 1) s.scopes (some a) = some root
            ∧ s.scopes.get? root = some sc ∧ sc.Parent = none ∧ mapGet sc.Env k = none
            ∧ Update (some a) k v s
              = Res.ok (some (s.values.length + 1))
                  { s with
                    values := s.values ++ [undefined, undefined],
                    scopes := s.scopes.set root
                      { sc with Env := mapSet sc.Env k (some s.values.length) } })
      ∧ ∀ (env : List (String × Option Nat)) (w : Option Nat) (k1 : String),
          k1 ≠ k → mapGet (mapSet env k w) k1 = mapGet env k1 := by
  obtain ⟨r, hr⟩ := nearestBinding_total s.scopes k hwf (s.scopes.length + 1) a ha
    (Nat.lt_succ_of_lt ha)
  refine ⟨r, hr, ?_, ?_, ?_⟩
  · intro b v0 hrb
    rw [hrb] at hr
    exact ScopeUpdate_found k b v0 v _ _ s hr
  · intro hrn
    rw [hrn] at hr
    exact ScopeUpdate_unbound k v _ _ s hr
  · intro env w k1 hk1
    exact mapGet_mapSet_other env k k1 w hk1

/-- Witness of C38: in the block of `stateWithChain`, the update of `x`
writes the root scope, where `x` is bound, and the update of `z`, which no
scope binds, binds `z` in the root scope to a new undefined value. -/
theorem C38_Update_witness :
    parentsBelow 0 stateWithChain.scopes = true
    ∧ Update (some 1) "x" (some 6) stateWithChain
      = Res.ok (some 6) { stateWithChain with
          scopes := [⟨none, [("console", some 5), ("x", some 6)]⟩,
            ⟨some 0, [("y", some 7)]⟩] }
    ∧ Update (some 1) "z" (some 6) stateWithChain
      = Res.ok (some 9) { stateWithChain with
          values := stateWithChain.values ++ [undefined, undefined],
          scopes := [⟨none, [("console", some 5), ("x", some 7), ("z", some 8)]⟩,
            ⟨some 0, [("y", some 7)]⟩] } := by
  have hx : nearestBinding 3 stateWithChain.scopes (some 1) "x" = some (some (0, some 7)) := by
    decide
  have hz : nearestBinding 3 stateWithChain.scopes (some 1) "z" = some none := by decide
  obtain ⟨r, hr, hfound, _⟩ := C38_Update stateWithChain 1 "x" (some 6) (by decide) (by decide)
  obtain ⟨r1, hr1, _, hnone, _⟩ :=
    C38_Update stateWithChain 1 "z" (some 6) (by decide) (by decide)
  refine ⟨by decide, ?_, ?_⟩
  · obtain ⟨sc, hsc, _, hu⟩ := hfound 0 (some 7) (Option.some.inj (hr.symm.trans hx))
    have hsc0 : sc = ⟨none, [("console", some 5), ("x", some 7)]⟩ :=
      (Option.some.inj hsc).symm
    rw [hu, hsc0]
    rfl
  · obtain ⟨root, sc, hroot, hsc, _, _, hu⟩ := hnone (Option.some.inj (hr1.symm.trans hz))
    have hroot0 : root = 0 := (Option.some.inj hroot).symm
    subst hroot0
    have hsc0 : sc = ⟨none, [("console", some 5), ("x", some 7)]⟩ :=
      (Option.some.inj hsc).symm
    rw [hu, hsc0]
    rfl

/-- C39 (the code as it is): in the cases of an identifier and of a string
literal, `primary` calls `calcLocFromPrevToken` before the token is consumed,
so the length of the node is computed from the token before it: in
`let y = x;` the node of `x` starts at offset 8 and has the length
6 + 1 - 8 = -1, and so has the node of the string in `let y = 'abc';`; the
source has no slice at such a location.  The node of a numeric literal, which
takes the location of its token, and the node of a binary operator, whose
length is computed after its last token was consumed, are right.  When the
identifier is the first token there is no token before it: the body of
`Parse` ends in the run-time panic of an index out of range, in the place of
which the deferred function of `Parse` raises the zero `AstError`. -/
theorem C39_identifier_node_has_negative_length :
    (firstInit 100 "let y = x;").map (showExpr 10) = some "x"
    ∧ (firstInit 100 "let y = x;").map Expr.Loc = some ⟨8, -1, 1⟩
    ∧ Raw ⟨8, -1, 1⟩ "let y = x;" = none
    ∧ (firstInit 100 "let y = 'abc';").map (showExpr 10) = some "'abc'"
    ∧ (firstInit 100 "let y = 'abc';").map Expr.Loc = some ⟨8, -1, 1⟩
    ∧ (firstInit 100 "let y = (x);").map (showExpr 10) = some "(paren x)"
    ∧ (firstInit 100 "let y = x+1;").map (showExpr 10) = some "(+ x 1)"
    ∧ (firstInit 100 "let y = x+1;").map Expr.Loc = some ⟨8, 3, 1⟩
    ∧ (firstInit 100 "let y = 12;").map Expr.Loc = some ⟨8, 2, 1⟩
    ∧ Raw ⟨8, 2, 1⟩ "let y = 12;" = some "12"
    ∧ bodyPanic 100 (parserOf 100 "x;") = some (Panic.runtime GoRuntimeError.indexOutOfRange)
    ∧ parsePanic 100 "x;" = some (Panic.AstError Loc.zero "", true) :=
  ⟨by decide!, by decide!, by decide!, by decide!, by decide!, by decide!, by decide!,
    by decide!, by decide!, by decide!, by decide!, by decide!⟩

/-- C40: when the evaluation of the operand `e` returns (the pointer `val`, in
the state `s1`), the evaluation of the unary node of `-` over `e` ends in the
`RuntimeError` "unknown unary operator" at the location of the node, in the
state that the operand left, whatever the pointer refers to; and with no
amount of fuel does the evaluation of such a node return a value. -/
theorem C40_unary_minus (fuel : Nat) (loc : Loc) (e : Expr) (assoc : Association)
    (s s1 : InterpreterStat) (val : Option Nat)
    (h : EvaluateExpr fuel (some e) s = Res.ok val s1) :
    EvaluateExpr (fuel + 2) (some (Expr.mk loc (some (E.EUnary TMinus e assoc)))) s
      = Res.panic (Panic.RuntimeError loc "unknown unary operator") s1
    ∧ ∀ (n : Nat) (v : Option Nat) (s2 : InterpreterStat),
        EvaluateExpr n (some (Expr.mk loc (some (E.EUnary TMinus e assoc)))) s
          ≠ Res.ok v s2 := by
  constructor
  · simp only [EvaluateExpr]
    rw [VisitUnaryExpr_apply fuel loc TMinus e assoc s s1 val h]
    rfl
  · intro n v s2
    cases n with
    | zero =>
      intro h0
      exact absurd h0 (by simp [EvaluateExpr, Go.stuck])
    | succ n =>
      simp only [EvaluateExpr]
      cases n with
      | zero =>
        intro h0
        exact absurd h0 (by simp [VisitUnaryExpr, Go.stuck])
      | succ n =>
        cases hr : EvaluateExpr n (some e) s with
        | ok val1 s3 =>
          rw [VisitUnaryExpr_apply n loc TMinus e assoc s s3 val1 hr]
          intro h0
          exact absurd h0 (by simp [applyUnary, Go.throw])
        | panic err s3 =>
          intro h0
          simp only [VisitUnaryExpr, bind, Go.andThen, hr] at h0
          exact absurd h0 (by simp)
        | timeout =>
          intro h0
          simp only [VisitUnaryExpr, bind, Go.andThen, hr] at h0
          exact absurd h0 (by simp)

/-- Witness of C40: the operand `1` in the initial state; the parser makes
the unary node of `-x`, and the run of `console.log(-x)` writes the diagnostic
of the error and no value. -/
theorem C40_unary_minus_witness :
    EvaluateExpr 5 (some (numLit "1")) (InitInterpreterStat "")
      = Res.ok (some 7) { InitInterpreterStat "" with
          values := (InitInterpreterStat "").values
            ++ [⟨Any.float64 (F64.parse "1").1, JsType.Number⟩] }
    ∧ EvaluateExpr 7
        (some (Expr.mk ⟨8, 1, 1⟩
          (some (E.EUnary TMinus (numLit "1") Association.AssociationLeft))))
        (InitInterpreterStat "")
      = Res.panic (Panic.RuntimeError ⟨8, 1, 1⟩ "unknown unary operator")
          { InitInterpreterStat "" with
            values := (InitInterpreterStat "").values
              ++ [⟨Any.float64 (F64.parse "1").1, JsType.Number⟩] }
    ∧ (firstInit 100 "let y = -x;").map (showExpr 10) = some "(- x)"
    ∧ Run 200 "let x = 1; console.log(-x);"
      = Outcome.exit ("     1| let x = 1; console.log(-x);\n" ++
          "                               ^\n unknown unary operator\n") :=
  ⟨rfl, (C40_unary_minus 5 ⟨8, 1, 1⟩ (numLit "1") Association.AssociationLeft
      (InitInterpreterStat "") _ (some 7) rfl).1, by decide!, by decide!⟩

end JsInterp
